import Mathlib

/-! SimpleMessenger: the pipe handshake, sequencing and fault paths.

A shallow embedding of `src/msg/SimpleMessenger.cc`.  Objects that the C++
code reaches through pointers (pipes, connections) are named by natural
numbers; the containers `std::map` / `hash_map` are keyed lists read with
`mfind`; every function that the C++ runs under `pipe_lock` / `msgr->lock`
is one atomic transition here.
-/

namespace SimpleMessenger

/-! ## Keyed containers (`std::map`, `hash_map`) -/

section Containers
variable {κ ν : Type} [DecidableEq κ]

/-- The value stored under `k` (`m.find(k)`), if there is one. -/
def mfind : List (κ × ν) → κ → Option ν
  | [], _ => none
  | (j, v) :: t, k => if j = k then some v else mfind t k

/-- Store `v` under `k`, replacing a value already there (`m[k] = v`). -/
def mset : List (κ × ν) → κ → ν → List (κ × ν)
  | [], k, v => [(k, v)]
  | (j, w) :: t, k, v => if j = k then (k, v) :: t else (j, w) :: mset t k v

/-- Remove the key `k` (`m.erase(k)`). -/
def merase : List (κ × ν) → κ → List (κ × ν)
  | [], _ => []
  | (j, w) :: t, k => if j = k then merase t k else (j, w) :: merase t k

/-- Whether a key is present (`m.count(k)`). -/
def mcount (m : List (κ × ν)) (k : κ) : Bool := (mfind m k).isSome

/-- The keys of the container, in stored order. -/
def mkeys (m : List (κ × ν)) : List κ := m.map Prod.fst

end Containers

section Queues
variable {α : Type}

/-- The list stored under priority `k` of a `map<int, list<..>>`, empty when the
key is absent. -/
def qat (q : List (Nat × List α)) (k : Nat) : List α := (mfind q k).getD []

/-- The effect of `q[k]` on the map itself: the key is created with an empty list
when it was absent. -/
def qtouch (q : List (Nat × List α)) (k : Nat) : List (Nat × List α) :=
  if mcount q k then q else mset q k []

/-- The largest element of a list of priorities. -/
def maxPrio : List Nat → Option Nat
  | [] => none
  | k :: t =>
    match maxPrio t with
    | none => some k
    | some j => some (max k j)

/-- The highest priority whose list holds something. -/
def qhighest (q : List (Nat × List α)) : Option Nat :=
  maxPrio ((mkeys q).filter (fun k => !(qat q k).isEmpty))

end Queues

/-! ## Data model -/

/-- An `entity_addr_t`, named by its rank in the total order that `operator<`
compares addresses with. -/
abbrev entity_addr_t := Nat

/-- The pipe states (`Pipe::STATE_*`). -/
inductive PipeState
  | STATE_ACCEPTING
  | STATE_CONNECTING
  | STATE_OPEN
  | STATE_STANDBY
  | STATE_CLOSED
  | STATE_CLOSING
  | STATE_WAIT
  deriving DecidableEq, Repr

/-- The handshake reply tags (`CEPH_MSGR_TAG_*`). -/
inductive Tag
  | READY
  | RESETSESSION
  | WAIT
  | RETRY_SESSION
  | RETRY_GLOBAL
  | BADPROTOVER
  | BADAUTHORIZER
  | FEATURES
  | SEQ
  deriving DecidableEq, Repr

/-- The per-peer-type policy. -/
structure Policy where
  lossy : Bool
  server : Bool
  features_supported : Nat
  features_required : Nat
  deriving DecidableEq, Repr

/-- A message: `ident` stands for the address of the `Message` object. -/
structure Message where
  ident : Nat
  seq : Nat
  priority : Nat
  dispatch_throttle_size : Nat
  connection : Option Nat
  deriving DecidableEq, Repr

/-- What an inbound list holds: a message, or one of the small integers that
`dispatch_entry` recognises as local-delivery signals. -/
inductive QItem
  | msg (m : Message)
  | D_CONNECT
  | D_BAD_REMOTE_RESET
  | D_BAD_RESET
  deriving DecidableEq, Repr

/-- The fields of a `Pipe` that the handshake, the reader, the writer and the fault
path read or write.  Sequence counters are naturals; `out_seq`, which is also
decremented, is kept modulo 2^64, and `connect_seq` is incremented modulo 2^32. -/
structure Pipe where
  state : PipeState
  policy : Policy
  peer_addr : entity_addr_t
  peer_type : Nat
  connection_state : Nat
  connect_seq : Nat
  peer_global_seq : Nat
  out_seq : Nat
  in_seq : Nat
  in_seq_acked : Nat
  out_q : List (Nat × List Message)
  in_q : List (Nat × List QItem)
  sent : List Message
  in_qlen : Nat
  queue_items : List Nat
  halt_delivery : Bool
  keepalive : Bool
  close_on_empty : Bool
  disposable : Bool
  deriving DecidableEq, Repr

/-- The fields of a `Connection`: the slot for its current pipe and the negotiated
features. -/
structure Connection where
  pipe : Option Nat
  features : Nat
  deriving DecidableEq, Repr

/-- The dispatch queue: per priority the round-robin list of pipes with inbound
work, and the three queues of connections awaiting a local-delivery callback. -/
structure DispatchQueue where
  queued_pipes : List (Nat × List Nat)
  qlen : Nat
  local_pipe : Nat
  connect_q : List Nat
  remote_reset_q : List Nat
  reset_q : List Nat
  stop : Bool
  deriving DecidableEq, Repr

/-- The messenger: the address table `rank_pipe`, the pipes and connections it
owns (by name), the dispatch queue and the dispatch throttler's current count. -/
structure Messenger where
  ms_addr : entity_addr_t
  my_type : Nat
  global_seq : Nat
  rank_pipe : List (entity_addr_t × Nat)
  pipes : List (Nat × Pipe)
  connections : List (Nat × Connection)
  policy_map : List (Nat × Policy)
  default_policy : Policy
  dispatch_queue : DispatchQueue
  dispatch_throttler : Nat
  destination_stopped : Bool
  deriving DecidableEq, Repr

/-- A `ceph_msg_connect` record as read from the wire. -/
structure ceph_msg_connect where
  features : Nat
  host_type : Nat
  global_seq : Nat
  connect_seq : Nat
  protocol_version : Nat
  authorizer_protocol : Nat
  authorizer_len : Nat
  flags : Nat
  deriving DecidableEq, Repr

/-- A `ceph_msg_connect_reply` record; `tag = none` is the zeroed tag byte. -/
structure ceph_msg_connect_reply where
  tag : Option Tag
  features : Nat
  global_seq : Nat
  connect_seq : Nat
  protocol_version : Nat
  flags : Nat
  deriving DecidableEq, Repr

/-- The constants that `SimpleMessenger.cc` takes from the headers it includes
(`msgr.h`, `ceph_fs.h`, `ceph_features.h`); their values are parameters. -/
structure Consts where
  CEPH_ENTITY_TYPE_OSD : Nat
  CEPH_ENTITY_TYPE_MDS : Nat
  CEPH_ENTITY_TYPE_MON : Nat
  CEPH_OSD_PROTOCOL : Nat
  CEPH_MDS_PROTOCOL : Nat
  CEPH_MON_PROTOCOL : Nat
  CEPH_OSDC_PROTOCOL : Nat
  CEPH_MDSC_PROTOCOL : Nat
  CEPH_MONC_PROTOCOL : Nat
  CEPH_FEATURE_RECONNECT_SEQ : Nat
  CEPH_MSG_CONNECT_LOSSY : Nat
  deriving DecidableEq, Repr

/-- Modelled from the spec: `CEPH_MSG_PRIO_HIGHEST` is defined in a header that is
not among the sources; the spec gives message priorities the range 0..255 and has
requeued messages go on the highest priority list. -/
def CEPH_MSG_PRIO_HIGHEST : Nat := 255

/-- The pipe together with the parts of the messenger that `queue_received`,
`discard_queue` and the reader touch while holding `pipe_lock` and
`dispatch_queue.lock`; `self` is the `this` pointer. -/
structure PipeCtx where
  self : Nat
  pipe : Pipe
  queued_pipes : List (Nat × List Nat)
  qlen : Nat
  dispatch_throttler : Nat
  deriving DecidableEq, Repr

/-! ## Arithmetic on `uint64_t` and `__u32` -/

/-- The value of `x + 1` (and of `x++`) for a `__u32`, the type of `connect_seq`. -/
def inc32 (x : Nat) : Nat := (x + 1) % 2 ^ 32

/-- The value of `++x` for a `uint64_t`. -/
def inc64 (x : Nat) : Nat := (x + 1) % 2 ^ 64

/-- The value of `x--` written back to a `uint64_t`. -/
def dec64 (x : Nat) : Nat := (x + (2 ^ 64 - 1)) % 2 ^ 64

/-- The value of `required & ~(uint64_t)features`. -/
def feat_missing (required features : Nat) : Nat :=
  required &&& ((2 ^ 64 - 1) ^^^ (features % 2 ^ 64))

/-! ## Pipe lookup -/

/-- The pipe named `id`, if the messenger holds it. -/
def getPipe (ms : Messenger) (id : Nat) : Option Pipe := mfind ms.pipes id

/-- Write back the pipe named `id`. -/
def setPipe (ms : Messenger) (id : Nat) (p : Pipe) : Messenger :=
  { ms with pipes := mset ms.pipes id p }

/-- The view of pipe `id` (whose fields are `p`) and the dispatch queue. -/
def ctxOf (ms : Messenger) (id : Nat) (p : Pipe) : PipeCtx :=
  { self := id, pipe := p, queued_pipes := ms.dispatch_queue.queued_pipes,
    qlen := ms.dispatch_queue.qlen, dispatch_throttler := ms.dispatch_throttler }

/-- Write a view back into the messenger. -/
def putCtx (ms : Messenger) (c : PipeCtx) : Messenger :=
  { ms with
    pipes := mset ms.pipes c.self c.pipe
    dispatch_queue :=
      { ms.dispatch_queue with queued_pipes := c.queued_pipes, qlen := c.qlen }
    dispatch_throttler := c.dispatch_throttler }

/-- Modelled from the spec: `get_policy` is defined in `SimpleMessenger.h`, which is
not among the sources; per the spec the lookup is keyed by peer entity type and
missing types use a default policy. -/
def get_policy (ms : Messenger) (t : Nat) : Policy :=
  (mfind ms.policy_map t).getD ms.default_policy

/-- The function `SimpleMessenger::dispatch_throttle_release`: a non-zero size is put
back to the dispatch throttler. -/
def dispatch_throttle_release (cur msize : Nat) : Nat :=
  if msize = 0 then cur else cur - msize

/-! ## Protocol version table -/

/-- The function `get_proto_version`. -/
def get_proto_version (K : Consts) (my_type peer_type : Nat) (connect : Bool) : Nat :=
  if peer_type = my_type then
    if my_type = K.CEPH_ENTITY_TYPE_OSD then K.CEPH_OSD_PROTOCOL
    else if my_type = K.CEPH_ENTITY_TYPE_MDS then K.CEPH_MDS_PROTOCOL
    else if my_type = K.CEPH_ENTITY_TYPE_MON then K.CEPH_MON_PROTOCOL
    else 0
  else if connect then
    if peer_type = K.CEPH_ENTITY_TYPE_OSD then K.CEPH_OSDC_PROTOCOL
    else if peer_type = K.CEPH_ENTITY_TYPE_MDS then K.CEPH_MDSC_PROTOCOL
    else if peer_type = K.CEPH_ENTITY_TYPE_MON then K.CEPH_MONC_PROTOCOL
    else 0
  else
    if my_type = K.CEPH_ENTITY_TYPE_OSD then K.CEPH_OSDC_PROTOCOL
    else if my_type = K.CEPH_ENTITY_TYPE_MDS then K.CEPH_MDSC_PROTOCOL
    else if my_type = K.CEPH_ENTITY_TYPE_MON then K.CEPH_MONC_PROTOCOL
    else 0

/-! ## Outbound queue, sent list, writer -/

/-- The `while` loop of `requeue_sent`; the first argument is `sent` read from its
back, the second the list `rq`, the third `out_seq`.  A message that is not above
`max_acked` makes the loop clear `sent` and stop. -/
def requeue_loop (max_acked : Nat) : List Message → List Message → Nat → List Message × Nat
  | [], rq, out_seq => (rq, out_seq)
  | m :: rest, rq, out_seq =>
    if m.seq > max_acked then requeue_loop max_acked rest (m :: rq) (dec64 out_seq)
    else (rq, out_seq)

/-- The function `Pipe::requeue_sent(max_acked)`. -/
def requeue_sent (max_acked : Nat) (p : Pipe) : Pipe :=
  if p.sent.isEmpty then p
  else
    let r := requeue_loop max_acked p.sent.reverse (qat p.out_q CEPH_MSG_PRIO_HIGHEST) p.out_seq
    { p with sent := [], out_q := mset p.out_q CEPH_MSG_PRIO_HIGHEST r.1, out_seq := r.2 }

/-- Modelled from the spec: `_get_next_outgoing` is defined in `SimpleMessenger.h`,
which is not among the sources; per the spec the writer pops the highest-priority
queued outbound message, FIFO within a priority. -/
def _get_next_outgoing (p : Pipe) : Option Message × Pipe :=
  match qhighest p.out_q with
  | none => (none, p)
  | some k =>
    match qat p.out_q k with
    | [] => (none, p)
    | m :: rest => (some m, { p with out_q := mset p.out_q k rest })

/-- Modelled from the spec: `is_queued` is defined in `SimpleMessenger.h`, which is
not among the sources; per the spec it tells whether anything is queued outbound. -/
def is_queued (p : Pipe) : Bool := (qhighest p.out_q).isSome

/-- The "grab outgoing message" step of `Pipe::writer`: take the next message, give
it `seq = ++out_seq`, keep it on `sent` unless the pipe is lossy (and not closing on
empty), attach the pipe's connection.  Returns the message handed to
`write_message`. -/
def writer_send (p : Pipe) : Option Message × Pipe :=
  match _get_next_outgoing p with
  | (none, p1) => (none, p1)
  | (some m, p1) =>
    let m1 : Message :=
      { m with seq := inc64 p1.out_seq, connection := some p1.connection_state }
    let p2 : Pipe := { p1 with out_seq := inc64 p1.out_seq }
    if !p2.policy.lossy || p2.close_on_empty then
      (some m1, { p2 with sent := p2.sent ++ [m1] })
    else (some m1, p2)

/-- Run `n` send steps of the writer, collecting the messages transmitted. -/
def writer_sends : Nat → Pipe → List Message × Pipe
  | 0, p => ([], p)
  | n + 1, p =>
    match writer_send p with
    | (none, p1) => ([], p1)
    | (some m, p1) => (m :: (writer_sends n p1).1, (writer_sends n p1).2)

/-! ## Inbound queueing -/

/-- The effect of `xlist::push_back(item)` for the item of pipe `id`: an item sits in
at most one place, so it leaves its old position and goes to the tail. -/
def xpush (l : List Nat) (id : Nat) : List Nat := l.filter (fun x => x ≠ id) ++ [id]

/-- The function `Pipe::queue_received(m, priority)`. -/
def queue_received (c : PipeCtx) (m : QItem) (priority : Nat) : PipeCtx :=
  let p : Pipe := { c.pipe with in_q := qtouch c.pipe.in_q priority }
  if p.halt_delivery then
    match m with
    | QItem.msg mm =>
      { c with pipe := p
               dispatch_throttler :=
                 dispatch_throttle_release c.dispatch_throttler mm.dispatch_throttle_size }
    | _ => { c with pipe := p }
  else if (qat p.in_q priority).isEmpty then
    let items := if priority ∈ p.queue_items then p.queue_items else p.queue_items ++ [priority]
    let qp := qtouch c.queued_pipes priority
    { c with
      pipe := { p with queue_items := items
                       in_q := mset p.in_q priority (qat p.in_q priority ++ [m])
                       in_qlen := p.in_qlen + 1 }
      queued_pipes := mset qp priority (xpush (qat qp priority) c.self)
      qlen := c.qlen + 1 }
  else
    { c with
      pipe := { p with in_q := mset p.in_q priority (qat p.in_q priority ++ [m])
                       in_qlen := p.in_qlen + 1 }
      qlen := c.qlen + 1 }

/-- The `MSG` branch of `Pipe::reader` once `read_message` has produced the decoded
message `m`; the one-argument `queue_received(m)` queues at the priority of `m`. -/
def reader_msg (c : PipeCtx) (m : Message) : PipeCtx :=
  if c.pipe.state = PipeState.STATE_CLOSED ∨ c.pipe.state = PipeState.STATE_CONNECTING then
    { c with dispatch_throttler :=
               dispatch_throttle_release c.dispatch_throttler m.dispatch_throttle_size }
  else if m.seq ≤ c.pipe.in_seq then
    { c with dispatch_throttler :=
               dispatch_throttle_release c.dispatch_throttler m.dispatch_throttle_size }
  else
    let m1 : Message := { m with connection := some c.pipe.connection_state }
    queue_received { c with pipe := { c.pipe with in_seq := m.seq } } (QItem.msg m1) m1.priority

/-- Handle a sequence of decoded inbound messages, one reader iteration each. -/
def reader_msgs (c : PipeCtx) (ms : List Message) : PipeCtx := ms.foldl reader_msg c

/-- The messages among the items of an inbound list. -/
def qitem_msgs : List QItem → List Message
  | [] => []
  | QItem.msg m :: t => m :: qitem_msgs t
  | _ :: t => qitem_msgs t

/-- One round of the first loop of `discard_queue`: the item for `priority`, when it
is on the round-robin list, takes itself off, and an emptied list is erased. -/
def discard_item (id : Nat) (qp : List (Nat × List Nat)) (priority : Nat) :
    List (Nat × List Nat) :=
  if id ∈ qat qp priority then
    let l := (qat qp priority).filter (fun x => x ≠ id)
    if l.isEmpty then merase qp priority else mset qp priority l
  else qp

/-- The dispatch-throttle credit released for the messages of the inbound lists. -/
def release_all (cur : Nat) (items : List QItem) : Nat :=
  (qitem_msgs items).foldl (fun c m => dispatch_throttle_release c m.dispatch_throttle_size) cur

/-- The function `Pipe::discard_queue`. -/
def discard_queue (c : PipeCtx) : PipeCtx :=
  { c with
    pipe := { c.pipe with halt_delivery := true, queue_items := [], sent := [], out_q := [],
                          in_q := [], in_qlen := 0 }
    queued_pipes := c.pipe.queue_items.foldl (discard_item c.self) c.queued_pipes
    qlen := c.qlen - c.pipe.in_qlen
    dispatch_throttler := release_all c.dispatch_throttler (c.pipe.in_q.map Prod.snd).flatten }

/-! ## Local-delivery signals -/

/-- Modelled from the spec: `DispatchQueue::local_delivery` is defined in
`SimpleMessenger.h`, which is not among the sources; per the spec the local pipe is a
pipe installed in the dispatch queue, and what is delivered locally is queued on it
like a received message. -/
def local_delivery (ms : Messenger) (m : QItem) (priority : Nat) : Messenger :=
  match getPipe ms ms.dispatch_queue.local_pipe with
  | none => ms
  | some lp => putCtx ms (queue_received (ctxOf ms ms.dispatch_queue.local_pipe lp) m priority)

/-- Modelled from the spec: `DispatchQueue::queue_reset` is defined in
`SimpleMessenger.h`, which is not among the sources; it enqueues a `reset` event for
the connection: the connection joins `reset_q`, where `dispatch_entry` looks for it
on meeting the signal `D_BAD_RESET`. -/
def queue_reset (ms : Messenger) (con : Nat) : Messenger :=
  local_delivery
    { ms with dispatch_queue :=
                { ms.dispatch_queue with reset_q := ms.dispatch_queue.reset_q ++ [con] } }
    QItem.D_BAD_RESET CEPH_MSG_PRIO_HIGHEST

/-- Modelled from the spec: `DispatchQueue::queue_remote_reset` is defined in
`SimpleMessenger.h`, which is not among the sources; it enqueues a `remote_reset`
event for the connection: the connection joins `remote_reset_q`, where
`dispatch_entry` looks for it on meeting the signal `D_BAD_REMOTE_RESET`. -/
def queue_remote_reset (ms : Messenger) (con : Nat) : Messenger :=
  local_delivery
    { ms with dispatch_queue :=
                { ms.dispatch_queue with
                  remote_reset_q := ms.dispatch_queue.remote_reset_q ++ [con] } }
    QItem.D_BAD_REMOTE_RESET CEPH_MSG_PRIO_HIGHEST

/-- What the dispatch thread hands to the dispatcher. -/
inductive Delivery
  | handle_remote_reset (con : Nat)
  | handle_connect (con : Nat)
  | handle_reset (con : Nat)
  | dispatch (m : Message)
  deriving DecidableEq, Repr

/-- The delivery block of `dispatch_entry` for the dequeued item `m`: a signal takes
the front connection of its queue and calls the matching callback, a message is
dispatched and its dispatch-throttle credit released.  `none` when the queue that a
signal refers to is empty. -/
def deliver (ms : Messenger) (m : QItem) : Option (Delivery × Messenger) :=
  match m with
  | QItem.D_BAD_REMOTE_RESET =>
    match ms.dispatch_queue.remote_reset_q with
    | [] => none
    | con :: rest =>
      some (Delivery.handle_remote_reset con,
        { ms with dispatch_queue := { ms.dispatch_queue with remote_reset_q := rest } })
  | QItem.D_CONNECT =>
    match ms.dispatch_queue.connect_q with
    | [] => none
    | con :: rest =>
      some (Delivery.handle_connect con,
        { ms with dispatch_queue := { ms.dispatch_queue with connect_q := rest } })
  | QItem.D_BAD_RESET =>
    match ms.dispatch_queue.reset_q with
    | [] => none
    | con :: rest =>
      some (Delivery.handle_reset con,
        { ms with dispatch_queue := { ms.dispatch_queue with reset_q := rest } })
  | QItem.msg mm =>
    some (Delivery.dispatch { mm with dispatch_throttle_size := 0 },
      { ms with dispatch_throttler :=
                  dispatch_throttle_release ms.dispatch_throttler mm.dispatch_throttle_size })

/-! ## Stop, fail, session reset, fault -/

/-- The function `Pipe::stop`. -/
def stop (p : Pipe) : Pipe := { p with state := PipeState.STATE_CLOSED }

/-- The function `Pipe::fail`, for the pipe named `id`. -/
def fail (ms : Messenger) (id : Nat) : Messenger :=
  match getPipe ms id with
  | none => ms
  | some p =>
    let ms1 := putCtx ms (discard_queue (ctxOf ms id (stop p)))
    if !ms1.destination_stopped then queue_reset ms1 p.connection_state else ms1

/-- The function `Pipe::was_session_reset`, for the pipe named `id`. -/
def was_session_reset (ms : Messenger) (id : Nat) : Messenger :=
  match getPipe ms id with
  | none => ms
  | some p =>
    let ms1 := putCtx ms (discard_queue (ctxOf ms id p))
    let ms2 := if !ms1.destination_stopped then queue_remote_reset ms1 p.connection_state else ms1
    match getPipe ms2 id with
    | none => ms2
    | some p2 => setPipe ms2 id { p2 with out_seq := 0, in_seq := 0, connect_seq := 0 }

/-- The function `Pipe::fault(onconnect, onread)`, for the pipe named `id`.  The
socket shutdown and the backoff wait leave the modelled fields alone. -/
def fault (ms : Messenger) (id : Nat) (onconnect onread : Bool) : Messenger :=
  match getPipe ms id with
  | none => ms
  | some p =>
    if onread && p.state = PipeState.STATE_CONNECTING then ms
    else if p.state = PipeState.STATE_CLOSED ∨ p.state = PipeState.STATE_CLOSING then ms
    else if p.policy.lossy then fail ms id
    else
      let p1 := requeue_sent 0 p
      if !is_queued p1 then
        if p1.state = PipeState.STATE_CLOSING ∨ onconnect = true then
          setPipe ms id { p1 with state := PipeState.STATE_CLOSED }
        else
          setPipe ms id { p1 with state := PipeState.STATE_STANDBY }
      else if p1.state ≠ PipeState.STATE_CONNECTING then
        setPipe ms id { p1 with connect_seq := inc32 p1.connect_seq,
                                state := PipeState.STATE_CONNECTING }
      else setPipe ms id p1

/-! ## Accept: the connect-record loop, replace and open -/

/-- How the body of the `while (1)` loop of `Pipe::accept` ends for one connect
record: a reply tag is sent (with the `global_seq` / `connect_seq` stored in the
reply), control jumps to `replace` (after `existing->was_session_reset()` when
`session_reset`), control jumps to `open` for a new session, or an `assert` of the
chosen branch fails. -/
inductive AcceptStep
  | reply (tag : Tag) (global_seq connect_seq : Nat)
  | replace (session_reset : Bool)
  | open_new
  | assert_fail
  deriving DecidableEq, Repr

/-- The tag replied by a step, if it replies. -/
def AcceptStep.tag : AcceptStep → Option Tag
  | AcceptStep.reply t _ _ => some t
  | _ => none

/-- The "existing?" block of `Pipe::accept`: what is decided for a connect record
that passed the protocol-version, feature and authorizer checks, given the pipe
registered for `peer_addr` (if any). -/
def accept_race (ms_addr peer_addr : entity_addr_t) (connect : ceph_msg_connect) :
    Option Pipe → AcceptStep
  | some existing =>
    if connect.global_seq < existing.peer_global_seq then
      AcceptStep.reply Tag.RETRY_GLOBAL existing.peer_global_seq 0
    else if existing.policy.lossy then AcceptStep.replace true
    else if connect.connect_seq < existing.connect_seq then
      if connect.connect_seq = 0 then AcceptStep.replace true
      else AcceptStep.reply Tag.RETRY_SESSION 0 existing.connect_seq
    else if connect.connect_seq = existing.connect_seq then
      if peer_addr < ms_addr ∨ existing.policy.server = true then
        if existing.state = PipeState.STATE_CONNECTING ∨
            existing.state = PipeState.STATE_STANDBY ∨
            existing.state = PipeState.STATE_WAIT then AcceptStep.replace false
        else AcceptStep.assert_fail
      else
        if ¬ (peer_addr > ms_addr) then AcceptStep.assert_fail
        else if ¬ (existing.state = PipeState.STATE_CONNECTING ∨
            existing.state = PipeState.STATE_OPEN) then AcceptStep.assert_fail
        else AcceptStep.reply Tag.WAIT 0 0
    else if ¬ (connect.connect_seq > existing.connect_seq) then AcceptStep.assert_fail
    else if ¬ (connect.global_seq ≥ existing.peer_global_seq) then AcceptStep.assert_fail
    else if existing.connect_seq = 0 then AcceptStep.reply Tag.RESETSESSION 0 0
    else AcceptStep.replace false
  | none =>
    if connect.connect_seq > 0 then AcceptStep.reply Tag.RESETSESSION 0 0
    else AcceptStep.open_new

/-- The race resolution table as the specification words it, read top to bottom,
with the no-existing-pipe rule of step 3d. -/
def race_table (ms_addr peer_addr : entity_addr_t) (connect : ceph_msg_connect) :
    Option Pipe → AcceptStep
  | some existing =>
    if connect.global_seq < existing.peer_global_seq then
      AcceptStep.reply Tag.RETRY_GLOBAL existing.peer_global_seq 0
    else if existing.policy.lossy then AcceptStep.replace true
    else if connect.connect_seq < existing.connect_seq ∧ connect.connect_seq = 0 then
      AcceptStep.replace true
    else if connect.connect_seq < existing.connect_seq then
      AcceptStep.reply Tag.RETRY_SESSION 0 existing.connect_seq
    else if connect.connect_seq = existing.connect_seq ∧
        (peer_addr < ms_addr ∨ existing.policy.server = true) then AcceptStep.replace false
    else if connect.connect_seq = existing.connect_seq then AcceptStep.reply Tag.WAIT 0 0
    else if connect.connect_seq > existing.connect_seq ∧ existing.connect_seq = 0 then
      AcceptStep.reply Tag.RESETSESSION 0 0
    else AcceptStep.replace false
  | none =>
    if connect.connect_seq > 0 then AcceptStep.reply Tag.RESETSESSION 0 0
    else AcceptStep.open_new

/-- The asserts that the `connect_seq`-equal branches of `accept` make about the
existing pipe and the two addresses. -/
def race_asserts_hold (ms_addr peer_addr : entity_addr_t) (connect : ceph_msg_connect)
    (existing : Pipe) : Prop :=
  connect.global_seq ≥ existing.peer_global_seq → existing.policy.lossy = false →
  connect.connect_seq = existing.connect_seq →
    if peer_addr < ms_addr ∨ existing.policy.server = true then
      existing.state = PipeState.STATE_CONNECTING ∨
      existing.state = PipeState.STATE_STANDBY ∨
      existing.state = PipeState.STATE_WAIT
    else
      peer_addr > ms_addr ∧
      (existing.state = PipeState.STATE_CONNECTING ∨ existing.state = PipeState.STATE_OPEN)

/-- What one pass through the loop body of `accept` leaves behind. -/
structure AcceptResult where
  ms : Messenger
  step : AcceptStep
  authorizer_consulted : Bool
  existing : Option Nat
  deriving DecidableEq, Repr

/-- One pass through the loop body of `Pipe::accept` for the accepting pipe `self`
and the connect record `connect`, up to the jump to `reply`, `replace` or `open`.
The pair `verify` is what `msgr->verify_authorizer` gives when it is called: its
return value and the flag it leaves in `authorizer_valid`. -/
def accept_record (K : Consts) (ms : Messenger) (self : Nat) (connect : ceph_msg_connect)
    (verify : Bool × Bool) : AcceptResult :=
  match getPipe ms self with
  | none => { ms := ms, step := AcceptStep.assert_fail, authorizer_consulted := false,
              existing := none }
  | some p =>
    let p1 : Pipe :=
      { p with peer_type := connect.host_type, policy := get_policy ms connect.host_type }
    let ms1 := setPipe ms self p1
    if connect.protocol_version ≠ get_proto_version K ms.my_type p1.peer_type false then
      { ms := ms1, step := AcceptStep.reply Tag.BADPROTOVER 0 0, authorizer_consulted := false,
        existing := none }
    else if feat_missing p1.policy.features_required connect.features ≠ 0 then
      { ms := ms1, step := AcceptStep.reply Tag.FEATURES 0 0, authorizer_consulted := false,
        existing := none }
    else if verify.1 && !verify.2 then
      { ms := ms1, step := AcceptStep.reply Tag.BADAUTHORIZER 0 0, authorizer_consulted := true,
        existing := none }
    else
      match mfind ms1.rank_pipe p1.peer_addr with
      | none =>
        { ms := ms1, step := accept_race ms1.ms_addr p1.peer_addr connect none,
          authorizer_consulted := true, existing := none }
      | some eid =>
        match getPipe ms1 eid with
        | none => { ms := ms1, step := AcceptStep.assert_fail, authorizer_consulted := true,
                    existing := some eid }
        | some e =>
          match accept_race ms1.ms_addr p1.peer_addr connect (some e) with
          | AcceptStep.replace true =>
            { ms := was_session_reset ms1 eid, step := AcceptStep.replace true,
              authorizer_consulted := true, existing := some eid }
          | step => { ms := ms1, step := step, authorizer_consulted := true,
                      existing := some eid }

/-- The label `fail_unlocked` of `Pipe::accept`. -/
def accept_fail (ms : Messenger) (self : Nat) : Messenger :=
  match getPipe ms self with
  | none => ms
  | some p =>
    let st := if is_queued p then PipeState.STATE_CONNECTING else PipeState.STATE_CLOSED
    fault (setPipe ms self { p with state := st }) self false false

/-- The label `reply` of `Pipe::accept`: the reply is written, and the loop goes on
to read the next connect record unless the write failed. -/
def accept_reply (ms : Messenger) (self : Nat) (write_ok : Bool) : Messenger :=
  if write_ok then ms else accept_fail ms self

/-- The function `Pipe::unregister_pipe`. -/
def unregister_pipe (ms : Messenger) (id : Nat) : Messenger :=
  match getPipe ms id with
  | none => ms
  | some p =>
    if mfind ms.rank_pipe p.peer_addr = some id then
      { ms with rank_pipe := merase ms.rank_pipe p.peer_addr }
    else ms

/-- The function `Pipe::register_pipe`; `none` when its assert fails. -/
def register_pipe (ms : Messenger) (id : Nat) : Option Messenger :=
  match getPipe ms id with
  | none => none
  | some p =>
    if mcount ms.rank_pipe p.peer_addr then none
    else some { ms with rank_pipe := mset ms.rank_pipe p.peer_addr id }

/-- Modelled from the spec: `Connection::reset_pipe` is defined in a header that is
not among the sources; per the spec the connection's back-reference to its current
pipe is swapped for the given pipe. -/
def reset_pipe (ms : Messenger) (con pipe : Nat) : Messenger :=
  match mfind ms.connections con with
  | none => ms
  | some c => { ms with connections := mset ms.connections con { c with pipe := some pipe } }

/-- Modelled from the spec: `Connection::set_features` is defined in a header that is
not among the sources; it records the negotiated features. -/
def set_features (ms : Messenger) (con features : Nat) : Messenger :=
  match mfind ms.connections con with
  | none => ms
  | some c => { ms with connections := mset ms.connections con { c with features := features } }

/-- One round of the splice loop of `accept`: the list of the existing pipe at
priority `k` is moved to the front of this pipe's list at `k`. -/
def splice_step (acc : List (Nat × List Message) × List (Nat × List Message)) (k : Nat) :
    List (Nat × List Message) × List (Nat × List Message) :=
  (mset acc.1 k (qat acc.2 k ++ qat acc.1 k), mset acc.2 k [])

/-- The splice loop of `accept` over the keys of `existing->out_q`; returns this
pipe's `out_q` and what is left of the existing pipe's. -/
def splice_out_q (mine theirs : List (Nat × List Message)) :
    List (Nat × List Message) × List (Nat × List Message) :=
  (mkeys theirs).foldl splice_step (mine, theirs)

/-- The label `replace` of `Pipe::accept`, down to `existing->pipe_lock.Unlock()`:
the accepting pipe `self` takes over from the registered pipe `eid`.  Returns the
messenger and `reply_tag`. -/
def accept_replace (K : Consts) (ms : Messenger) (self eid : Nat) (connect : ceph_msg_connect) :
    Messenger × Option Tag :=
  let reply_tag : Option Tag :=
    if connect.features &&& K.CEPH_FEATURE_RECONNECT_SEQ ≠ 0 then some Tag.SEQ else none
  match getPipe ms eid with
  | none => (ms, reply_tag)
  | some e0 =>
    let ms1 := unregister_pipe (setPipe ms eid (stop e0)) eid
    if !e0.policy.lossy then
      let ms2 := reset_pipe ms1 e0.connection_state self
      let e1 := requeue_sent 0 (stop e0)
      match getPipe ms2 self with
      | none => (setPipe ms2 eid e1, reply_tag)
      | some p =>
        let sp := splice_out_q p.out_q e1.out_q
        let p1 : Pipe :=
          { p with out_seq := e1.out_seq, in_seq := e1.in_seq, in_seq_acked := e1.in_seq,
                   out_q := sp.1 }
        (setPipe (setPipe ms2 eid { e1 with out_q := sp.2 }) self p1, reply_tag)
    else (ms1, reply_tag)

/-- The label `open` of `Pipe::accept`, down to `register_pipe()`: the pipe becomes
Open, the READY / SEQ reply is filled in and the pipe is registered.  `none` when
the assert of `register_pipe` fails.  `get_global_seq()` advances the messenger's
connection counter. -/
def accept_open (K : Consts) (ms : Messenger) (self : Nat) (connect : ceph_msg_connect)
    (reply_tag : Option Tag) : Option (Messenger × ceph_msg_connect_reply) :=
  match getPipe ms self with
  | none => none
  | some p =>
    let p1 : Pipe :=
      { p with connect_seq := inc32 connect.connect_seq, peer_global_seq := connect.global_seq,
               state := PipeState.STATE_OPEN }
    let reply : ceph_msg_connect_reply :=
      { tag := some (reply_tag.getD Tag.READY)
        features := p1.policy.features_supported
        global_seq := ms.global_seq + 1
        connect_seq := p1.connect_seq
        protocol_version := get_proto_version K ms.my_type p1.peer_type false
        flags := if p1.policy.lossy then K.CEPH_MSG_CONNECT_LOSSY else 0 }
    let ms1 := set_features { ms with global_seq := ms.global_seq + 1 } p1.connection_state
      ((reply.features % 2 ^ 32) &&& (connect.features % 2 ^ 32))
    (register_pipe (setPipe ms1 self p1) self).map (fun m => (m, reply))

/-- The labels `replace` and `open` in sequence. -/
def accept_replace_open (K : Consts) (ms : Messenger) (self eid : Nat)
    (connect : ceph_msg_connect) : Option (Messenger × ceph_msg_connect_reply) :=
  accept_open K (accept_replace K ms self eid connect).1 self connect
    (accept_replace K ms self eid connect).2

/-! ## Derived notions used in the statements -/

/-- The guard under which the `MSG` branch of the reader queues the decoded message
`m`: the pipe is neither Closed nor Connecting and `m.seq` is above `in_seq`. -/
def reader_accepts (c : PipeCtx) (m : Message) : Bool :=
  decide (¬ (c.pipe.state = PipeState.STATE_CLOSED ∨ c.pipe.state = PipeState.STATE_CONNECTING)
    ∧ c.pipe.in_seq < m.seq)

/-- The messages of an inbound sequence that pass the reader's guard, each judged
against the pipe as it is when the message arrives. -/
def accepted : PipeCtx → List Message → List Message
  | _, [] => []
  | c, m :: t =>
    if reader_accepts c m then m :: accepted (reader_msg c m) t
    else accepted (reader_msg c m) t

/-- A pipe as its constructor leaves it: given state, policy, peer address and its
own connection, all counters zero, nothing queued. -/
def Pipe.fresh (st : PipeState) (pol : Policy) (addr con : Nat) : Pipe :=
  { state := st, policy := pol, peer_addr := addr, peer_type := 0, connection_state := con,
    connect_seq := 0, peer_global_seq := 0, out_seq := 0, in_seq := 0, in_seq_acked := 0,
    out_q := [], in_q := [], sent := [], in_qlen := 0, queue_items := [],
    halt_delivery := false, keepalive := false, close_on_empty := false, disposable := false }

/-- A message with the given address, sequence number and priority. -/
def Message.mk3 (ident seq priority : Nat) : Message :=
  { ident := ident, seq := seq, priority := priority, dispatch_throttle_size := 0,
    connection := none }

/-- A policy with the given `lossy` and `server` flags and no feature bits. -/
def Policy.plain (lossy server : Bool) : Policy :=
  { lossy := lossy, server := server, features_supported := 0, features_required := 0 }

/-- A connect record with the given `global_seq` and `connect_seq`, everything else
zero. -/
def ceph_msg_connect.seqs (global_seq connect_seq : Nat) : ceph_msg_connect :=
  { features := 0, host_type := 0, global_seq := global_seq, connect_seq := connect_seq,
    protocol_version := 0, authorizer_protocol := 0, authorizer_len := 0, flags := 0 }

/-- A view of a lone pipe named 1 with an empty dispatch queue. -/
def PipeCtx.lone (p : Pipe) : PipeCtx :=
  { self := 1, pipe := p, queued_pipes := [], qlen := 0, dispatch_throttler := 0 }

/-- A constant table with distinct entity types and protocol numbers. -/
def Consts.sample : Consts :=
  { CEPH_ENTITY_TYPE_OSD := 4, CEPH_ENTITY_TYPE_MDS := 2, CEPH_ENTITY_TYPE_MON := 1,
    CEPH_OSD_PROTOCOL := 8, CEPH_MDS_PROTOCOL := 9, CEPH_MON_PROTOCOL := 5,
    CEPH_OSDC_PROTOCOL := 22, CEPH_MDSC_PROTOCOL := 32, CEPH_MONC_PROTOCOL := 15,
    CEPH_FEATURE_RECONNECT_SEQ := 64, CEPH_MSG_CONNECT_LOSSY := 1 }

/-- An empty dispatch queue whose local pipe is the pipe named 0. -/
def DispatchQueue.idle : DispatchQueue :=
  { queued_pipes := [], qlen := 0, local_pipe := 0, connect_q := [], remote_reset_q := [],
    reset_q := [], stop := false }

/-- A messenger at address 10 holding the local pipe (named 0, connection 0), the pipe
`e` (named 1, registered under `e.peer_addr`) and the pipe `p` (named 2, not
registered), with one connection object per pipe. -/
def Messenger.sample (e p : Pipe) : Messenger :=
  { ms_addr := 10, my_type := 4, global_seq := 0,
    rank_pipe := [(e.peer_addr, 1)],
    pipes := [(0, Pipe.fresh PipeState.STATE_OPEN (Policy.plain false false) 10 0), (1, e), (2, p)],
    connections := [(0, { pipe := some 0, features := 0 }), (1, { pipe := some 1, features := 0 }),
                    (2, { pipe := some 2, features := 0 })],
    policy_map := [], default_policy := Policy.plain false false,
    dispatch_queue := DispatchQueue.idle, dispatch_throttler := 0,
    destination_stopped := false }

/-- An Open durable pipe to address 20 with connection 1, `out_seq = 7`, two unacked
messages on `sent` and two queued messages. -/
def Pipe.busy : Pipe :=
  { Pipe.fresh PipeState.STATE_OPEN (Policy.plain false false) 20 1 with
    connect_seq := 1, out_seq := 7, in_seq := 4,
    sent := [Message.mk3 100 6 127, Message.mk3 101 7 63],
    out_q := [(127, [Message.mk3 102 0 127]), (255, [Message.mk3 103 0 255])] }

/-- An Open lossy pipe to address 20 with connection 1: two messages queued outbound
and one inbound message at priority 127, for which it holds a queue item. -/
def Pipe.lossy_busy : Pipe :=
  { Pipe.fresh PipeState.STATE_OPEN (Policy.plain true false) 20 1 with
    connect_seq := 1, out_seq := 7, in_seq := 4,
    out_q := [(127, [Message.mk3 102 0 127]), (255, [Message.mk3 103 0 255])],
    in_q := [(127, [QItem.msg (Message.mk3 104 4 127)])], in_qlen := 1, queue_items := [127] }

/-- The sample messenger around `Pipe.lossy_busy`, which is on the round-robin list
of priority 127. -/
def Messenger.lossy_sample : Messenger :=
  { Messenger.sample Pipe.lossy_busy
      (Pipe.fresh PipeState.STATE_ACCEPTING (Policy.plain false false) 30 2) with
    dispatch_queue := { DispatchQueue.idle with queued_pipes := [(127, [1])], qlen := 1 } }

/-! ## Reading a message, the reader's dispatch on a tag -/

/-- The section lengths, the data offset and the CRC of a `ceph_msg_header`; the three
lengths and the CRC are 32-bit fields. -/
structure ceph_msg_header where
  front_len : Nat
  middle_len : Nat
  data_len : Nat
  data_off : Nat
  crc : Nat
  deriving DecidableEq, Repr

/-- The flags of a `ceph_msg_footer`. -/
structure ceph_msg_footer where
  flags : Nat
  deriving DecidableEq, Repr

/-- The two throttlers a message is charged to: the current count of the policy
throttler when the policy has one, and the current count of the dispatch
throttler. -/
structure Throttles where
  policy : Option Nat
  dispatch : Nat
  deriving DecidableEq, Repr

/-- What the socket and the codec give while `read_message` runs: the header (`none`
when reading it fails), the CRC computed over the header bytes, whether each
section is read in full, the footer (`none` when reading it fails) and what
`decode_message` returns. -/
structure ReadIO where
  header : Option ceph_msg_header
  header_crc : Nat
  front_ok : Bool
  middle_ok : Bool
  data_ok : Bool
  footer : Option ceph_msg_footer
  decoded : Option Message
  deriving DecidableEq, Repr

/-- What `read_message` returns: its return value, the message stored through `pm`
and the throttlers afterwards. -/
structure ReadResult where
  ret : Int
  message : Option Message
  throttles : Throttles
  deriving DecidableEq, Repr

/-- The value of `EINVAL` in `errno.h`. -/
def EINVAL : Int := 22

/-- The value that `read_message` stores in `uint64_t message_size`: the sum of the
three `__le32` lengths, which C++ adds as 32-bit unsigned numbers before widening. -/
def message_size (h : ceph_msg_header) : Nat :=
  (h.front_len % 2 ^ 32 + h.middle_len % 2 ^ 32 + h.data_len % 2 ^ 32) % 2 ^ 32

/-- The throttlers after `read_message` has reserved `size` bytes: nothing for size
zero, otherwise first the policy throttler (when there is one), then the dispatch
throttler.  The wait for credit is not modelled. -/
def throttle_reserve (size : Nat) (thr : Throttles) : Throttles :=
  if size = 0 then thr
  else { policy := thr.policy.map (fun c => c + size), dispatch := thr.dispatch + size }

/-- The label `out_dethrottle` of `read_message`. -/
def out_dethrottle (size : Nat) (thr : Throttles) (ret : Int) : ReadResult :=
  { ret := ret, message := none,
    throttles :=
      if size = 0 then thr
      else { policy := thr.policy.map (fun c => c - size),
             dispatch := dispatch_throttle_release thr.dispatch size } }

/-- The function `Pipe::read_message`; `complete` is the footer flag
`CEPH_MSG_FOOTER_COMPLETE`. -/
def read_message (complete : Nat) (io : ReadIO) (thr : Throttles) : ReadResult :=
  match io.header with
  | none => { ret := -1, message := none, throttles := thr }
  | some h =>
    if io.header_crc ≠ h.crc then { ret := -1, message := none, throttles := thr }
    else
      let size := message_size h
      let thr1 := throttle_reserve size thr
      if h.front_len % 2 ^ 32 ≠ 0 ∧ io.front_ok = false then out_dethrottle size thr1 (-1)
      else if h.middle_len % 2 ^ 32 ≠ 0 ∧ io.middle_ok = false then out_dethrottle size thr1 (-1)
      else if h.data_len % 2 ^ 32 ≠ 0 ∧ io.data_ok = false then out_dethrottle size thr1 (-1)
      else
        match io.footer with
        | none => out_dethrottle size thr1 (-1)
        | some f =>
          if f.flags &&& complete = 0 then out_dethrottle size thr1 0
          else
            match io.decoded with
            | none => out_dethrottle size thr1 (-EINVAL)
            | some m =>
              { ret := 0, message := some { m with dispatch_throttle_size := size },
                throttles := thr1 }

/-- Modelled from the spec: `handle_ack` is defined in `SimpleMessenger.h`, which is
not among the sources; per the spec an ACK prunes `sent` of everything with
`seq ≤ ack`. -/
def handle_ack (p : Pipe) (ack : Nat) : Pipe :=
  { p with sent := p.sent.filter (fun m => decide (ack < m.seq)) }

/-- What the reader finds after `tcp_read` of the tag byte. -/
inductive ReaderEvent
  | read_error
  | KEEPALIVE
  | ACK (seq : Option Nat)
  | MSG (io : ReadIO)
  | CLOSE
  | bad_tag
  deriving DecidableEq, Repr

/-- The body of the reader's loop once the tag has been read and `pipe_lock` has been
taken again: what `Pipe::reader` does for each tag.  `pol` is the count of the
pipe's policy throttler (when it has one). -/
def reader_handle (complete : Nat) (ms : Messenger) (id : Nat) (ev : ReaderEvent)
    (pol : Option Nat) : Messenger × Option Nat :=
  match getPipe ms id with
  | none => (ms, pol)
  | some p =>
    match ev with
    | ReaderEvent.read_error => (fault ms id false true, pol)
    | ReaderEvent.KEEPALIVE => (ms, pol)
    | ReaderEvent.ACK none => (fault ms id false true, pol)
    | ReaderEvent.ACK (some seq) =>
      if p.state ≠ PipeState.STATE_CLOSED then (setPipe ms id (handle_ack p seq), pol)
      else (ms, pol)
    | ReaderEvent.MSG io =>
      let r := read_message complete io { policy := pol, dispatch := ms.dispatch_throttler }
      let ms1 : Messenger := { ms with dispatch_throttler := r.throttles.dispatch }
      match r.message with
      | none =>
        if r.ret < 0 then (fault ms1 id false true, r.throttles.policy)
        else (ms1, r.throttles.policy)
      | some m => (putCtx ms1 (reader_msg (ctxOf ms1 id p) m), r.throttles.policy)
    | ReaderEvent.CLOSE =>
      if p.state = PipeState.STATE_CLOSING then
        (setPipe ms id { p with state := PipeState.STATE_CLOSED }, pol)
      else (setPipe ms id { p with state := PipeState.STATE_CLOSING }, pol)
    | ReaderEvent.bad_tag => (fault ms id false true, pol)

/-- One pass through the `while` loop of `Pipe::reader` taken in one piece: the loop
ends on a Closed or Connecting pipe, a Standby pipe waits, otherwise the tag is read
and handled. -/
def reader_step (complete : Nat) (ms : Messenger) (id : Nat) (ev : ReaderEvent)
    (pol : Option Nat) : Messenger × Option Nat :=
  match getPipe ms id with
  | none => (ms, pol)
  | some p =>
    if p.state = PipeState.STATE_CLOSED ∨ p.state = PipeState.STATE_CONNECTING then (ms, pol)
    else if p.state = PipeState.STATE_STANDBY then (ms, pol)
    else reader_handle complete ms id ev pol


/-! ## Connect and the writer loop -/

/-- Modelled from the spec: `get_global_seq(old)` is defined in `SimpleMessenger.h`,
which is not among the sources; the messenger's process-wide connection counter is
raised to `old` when it is below it and then advanced by one.  Returns the messenger
and the new counter. -/
def get_global_seq (ms : Messenger) (old : Nat) : Messenger × Nat :=
  ({ ms with global_seq := max ms.global_seq old + 1 }, max ms.global_seq old + 1)

/-- Modelled from the spec: `DispatchQueue::queue_connect` is defined in
`SimpleMessenger.h`, which is not among the sources; it enqueues a `connect` event
for the connection: the connection joins `connect_q`, where `dispatch_entry` looks
for it on meeting the signal `D_CONNECT`. -/
def queue_connect (ms : Messenger) (con : Nat) : Messenger :=
  local_delivery
    { ms with dispatch_queue :=
                { ms.dispatch_queue with connect_q := ms.dispatch_queue.connect_q ++ [con] } }
    QItem.D_CONNECT CEPH_MSG_PRIO_HIGHEST

/-- The local variables of `Pipe::connect` that live across passes of its loop, with
the record of the `force_new` arguments of the calls to `get_authorizer` so far. -/
structure ConnectLocals where
  cseq : Nat
  gseq : Nat
  got_bad_auth : Bool
  authorizer_requests : List Bool
  deriving DecidableEq, Repr

/-- What the socket gives during one pass of the loop of `connect`: an I/O or
authorizer-reply failure, or a reply record.  For a `SEQ` reply `seq_io` is the
`newly_acked_seq` read (`none` when that read fails) with the success of writing
`in_seq` back. -/
inductive ConnectRead
  | io_error
  | reply (r : ceph_msg_connect_reply) (seq_io : Option (Nat × Bool))
  deriving DecidableEq, Repr

/-- How `connect` stands after some passes: it has returned `ret`, it is still in its
loop waiting for the next reply, or an `assert` has failed. -/
inductive ConnectResult
  | returned (ms : Messenger) (ret : Int)
  | reading (ms : Messenger) (l : ConnectLocals)
  | assert_fail
  deriving DecidableEq, Repr

/-- The messenger that a `connect` result carries, if it has not aborted. -/
def ConnectResult.messenger : ConnectResult → Option Messenger
  | ConnectResult.returned ms _ => some ms
  | ConnectResult.reading ms _ => some ms
  | ConnectResult.assert_fail => none

/-- The return value of `connect`, if it has returned. -/
def ConnectResult.ret : ConnectResult → Option Int
  | ConnectResult.returned _ r => some r
  | _ => none

/-- The connect record that a pass of the loop sends. -/
def connect_record (K : Consts) (ms : Messenger) (p : Pipe) (l : ConnectLocals) :
    ceph_msg_connect :=
  { features := p.policy.features_supported
    host_type := ms.my_type
    global_seq := l.gseq
    connect_seq := l.cseq
    protocol_version := get_proto_version K ms.my_type p.peer_type true
    authorizer_protocol := 0
    authorizer_len := 0
    flags := if p.policy.lossy then K.CEPH_MSG_CONNECT_LOSSY else 0 }

/-- The labels `fail` / `fail_locked` of `Pipe::connect`, through `stop_locked`. -/
def connect_fail (ms : Messenger) (id : Nat) : ConnectResult :=
  match getPipe ms id with
  | none => ConnectResult.returned ms (-1)
  | some p =>
    if p.state = PipeState.STATE_CONNECTING then
      ConnectResult.returned (fault ms id true false) (-1)
    else ConnectResult.returned ms (-1)

/-- The pipe as the "hooray" block of `connect` leaves it for a READY or SEQ reply. -/
def connect_opened (K : Consts) (p : Pipe) (l : ConnectLocals) (r : ceph_msg_connect_reply) :
    Pipe :=
  { p with
    peer_global_seq := r.global_seq
    policy := if !p.disposable then
                { p.policy with lossy := decide (r.flags &&& K.CEPH_MSG_CONNECT_LOSSY ≠ 0) }
              else p.policy
    state := PipeState.STATE_OPEN
    connect_seq := inc32 l.cseq }

/-- The "hooray" block of `connect` for a READY or SEQ reply. -/
def connect_success (K : Consts) (ms : Messenger) (id : Nat) (p : Pipe) (l : ConnectLocals)
    (r : ceph_msg_connect_reply) : ConnectResult :=
  if (connect_opened K p l r).connect_seq ≠ r.connect_seq then ConnectResult.assert_fail
  else if !ms.destination_stopped then
    ConnectResult.returned
      (queue_connect
        (set_features (setPipe ms id (connect_opened K p l r)) p.connection_state
          ((r.features % 2 ^ 32) &&& ((connect_record K ms p l).features % 2 ^ 32)))
        p.connection_state) 0
  else
    ConnectResult.returned
      (set_features (setPipe ms id (connect_opened K p l r)) p.connection_state
        ((r.features % 2 ^ 32) &&& ((connect_record K ms p l).features % 2 ^ 32))) 0

/-- One pass of the `while (1)` loop of `Pipe::connect` from `get_authorizer` to the
`continue`, `return` or `goto` that ends it.  `inl` carries the locals into the next
pass. -/
def connect_pass (K : Consts) (ms : Messenger) (id : Nat) (l0 : ConnectLocals)
    (rd : ConnectRead) : (Messenger × ConnectLocals) ⊕ ConnectResult :=
  let l : ConnectLocals := { l0 with authorizer_requests := l0.authorizer_requests ++ [false] }
  match rd with
  | ConnectRead.io_error => Sum.inr (connect_fail ms id)
  | ConnectRead.reply r seq_io =>
    match getPipe ms id with
    | none => Sum.inr (ConnectResult.returned ms (-1))
    | some p =>
      if p.state ≠ PipeState.STATE_CONNECTING then Sum.inr (ConnectResult.returned ms (-1))
      else
        match r.tag with
        | some Tag.FEATURES => Sum.inr (connect_fail ms id)
        | some Tag.BADPROTOVER => Sum.inr (connect_fail ms id)
        | some Tag.BADAUTHORIZER =>
          if l.got_bad_auth then Sum.inr (ConnectResult.returned ms (-1))
          else
            Sum.inl (ms, { l with got_bad_auth := true,
                                  authorizer_requests := l.authorizer_requests ++ [true] })
        | some Tag.RESETSESSION =>
          let ms1 := was_session_reset ms id
          match getPipe ms1 id with
          | none => Sum.inr (ConnectResult.returned ms1 (-1))
          | some p1 => Sum.inl (setPipe ms1 id { p1 with halt_delivery := false },
                                { l with cseq := 0 })
        | some Tag.RETRY_GLOBAL =>
          Sum.inl ((get_global_seq ms r.global_seq).1,
                   { l with gseq := (get_global_seq ms r.global_seq).2 })
        | some Tag.RETRY_SESSION =>
          if ¬ (r.connect_seq > p.connect_seq) then Sum.inr ConnectResult.assert_fail
          else Sum.inl (setPipe ms id { p with connect_seq := r.connect_seq },
                        { l with cseq := r.connect_seq })
        | some Tag.WAIT =>
          Sum.inr (ConnectResult.returned (setPipe ms id { p with state := PipeState.STATE_WAIT })
            (-1))
        | some Tag.READY =>
          if feat_missing p.policy.features_required r.features ≠ 0 then
            Sum.inr (connect_fail ms id)
          else Sum.inr (connect_success K ms id p l r)
        | some Tag.SEQ =>
          if feat_missing p.policy.features_required r.features ≠ 0 then
            Sum.inr (connect_fail ms id)
          else
            match seq_io with
            | none => Sum.inr (connect_fail ms id)
            | some (newly_acked_seq, write_ok) =>
              if write_ok then
                Sum.inr (connect_success K (setPipe ms id (handle_ack p newly_acked_seq)) id
                  (handle_ack p newly_acked_seq) l r)
              else
                Sum.inr (connect_fail (setPipe ms id (handle_ack p newly_acked_seq)) id)
        | none => Sum.inr (connect_fail ms id)

/-- The loop of `Pipe::connect` over the replies the socket gives, one per pass. -/
def connect_loop (K : Consts) (ms : Messenger) (id : Nat) (l : ConnectLocals) :
    List ConnectRead → ConnectResult
  | [] => ConnectResult.reading ms l
  | rd :: rest =>
    match connect_pass K ms id l rd with
    | Sum.inl (ms1, l1) => connect_loop K ms1 id l1 rest
    | Sum.inr res => res

/-- The function `Pipe::connect` for the pipe named `id`: `prelude_ok` tells whether
the socket, banner and address exchange before the loop succeed, `reads` is what the
socket gives to the passes of the loop. -/
def connect (K : Consts) (ms : Messenger) (id : Nat) (prelude_ok : Bool)
    (reads : List ConnectRead) : ConnectResult :=
  match getPipe ms id with
  | none => ConnectResult.returned ms (-1)
  | some p =>
    let g := get_global_seq ms 0
    if !prelude_ok then connect_fail g.1 id
    else
      connect_loop K g.1 id
        { cseq := p.connect_seq, gseq := g.2, got_bad_auth := false, authorizer_requests := [] }
        reads

/-- What the socket gives during one pass of the writer's loop. -/
structure WriterIO where
  prelude_ok : Bool
  reads : List ConnectRead
  keepalive_ok : Bool
  ack_ok : Bool
  msg_ok : Bool
  deriving DecidableEq, Repr

/-- The "standby?" block of the writer's loop: a Standby pipe with something queued,
on the side that is not the server, starts to connect. -/
def writer_wake (p : Pipe) : Pipe :=
  if is_queued p ∧ p.state = PipeState.STATE_STANDBY ∧ p.policy.server = false then
    { p with connect_seq := inc32 p.connect_seq, state := PipeState.STATE_CONNECTING }
  else p

/-- The "connect?" block of the writer's loop on the server side: a Connecting pipe
goes to Standby. -/
def writer_server (p : Pipe) : Pipe :=
  if p.state = PipeState.STATE_CONNECTING then { p with state := PipeState.STATE_STANDBY } else p

/-- The "send ack?" block of the writer's loop when the ACK is written. -/
def writer_acked (p : Pipe) : Pipe :=
  if p.in_seq > p.in_seq_acked then { p with in_seq_acked := p.in_seq } else p

/-- The sending block of the writer's loop: keepalive, ACK, next message; a failed
write goes through `fault()`. -/
def writer_send_block (ms : Messenger) (id : Nat) (p : Pipe) (io : WriterIO) : Messenger :=
  if p.keepalive ∧ io.keepalive_ok = false then fault (setPipe ms id p) id false false
  else if p.in_seq > p.in_seq_acked ∧ io.ack_ok = false then
    fault (setPipe ms id { p with keepalive := false }) id false false
  else
    match writer_send (writer_acked { p with keepalive := false }) with
    | (none, p5) => setPipe ms id p5
    | (some _, p5) =>
      if io.msg_ok then setPipe ms id p5 else fault (setPipe ms id p5) id false false

/-- One pass through the `while (state != STATE_CLOSED)` loop of `Pipe::writer`, from
the loop test to the `continue` or the wait; a Closed pipe ends the loop.  `none`
when an `assert` of `connect` fails; a `connect` still in its loop leaves the pass
unfinished with the messenger as it is then. -/
def writer_step (K : Consts) (ms : Messenger) (id : Nat) (io : WriterIO) : Option Messenger :=
  match getPipe ms id with
  | none => some ms
  | some p0 =>
    if p0.state = PipeState.STATE_CLOSED then some ms
    else if (writer_wake p0).state = PipeState.STATE_CONNECTING ∧
        (writer_wake p0).policy.server = false then
      (connect K (setPipe ms id (writer_wake p0)) id io.prelude_ok io.reads).messenger
    else if (writer_server (writer_wake p0)).state = PipeState.STATE_CLOSING then
      some (setPipe ms id
        { writer_server (writer_wake p0) with state := PipeState.STATE_CLOSED })
    else if (writer_server (writer_wake p0)).state ≠ PipeState.STATE_CONNECTING ∧
        (writer_server (writer_wake p0)).state ≠ PipeState.STATE_WAIT ∧
        (writer_server (writer_wake p0)).state ≠ PipeState.STATE_STANDBY ∧
        (is_queued (writer_server (writer_wake p0)) ∨
          (writer_server (writer_wake p0)).in_seq >
            (writer_server (writer_wake p0)).in_seq_acked) then
      some (writer_send_block ms id (writer_server (writer_wake p0)) io)
    else if (writer_server (writer_wake p0)).sent.isEmpty ∧
        (writer_server (writer_wake p0)).close_on_empty then
      some (fault
        (setPipe ms id
          { writer_server (writer_wake p0) with
            policy := { (writer_server (writer_wake p0)).policy with lossy := true } })
        id false false)
    else some (setPipe ms id (writer_server (writer_wake p0)))

/-! ## The accepter: binding the listen socket -/

/-- The constants `CEPH_PORT_START` and `CEPH_PORT_LAST`, which `SimpleMessenger.cc`
takes from a header it includes; their values are parameters. -/
structure PortRange where
  CEPH_PORT_START : Nat
  CEPH_PORT_LAST : Nat
  deriving DecidableEq, Repr

/-- What the operating system answers to the calls of `Accepter::bind`.  Each answer is
the `errno` of the call, 0 standing for success (the call returns 0) and anything
else for failure (the call returns -1 and sets `errno`); `errno0` is the value of
`errno` on entry. -/
structure SocketOS where
  errno0 : Nat
  socket : Nat
  bind : Nat → Nat
  listen : Nat

/-- The fields that `Accepter::bind` writes: the port of `msgr->ms_addr`, the flag
`msgr->did_bind`, and the port the listen socket is bound to. -/
structure AccepterState where
  ms_port : Nat
  did_bind : Bool
  listen_port : Option Nat
  deriving DecidableEq, Repr

/-- The variables of the port loop of `bind`: `rc`, `errno` and the port last stored
in `listen_addr`. -/
structure ScanState where
  rc : Int
  errno : Nat
  port : Nat
  deriving DecidableEq, Repr

/-- The loop `for (port = CEPH_PORT_START; port <= CEPH_PORT_LAST; port++)` of `bind`
over the ports still to visit: an avoided port is skipped, a port is tried with
`::bind`, and the first success breaks out. -/
def scan_ports (os : SocketOS) (avoid_port1 avoid_port2 : Int) :
    List Nat → ScanState → ScanState
  | [], s => s
  | port :: rest, s =>
    if (port : Int) = avoid_port1 ∨ (port : Int) = avoid_port2 then
      scan_ports os avoid_port1 avoid_port2 rest s
    else if os.bind port = 0 then { rc := 0, errno := s.errno, port := port }
    else scan_ports os avoid_port1 avoid_port2 rest { rc := -1, errno := os.bind port, port := port }

/-- The ports `CEPH_PORT_START .. CEPH_PORT_LAST` in the order the loop visits them. -/
def port_list (C : PortRange) : List Nat :=
  List.range' C.CEPH_PORT_START (C.CEPH_PORT_LAST + 1 - C.CEPH_PORT_START)

/-- The function `Accepter::bind(nonce, bind_addr, avoid_port1, avoid_port2)`, where
`bind_port` is the port of `bind_addr`.  Returns the return value and the state. -/
def Accepter_bind (C : PortRange) (os : SocketOS) (st : AccepterState) (bind_port : Nat)
    (avoid_port1 avoid_port2 : Int) : Int × AccepterState :=
  if os.socket ≠ 0 then (-(os.socket : Int), st)
  else if bind_port ≠ 0 then
    if os.bind bind_port ≠ 0 then (-(os.bind bind_port : Int), st)
    else if os.listen ≠ 0 then
      (-(os.listen : Int), { st with listen_port := some bind_port })
    else (0, { ms_port := bind_port, did_bind := true, listen_port := some bind_port })
  else
    let s := scan_ports os avoid_port1 avoid_port2 (port_list C)
      { rc := -1, errno := os.errno0, port := 0 }
    if s.rc < 0 then (-(s.errno : Int), st)
    else if os.listen ≠ 0 then (-(os.listen : Int), { st with listen_port := some s.port })
    else (0, { ms_port := s.port, did_bind := true, listen_port := some s.port })

/-- The function `Accepter::stop`: the listen socket is closed and `msgr->did_bind` is
cleared. -/
def Accepter_stop (st : AccepterState) : AccepterState :=
  { st with listen_port := none, did_bind := false }

/-- The function `Accepter::rebind(avoid_port)`; `none` when `assert(msgr->did_bind)`
fails.  After `stop()` it calls `bind` with port 0, avoiding the old port and
`avoid_port`. -/
def Accepter_rebind (C : PortRange) (os : SocketOS) (st : AccepterState) (avoid_port : Int) :
    Option (Int × AccepterState) :=
  if st.did_bind then
    some (Accepter_bind C os (Accepter_stop st) 0 (st.ms_port : Int) avoid_port)
  else none

/-! ## The gateway: listing a bucket -/

/-- The value of `s.find(delim, pos)` of `std::string`: the first position at or after
`pos` where `delim` occurs in `s`, searched through `fuel` positions; `none` is
`npos`. -/
def str_find_from (delim : List Char) : Nat → List Char → Nat → Option Nat
  | 0, s, pos => if delim.isPrefixOf s then some pos else none
  | fuel + 1, s, pos =>
    if delim.isPrefixOf s then some pos
    else
      match s with
      | [] => none
      | _ :: t => str_find_from delim fuel t (pos + 1)

/-- The value of `s.find(delim, pos)`. -/
def str_find (s delim : List Char) (pos : Nat) : Option Nat :=
  if pos ≤ s.length then str_find_from delim (s.length - pos) (s.drop pos) pos else none

/-- What the loop of `list_objects` has built so far. -/
structure Listing where
  result : List Nat
  common_prefixes : List (List Char × Bool)
  count : Nat
  deriving DecidableEq, Repr

/-- The body of the `for` loop of `RGWRados::list_objects` for one entry of `ent_map`
(the raw name `key` and the entry, named by a number).  `translate` stands for
`rgw_obj::translate_raw_obj_to_obj_in_ns` (the name in the namespace, `none` when it
returns false) and `filter` for the optional access-list filter. -/
def list_entry (translate : List Char → Option (List Char))
    (filter : List Char → List Char → Bool) (prefix_ delim : List Char)
    (acc : Listing) (ent : List Char × Nat) : Listing :=
  match translate ent.1 with
  | none => acc
  | some obj =>
    if !filter obj ent.1 then acc
    else if prefix_.length ≠ 0 ∧ obj.take prefix_.length ≠ prefix_ then acc
    else
      let delim_pos : Int :=
        match str_find obj delim prefix_.length with
        | none => -1
        | some i => (i : Int)
      if !delim.isEmpty ∧ delim_pos ≥ 0 then
        { acc with
          common_prefixes := mset acc.common_prefixes (obj.take (delim_pos + 1).toNat) true }
      else { acc with result := acc.result ++ [ent.2], count := acc.count + 1 }

/-- The `do ... while (truncated && count < max)` loop of `list_objects` over the
answers of the bucket index, each an error code `r`, the map of entries and the
`truncated` flag.  Returns the return value and the listing; `none` while the loop
waits for a further answer. -/
def list_objects (translate : List Char → Option (List Char))
    (filter : List Char → List Char → Bool) (max : Int) (prefix_ delim : List Char) :
    List (Int × List (List Char × Nat) × Bool) → Listing → Option (Int × Listing)
  | [], _ => none
  | (r, ent_map, truncated) :: rest, acc =>
    if r < 0 then some (r, acc)
    else
      let acc1 := ent_map.foldl (list_entry translate filter prefix_ delim) acc
      if truncated ∧ (acc1.count : Int) < max then
        list_objects translate filter max prefix_ delim rest acc1
      else some (0, acc1)

/-! ## The dispatch loop -/

/-- One pass of the inner loop of `dispatch_entry`, from the choice of the pipe to the
two queue-length counters: the item dequeued and the messenger afterwards.  `none`
when the loop does not run (nothing queued, or `stop`), and where the C++ would read
the front of an empty list or a missing queue item. -/
def dispatch_step (ms : Messenger) : Option (QItem × Messenger) :=
  if ms.dispatch_queue.stop then none
  else
    match maxPrio (mkeys ms.dispatch_queue.queued_pipes) with
    | none => none
    | some priority =>
      match qat ms.dispatch_queue.queued_pipes priority with
      | [] => none
      | pid :: rest =>
        match getPipe ms pid with
        | none => none
        | some p =>
          match qat p.in_q priority with
          | [] => none
          | m :: m_queue =>
            if m_queue.isEmpty then
              some (m,
                { ms with
                  pipes := mset ms.pipes pid
                    { p with in_q := mset p.in_q priority m_queue, in_qlen := p.in_qlen - 1 }
                  dispatch_queue :=
                    { ms.dispatch_queue with
                      queued_pipes :=
                        if rest.isEmpty then merase ms.dispatch_queue.queued_pipes priority
                        else mset ms.dispatch_queue.queued_pipes priority rest
                      qlen := ms.dispatch_queue.qlen - 1 } })
            else if priority ∈ p.queue_items then
              some (m,
                { ms with
                  pipes := mset ms.pipes pid
                    { p with in_q := mset p.in_q priority m_queue, in_qlen := p.in_qlen - 1 }
                  dispatch_queue :=
                    { ms.dispatch_queue with
                      queued_pipes :=
                        mset ms.dispatch_queue.queued_pipes priority (xpush (pid :: rest) pid)
                      qlen := ms.dispatch_queue.qlen - 1 } })
            else none

/-! ## Messenger operations -/

/-- Why an operation of the messenger aborts: the `assert` of `register_pipe`, the
`assert(addr != ms_addr)` of `connect_rank`, the `assert(0)` of `submit_message` for a
local destination that has stopped, the `assert(pipes.count(p))` of the reaper, or the
use of a pipe that the messenger no longer holds. -/
inductive Abort
  | register_pipe
  | connect_rank_addr
  | local_stopped
  | reaper_pipes
  | dangling
  deriving DecidableEq, Repr

/-- A name that no entry of the container uses: where a `new` object goes. -/
def fresh_key {ν : Type} (l : List (Nat × ν)) : Nat :=
  (mkeys l).foldr (fun k acc => max (k + 1) acc) 0

/-- Modelled from the spec: the `Pipe` constructor is defined in `SimpleMessenger.h`,
which is not among the sources; per the spec a pipe is constructed in Accepting or
Connecting with empty queues and zero counters, and owns a Connection whose pipe slot
refers back to it.  The peer address, peer type and policy are what the caller stores
right after the construction.  Returns the messenger and the name of the pipe. -/
def new_pipe (ms : Messenger) (st : PipeState) (pol : Policy) (addr : entity_addr_t)
    (type : Nat) : Messenger × Nat :=
  ({ ms with
     pipes := mset ms.pipes (fresh_key ms.pipes)
       { Pipe.fresh st pol addr (fresh_key ms.connections) with peer_type := type }
     connections := mset ms.connections (fresh_key ms.connections)
       { pipe := some (fresh_key ms.pipes), features := 0 } },
   fresh_key ms.pipes)

/-- The `new Pipe(msgr, Pipe::STATE_ACCEPTING)` block of `Accepter::entry` for an
accepted socket. -/
def accepter_new (ms : Messenger) : Messenger :=
  if !ms.destination_stopped then
    (new_pipe ms PipeState.STATE_ACCEPTING (Policy.plain false false) 0 0).1
  else ms

/-- The function `SimpleMessenger::connect_rank(addr, type)`: the new pipe is
registered.  Returns the messenger and the name of the pipe. -/
def connect_rank (ms : Messenger) (addr : entity_addr_t) (type : Nat) :
    Except Abort (Messenger × Nat) :=
  if addr = ms.ms_addr then Except.error Abort.connect_rank_addr
  else
    match register_pipe (new_pipe ms PipeState.STATE_CONNECTING (get_policy ms type) addr type).1
        (new_pipe ms PipeState.STATE_CONNECTING (get_policy ms type) addr type).2 with
    | none => Except.error Abort.register_pipe
    | some ms1 =>
      Except.ok (ms1, (new_pipe ms PipeState.STATE_CONNECTING (get_policy ms type) addr type).2)

/-- Modelled from the spec: `Pipe::_send` is defined in `SimpleMessenger.h`, which is
not among the sources; per the spec the message is appended to the outbound queue of
its priority. -/
def _send (p : Pipe) (m : Message) : Pipe :=
  { p with out_q := mset p.out_q m.priority (qat p.out_q m.priority ++ [m]) }

/-- Modelled from the spec: `Pipe::_send_keepalive` is defined in `SimpleMessenger.h`,
which is not among the sources; it asks the writer for a keepalive. -/
def _send_keepalive (p : Pipe) : Pipe := { p with keepalive := true }

/-- Modelled from the spec: `Connection::get_pipe` is defined in a header that is not
among the sources; it gives the pipe in the connection's pipe slot. -/
def get_pipe (ms : Messenger) (con : Nat) : Option Nat :=
  (mfind ms.connections con).bind (fun c => c.pipe)

/-- Modelled from the spec: `Connection::clear_pipe` is defined in a header that is
not among the sources; it empties the connection's pipe slot. -/
def clear_pipe (ms : Messenger) (con : Nat) : Messenger :=
  match mfind ms.connections con with
  | none => ms
  | some c => { ms with connections := mset ms.connections con { c with pipe := none } }

/-- Modelled from the spec: `entity_addr_t()`, the blank address, is defined in a
header that is not among the sources; it is the least address. -/
def blank_addr : entity_addr_t := 0

/-- The function `SimpleMessenger::submit_message(m, pipe)`. -/
def submit_message_pipe (ms : Messenger) (m : Message) (pipe : Nat) : Messenger :=
  if pipe = ms.dispatch_queue.local_pipe then local_delivery ms (QItem.msg m) m.priority
  else
    match getPipe ms pipe with
    | none => ms
    | some p =>
      if p.state = PipeState.STATE_CLOSED then unregister_pipe ms pipe
      else setPipe ms pipe (_send p m)

/-- The "no pipe" block of `submit_message(m, dest_addr, dest_type, lazy)`. -/
def submit_new (ms : Messenger) (m : Message) (dest_addr : entity_addr_t) (dest_type : Nat)
    (lazy : Bool) : Except Abort Messenger :=
  if (get_policy ms dest_type).lossy && (get_policy ms dest_type).server then Except.ok ms
  else if lazy then Except.ok ms
  else
    match connect_rank ms dest_addr dest_type with
    | Except.error e => Except.error e
    | Except.ok (ms1, pid) =>
      match getPipe ms1 pid with
      | none => Except.error Abort.dangling
      | some p => Except.ok (setPipe ms1 pid (_send p m))

/-- The function `SimpleMessenger::submit_message(m, dest_addr, dest_type, lazy)`. -/
def submit_message (ms : Messenger) (m : Message) (dest_addr : entity_addr_t) (dest_type : Nat)
    (lazy : Bool) : Except Abort Messenger :=
  if dest_addr = blank_addr then Except.ok ms
  else if ms.ms_addr = dest_addr then
    if !ms.destination_stopped then Except.ok (local_delivery ms (QItem.msg m) m.priority)
    else Except.error Abort.local_stopped
  else
    match mfind ms.rank_pipe dest_addr with
    | none => submit_new ms m dest_addr dest_type lazy
    | some pid =>
      match getPipe ms pid with
      | none => Except.error Abort.dangling
      | some p =>
        if p.state = PipeState.STATE_CLOSED then
          submit_new (unregister_pipe ms pid) m dest_addr dest_type lazy
        else Except.ok (setPipe ms pid (_send p m))

/-- The "no pipe" block of `get_connection`. -/
def get_connection_new (ms : Messenger) (dest_addr : entity_addr_t) (dest_type : Nat) :
    Except Abort (Messenger × Option Nat) :=
  if (get_policy ms dest_type).lossy && (get_policy ms dest_type).server then
    Except.ok (ms, none)
  else
    match connect_rank ms dest_addr dest_type with
    | Except.error e => Except.error e
    | Except.ok (ms1, pid) => Except.ok (ms1, (getPipe ms1 pid).map (fun p => p.connection_state))

/-- The function `SimpleMessenger::get_connection(dest)`: the messenger and the
connection returned. -/
def get_connection (ms : Messenger) (dest_addr : entity_addr_t) (dest_type : Nat) :
    Except Abort (Messenger × Option Nat) :=
  if ms.ms_addr = dest_addr then
    Except.ok (ms, (getPipe ms ms.dispatch_queue.local_pipe).map (fun p => p.connection_state))
  else
    match mfind ms.rank_pipe dest_addr with
    | none => get_connection_new ms dest_addr dest_type
    | some pid =>
      match getPipe ms pid with
      | none => Except.error Abort.dangling
      | some p =>
        if p.state = PipeState.STATE_CLOSED then
          get_connection_new (unregister_pipe ms pid) dest_addr dest_type
        else Except.ok (ms, some p.connection_state)

/-- The function `SimpleMessenger::prepare_dest(inst)`. -/
def prepare_dest (ms : Messenger) (addr : entity_addr_t) (type : Nat) : Except Abort Messenger :=
  if mcount ms.rank_pipe addr = false then
    match connect_rank ms addr type with
    | Except.error e => Except.error e
    | Except.ok (ms1, _) => Except.ok ms1
  else Except.ok ms

/-- The function `SimpleMessenger::send_keepalive(dest)`. -/
def send_keepalive (ms : Messenger) (dest_addr : entity_addr_t) : Except Abort Messenger :=
  if ms.ms_addr ≠ dest_addr then
    match mfind ms.rank_pipe dest_addr with
    | none => Except.ok ms
    | some pid =>
      match getPipe ms pid with
      | none => Except.error Abort.dangling
      | some p =>
        if p.state = PipeState.STATE_CLOSED then Except.ok (unregister_pipe ms pid)
        else Except.ok (setPipe ms pid (_send_keepalive p))
  else Except.ok ms

/-- The function `SimpleMessenger::send_keepalive(con)`. -/
def send_keepalive_con (ms : Messenger) (con : Nat) : Messenger :=
  match get_pipe ms con with
  | none => ms
  | some pid =>
    match getPipe ms pid with
    | none => ms
    | some p => setPipe ms pid (_send_keepalive p)

/-- The calls `p->unregister_pipe(); p->stop();` that the three `mark_down` functions
make on a pipe. -/
def mark_down_pipe (ms : Messenger) (pid : Nat) : Messenger :=
  match getPipe (unregister_pipe ms pid) pid with
  | none => unregister_pipe ms pid
  | some p => setPipe (unregister_pipe ms pid) pid (stop p)

/-- The loop of `mark_down_all`, at most `n` rounds: the first entry of the table is
erased and its pipe unregistered and stopped. -/
def mark_down_all_loop : Nat → Messenger → Messenger
  | 0, ms => ms
  | n + 1, ms =>
    match ms.rank_pipe with
    | [] => ms
    | (a, pid) :: _ =>
      mark_down_all_loop n (mark_down_pipe { ms with rank_pipe := merase ms.rank_pipe a } pid)

/-- The function `SimpleMessenger::mark_down_all`; every round erases an entry, so as
many rounds as the table has entries empty it. -/
def mark_down_all (ms : Messenger) : Messenger := mark_down_all_loop ms.rank_pipe.length ms

/-- The function `SimpleMessenger::mark_down(addr)`. -/
def mark_down (ms : Messenger) (addr : entity_addr_t) : Messenger :=
  match mfind ms.rank_pipe addr with
  | none => ms
  | some pid => mark_down_pipe ms pid

/-- The function `SimpleMessenger::mark_down(con)`. -/
def mark_down_con (ms : Messenger) (con : Nat) : Messenger :=
  match get_pipe ms con with
  | none => ms
  | some pid => mark_down_pipe ms pid

/-- The function `SimpleMessenger::mark_down_on_empty(con)`. -/
def mark_down_on_empty (ms : Messenger) (con : Nat) : Messenger :=
  match get_pipe ms con with
  | none => ms
  | some pid =>
    match getPipe (unregister_pipe ms pid) pid with
    | none => unregister_pipe ms pid
    | some p =>
      if p.out_q.isEmpty then setPipe (unregister_pipe ms pid) pid (stop p)
      else setPipe (unregister_pipe ms pid) pid { p with close_on_empty := true }

/-- The function `SimpleMessenger::mark_disposable(con)`. -/
def mark_disposable (ms : Messenger) (con : Nat) : Messenger :=
  match get_pipe ms con with
  | none => ms
  | some pid =>
    match getPipe ms pid with
    | none => ms
    | some p =>
      setPipe ms pid { p with policy := { p.policy with lossy := true }, disposable := true }

/-- One round of the loop of `SimpleMessenger::reaper` for the pipe `pid` at the front
of the reap queue. -/
def reaper (ms : Messenger) (pid : Nat) : Except Abort Messenger :=
  match getPipe ms pid with
  | none => Except.error Abort.reaper_pipes
  | some p =>
    Except.ok (clear_pipe
      { unregister_pipe (putCtx ms (discard_queue (ctxOf ms pid p))) pid with
        pipes := merase (unregister_pipe (putCtx ms (discard_queue (ctxOf ms pid p))) pid).pipes
          pid }
      p.connection_state)

/-! ## Accept, from the banner to the end -/

/-- The part of `Pipe::accept` before its loop: the banner and address exchange, which
either fails (the pipe is Closed and `accept` returns) or ends with the peer's address
in `peer_addr`.  `none` when `assert(state == STATE_ACCEPTING)` fails. -/
def accept_begin (ms : Messenger) (self : Nat) (io_ok : Bool) (addr : entity_addr_t) :
    Option Messenger :=
  match getPipe ms self with
  | none => none
  | some p =>
    if p.state ≠ PipeState.STATE_ACCEPTING then none
    else if !io_ok then some (setPipe ms self { p with state := PipeState.STATE_CLOSED })
    else some (setPipe ms self { p with peer_addr := addr })

/-- What the socket gives after `accept` has registered the pipe: whether the reply is
written, and for a SEQ reply the `newly_acked_seq` read from the peer (`none` when
writing `in_seq` or reading the answer fails). -/
structure AcceptIO where
  reply_ok : Bool
  seq_io : Option Nat
  deriving DecidableEq, Repr

/-- The tail of `Pipe::accept` after `register_pipe()`: the reply goes out and, for a
SEQ reply, the sequence numbers are exchanged and `requeue_sent(newly_acked_seq)`
runs; a failure goes to `fail_unlocked`. -/
def accept_finish (ms : Messenger) (self : Nat) (reply : ceph_msg_connect_reply)
    (io : AcceptIO) : Messenger :=
  if !io.reply_ok then accept_fail ms self
  else if reply.tag = some Tag.SEQ then
    match io.seq_io with
    | none => accept_fail ms self
    | some newly_acked_seq =>
      match getPipe ms self with
      | none => ms
      | some p => setPipe ms self (requeue_sent newly_acked_seq p)
  else ms

/-- One pass of the loop of `Pipe::accept` for the connect record `connect`, taken to
where `msgr->lock` is released: a reply is written (`reply_ok` tells whether the
write succeeds) and the loop goes on, or the pass goes through `replace` / `open`
and registers the pipe.  `none` when an `assert` fails. -/
def accept_pass (K : Consts) (ms : Messenger) (self : Nat) (connect : ceph_msg_connect)
    (verify : Bool × Bool) (reply_ok : Bool) : Option Messenger :=
  match getPipe ms self with
  | none => none
  | some p =>
    if p.state ≠ PipeState.STATE_ACCEPTING then none
    else
      match (accept_record K ms self connect verify).step,
          (accept_record K ms self connect verify).existing with
      | AcceptStep.reply _ _ _, _ =>
        some (accept_reply (accept_record K ms self connect verify).ms self reply_ok)
      | AcceptStep.replace _, some eid =>
        (accept_replace_open K (accept_record K ms self connect verify).ms self eid connect).map
          (fun x => x.1)
      | AcceptStep.replace _, none => none
      | AcceptStep.open_new, _ =>
        (accept_open K (accept_record K ms self connect verify).ms self connect none).map
          (fun x => x.1)
      | AcceptStep.assert_fail, _ => none

/-- The jump to `fail_unlocked` from the top of the loop of `accept`, when the connect
record cannot be read.  `none` when the pipe is not in `accept`. -/
def accept_read_fail (ms : Messenger) (self : Nat) : Option Messenger :=
  match getPipe ms self with
  | none => none
  | some p =>
    if p.state ≠ PipeState.STATE_ACCEPTING then none else some (accept_fail ms self)

/-! ## The reply record of `accept` -/

/-- The record that the label `reply` of `Pipe::accept` writes for the accepting pipe
`p`: the record was zeroed, the protocol version filled in, the tag and the sequence
numbers set by the branch that replies, and the features are computed at the
label. -/
def accept_reply_record (K : Consts) (ms : Messenger) (p : Pipe) (connect : ceph_msg_connect)
    (t : Tag) (global_seq connect_seq : Nat) : ceph_msg_connect_reply :=
  { tag := some t
    features := ((connect.features % 2 ^ 64) &&& p.policy.features_supported)
                  ||| p.policy.features_required
    global_seq := global_seq
    connect_seq := connect_seq
    protocol_version := get_proto_version K ms.my_type p.peer_type false
    flags := 0 }

/-- The reply record that a pass of the loop of `accept` writes, when the pass ends
at the label `reply`. -/
def accept_wire_reply (K : Consts) (res : AcceptResult) (self : Nat)
    (connect : ceph_msg_connect) : Option ceph_msg_connect_reply :=
  match res.step with
  | AcceptStep.reply t g cs =>
    (getPipe res.ms self).map (fun p => accept_reply_record K res.ms p connect t g cs)
  | _ => none

/-! ## The backoff of `fault` -/

/-- The two settings of `md_config_t` that `Pipe::fault` reads, as the `utime_t` values
that `set_from_double` makes of them, counted in nanoseconds. -/
structure md_config_t where
  ms_initial_backoff : Nat
  ms_max_backoff : Nat
  deriving DecidableEq, Repr

/-- The function `Pipe::fault(onconnect, onread)` together with the pipe's `backoff`
(a `utime_t`, counted in nanoseconds; zero is `utime_t()`): returns the messenger,
the backoff afterwards and the interval given to `cond.WaitInterval` (zero when the
call does not wait). -/
def fault_backoff (conf : md_config_t) (ms : Messenger) (id : Nat) (onconnect onread : Bool)
    (backoff : Nat) : Messenger × Nat × Nat :=
  match getPipe ms id with
  | none => (ms, backoff, 0)
  | some p =>
    if onread && p.state = PipeState.STATE_CONNECTING then (ms, backoff, 0)
    else if p.state = PipeState.STATE_CLOSED ∨ p.state = PipeState.STATE_CLOSING then
      (ms, backoff, 0)
    else if p.policy.lossy then (fail ms id, backoff, 0)
    else
      let p1 := requeue_sent 0 p
      if !is_queued p1 then
        if p1.state = PipeState.STATE_CLOSING ∨ onconnect = true then
          (setPipe ms id { p1 with state := PipeState.STATE_CLOSED }, backoff, 0)
        else
          (setPipe ms id { p1 with state := PipeState.STATE_STANDBY }, backoff, 0)
      else if p1.state ≠ PipeState.STATE_CONNECTING then
        (setPipe ms id { p1 with connect_seq := inc32 p1.connect_seq,
                                 state := PipeState.STATE_CONNECTING }, 0, 0)
      else if backoff = 0 then (setPipe ms id p1, conf.ms_initial_backoff, 0)
      else
        (setPipe ms id p1,
         (if backoff + backoff > conf.ms_max_backoff then conf.ms_max_backoff
          else backoff + backoff),
         backoff)

/-- A run of `n` consecutive calls of `fault(onconnect)` on the pipe `id`, starting
with the given `backoff`: the messenger and the backoff afterwards, and the
intervals waited, call by call. -/
def faults (conf : md_config_t) (onconnect : Bool) (id : Nat) :
    Nat → Messenger → Nat → Messenger × Nat × List Nat
  | 0, ms, backoff => (ms, backoff, [])
  | n + 1, ms, backoff =>
    let r := fault_backoff conf ms id onconnect false backoff
    let rest := faults conf onconnect id n r.1 r.2.1
    (rest.1, rest.2.1, r.2.2 :: rest.2.2)

/-- The settings `ms_initial_backoff` = 1 and `ms_max_backoff` = 8. -/
def md_config_t.sample : md_config_t := { ms_initial_backoff := 1, ms_max_backoff := 8 }

/-! ## Page-aligned receive buffers -/

/-- A chunk of a buffer list: its length, and whether it was made by
`buffer::create_page_aligned` (otherwise by `buffer::create`). -/
structure Chunk where
  len : Nat
  page_aligned : Bool
  deriving DecidableEq, Repr

/-- Modelled from the spec: `bufferlist::push_back(bufferptr&)` is defined in
`include/buffer.h`, which is not among the sources; the spec's buffer list is the
sequence of the chunks that hold its data, so a pointer of length zero adds no
chunk and any other pointer is appended. -/
def push_back (data : List Chunk) (bp : Chunk) : List Chunk :=
  if bp.len = 0 then data else data ++ [bp]

/-- The value of `~x` in the 32 bits that meet an `unsigned` operand. -/
def lnot32 (x : Nat) : Nat := (2 ^ 32 - 1) ^^^ x

/-- The constant `CEPH_PAGE_SIZE` of `include/page.h` for pages of `2 ^ shift`
bytes. -/
def CEPH_PAGE_SIZE (shift : Nat) : Nat := 2 ^ shift

/-- The constant `CEPH_PAGE_MASK` of `include/page.h`, which is
`~(CEPH_PAGE_SIZE - 1)`. -/
def CEPH_PAGE_MASK (shift : Nat) : Nat := lnot32 (CEPH_PAGE_SIZE shift - 1)

/-- The function `alloc_aligned_buffer(data, len, off)`; `len` and `off` are
`unsigned`. -/
def alloc_aligned_buffer (shift : Nat) (data : List Chunk) (len off : Nat) : List Chunk :=
  let left := len % 2 ^ 32
  let o := off % 2 ^ 32
  let unaligned : Bool := decide (o &&& lnot32 (CEPH_PAGE_MASK shift) ≠ 0)
  let head := if unaligned then
      min (CEPH_PAGE_SIZE shift - (o &&& lnot32 (CEPH_PAGE_MASK shift))) left
    else 0
  let data1 := if unaligned then push_back data { len := head, page_aligned := false } else data
  let left1 := left - head
  let middle := left1 &&& CEPH_PAGE_MASK shift
  let data2 := if middle > 0 then push_back data1 { len := middle, page_aligned := true }
    else data1
  let left2 := left1 - middle
  if left2 ≠ 0 then push_back data2 { len := left2, page_aligned := false } else data2

/-- The head chunk as the claim describes it, for `len` bytes at data offset `off`
with pages of `ps` bytes: up to the next page boundary when `off` is not aligned,
nothing otherwise. -/
def chunk_head (ps len off : Nat) : Nat :=
  if off % ps ≠ 0 then min (ps - off % ps) len else 0

/-- The page-aligned chunk as the claim describes it: the whole pages of what the
head leaves. -/
def chunk_middle (ps len off : Nat) : Nat :=
  (len - chunk_head ps len off) - (len - chunk_head ps len off) % ps

/-- The tail chunk as the claim describes it: what is left after the whole pages. -/
def chunk_tail (ps len off : Nat) : Nat := (len - chunk_head ps len off) % ps

/-- The chunks that the claim describes: head, whole pages and tail, each present
when it is not empty. -/
def aligned_chunks (ps len off : Nat) : List Chunk :=
  (if chunk_head ps len off = 0 then []
   else [{ len := chunk_head ps len off, page_aligned := false }]) ++
  (if chunk_middle ps len off = 0 then []
   else [{ len := chunk_middle ps len off, page_aligned := true }]) ++
  (if chunk_tail ps len off = 0 then []
   else [{ len := chunk_tail ps len off, page_aligned := false }])

/-! ## The gateway: parsing a Range header -/

/-- The value of `ERANGE` in `errno.h`. -/
def ERANGE : Int := 34

/-- The function `isspace` of the C locale. -/
def isspace (c : Char) : Bool := c = ' ' || (9 ≤ c.toNat && c.toNat ≤ 13)

/-- The function `isalpha` of the C locale. -/
def isalpha (c : Char) : Bool := c.isAlpha

/-- A loop `while (p(s[i])) i++` of `parse_range`, run on the characters of `s` from
position `i` on: past the last character `s[i]` is the terminating NUL, for which
`isspace` and `isalpha` are false. -/
def skip_while (p : Char → Bool) : List Char → Nat → Nat
  | [], i => i
  | c :: t, i => if p c then skip_while p t (i + 1) else i

/-- The function `strncasecmp(a, b, n)` on NUL-terminated strings given by their
characters: zero when the first `n` characters agree up to case, or the strings end
together before that. -/
def strncasecmp : List Char → List Char → Nat → Int
  | _, _, 0 => 0
  | a, b, n + 1 =>
    if (a.headD (Char.ofNat 0)).toLower ≠ (b.headD (Char.ofNat 0)).toLower then
      ((a.headD (Char.ofNat 0)).toLower.toNat : Int) - ((b.headD (Char.ofNat 0)).toLower.toNat : Int)
    else if a.headD (Char.ofNat 0) = Char.ofNat 0 then 0
    else strncasecmp a.tail b.tail n

/-- The number that a run of decimal digits at the start of `s` denotes, built up
from `acc`. -/
def digits_value : List Char → Nat → Nat
  | [], acc => acc
  | c :: t, acc => if c.isDigit then digits_value t (10 * acc + (c.toNat - 48)) else acc

/-- The function `atoll`: leading white space, an optional sign, then decimal digits
up to the first other character.  Values outside `long long` are not modelled. -/
def atoll (s : List Char) : Int :=
  match s.dropWhile isspace with
  | '-' :: t => - (digits_value t 0 : Int)
  | '+' :: t => (digits_value t 0 : Int)
  | t => (digits_value t 0 : Int)

/-- What `parse_range` returns and leaves in its reference and pointer arguments. -/
structure RangeResult where
  ret : Int
  ofs : Int
  end_ : Int
  partial_content : Bool
  deriving DecidableEq, Repr

/-- The part of `parse_range` after the unit has been cut off: `s` is what follows
`bytes=`. -/
def parse_range_tail (s : List Char) (ofs end_ : Int) : RangeResult :=
  match str_find s ['-'] 0 with
  | none => { ret := -ERANGE, ofs := ofs, end_ := end_, partial_content := false }
  | some pos =>
    let ofs_str := s.take pos
    let end_str := s.drop (pos + 1)
    let end1 := if end_str.length ≠ 0 then atoll end_str else end_
    if end_str.length ≠ 0 ∧ end1 < 0 then
      { ret := -ERANGE, ofs := ofs, end_ := end1, partial_content := true }
    else
      let ofs2 := if ofs_str.length ≠ 0 then atoll ofs_str else -end1
      let end2 := if ofs_str.length ≠ 0 then end1 else -1
      if end2 ≥ 0 ∧ end2 < ofs2 then
        { ret := -ERANGE, ofs := ofs2, end_ := end2, partial_content := true }
      else { ret := 0, ofs := ofs2, end_ := end2, partial_content := true }

/-- The function `parse_range(range, ofs, end, partial_content)`. -/
def parse_range (range : List Char) (ofs end_ : Int) : RangeResult :=
  match str_find range ['b', 'y', 't', 'e', 's', '='] 0 with
  | none =>
    let pos := skip_while isspace range 0
    let e := skip_while isalpha (range.drop pos) pos
    if strncasecmp range ['b', 'y', 't', 'e', 's'] (e - pos) ≠ 0 then
      { ret := 0, ofs := ofs, end_ := end_, partial_content := false }
    else
      let e2 := skip_while isspace (range.drop e) e
      if range.getD e2 (Char.ofNat 0) ≠ '=' then
        { ret := 0, ofs := ofs, end_ := end_, partial_content := false }
      else parse_range_tail (range.drop (e2 + 1)) ofs end_
  | some pos => parse_range_tail (range.drop (pos + 6)) ofs end_

/-- The number that a string of decimal digits denotes, as the claim reads `<a>`,
`<b>` and `<n>`. -/
def decimal (ds : List Char) : Nat := ds.foldl (fun a c => 10 * a + (c.toNat - 48)) 0

/-! ## Writing a message -/

/-- The value of `(int)n` for an unsigned 32-bit number `n`. -/
def to_int (n : Nat) : Int :=
  if n % 2 ^ 32 < 2 ^ 31 then ((n % 2 ^ 32 : Nat) : Int) else ((n % 2 ^ 32 : Nat) : Int) - 2 ^ 32

/-- What `write_message` needs of a message and its connection: the bytes of the tag,
of the header in its two layouts and of the footer, whether the connection has the
feature `CEPH_FEATURE_NOSRCADDR`, and the buffers of payload, middle and data, each
buffer given by its bytes. -/
structure WireMessage where
  tag : Nat
  header : List Nat
  oldheader : List Nat
  footer : List Nat
  nosrcaddr : Bool
  payload : List (List Nat)
  middle : List (List Nat)
  data : List (List Nat)
  deriving DecidableEq, Repr

/-- Modelled from the spec: `bufferlist::append(bufferlist&)` is defined in
`include/buffer.h`, which is not among the sources; a buffer list is the sequence of
its buffers, and appending a list appends its buffers in order.  This is `blist`
of `write_message`: payload, then middle, then data. -/
def WireMessage.blist (m : WireMessage) : List (List Nat) := m.payload ++ m.middle ++ m.data

/-- The total length of a buffer list, `bufferlist::length()`. -/
def buffers_length (bl : List (List Nat)) : Nat := (bl.map List.length).sum

/-- A call of `do_sendmsg`: the iovecs `msg.msg_iov[0 .. msg.msg_iovlen)`, each given by
the bytes it points at, and the `len` argument. -/
structure SendCall where
  iov : List (List Nat)
  len : Int
  deriving DecidableEq, Repr

/-- The variables of `write_message` that its loop changes: the iovecs filled in so
far (`msgvec[0 .. msg.msg_iovlen)`), `msglen`, and the calls of `do_sendmsg` made. -/
structure SendState where
  iov : List (List Nat)
  msglen : Int
  calls : List SendCall
  deriving DecidableEq, Repr

/-- How `write_message` ends: it returns `ret` after the given calls of `do_sendmsg`,
an `assert` fails, `msgvec` is indexed at or beyond its `cap` entries, the buffer
iterator is dereferenced at the end of the list, or the model runs out of fuel. -/
inductive WriteResult
  | returned (ret : Int) (calls : List SendCall)
  | assert_fail
  | out_of_bounds
  | bad_deref
  | out_of_fuel
  deriving DecidableEq, Repr

/-- How the `while (left > 0)` loop of `write_message` ends: it is left with the
given variables, or `write_message` ends. -/
inductive LoopResult
  | done (st : SendState)
  | ended (r : WriteResult)
  deriving DecidableEq, Repr

/-- The inner loop `while (b_off == (int)pb->length()) { pb++; b_off = 0; }`: the
buffers from `pb` on and `b_off` afterwards; `none` when `pb` reaches the end of the
list, where it must not be dereferenced. -/
def advance : List (List Nat) → Int → Option (List (List Nat) × Int)
  | [], _ => none
  | buf :: rest, b_off =>
    if b_off = to_int buf.length then advance rest 0 else some (buf :: rest, b_off)

/-- The block `if (msg.msg_iovlen >= IOV_MAX-2)` of the loop when `do_sendmsg`
succeeds: the iovecs filled in so far are sent and the array starts over. -/
def flush_iov (IOV_MAX : Nat) (st : SendState) : SendState :=
  if (st.iov.length : Int) ≥ (IOV_MAX : Int) - 2 then
    { iov := [], msglen := 0, calls := st.calls ++ [{ iov := st.iov, len := st.msglen }] }
  else st

/-- The statements that fill in `msgvec[msg.msg_iovlen]` with `donow` bytes and count
them. -/
def add_iov (st : SendState) (bytes : List Nat) (donow : Int) : SendState :=
  { st with iov := st.iov ++ [bytes], msglen := st.msglen + donow }

/-- The `while (left > 0)` loop of `write_message` with the `assert(left == 0)` that
follows it.  `IOV_MAX` is the constant of `limits.h`, `cap` the number of entries of `msgvec`, `ok` tells for each call of
`do_sendmsg` (by its number) whether it succeeds, `pb` is the list of buffers from
the iterator on. -/
def write_loop (IOV_MAX : Nat) (cap : Nat) (ok : Nat → Bool) :
    Nat → List (List Nat) → Int → Int → SendState → LoopResult
  | 0, _, _, _, _ => LoopResult.ended WriteResult.out_of_fuel
  | fuel + 1, pb, b_off, left, st =>
    if ¬ (left > 0) then
      if left = 0 then LoopResult.done st else LoopResult.ended WriteResult.assert_fail
    else
      match pb with
      | [] => LoopResult.ended WriteResult.bad_deref
      | buf :: rest =>
        if ¬ (min left (to_int buf.length - b_off) > 0) then
          LoopResult.ended WriteResult.assert_fail
        else if (st.iov.length : Int) ≥ (IOV_MAX : Int) - 2 ∧ ok st.calls.length = false then
          LoopResult.ended
            (WriteResult.returned (-1) (st.calls ++ [{ iov := st.iov, len := st.msglen }]))
        else if (flush_iov IOV_MAX st).iov.length ≥ cap then
          LoopResult.ended WriteResult.out_of_bounds
        else if ¬ (left - min left (to_int buf.length - b_off) ≥ 0) then
          LoopResult.ended WriteResult.assert_fail
        else if left - min left (to_int buf.length - b_off) = 0 then
          LoopResult.done
            (add_iov (flush_iov IOV_MAX st)
              ((buf.drop b_off.toNat).take (min left (to_int buf.length - b_off)).toNat)
              (min left (to_int buf.length - b_off)))
        else
          match advance (buf :: rest) (b_off + min left (to_int buf.length - b_off)) with
          | none => LoopResult.ended WriteResult.bad_deref
          | some (pb1, b_off1) =>
            write_loop IOV_MAX cap ok fuel pb1 b_off1
              (left - min left (to_int buf.length - b_off))
              (add_iov (flush_iov IOV_MAX st)
                ((buf.drop b_off.toNat).take (min left (to_int buf.length - b_off)).toNat)
                (min left (to_int buf.length - b_off)))

/-- The function `Pipe::write_message`. -/
def write_message (IOV_MAX : Nat) (ok : Nat → Bool) (m : WireMessage) : WriteResult :=
  let blist := m.blist
  let cap := 3 + blist.length
  let envelope := if m.nosrcaddr then m.header else m.oldheader
  let st0 : SendState :=
    { iov := [[m.tag], envelope], msglen := 1 + (envelope.length : Int), calls := [] }
  let left := to_int (buffers_length blist)
  match write_loop IOV_MAX cap ok (left.toNat + 1) blist 0 left st0 with
  | LoopResult.ended r => r
  | LoopResult.done st =>
    if st.iov.length ≥ cap then WriteResult.out_of_bounds
    else
      let call : SendCall :=
        { iov := st.iov ++ [m.footer], len := st.msglen + (m.footer.length : Int) }
      if ok st.calls.length then WriteResult.returned 0 (st.calls ++ [call])
      else WriteResult.returned (-1) (st.calls ++ [call])

/-- A message with a payload in two buffers, no middle, and data in three buffers. -/
def WireMessage.sample : WireMessage :=
  { tag := 7, header := [1, 2, 3], oldheader := [1, 2, 3, 4, 5], footer := [9, 9],
    nosrcaddr := true, payload := [[10, 11], [12]], middle := [],
    data := [[20], [21, 22], [23]] }

/-- The claim's account of one buffer in the loop of `write_message`: when
`IOV_MAX - 2` iovecs have accumulated they are sent and the array starts over; then
the buffer is added as one iovec. -/
def chunk_step (IOV_MAX : Nat) (st : SendState) (buf : List Nat) : SendState :=
  add_iov (flush_iov IOV_MAX st) buf (buf.length : Int)

/-- The iovecs of a state in the order they go to the socket: those of the calls
made, then those filled in. -/
def SendState.wire (st : SendState) : List (List Nat) :=
  (st.calls.map (fun c => c.iov)).flatten ++ st.iov

/-- Every call made so far and the iovecs filled in stay within the bound, and each
`len` is the number of bytes of its iovecs. -/
def SendInv (IOV_MAX : Nat) (st : SendState) : Prop :=
  st.iov.length ≤ max 2 (IOV_MAX - 2) ∧
  st.msglen = ((st.iov.flatten.length : Nat) : Int) ∧
  ∀ c ∈ st.calls, c.iov.length ≤ max 2 (IOV_MAX - 2) ∧ IOV_MAX - 2 ≤ c.iov.length ∧
    c.len = ((c.iov.flatten.length : Nat) : Int)

/-- A buffer of `n` zero bytes. -/
def zeros (n : Nat) : List Nat := List.replicate n 0

/-- A message whose payload is one buffer of 2^31 bytes, without middle and data. -/
def WireMessage.huge : WireMessage :=
  { tag := 7, header := [1, 2, 3], oldheader := [1, 2, 3, 4, 5], footer := [9, 9],
    nosrcaddr := true, payload := [zeros (2 ^ 31)], middle := [], data := [] }

/-! ## Operations and reachable states -/

/-- The operations that change a messenger: the threads' steps (accepter, the passes
of `accept`, reader, writer, dispatch) and the calls of the application. -/
inductive Op
  | accepter_new
  | accept_begin (self : Nat) (io_ok : Bool) (addr : entity_addr_t)
  | accept_read_fail (self : Nat)
  | accept_pass (self : Nat) (connect : ceph_msg_connect) (verify : Bool × Bool) (reply_ok : Bool)
  | accept_finish (self : Nat) (reply : ceph_msg_connect_reply) (io : AcceptIO)
  | reader (id : Nat) (ev : ReaderEvent) (pol : Option Nat)
  | writer (id : Nat) (io : WriterIO)
  | dispatch
  | deliver (m : QItem)
  | submit_message (m : Message) (dest_addr : entity_addr_t) (dest_type : Nat) (lazy : Bool)
  | submit_message_pipe (m : Message) (pipe : Nat)
  | get_connection (dest_addr : entity_addr_t) (dest_type : Nat)
  | prepare_dest (addr : entity_addr_t) (type : Nat)
  | send_keepalive (dest_addr : entity_addr_t)
  | send_keepalive_con (con : Nat)
  | mark_down_all
  | mark_down (addr : entity_addr_t)
  | mark_down_con (con : Nat)
  | mark_down_on_empty (con : Nat)
  | mark_disposable (con : Nat)
  | reaper (pid : Nat)

/-- The messenger after an operation; `none` when the operation aborts on an `assert`
or cannot run.  `complete` is the footer flag `CEPH_MSG_FOOTER_COMPLETE`.  The reader
is taken after it has read a tag, whatever the pipe's state has become meanwhile; the
tail of `accept` is taken on its own, after the pass that registered the pipe. -/
def step (K : Consts) (complete : Nat) (ms : Messenger) : Op → Option Messenger
  | Op.accepter_new => some (accepter_new ms)
  | Op.accept_begin self io_ok addr => accept_begin ms self io_ok addr
  | Op.accept_read_fail self => accept_read_fail ms self
  | Op.accept_pass self connect verify reply_ok => accept_pass K ms self connect verify reply_ok
  | Op.accept_finish self reply io => some (accept_finish ms self reply io)
  | Op.reader id ev pol => some (reader_handle complete ms id ev pol).1
  | Op.writer id io => writer_step K ms id io
  | Op.dispatch => (dispatch_step ms).map (fun x => x.2)
  | Op.deliver m => (deliver ms m).map (fun x => x.2)
  | Op.submit_message m dest_addr dest_type lazy =>
    (submit_message ms m dest_addr dest_type lazy).toOption
  | Op.submit_message_pipe m pipe => some (submit_message_pipe ms m pipe)
  | Op.get_connection dest_addr dest_type =>
    (get_connection ms dest_addr dest_type).toOption.map (fun x => x.1)
  | Op.prepare_dest addr type => (prepare_dest ms addr type).toOption
  | Op.send_keepalive dest_addr => (send_keepalive ms dest_addr).toOption
  | Op.send_keepalive_con con => some (send_keepalive_con ms con)
  | Op.mark_down_all => some (mark_down_all ms)
  | Op.mark_down addr => some (mark_down ms addr)
  | Op.mark_down_con con => some (mark_down_con ms con)
  | Op.mark_down_on_empty con => some (mark_down_on_empty ms con)
  | Op.mark_disposable con => some (mark_disposable ms con)
  | Op.reaper pid => (reaper ms pid).toOption

/-- Run a sequence of operations; `none` when one of them aborts. -/
def run (K : Consts) (complete : Nat) : List Op → Messenger → Option Messenger
  | [], ms => some ms
  | op :: rest, ms =>
    match step K complete ms op with
    | none => none
    | some ms1 => run K complete rest ms1

/-- A messenger before any traffic: nothing is registered, nothing is queued for
dispatch, and the pipes it holds (the local pipe) have empty inbound queues. -/
def Initial (ms : Messenger) : Prop :=
  ms.rank_pipe = [] ∧ ms.dispatch_queue.queued_pipes = [] ∧
  ∀ id p, getPipe ms id = some p → p.in_q = [] ∧ p.in_qlen = 0 ∧ p.queue_items = []

/-- The states a messenger reaches from an initial one by operations. -/
inductive Reach (K : Consts) (complete : Nat) : Messenger → Prop
  | init (ms : Messenger) : Initial ms → Reach K complete ms
  | step (ms ms1 : Messenger) (op : Op) :
      Reach K complete ms → step K complete ms op = some ms1 → Reach K complete ms1

/-! ## Invariants -/

/-- The total number of items in the lists of a priority map. -/
def qtotal {α : Type} (q : List (Nat × List α)) : Nat := (q.map (fun e => e.2.length)).sum

/-- The dispatch-queue invariant: a pipe is on the round-robin list of a priority
exactly once when its inbound list at that priority holds something and not at all
otherwise; no priority of the dispatch queue has an empty list; `in_qlen` is the
number of queued inbound items; a pipe on a list holds the queue item for it; and
only pipes the messenger holds are on lists. -/
structure DQInv (ms : Messenger) : Prop where
  on_list : ∀ id p k, getPipe ms id = some p →
    (qat ms.dispatch_queue.queued_pipes k).count id = if qat p.in_q k = [] then 0 else 1
  nonempty : ∀ k, k ∈ mkeys ms.dispatch_queue.queued_pipes →
    qat ms.dispatch_queue.queued_pipes k ≠ []
  in_qlen : ∀ id p, getPipe ms id = some p → p.in_qlen = qtotal p.in_q
  items : ∀ id p k, getPipe ms id = some p → id ∈ qat ms.dispatch_queue.queued_pipes k →
    k ∈ p.queue_items
  live : ∀ id k, id ∈ qat ms.dispatch_queue.queued_pipes k → ∃ p, getPipe ms id = some p

/-- The address-table invariant: whatever the table holds for an address is a pipe of
the messenger whose `peer_addr` is that address, and which has left Accepting. -/
def TableInv (ms : Messenger) : Prop :=
  ∀ a id, mfind ms.rank_pipe a = some id →
    ∃ p, getPipe ms id = some p ∧ p.peer_addr = a ∧ p.state ≠ PipeState.STATE_ACCEPTING

/-- A pipe that has been marked disposable outside Accepting: it is lossy. -/
def Disposed (p : Pipe) : Prop :=
  p.disposable = true ∧ p.policy.lossy = true ∧ p.state ≠ PipeState.STATE_ACCEPTING

/-- The parts of a messenger that the invariants read. -/
def Core (ms : Messenger) :
    List (Nat × Pipe) × List (entity_addr_t × Nat) × List (Nat × List Nat) :=
  (ms.pipes, ms.rank_pipe, ms.dispatch_queue.queued_pipes)

/-- An update of a pipe's fields that the invariants tolerate anywhere: the inbound
queue, its length and the queue items are as before; a pipe that has left Accepting
keeps its peer address and stays out of Accepting; a disposable pipe stays
disposable, and lossy if it was lossy outside Accepting. -/
structure PipeUpd (p q : Pipe) : Prop where
  in_q : q.in_q = p.in_q
  in_qlen : q.in_qlen = p.in_qlen
  queue_items : q.queue_items = p.queue_items
  peer_addr : p.state ≠ PipeState.STATE_ACCEPTING → q.peer_addr = p.peer_addr
  state : p.state ≠ PipeState.STATE_ACCEPTING → q.state ≠ PipeState.STATE_ACCEPTING
  lossy : p.state ≠ PipeState.STATE_ACCEPTING → p.disposable = true → p.policy.lossy = true →
    q.policy.lossy = true
  disposable : p.disposable = true → q.disposable = true

/-- The elementary transitions that the operations are made of, each up to the parts
of the messenger that the invariants do not read: a change elsewhere, a field update
of a pipe, `queue_received`, `discard_queue`, a dispatch step, an entry added to or
erased from the address table, a pipe created. -/
inductive Prim : Messenger → Messenger → Prop
  | same (ms ms1 : Messenger) : Core ms1 = Core ms → Prim ms ms1
  | upd (ms ms1 : Messenger) (id : Nat) (p q : Pipe) :
      getPipe ms id = some p → PipeUpd p q → Core ms1 = Core (setPipe ms id q) → Prim ms ms1
  | recv (ms ms1 : Messenger) (id : Nat) (p q : Pipe) (m : QItem) (k : Nat) :
      getPipe ms id = some p → PipeUpd p q →
      Core ms1 = Core (putCtx ms (queue_received (ctxOf ms id q) m k)) → Prim ms ms1
  | discard (ms ms1 : Messenger) (id : Nat) (p q : Pipe) :
      getPipe ms id = some p → PipeUpd p q →
      Core ms1 = Core (putCtx ms (discard_queue (ctxOf ms id q))) → Prim ms ms1
  | dequeue (ms ms1 ms2 : Messenger) (m : QItem) :
      dispatch_step ms = some (m, ms2) → Core ms1 = Core ms2 → Prim ms ms1
  | register (ms ms1 : Messenger) (id : Nat) (p : Pipe) :
      getPipe ms id = some p → p.state ≠ PipeState.STATE_ACCEPTING →
      mfind ms.rank_pipe p.peer_addr = none →
      Core ms1 = Core { ms with rank_pipe := mset ms.rank_pipe p.peer_addr id } → Prim ms ms1
  | unregister (ms ms1 : Messenger) (a : entity_addr_t) :
      Core ms1 = Core { ms with rank_pipe := merase ms.rank_pipe a } → Prim ms ms1
  | create (ms ms1 : Messenger) (id : Nat) (p : Pipe) :
      getPipe ms id = none → p.in_q = [] → p.in_qlen = 0 → p.queue_items = [] →
      p.disposable = false →
      Core ms1 = Core { ms with pipes := mset ms.pipes id p } → Prim ms ms1

/-- The elementary transition that deletes the pipe `id`, which has an empty inbound
queue, no queue items and no entry in the address table. -/
def PrimDelete (id : Nat) (ms ms1 : Messenger) : Prop :=
  ∃ p, getPipe ms id = some p ∧ p.in_q = [] ∧ p.queue_items = [] ∧
    mfind ms.rank_pipe p.peer_addr ≠ some id ∧
    Core ms1 = Core { ms with pipes := merase ms.pipes id }

/-- A finite sequence of elementary transitions, with the pipes it deletes. -/
inductive Prims : List Nat → Messenger → Messenger → Prop
  | refl (ms : Messenger) : Prims [] ms ms
  | tail (ds : List Nat) (ms ms1 ms2 : Messenger) :
      Prims ds ms ms1 → Prim ms1 ms2 → Prims ds ms ms2
  | del (ds : List Nat) (id : Nat) (ms ms1 ms2 : Messenger) :
      Prims ds ms ms1 → PrimDelete id ms1 ms2 → Prims (id :: ds) ms ms2

/-- The pipes that an operation deletes. -/
def Op.deletes : Op → List Nat
  | Op.reaper pid => [pid]
  | _ => []

/-- What every transition keeps of a pipe that is not deleted: outside Accepting the
peer address stays and the pipe stays out of Accepting; a disposable pipe stays
disposable, and lossy if it was lossy outside Accepting. -/
def PipeKeep (p q : Pipe) : Prop :=
  (p.state ≠ PipeState.STATE_ACCEPTING → q.peer_addr = p.peer_addr) ∧
  (p.state ≠ PipeState.STATE_ACCEPTING → q.state ≠ PipeState.STATE_ACCEPTING) ∧
  (p.state ≠ PipeState.STATE_ACCEPTING → p.disposable = true → p.policy.lossy = true →
    q.policy.lossy = true) ∧
  (p.disposable = true → q.disposable = true)

/-- A change of the messenger that leaves the address table alone and keeps every pipe
with its peer address. -/
def AddrFrame (ms ms1 : Messenger) : Prop :=
  ms1.rank_pipe = ms.rank_pipe ∧
  ∀ j q, getPipe ms j = some q → ∃ q1, getPipe ms1 j = some q1 ∧ q1.peer_addr = q.peer_addr

/-! ## Further sample states -/

/-- A header whose front and data sections are 2^31 bytes each, with no middle. -/
def ceph_msg_header.wrapping : ceph_msg_header :=
  { front_len := 2 ^ 31, middle_len := 0, data_len := 2 ^ 31, data_off := 0, crc := 0 }

/-- A header with a front section of 8 bytes and nothing else. -/
def ceph_msg_header.small : ceph_msg_header :=
  { front_len := 8, middle_len := 0, data_len := 0, data_off := 0, crc := 0 }

/-- What the socket gives for a completely framed message with header `h`: the CRC
matches, every section and the footer are read, the footer carries the flag 1 (taken
as `CEPH_MSG_FOOTER_COMPLETE`), and the codec returns `decoded`. -/
def read_framed (h : ceph_msg_header) (decoded : Option Message) : ReadIO :=
  { header := some h, header_crc := h.crc, front_ok := true, middle_ok := true,
    data_ok := true, footer := some { flags := 1 }, decoded := decoded }

/-- A connect reply with the given tag, `global_seq` and `connect_seq`, no features
and no flags. -/
def ceph_msg_connect_reply.tagged (t : Tag) (global_seq connect_seq : Nat) :
    ceph_msg_connect_reply :=
  { tag := some t, features := 0, global_seq := global_seq, connect_seq := connect_seq,
    protocol_version := 0, flags := 0 }

/-- A lossy client pipe to address 20 (connection 1) in state Connecting with one
message queued. -/
def Pipe.connecting : Pipe :=
  { Pipe.fresh PipeState.STATE_CONNECTING (Policy.plain true false) 20 1 with
    out_q := [(127, [Message.mk3 102 0 127])] }

/-- An accepting pipe for a peer at address 30 with connection 2. -/
def Pipe.accepting : Pipe :=
  Pipe.fresh PipeState.STATE_ACCEPTING (Policy.plain false false) 30 2

/-- The state of the pipe named `id`, if the messenger holds it. -/
def pipe_state (ms : Messenger) (id : Nat) : Option PipeState :=
  (getPipe ms id).map (fun p => p.state)

/-- An accepting pipe for a peer at address 20 with connection 2. -/
def Pipe.accepting20 : Pipe :=
  Pipe.fresh PipeState.STATE_ACCEPTING (Policy.plain false false) 20 2

/-- What the socket gives to a writer pass whose `connect` reads one READY reply with
the given `global_seq` and `connect_seq`. -/
def writer_ready (global_seq connect_seq : Nat) : WriterIO :=
  { prelude_ok := true,
    reads := [ConnectRead.reply (ceph_msg_connect_reply.tagged Tag.READY global_seq connect_seq)
      none],
    keepalive_ok := true, ack_ok := true, msg_ok := true }

/-- A durable client pipe to address 20 (connection 1) in state Connecting with one
message queued. -/
def Pipe.connecting_durable : Pipe :=
  { Pipe.fresh PipeState.STATE_CONNECTING (Policy.plain false false) 20 1 with
    out_q := [(127, [Message.mk3 102 0 127])] }

/-- A messenger at address 10 before any traffic: it holds only the local pipe (named
0, connection 0). -/
def Messenger.boot : Messenger :=
  { ms_addr := 10, my_type := 4, global_seq := 0, rank_pipe := [],
    pipes := [(0, Pipe.fresh PipeState.STATE_OPEN (Policy.plain false false) 10 0)],
    connections := [(0, { pipe := some 0, features := 0 })],
    policy_map := [], default_policy := Policy.plain false false,
    dispatch_queue := DispatchQueue.idle, dispatch_throttler := 0,
    destination_stopped := false }

/-- The messenger after a run of operations from `Messenger.boot` (which itself when
the run aborts). -/
def Messenger.booted (K : Consts) (complete : Nat) (ops : List Op) : Messenger :=
  (run K complete ops Messenger.boot).getD Messenger.boot

/-- The messenger after `prepare_dest` has created and registered a connecting pipe
(named 1) for address 20, the accepter has created an accepting pipe (named 2), and
`accept` has read from its socket that the peer is at address 20 as well. -/
def Messenger.racing : Messenger :=
  Messenger.booted Consts.sample 1
    [Op.prepare_dest 20 4, Op.accepter_new, Op.accept_begin 2 true 20]

/-- The messenger after pipe 1 has been created for address 20, has connected, and
has received two messages of priority 127 (seq 1 and 2) and one of priority 63
(seq 3). -/
def Messenger.queued : Messenger :=
  Messenger.booted Consts.sample 1
    [Op.prepare_dest 20 4, Op.writer 1 (writer_ready 7 1),
     Op.reader 1 (ReaderEvent.MSG (read_framed ceph_msg_header.small
       (some (Message.mk3 5 1 127)))) none,
     Op.reader 1 (ReaderEvent.MSG (read_framed ceph_msg_header.small
       (some (Message.mk3 6 2 127)))) none,
     Op.reader 1 (ReaderEvent.MSG (read_framed ceph_msg_header.small
       (some (Message.mk3 7 3 63)))) none]

/-- A port that the scan of `bind` can end on: in the range, not one of the two avoided
ports, and the operating system's `bind` succeeds on it. -/
def Eligible (C : PortRange) (os : SocketOS) (avoid_port1 avoid_port2 : Int) (p : Nat) : Prop :=
  C.CEPH_PORT_START ≤ p ∧ p ≤ C.CEPH_PORT_LAST ∧ (p : Int) ≠ avoid_port1 ∧
    (p : Int) ≠ avoid_port2 ∧ os.bind p = 0

/-- An operating system on which every call succeeds except `bind` on the ports
listed in `busy`, which fail with `EADDRINUSE` (98). -/
def SocketOS.busy_on (busy : List Nat) : SocketOS :=
  { errno0 := 0, socket := 0, bind := fun p => if p ∈ busy then 98 else 0, listen := 0 }

/-- The port range 6800..6900. -/
def PortRange.sample : PortRange := { CEPH_PORT_START := 6800, CEPH_PORT_LAST := 6900 }

/-! ## Sample states for the reconnect claims -/

/-- A connect record of a peer of type 0 that reconnects with `global_seq = 9` and
`connect_seq = 2`, advertises the feature bit 64 (taken as
`CEPH_FEATURE_RECONNECT_SEQ`) and carries the protocol version that the sample
messenger expects. -/
def ceph_msg_connect.reconnect : ceph_msg_connect :=
  { features := 64, host_type := 0, global_seq := 9, connect_seq := 2,
    protocol_version := 22, authorizer_protocol := 0, authorizer_len := 0, flags := 0 }

/-- The `seq` fields of the messages on a pipe's `sent` list and, per priority, in
its outbound queue. -/
def out_seqs (ms : Messenger) (id : Nat) : Option (List Nat × List (Nat × List Nat)) :=
  (getPipe ms id).map (fun p =>
    (p.sent.map (fun m => m.seq), p.out_q.map (fun kv => (kv.1, kv.2.map (fun m => m.seq)))))

/-- The state, `in_seq` and `in_seq_acked` of the pipe named `id`. -/
def in_seqs (ms : Messenger) (id : Nat) : Option (PipeState × Nat × Nat) :=
  (getPipe ms id).map (fun p => (p.state, p.in_seq, p.in_seq_acked))

/-- What the socket gives to a writer pass whose `connect` is first told
RESETSESSION and then READY with `connect_seq = 1`. -/
def writer_reset_ready : WriterIO :=
  { prelude_ok := true,
    reads := [ConnectRead.reply (ceph_msg_connect_reply.tagged Tag.RESETSESSION 0 0) none,
              ConnectRead.reply (ceph_msg_connect_reply.tagged Tag.READY 3 1) none],
    keepalive_ok := true, ack_ok := true, msg_ok := true }

/-- A run in which the durable client pipe 1 (to address 20) connects, receives the
messages with seq 1 and 2 and acknowledges them, gets a message queued, loses its
socket, and on reconnecting is told RESETSESSION by the restarted peer before the
new session opens. -/
def session_reset_ops : List Op :=
  [Op.prepare_dest 20 4, Op.writer 1 (writer_ready 7 1),
   Op.reader 1 (ReaderEvent.MSG (read_framed ceph_msg_header.small
     (some (Message.mk3 5 1 127)))) none,
   Op.reader 1 (ReaderEvent.MSG (read_framed ceph_msg_header.small
     (some (Message.mk3 6 2 127)))) none,
   Op.writer 1 (writer_ready 7 1),
   Op.submit_message (Message.mk3 50 0 127) 20 4 false,
   Op.reader 1 ReaderEvent.read_error none,
   Op.writer 1 writer_reset_ready]

/-- The messenger after `session_reset_ops`. -/
def Messenger.session_reset : Messenger :=
  Messenger.booted Consts.sample 1 session_reset_ops

/-- The first message of the new session, with seq 1, as the reader finds it. -/
def first_message : ReaderEvent :=
  ReaderEvent.MSG (read_framed ceph_msg_header.small (some (Message.mk3 8 1 127)))

/-- The locals of `connect` at the start of its loop for a pipe whose `connect_seq`
is zero, with `gseq` = 1. -/
def ConnectLocals.start : ConnectLocals :=
  { cseq := 0, gseq := 1, got_bad_auth := false, authorizer_requests := [] }

/-- An accepting pipe (connection 2, peer at address 30) whose policy supports the
feature bits 14. -/
def Pipe.accepting_feat : Pipe :=
  { Pipe.accepting with policy := { Policy.plain false false with features_supported := 14 } }

/-- A durable client pipe in state Connecting (connection 1) whose policy supports the
feature bits 7. -/
def Pipe.connecting_feat : Pipe :=
  { Pipe.connecting_durable with
    policy := { Policy.plain false false with features_supported := 7 } }

/-- The acceptor of the sample handshake: the accepting pipe is named 2. -/
def Messenger.acceptor : Messenger := Messenger.sample Pipe.busy Pipe.accepting_feat

/-- The connector of the sample handshake: the connecting pipe is named 1. -/
def Messenger.connector : Messenger := Messenger.sample Pipe.connecting_feat Pipe.accepting

/-- The acceptor after the label `open` for the connect record of the sample
connector, with the reply it sends (the acceptor itself and an empty reply if the
label aborts). -/
def handshake_accept : Messenger × ceph_msg_connect_reply :=
  (accept_open Consts.sample Messenger.acceptor 2
    (connect_record Consts.sample Messenger.connector Pipe.connecting_feat ConnectLocals.start)
    none).getD
    (Messenger.acceptor,
     { tag := none, features := 0, global_seq := 0, connect_seq := 0, protocol_version := 0,
       flags := 0 })

/-- The connector after the pass of `connect` that reads the reply of
`handshake_accept` (the connector itself if the pass does not return). -/
def handshake_connect : Messenger :=
  match connect_pass Consts.sample Messenger.connector 1 ConnectLocals.start
      (ConnectRead.reply handshake_accept.2 none) with
  | Sum.inr (ConnectResult.returned m _) => m
  | _ => Messenger.connector

/-- The pipe `Pipe.busy` with its 32-bit `connect_seq` at the last value, 2^32 - 1. -/
def Pipe.busy_last : Pipe := { Pipe.busy with connect_seq := 2 ^ 32 - 1 }
/-! ## Container lemmas -/

section ContainerLemmas
variable {κ ν : Type} [DecidableEq κ]

theorem mfind_mset_self (m : List (κ × ν)) (k : κ) (v : ν) :
    mfind (mset m k v) k = some v := by
  induction m with
  | nil => simp [mset, mfind]
  | cons e t ih =>
    obtain ⟨j, w⟩ := e
    by_cases h : j = k
    · simp [mset, mfind, h]
    · simp [mset, mfind, h, ih]

theorem mfind_mset_ne (m : List (κ × ν)) (k j : κ) (v : ν) (h : j ≠ k) :
    mfind (mset m k v) j = mfind m j := by
  induction m with
  | nil => simp [mset, mfind, Ne.symm h]
  | cons e t ih =>
    obtain ⟨i, w⟩ := e
    by_cases hik : i = k
    · subst hik
      simp [mset, mfind, Ne.symm h]
    · by_cases hij : i = j
      · subst hij
        simp [mset, mfind, hik]
      · simp [mset, mfind, hik, hij, ih]

theorem mfind_merase_self (m : List (κ × ν)) (k : κ) :
    mfind (merase m k) k = none := by
  induction m with
  | nil => simp [merase, mfind]
  | cons e t ih =>
    obtain ⟨i, w⟩ := e
    by_cases hik : i = k
    · simp [merase, hik, ih]
    · simp [merase, mfind, hik, ih]

theorem mfind_merase_ne (m : List (κ × ν)) (k j : κ) (h : j ≠ k) :
    mfind (merase m k) j = mfind m j := by
  induction m with
  | nil => simp [merase, mfind]
  | cons e t ih =>
    obtain ⟨i, w⟩ := e
    by_cases hik : i = k
    · subst hik
      simp [merase, mfind, Ne.symm h, ih]
    · by_cases hij : i = j
      · subst hij
        simp [merase, mfind, hik]
      · simp [merase, mfind, hik, hij, ih]

theorem mfind_some_mem_mkeys (m : List (κ × ν)) (k : κ) (v : ν)
    (h : mfind m k = some v) : k ∈ mkeys m := by
  induction m with
  | nil => simp [mfind] at h
  | cons e t ih =>
    obtain ⟨i, w⟩ := e
    by_cases hik : i = k
    · simp [mkeys, hik]
    · simp only [mfind, hik, if_false] at h
      have := ih h
      simp only [mkeys] at this
      simp [mkeys, this]

end ContainerLemmas

section QueueLemmas
variable {α : Type}

theorem qat_mset_self (q : List (Nat × List α)) (k : Nat) (l : List α) :
    qat (mset q k l) k = l := by
  simp [qat, mfind_mset_self]

theorem qat_mset_ne (q : List (Nat × List α)) (k j : Nat) (l : List α) (h : j ≠ k) :
    qat (mset q k l) j = qat q j := by
  simp [qat, mfind_mset_ne q k j l h]

theorem qat_merase_self (q : List (Nat × List α)) (k : Nat) :
    qat (merase q k) k = [] := by
  simp [qat, mfind_merase_self]

theorem qat_merase_ne (q : List (Nat × List α)) (k j : Nat) (h : j ≠ k) :
    qat (merase q k) j = qat q j := by
  simp [qat, mfind_merase_ne q k j h]

theorem qat_qtouch (q : List (Nat × List α)) (k j : Nat) :
    qat (qtouch q k) j = qat q j := by
  unfold qtouch
  by_cases hc : mcount q k = true
  · simp [hc]
  · rw [if_neg hc]
    by_cases hjk : j = k
    · subst hjk
      rw [qat_mset_self]
      cases hf : mfind q j with
      | none => simp [qat, hf]
      | some v => simp [mcount, hf] at hc
    · simp [qat_mset_ne q k j [] hjk]

theorem qat_ne_nil_mem_mkeys (q : List (Nat × List α)) (k : Nat) (h : qat q k ≠ []) :
    k ∈ mkeys q := by
  unfold qat at h
  cases hf : mfind q k with
  | none => simp [hf] at h
  | some v => exact mfind_some_mem_mkeys q k v hf

theorem maxPrio_none (l : List Nat) (h : maxPrio l = none) : l = [] := by
  cases l with
  | nil => rfl
  | cons k t =>
    simp only [maxPrio] at h
    cases hm : maxPrio t <;> simp [hm] at h

theorem maxPrio_mem (l : List Nat) (k : Nat) (h : maxPrio l = some k) : k ∈ l := by
  induction l generalizing k with
  | nil => simp [maxPrio] at h
  | cons a t ih =>
    simp only [maxPrio] at h
    cases hm : maxPrio t with
    | none =>
      simp only [hm, Option.some.injEq] at h
      simp [h]
    | some j =>
      simp only [hm, Option.some.injEq] at h
      have hj := ih j hm
      rcases Nat.le_total a j with hle | hle
      · rw [Nat.max_eq_right hle] at h
        subst h
        exact List.mem_cons_of_mem _ hj
      · rw [Nat.max_eq_left hle] at h
        simp [h]

theorem maxPrio_ge (l : List Nat) (k : Nat) (h : maxPrio l = some k) :
    ∀ j ∈ l, j ≤ k := by
  induction l generalizing k with
  | nil => simp
  | cons a t ih =>
    simp only [maxPrio] at h
    intro j hj
    cases hm : maxPrio t with
    | none =>
      simp only [hm, Option.some.injEq] at h
      have ht := maxPrio_none t hm
      subst ht
      simp only [List.mem_singleton] at hj
      omega
    | some i =>
      simp only [hm, Option.some.injEq] at h
      have hi := ih i hm
      rcases List.mem_cons.mp hj with hja | hjt
      · omega
      · have := hi j hjt
        omega

/-- When the list at `k` is non-empty and no higher priority holds anything, `k` is
the priority chosen by `qhighest`. -/
theorem qhighest_eq (q : List (Nat × List α)) (k : Nat) (hk : qat q k ≠ [])
    (hmax : ∀ j, k < j → qat q j = []) : qhighest q = some k := by
  unfold qhighest
  have hkmem : k ∈ (mkeys q).filter (fun k => !(qat q k).isEmpty) := by
    rw [List.mem_filter]
    refine ⟨qat_ne_nil_mem_mkeys q k hk, ?_⟩
    cases hq : qat q k with
    | nil => exact absurd hq hk
    | cons a t => simp
  cases hm : maxPrio ((mkeys q).filter (fun k => !(qat q k).isEmpty)) with
  | none =>
    have := maxPrio_none _ hm
    rw [this] at hkmem
    simp at hkmem
  | some j =>
    have hjmem := maxPrio_mem _ j hm
    have hge := maxPrio_ge _ j hm k hkmem
    rw [List.mem_filter] at hjmem
    have hjne : qat q j ≠ [] := by
      intro h0
      rw [h0] at hjmem
      simp at hjmem
    by_cases hlt : k < j
    · exact absurd (hmax j hlt) hjne
    · have : j = k := by omega
      rw [this]

theorem qhighest_none (q : List (Nat × List α)) (h : qhighest q = none) (k : Nat) :
    qat q k = [] := by
  by_contra hne
  unfold qhighest at h
  have hkmem : k ∈ (mkeys q).filter (fun k => !(qat q k).isEmpty) := by
    rw [List.mem_filter]
    refine ⟨qat_ne_nil_mem_mkeys q k hne, ?_⟩
    cases hq : qat q k with
    | nil => exact absurd hq hne
    | cons a t => simp
  rw [maxPrio_none _ h] at hkmem
  simp at hkmem

theorem qhighest_some (q : List (Nat × List α)) (k : Nat) (h : qhighest q = some k) :
    qat q k ≠ [] ∧ ∀ j, qat q j ≠ [] → j ≤ k := by
  unfold qhighest at h
  have hmem := maxPrio_mem _ k h
  rw [List.mem_filter] at hmem
  refine ⟨?_, ?_⟩
  · intro h0
    rw [h0] at hmem
    simp at hmem
  · intro j hj
    apply maxPrio_ge _ k h
    rw [List.mem_filter]
    refine ⟨qat_ne_nil_mem_mkeys q j hj, ?_⟩
    cases hq : qat q j with
    | nil => exact absurd hq hj
    | cons a t => simp

end QueueLemmas

/-! ## The race decision of `accept` -/

/-- Wherever the asserts of the chosen branch hold, the decision that `accept` takes
is the one the race resolution table gives. -/
theorem accept_race_eq_table_of_asserts (ms_addr peer_addr : entity_addr_t)
    (connect : ceph_msg_connect) (existing : Option Pipe)
    (h : ∀ e, existing = some e → race_asserts_hold ms_addr peer_addr connect e) :
    accept_race ms_addr peer_addr connect existing
      = race_table ms_addr peer_addr connect existing := by
  cases existing with
  | none => simp only [accept_race, race_table]
  | some e =>
    have ha := h e rfl
    simp only [race_asserts_hold] at ha
    simp only [accept_race, race_table]
    by_cases h1 : connect.global_seq < e.peer_global_seq
    · simp only [if_pos h1]
    · simp only [if_neg h1]
      by_cases h2 : e.policy.lossy = true
      · simp only [if_pos h2]
      · simp only [if_neg h2]
        have h2f : e.policy.lossy = false := by simpa using h2
        have hb := ha (by omega) h2f
        by_cases h3 : connect.connect_seq < e.connect_seq
        · by_cases h4 : connect.connect_seq = 0
          · simp only [if_pos h3, if_pos h4, if_pos (And.intro h3 h4)]
          · simp only [if_pos h3, if_neg h4, if_neg (fun hh : _ ∧ _ => h4 hh.2)]
        · simp only [if_neg h3, if_neg (fun hh : _ ∧ connect.connect_seq = 0 => h3 hh.1)]
          by_cases h5 : connect.connect_seq = e.connect_seq
          · have hc := hb h5
            by_cases h6 : peer_addr < ms_addr ∨ e.policy.server = true
            · rw [if_pos h6] at hc
              simp only [if_pos h5, if_pos h6, if_pos hc, if_pos (And.intro h5 h6)]
            · rw [if_neg h6] at hc
              simp only [if_pos h5, if_neg h6, if_neg (not_not.mpr hc.1),
                if_neg (not_not.mpr hc.2), if_neg (fun hh : _ ∧ _ => h6 hh.2)]
          · have h7 : connect.connect_seq > e.connect_seq := by omega
            have h8 : connect.global_seq ≥ e.peer_global_seq := by omega
            simp only [if_neg h5, if_neg (not_not.mpr h7), if_neg (not_not.mpr h8),
              if_neg (fun hh : connect.connect_seq = e.connect_seq ∧ _ => h5 hh.1)]
            by_cases h9 : e.connect_seq = 0
            · simp only [if_pos h9, if_pos (And.intro h7 h9)]
            · simp only [if_neg h9, if_neg (fun hh : _ ∧ _ => h9 hh.2)]

/-- The decision of `accept` is an assert failure exactly when an assert of the
equal-`connect_seq` branch is violated. -/
theorem accept_race_assert_fail_iff (ms_addr peer_addr : entity_addr_t)
    (connect : ceph_msg_connect) (e : Pipe) :
    accept_race ms_addr peer_addr connect (some e) = AcceptStep.assert_fail
      ↔ ¬ race_asserts_hold ms_addr peer_addr connect e := by
  constructor
  · intro hf hh
    have := accept_race_eq_table_of_asserts ms_addr peer_addr connect (some e)
      (fun e1 he => by cases he; exact hh)
    rw [hf] at this
    simp only [race_table] at this
    split_ifs at this
  · intro hn
    by_contra hf
    apply hn
    simp only [race_asserts_hold]
    intro h1g h2f h5
    simp only [accept_race] at hf
    have h1 : ¬ connect.global_seq < e.peer_global_seq := by omega
    have h2 : ¬ e.policy.lossy = true := by simp [h2f]
    have h3 : ¬ connect.connect_seq < e.connect_seq := by omega
    simp only [if_neg h1, if_neg h2, if_neg h3, if_pos h5] at hf
    by_cases h6 : peer_addr < ms_addr ∨ e.policy.server = true
    · rw [if_pos h6]
      rw [if_pos h6] at hf
      by_contra hs
      exact hf (if_neg hs)
    · rw [if_neg h6]
      rw [if_neg h6] at hf
      by_cases ha : peer_addr > ms_addr
      · rw [if_neg (not_not.mpr ha)] at hf
        refine ⟨ha, ?_⟩
        by_contra hs
        exact hf (if_pos hs)
      · exact absurd (if_pos ha) hf

/-- C1: the race decision of `Pipe::accept` against the race resolution table, at a
record the acceptor can receive.  The existing pipe is Open, durable, with
`policy.server` set, `connect_seq = 2` and `peer_global_seq = 5`; the peer, having
been told RETRY_SESSION with 2, sends `global_seq = 6`, `connect_seq = 2`.  The table says "replace"; `accept` instead reaches
`assert(existing->state == STATE_CONNECTING || STATE_STANDBY || STATE_WAIT)`, which
fails, so no outcome of the table is chosen. -/
theorem accept_race_equal_seq_open_existing :
    accept_race 10 20 (ceph_msg_connect.seqs 6 2)
        (some { Pipe.fresh PipeState.STATE_OPEN (Policy.plain false true) 20 0 with
                connect_seq := 2, peer_global_seq := 5 })
      = AcceptStep.assert_fail
    ∧ race_table 10 20 (ceph_msg_connect.seqs 6 2)
        (some { Pipe.fresh PipeState.STATE_OPEN (Policy.plain false true) 20 0 with
                connect_seq := 2, peer_global_seq := 5 })
      = AcceptStep.replace false := by
  decide


/-! ## The reader's sequence check -/

/-- Queueing while delivery is not halted appends the item to the inbound list of its
priority, leaves the other inbound lists alone, counts it in `in_qlen`, and puts the
pipe on the round-robin list of that priority when the inbound list was empty. -/
theorem queue_received_not_halted (c : PipeCtx) (m : QItem) (priority : Nat)
    (hh : c.pipe.halt_delivery = false) :
    (∀ k, qat (queue_received c m priority).pipe.in_q k
        = if k = priority then qat c.pipe.in_q k ++ [m] else qat c.pipe.in_q k)
    ∧ (queue_received c m priority).pipe.in_qlen = c.pipe.in_qlen + 1
    ∧ (queue_received c m priority).pipe.in_seq = c.pipe.in_seq
    ∧ (queue_received c m priority).pipe.state = c.pipe.state
    ∧ (queue_received c m priority).pipe.halt_delivery = false
    ∧ (queue_received c m priority).pipe.connection_state = c.pipe.connection_state
    ∧ (queue_received c m priority).self = c.self
    ∧ (qat c.pipe.in_q priority = [] →
        c.self ∈ qat (queue_received c m priority).queued_pipes priority)
    ∧ (qat c.pipe.in_q priority ≠ [] →
        (queue_received c m priority).queued_pipes = c.queued_pipes) := by
  have hq : ∀ k, qat (mset (qtouch c.pipe.in_q priority) priority
        (qat (qtouch c.pipe.in_q priority) priority ++ [m])) k
      = if k = priority then qat c.pipe.in_q k ++ [m] else qat c.pipe.in_q k := by
    intro k
    by_cases hk : k = priority
    · subst hk
      rw [qat_mset_self, qat_qtouch, if_pos rfl]
    · rw [qat_mset_ne _ _ _ _ hk, qat_qtouch, if_neg hk]
  by_cases he : (qat (qtouch c.pipe.in_q priority) priority).isEmpty = true
  · have he2 : qat c.pipe.in_q priority = [] := by
      rw [qat_qtouch] at he
      exact List.isEmpty_iff.mp he
    refine ⟨?_, ?_, ?_, ?_, ?_, ?_, ?_, ?_, ?_⟩
    all_goals simp only [queue_received, hh, Bool.false_eq_true, if_false, he, if_true]
    · exact hq
    · intro _
      rw [qat_mset_self]
      simp [xpush]
    · intro hne
      exact absurd he2 hne
  · have he2 : qat c.pipe.in_q priority ≠ [] := by
      rw [qat_qtouch] at he
      intro h0
      rw [h0] at he
      simp at he
    refine ⟨?_, ?_, ?_, ?_, ?_, ?_, ?_, ?_, ?_⟩
    all_goals simp only [queue_received, hh, Bool.false_eq_true, if_false, he]
    · exact hq
    · intro h0
      exact absurd h0 he2
    · intro _
      trivial

/-- A message that fails the reader's guard changes nothing on the pipe or in the
dispatch queue. -/
theorem reader_msg_of_reject (c : PipeCtx) (m : Message) (h : reader_accepts c m = false) :
    (reader_msg c m).pipe = c.pipe ∧ (reader_msg c m).queued_pipes = c.queued_pipes
    ∧ (reader_msg c m).self = c.self := by
  simp only [reader_accepts, decide_eq_false_iff_not, not_and, not_not, not_lt] at h
  by_cases hs : c.pipe.state = PipeState.STATE_CLOSED ∨ c.pipe.state = PipeState.STATE_CONNECTING
  · simp only [reader_msg, if_pos hs, and_self]
  · have hle : m.seq ≤ c.pipe.in_seq := h hs
    simp only [reader_msg, if_neg hs, if_pos hle, and_self]

/-- A message that passes the reader's guard, on a pipe whose delivery is not halted,
is appended to the inbound list of its priority with the pipe's connection attached,
and `in_seq` becomes its sequence number. -/
theorem reader_msg_of_accept (c : PipeCtx) (m : Message) (hh : c.pipe.halt_delivery = false)
    (h : reader_accepts c m = true) :
    (reader_msg c m).pipe.in_seq = m.seq
    ∧ (∀ k, qat (reader_msg c m).pipe.in_q k
        = if k = m.priority then
            qat c.pipe.in_q k ++ [QItem.msg { m with connection := some c.pipe.connection_state }]
          else qat c.pipe.in_q k)
    ∧ (reader_msg c m).pipe.in_qlen = c.pipe.in_qlen + 1
    ∧ (reader_msg c m).pipe.state = c.pipe.state
    ∧ (reader_msg c m).pipe.halt_delivery = false
    ∧ (reader_msg c m).pipe.connection_state = c.pipe.connection_state
    ∧ (reader_msg c m).self = c.self
    ∧ (qat c.pipe.in_q m.priority = [] →
        c.self ∈ qat (reader_msg c m).queued_pipes m.priority) := by
  simp only [reader_accepts, decide_eq_true_eq] at h
  obtain ⟨hs, hlt⟩ := h
  have hle : ¬ m.seq ≤ c.pipe.in_seq := by omega
  have hq := queue_received_not_halted
    { c with pipe := { c.pipe with in_seq := m.seq } }
    (QItem.msg { m with connection := some c.pipe.connection_state }) m.priority hh
  simp only [reader_msg, if_neg hs, if_neg hle]
  obtain ⟨q1, q2, q3, q4, q5, q6, q7, q8, _⟩ := hq
  exact ⟨q3, q1, q2, q4, q5, q6, q7, q8⟩

/-- The reader's step never changes the pipe's state, its connection, its name or the
halt flag. -/
theorem reader_msg_frame (c : PipeCtx) (m : Message) (hh : c.pipe.halt_delivery = false) :
    (reader_msg c m).pipe.state = c.pipe.state
    ∧ (reader_msg c m).pipe.halt_delivery = false
    ∧ (reader_msg c m).pipe.connection_state = c.pipe.connection_state
    ∧ (reader_msg c m).self = c.self := by
  cases h : reader_accepts c m with
  | false =>
    obtain ⟨h1, _, h3⟩ := reader_msg_of_reject c m h
    rw [h1]
    exact ⟨rfl, hh, rfl, h3⟩
  | true =>
    obtain ⟨_, _, _, h4, h5, h6, h7, _⟩ := reader_msg_of_accept c m hh h
    exact ⟨h4, h5, h6, h7⟩

/-- Over a sequence of inbound messages: the accepted ones have strictly increasing
sequence numbers, all above the starting `in_seq`; `in_seq` ends as the largest of
them; and each inbound list ends as it began followed by the accepted messages of
its priority, in order. -/
theorem reader_msgs_accepted (ms : List Message) :
    ∀ c : PipeCtx, c.pipe.halt_delivery = false →
      List.Pairwise (fun a b => a < b) ((accepted c ms).map (fun m => m.seq))
      ∧ (∀ m ∈ accepted c ms, c.pipe.in_seq < m.seq)
      ∧ (reader_msgs c ms).pipe.in_seq
          = ((accepted c ms).map (fun m => m.seq)).foldl max c.pipe.in_seq
      ∧ (∀ k, qat (reader_msgs c ms).pipe.in_q k
          = qat c.pipe.in_q k ++
            (((accepted c ms).filter (fun m => m.priority = k)).map
              (fun m => QItem.msg { m with connection := some c.pipe.connection_state }))) := by
  induction ms with
  | nil =>
    intro c _
    simp [accepted, reader_msgs]
  | cons m t ih =>
    intro c hh
    obtain ⟨_, f2, f3, _⟩ := reader_msg_frame c m hh
    obtain ⟨i1, i2, i3, i4⟩ := ih (reader_msg c m) f2
    have hfold : reader_msgs c (m :: t) = reader_msgs (reader_msg c m) t := by
      simp [reader_msgs]
    rw [hfold]
    cases h : reader_accepts c m with
    | false =>
      obtain ⟨h1, _, _⟩ := reader_msg_of_reject c m h
      have hacc : accepted c (m :: t) = accepted (reader_msg c m) t := by
        simp [accepted, h]
      rw [hacc]
      rw [h1] at i2 i3 i4
      exact ⟨i1, i2, i3, i4⟩
    | true =>
      obtain ⟨a1, a2, _, _, _, _, _, _⟩ := reader_msg_of_accept c m hh h
      have hlt : c.pipe.in_seq < m.seq := by
        simp only [reader_accepts, decide_eq_true_eq] at h
        exact h.2
      have hacc : accepted c (m :: t) = m :: accepted (reader_msg c m) t := by
        simp [accepted, h]
      rw [hacc]
      rw [a1] at i2 i3
      refine ⟨?_, ?_, ?_, ?_⟩
      · rw [List.map_cons, List.pairwise_cons]
        refine ⟨?_, i1⟩
        intro s hs
        rw [List.mem_map] at hs
        obtain ⟨x, hx, rfl⟩ := hs
        exact i2 x hx
      · intro x hx
        rcases List.mem_cons.mp hx with rfl | hx
        · exact hlt
        · have := i2 x hx
          omega
      · rw [i3, List.map_cons, List.foldl_cons, Nat.max_eq_right (Nat.le_of_lt hlt)]
      · intro k
        rw [i4 k, a2 k, f3]
        by_cases hk : k = m.priority
        · subst hk
          simp [List.filter_cons]
        · have hk2 : ¬ m.priority = k := fun e => hk e.symm
          simp [List.filter_cons, hk, hk2]

/-- C2: for a pipe on which no session reset has intervened (delivery is not halted),
the reader queues a decoded message if and only if the pipe is neither Closed nor
Connecting and the message's seq is strictly above `in_seq` at receipt.  When it is
queued, `in_seq` becomes its seq and it joins the inbound list of its priority; when
it is discarded, the pipe (so `in_seq` and every inbound list) and the dispatch
queue's lists are unchanged.  Over any sequence of inbound messages the seqs of the
queued ones are strictly increasing and above the starting `in_seq`, the inbound
lists grow by exactly the queued messages, and `in_seq` ends as the largest seq
accepted. -/
theorem reader_queues_iff_seq_above_in_seq (c : PipeCtx)
    (hh : c.pipe.halt_delivery = false) :
    (∀ m : Message,
      reader_accepts c m = true
        ↔ (¬ (c.pipe.state = PipeState.STATE_CLOSED ∨ c.pipe.state = PipeState.STATE_CONNECTING)
            ∧ c.pipe.in_seq < m.seq))
    ∧ (∀ m : Message, reader_accepts c m = true →
        (reader_msg c m).pipe.in_seq = m.seq
        ∧ qat (reader_msg c m).pipe.in_q m.priority
            = qat c.pipe.in_q m.priority
                ++ [QItem.msg { m with connection := some c.pipe.connection_state }]
        ∧ (∀ k, k ≠ m.priority → qat (reader_msg c m).pipe.in_q k = qat c.pipe.in_q k)
        ∧ (reader_msg c m).pipe.in_qlen = c.pipe.in_qlen + 1
        ∧ (qat c.pipe.in_q m.priority = [] →
            c.self ∈ qat (reader_msg c m).queued_pipes m.priority))
    ∧ (∀ m : Message, reader_accepts c m = false →
        (reader_msg c m).pipe = c.pipe ∧ (reader_msg c m).queued_pipes = c.queued_pipes)
    ∧ (∀ ms : List Message,
        List.Pairwise (fun a b => a < b) ((accepted c ms).map (fun m => m.seq))
        ∧ (∀ m ∈ accepted c ms, c.pipe.in_seq < m.seq)
        ∧ (reader_msgs c ms).pipe.in_seq
            = ((accepted c ms).map (fun m => m.seq)).foldl max c.pipe.in_seq
        ∧ (∀ k, qat (reader_msgs c ms).pipe.in_q k
            = qat c.pipe.in_q k ++
              (((accepted c ms).filter (fun m => m.priority = k)).map
                (fun m => QItem.msg { m with connection := some c.pipe.connection_state })))) := by
  refine ⟨?_, ?_, ?_, ?_⟩
  · intro m
    simp only [reader_accepts, decide_eq_true_eq]
  · intro m h
    obtain ⟨a1, a2, a3, _, _, _, _, a8⟩ := reader_msg_of_accept c m hh h
    refine ⟨a1, ?_, ?_, a3, a8⟩
    · rw [a2 m.priority, if_pos rfl]
    · intro k hk
      rw [a2 k, if_neg hk]
  · intro m h
    obtain ⟨h1, h2, _⟩ := reader_msg_of_reject c m h
    exact ⟨h1, h2⟩
  · intro ms
    exact reader_msgs_accepted ms c hh

/-- C2 at a concrete pipe: an Open pipe with `in_seq = 3` receiving seqs 2, 5, 4, 7
queues 5 and 7 only. -/
theorem reader_queues_iff_seq_above_in_seq_witness :
    accepted (PipeCtx.lone { Pipe.fresh PipeState.STATE_OPEN (Policy.plain false false) 20 0
                              with in_seq := 3 })
        [Message.mk3 100 2 127, Message.mk3 101 5 127, Message.mk3 102 4 127,
         Message.mk3 103 7 127]
      = [Message.mk3 101 5 127, Message.mk3 103 7 127]
    ∧ List.Pairwise (fun a b => a < b)
        ((accepted (PipeCtx.lone { Pipe.fresh PipeState.STATE_OPEN (Policy.plain false false) 20 0
                              with in_seq := 3 })
          [Message.mk3 100 2 127, Message.mk3 101 5 127, Message.mk3 102 4 127,
           Message.mk3 103 7 127]).map (fun m => m.seq)) :=
  ⟨by decide,
   ((reader_queues_iff_seq_above_in_seq
      (PipeCtx.lone { Pipe.fresh PipeState.STATE_OPEN (Policy.plain false false) 20 0
                      with in_seq := 3 }) rfl).2.2.2
      [Message.mk3 100 2 127, Message.mk3 101 5 127, Message.mk3 102 4 127,
       Message.mk3 103 7 127]).1⟩

/-! ## Requeueing the sent list and resending -/

/-- Decrementing a non-zero `uint64_t` lowers it by one. -/
theorem dec64_pos (x : Nat) (h0 : 0 < x) (h : x < 2 ^ 64) : dec64 x = x - 1 := by
  unfold dec64
  omega

/-- Incrementing a `uint64_t` below its maximum raises it by one. -/
theorem inc64_lt (x : Nat) (h : x + 1 < 2 ^ 64) : inc64 x = x + 1 := by
  unfold inc64
  omega

/-- When every message is above `max_acked`, the loop of `requeue_sent` moves all of
them, in their original order, to the front of `rq`. -/
theorem requeue_loop_fst (max_acked : Nat) (l : List Message) :
    ∀ (rq : List Message) (os : Nat), (∀ m ∈ l, max_acked < m.seq) →
      (requeue_loop max_acked l rq os).1 = l.reverse ++ rq := by
  induction l with
  | nil => intro rq os _; simp [requeue_loop]
  | cons m t ih =>
    intro rq os h
    have hm : m.seq > max_acked := h m (List.mem_cons_self _ _)
    simp only [requeue_loop, if_pos hm]
    rw [ih (m :: rq) (dec64 os) (fun x hx => h x (List.mem_cons_of_mem _ hx))]
    simp

/-- When every message is above `max_acked` and `out_seq` is at least their number,
the loop of `requeue_sent` lowers `out_seq` by exactly that number. -/
theorem requeue_loop_snd (max_acked : Nat) (l : List Message) :
    ∀ (rq : List Message) (os : Nat), (∀ m ∈ l, max_acked < m.seq) → l.length ≤ os →
      os < 2 ^ 64 → (requeue_loop max_acked l rq os).2 = os - l.length := by
  induction l with
  | nil => intro rq os _ _ _; simp [requeue_loop]
  | cons m t ih =>
    intro rq os h hle hlt
    have hm : m.seq > max_acked := h m (List.mem_cons_self _ _)
    simp only [List.length_cons] at hle
    simp only [requeue_loop, if_pos hm]
    rw [dec64_pos os (by omega) hlt]
    rw [ih (m :: rq) (os - 1) (fun x hx => h x (List.mem_cons_of_mem _ hx)) (by omega)
      (by omega)]
    simp only [List.length_cons]
    omega

/-- With every sent message numbered above zero, `requeue_sent()` empties `sent`, puts
the sent messages in order at the front of the highest-priority list, and leaves the
other lists and the other fields of the pipe alone. -/
theorem requeue_sent_spec (p : Pipe) (h : ∀ m ∈ p.sent, 0 < m.seq) :
    (requeue_sent 0 p).sent = []
    ∧ (∀ k, qat (requeue_sent 0 p).out_q k
        = if k = CEPH_MSG_PRIO_HIGHEST then p.sent ++ qat p.out_q k else qat p.out_q k)
    ∧ (requeue_sent 0 p).state = p.state
    ∧ (requeue_sent 0 p).policy = p.policy
    ∧ (requeue_sent 0 p).connect_seq = p.connect_seq
    ∧ (requeue_sent 0 p).in_seq = p.in_seq
    ∧ (requeue_sent 0 p).connection_state = p.connection_state
    ∧ (requeue_sent 0 p).peer_addr = p.peer_addr
    ∧ (requeue_sent 0 p).in_q = p.in_q
    ∧ (requeue_sent 0 p).in_qlen = p.in_qlen := by
  by_cases he : p.sent.isEmpty = true
  · have h0 : p.sent = [] := List.isEmpty_iff.mp he
    unfold requeue_sent
    rw [if_pos he]
    refine ⟨h0, ?_, rfl, rfl, rfl, rfl, rfl, rfl, rfl, rfl⟩
    intro k
    rw [h0]
    simp
  · unfold requeue_sent
    rw [if_neg he]
    refine ⟨rfl, ?_, rfl, rfl, rfl, rfl, rfl, rfl, rfl, rfl⟩
    intro k
    show qat (mset p.out_q CEPH_MSG_PRIO_HIGHEST
      (requeue_loop 0 p.sent.reverse (qat p.out_q CEPH_MSG_PRIO_HIGHEST) p.out_seq).1) k = _
    have hf := requeue_loop_fst 0 p.sent.reverse (qat p.out_q CEPH_MSG_PRIO_HIGHEST) p.out_seq
      (fun m hm => h m (List.mem_reverse.mp hm))
    rw [List.reverse_reverse] at hf
    by_cases hk : k = CEPH_MSG_PRIO_HIGHEST
    · subst hk
      rw [if_pos rfl, qat_mset_self, hf]
    · rw [if_neg hk, qat_mset_ne _ _ _ _ hk]

/-- A list of naturals that is a run `s, s+1, ..` has all its members at least `s`. -/
theorem range_run_ge (l : List Message) (s : Nat)
    (h : l.map (fun m => m.seq) = List.range' s l.length) : ∀ m ∈ l, s ≤ m.seq := by
  intro m hm
  have : m.seq ∈ l.map (fun m => m.seq) := List.mem_map_of_mem _ hm
  rw [h, List.mem_range'_1] at this
  exact this.1

/-- The writer's send step on a pipe whose highest-priority list starts with `m`, with
nothing queued above that priority. -/
theorem writer_send_front (p : Pipe) (m : Message) (rest : List Message)
    (hq : qat p.out_q CEPH_MSG_PRIO_HIGHEST = m :: rest)
    (hmax : ∀ j, CEPH_MSG_PRIO_HIGHEST < j → qat p.out_q j = []) :
    (writer_send p).1
        = some { m with seq := inc64 p.out_seq, connection := some p.connection_state }
    ∧ (∀ k, qat (writer_send p).2.out_q k
        = if k = CEPH_MSG_PRIO_HIGHEST then rest else qat p.out_q k)
    ∧ (writer_send p).2.out_seq = inc64 p.out_seq
    ∧ (writer_send p).2.connection_state = p.connection_state := by
  have hne : qat p.out_q CEPH_MSG_PRIO_HIGHEST ≠ [] := by rw [hq]; simp
  have hh := qhighest_eq p.out_q CEPH_MSG_PRIO_HIGHEST hne hmax
  have hg : _get_next_outgoing p
      = (some m, { p with out_q := mset p.out_q CEPH_MSG_PRIO_HIGHEST rest }) := by
    simp only [_get_next_outgoing, hh, hq]
  have hqk : ∀ k, qat (mset p.out_q CEPH_MSG_PRIO_HIGHEST rest) k
      = if k = CEPH_MSG_PRIO_HIGHEST then rest else qat p.out_q k := by
    intro k
    by_cases hk : k = CEPH_MSG_PRIO_HIGHEST
    · subst hk
      rw [if_pos rfl, qat_mset_self]
    · rw [if_neg hk, qat_mset_ne _ _ _ _ hk]
  by_cases hl : (!p.policy.lossy || p.close_on_empty) = true
  · refine ⟨?_, ?_, ?_, ?_⟩
    all_goals simp only [writer_send, hg, hl, if_true]
    exact hqk
  · refine ⟨?_, ?_, ?_, ?_⟩
    all_goals simp only [writer_send, hg, hl]
    all_goals first | exact hqk | simp

/-- When the highest-priority list starts with the messages `l`, numbered
`out_seq + 1, out_seq + 2, ..`, and nothing is queued above that priority, the next
`l.length` send steps transmit exactly `l`, in order, each with the seq it carries. -/
theorem writer_sends_front (l : List Message) :
    ∀ (p : Pipe) (rest : List Message),
      qat p.out_q CEPH_MSG_PRIO_HIGHEST = l ++ rest →
      (∀ j, CEPH_MSG_PRIO_HIGHEST < j → qat p.out_q j = []) →
      l.map (fun m => m.seq) = List.range' (p.out_seq + 1) l.length →
      p.out_seq + l.length < 2 ^ 64 →
      (writer_sends l.length p).1
        = l.map (fun m => { m with connection := some p.connection_state }) := by
  induction l with
  | nil => intro p rest _ _ _ _; simp [writer_sends]
  | cons m t ih =>
    intro p rest hq hmax hseq hlt
    simp only [List.length_cons] at hlt
    obtain ⟨w1, w2, w3, w4⟩ := writer_send_front p m (t ++ rest) hq hmax
    have hinc : inc64 p.out_seq = p.out_seq + 1 := inc64_lt _ (by omega)
    simp only [List.length_cons, List.map_cons, List.range'_succ, List.cons.injEq] at hseq
    obtain ⟨hs1, hs2⟩ := hseq
    have hstep : writer_send p = ((writer_send p).1, (writer_send p).2) := rfl
    rw [w1] at hstep
    have hrec := ih (writer_send p).2 rest
      (by rw [w2, if_pos rfl])
      (by
        intro j hj
        rw [w2, if_neg (by omega)]
        exact hmax j hj)
      (by rw [w3, hinc]; exact hs2)
      (by rw [w3, hinc]; omega)
    simp only [List.length_cons, writer_sends]
    rw [hstep]
    simp only [List.map_cons, List.cons.injEq]
    refine ⟨?_, ?_⟩
    · rw [hinc, ← hs1]
    · rw [hrec, w4]

/-- C3: for a pipe whose sent list holds `k` messages numbered `out_seq-k+1 ..
out_seq`, oldest first (so `k ≤ out_seq`, with `out_seq` a `uint64_t`), and whose
queued priorities do not exceed `CEPH_MSG_PRIO_HIGHEST`: `requeue_sent()` leaves
`sent` empty, places those messages in their original order at the front of
`out_q[CEPH_MSG_PRIO_HIGHEST]` ahead of what was there, leaves the other lists alone
and lowers `out_seq` by exactly `k`; the next `k` send steps of the writer then
transmit exactly those messages, in order, each with the seq it carried. -/
theorem requeue_sent_then_resend (p : Pipe)
    (hseq : p.sent.map (fun m => m.seq)
      = List.range' (p.out_seq - p.sent.length + 1) p.sent.length)
    (hle : p.sent.length ≤ p.out_seq) (hlt : p.out_seq < 2 ^ 64)
    (hmax : ∀ j, CEPH_MSG_PRIO_HIGHEST < j → qat p.out_q j = []) :
    (requeue_sent 0 p).sent = []
    ∧ qat (requeue_sent 0 p).out_q CEPH_MSG_PRIO_HIGHEST
        = p.sent ++ qat p.out_q CEPH_MSG_PRIO_HIGHEST
    ∧ (∀ j, j ≠ CEPH_MSG_PRIO_HIGHEST → qat (requeue_sent 0 p).out_q j = qat p.out_q j)
    ∧ (requeue_sent 0 p).out_seq + p.sent.length = p.out_seq
    ∧ (writer_sends p.sent.length (requeue_sent 0 p)).1
        = p.sent.map (fun m => { m with connection := some p.connection_state }) := by
  have hpos : ∀ m ∈ p.sent, 0 < m.seq := by
    intro m hm
    have := range_run_ge p.sent _ hseq m hm
    omega
  obtain ⟨s1, s2, _, _, _, _, s7, _, _, _⟩ := requeue_sent_spec p hpos
  have hos : (requeue_sent 0 p).out_seq = p.out_seq - p.sent.length := by
    by_cases he : p.sent.isEmpty = true
    · have h0 : p.sent = [] := List.isEmpty_iff.mp he
      unfold requeue_sent
      rw [if_pos he, h0]
      simp
    · unfold requeue_sent
      rw [if_neg he]
      show (requeue_loop 0 p.sent.reverse (qat p.out_q CEPH_MSG_PRIO_HIGHEST) p.out_seq).2 = _
      have := requeue_loop_snd 0 p.sent.reverse (qat p.out_q CEPH_MSG_PRIO_HIGHEST) p.out_seq
        (fun m hm => hpos m (List.mem_reverse.mp hm)) (by simpa using hle) hlt
      simpa using this
  refine ⟨s1, ?_, ?_, ?_, ?_⟩
  · rw [s2, if_pos rfl]
  · intro j hj
    rw [s2, if_neg hj]
  · rw [hos]
    omega
  · have := writer_sends_front p.sent (requeue_sent 0 p) (qat p.out_q CEPH_MSG_PRIO_HIGHEST)
      (by rw [s2, if_pos rfl])
      (by
        intro j hj
        rw [s2, if_neg (by omega)]
        exact hmax j hj)
      (by rw [hos]; exact hseq)
      (by rw [hos]; omega)
    rw [this, s7]

/-- C3 at a concrete pipe: `out_seq = 7`, `sent` holds seqs 6 and 7, and a message is
already queued at the highest priority and another at priority 127. -/
theorem requeue_sent_then_resend_witness :
    (writer_sends 2 (requeue_sent 0
        { Pipe.fresh PipeState.STATE_OPEN (Policy.plain false false) 20 0 with
          out_seq := 7
          sent := [Message.mk3 100 6 127, Message.mk3 101 7 63]
          out_q := [(127, [Message.mk3 102 0 127]), (255, [Message.mk3 103 0 255])] })).1
      = [{ Message.mk3 100 6 127 with connection := some 0 },
         { Message.mk3 101 7 63 with connection := some 0 }] :=
  (requeue_sent_then_resend
    { Pipe.fresh PipeState.STATE_OPEN (Policy.plain false false) 20 0 with
      out_seq := 7
      sent := [Message.mk3 100 6 127, Message.mk3 101 7 63]
      out_q := [(127, [Message.mk3 102 0 127]), (255, [Message.mk3 103 0 255])] }
    (by decide) (by decide) (by decide)
    (by
      intro j hj
      have h1 : j ≠ 127 := by unfold CEPH_MSG_PRIO_HIGHEST at hj; omega
      have h2 : j ≠ 255 := by unfold CEPH_MSG_PRIO_HIGHEST at hj; omega
      simp [qat, mfind, Pipe.fresh, Ne.symm h1, Ne.symm h2])).2.2.2.2

/-! ## Replacing an existing pipe in `accept` -/

theorem getPipe_setPipe_self (ms : Messenger) (id : Nat) (p : Pipe) :
    getPipe (setPipe ms id p) id = some p := by
  simp [getPipe, setPipe, mfind_mset_self]

theorem getPipe_setPipe_ne (ms : Messenger) (id j : Nat) (p : Pipe) (h : j ≠ id) :
    getPipe (setPipe ms id p) j = getPipe ms j := by
  simp [getPipe, setPipe, mfind_mset_ne _ _ _ _ h]

theorem getPipe_reset_pipe (ms : Messenger) (con q id : Nat) :
    getPipe (reset_pipe ms con q) id = getPipe ms id := by
  unfold reset_pipe
  cases mfind ms.connections con <;> rfl

theorem rank_pipe_reset_pipe (ms : Messenger) (con q : Nat) :
    (reset_pipe ms con q).rank_pipe = ms.rank_pipe := by
  unfold reset_pipe
  cases mfind ms.connections con <;> rfl

theorem getPipe_set_features (ms : Messenger) (con f id : Nat) :
    getPipe (set_features ms con f) id = getPipe ms id := by
  unfold set_features
  cases mfind ms.connections con <;> rfl

theorem rank_pipe_set_features (ms : Messenger) (con f : Nat) :
    (set_features ms con f).rank_pipe = ms.rank_pipe := by
  unfold set_features
  cases mfind ms.connections con <;> rfl

/-- The connection slot written by `reset_pipe` survives `set_features`. -/
theorem connection_pipe_set_features (ms : Messenger) (con f c : Nat) :
    (mfind (set_features ms con f).connections c).map (fun x => x.pipe)
      = (mfind ms.connections c).map (fun x => x.pipe) := by
  unfold set_features
  cases h : mfind ms.connections con with
  | none => rfl
  | some x =>
    by_cases hc : c = con
    · subst hc
      simp [mfind_mset_self, h]
    · simp [mfind_mset_ne _ _ _ _ hc]

/-- The splice loop over a list of keys: at a key of the list, the existing pipe's
messages go in front of this pipe's and leave the existing pipe; other keys are
untouched. -/
theorem splice_foldl (ks : List Nat) :
    ∀ (mine theirs : List (Nat × List Message)) (k : Nat),
      qat (ks.foldl splice_step (mine, theirs)).1 k
          = (if k ∈ ks then qat theirs k ++ qat mine k else qat mine k)
      ∧ qat (ks.foldl splice_step (mine, theirs)).2 k
          = (if k ∈ ks then [] else qat theirs k) := by
  induction ks with
  | nil => intro mine theirs k; simp
  | cons a t ih =>
    intro mine theirs k
    simp only [List.foldl_cons]
    obtain ⟨i1, i2⟩ := ih (splice_step (mine, theirs) a).1 (splice_step (mine, theirs) a).2 k
    have hpair : splice_step (mine, theirs) a
        = ((splice_step (mine, theirs) a).1, (splice_step (mine, theirs) a).2) := rfl
    rw [hpair, i1, i2]
    by_cases hka : k = a
    · subst hka
      have e1 : qat (splice_step (mine, theirs) k).1 k = qat theirs k ++ qat mine k := by
        simp [splice_step, qat_mset_self]
      have e2 : qat (splice_step (mine, theirs) k).2 k = [] := by
        simp [splice_step, qat_mset_self]
      rw [e1, e2]
      by_cases hkt : k ∈ t
      · simp [hkt]
      · simp [hkt]
    · have e1 : qat (splice_step (mine, theirs) a).1 k = qat mine k := by
        simp [splice_step, qat_mset_ne _ _ _ _ hka]
      have e2 : qat (splice_step (mine, theirs) a).2 k = qat theirs k := by
        simp [splice_step, qat_mset_ne _ _ _ _ hka]
      rw [e1, e2]
      by_cases hkt : k ∈ t
      · simp [hkt, hka]
      · simp [hkt, hka]

/-- The splice loop of `accept`: every list of the existing pipe goes in front of this
pipe's list of the same priority, and the existing pipe's lists end empty. -/
theorem splice_out_q_spec (mine theirs : List (Nat × List Message)) (k : Nat) :
    qat (splice_out_q mine theirs).1 k = qat theirs k ++ qat mine k
    ∧ qat (splice_out_q mine theirs).2 k = [] := by
  obtain ⟨h1, h2⟩ := splice_foldl (mkeys theirs) mine theirs k
  unfold splice_out_q
  rw [h1, h2]
  by_cases hk : k ∈ mkeys theirs
  · simp [hk]
  · have h0 : qat theirs k = [] := by
      by_contra hne
      exact hk (qat_ne_nil_mem_mkeys theirs k hne)
    simp [hk, h0]

theorem connections_setPipe (ms : Messenger) (id : Nat) (p : Pipe) :
    (setPipe ms id p).connections = ms.connections := rfl

theorem global_seq_setPipe (ms : Messenger) (id : Nat) (p : Pipe) :
    (setPipe ms id p).global_seq = ms.global_seq := rfl

theorem rank_pipe_setPipe (ms : Messenger) (id : Nat) (p : Pipe) :
    (setPipe ms id p).rank_pipe = ms.rank_pipe := rfl

/-- What `reset_pipe` leaves in the connection table. -/
theorem connections_reset_pipe (ms : Messenger) (con q : Nat) :
    (reset_pipe ms con q).connections
      = (match mfind ms.connections con with
         | none => ms.connections
         | some c => mset ms.connections con { c with pipe := some q }) := by
  unfold reset_pipe
  cases mfind ms.connections con <;> rfl

theorem global_seq_reset_pipe (ms : Messenger) (con q : Nat) :
    (reset_pipe ms con q).global_seq = ms.global_seq := by
  unfold reset_pipe
  cases mfind ms.connections con <;> rfl

/-- Unregistering a pipe that the table holds under its own address erases that
entry. -/
theorem unregister_pipe_registered (ms : Messenger) (id : Nat) (p : Pipe)
    (hp : getPipe ms id = some p) (hreg : mfind ms.rank_pipe p.peer_addr = some id) :
    unregister_pipe ms id = { ms with rank_pipe := merase ms.rank_pipe p.peer_addr } := by
  unfold unregister_pipe
  rw [hp]
  simp only [hreg, if_true]

/-- Registering a pipe whose address is free stores it under that address. -/
theorem register_pipe_free (ms : Messenger) (id : Nat) (p : Pipe)
    (hp : getPipe ms id = some p) (hfree : mfind ms.rank_pipe p.peer_addr = none) :
    register_pipe ms id = some { ms with rank_pipe := mset ms.rank_pipe p.peer_addr id } := by
  unfold register_pipe
  rw [hp]
  simp [mcount, hfree]

/-- The label `replace` for a durable existing pipe `e` registered under its own
address, the accepting pipe being `p`: what the two pipes, the address table and the
connection of `e` look like afterwards. -/
theorem accept_replace_durable (K : Consts) (ms : Messenger) (self eid : Nat)
    (connect : ceph_msg_connect) (e p : Pipe)
    (he : getPipe ms eid = some e) (hp : getPipe ms self = some p) (hne : self ≠ eid)
    (hl : e.policy.lossy = false) (hreg : mfind ms.rank_pipe e.peer_addr = some eid) :
    getPipe (accept_replace K ms self eid connect).1 self
        = some { p with out_seq := (requeue_sent 0 (stop e)).out_seq, in_seq := e.in_seq,
                        in_seq_acked := e.in_seq,
                        out_q := (splice_out_q p.out_q (requeue_sent 0 (stop e)).out_q).1 }
    ∧ getPipe (accept_replace K ms self eid connect).1 eid
        = some { requeue_sent 0 (stop e) with
                 out_q := (splice_out_q p.out_q (requeue_sent 0 (stop e)).out_q).2 }
    ∧ (∀ j, j ≠ self → j ≠ eid →
        getPipe (accept_replace K ms self eid connect).1 j = getPipe ms j)
    ∧ (accept_replace K ms self eid connect).1.rank_pipe = merase ms.rank_pipe e.peer_addr
    ∧ (accept_replace K ms self eid connect).1.connections
        = (reset_pipe ms e.connection_state self).connections
    ∧ (accept_replace K ms self eid connect).1.global_seq = ms.global_seq := by
  have hin : (requeue_sent 0 (stop e)).in_seq = e.in_seq := by
    unfold requeue_sent
    split <;> rfl
  have hu := unregister_pipe_registered (setPipe ms eid (stop e)) eid (stop e)
    (getPipe_setPipe_self ms eid (stop e)) hreg
  have hself : getPipe (reset_pipe (unregister_pipe (setPipe ms eid (stop e)) eid)
      e.connection_state self) self = some p := by
    rw [getPipe_reset_pipe, hu]
    show getPipe (setPipe ms eid (stop e)) self = some p
    rw [getPipe_setPipe_ne _ _ _ _ hne, hp]
  have hdef : (accept_replace K ms self eid connect).1
      = setPipe (setPipe (reset_pipe (unregister_pipe (setPipe ms eid (stop e)) eid)
          e.connection_state self) eid
          { requeue_sent 0 (stop e) with
            out_q := (splice_out_q p.out_q (requeue_sent 0 (stop e)).out_q).2 }) self
          { p with out_seq := (requeue_sent 0 (stop e)).out_seq,
                   in_seq := (requeue_sent 0 (stop e)).in_seq,
                   in_seq_acked := (requeue_sent 0 (stop e)).in_seq,
                   out_q := (splice_out_q p.out_q (requeue_sent 0 (stop e)).out_q).1 } := by
    unfold accept_replace
    simp only [he, hl, Bool.not_false, if_true, hself]
  rw [hdef]
  refine ⟨?_, ?_, ?_, ?_, ?_, ?_⟩
  · rw [getPipe_setPipe_self, hin]
  · rw [getPipe_setPipe_ne _ _ _ _ (Ne.symm hne), getPipe_setPipe_self]
  · intro j hj1 hj2
    rw [getPipe_setPipe_ne _ _ _ _ hj1, getPipe_setPipe_ne _ _ _ _ hj2, getPipe_reset_pipe, hu]
    show getPipe (setPipe ms eid (stop e)) j = getPipe ms j
    rw [getPipe_setPipe_ne _ _ _ _ hj2]
  · rw [rank_pipe_setPipe, rank_pipe_setPipe, rank_pipe_reset_pipe, hu]
    rfl
  · rw [connections_setPipe, connections_setPipe, connections_reset_pipe,
      connections_reset_pipe, hu]
    rfl
  · rw [global_seq_setPipe, global_seq_setPipe, global_seq_reset_pipe, hu]
    rfl

/-- The label `open` for an accepting pipe `p1` whose address is free in the table:
the pipe becomes Open and is registered; other pipes and the pipe slots of the
connections are untouched. -/
theorem accept_open_spec (K : Consts) (R : Messenger) (self : Nat)
    (connect : ceph_msg_connect) (tag : Option Tag) (p1 : Pipe)
    (hp : getPipe R self = some p1) (hfree : mfind R.rank_pipe p1.peer_addr = none) :
    ∃ ms1 reply, accept_open K R self connect tag = some (ms1, reply)
      ∧ getPipe ms1 self
          = some { p1 with connect_seq := inc32 connect.connect_seq,
                           peer_global_seq := connect.global_seq,
                           state := PipeState.STATE_OPEN }
      ∧ (∀ j, j ≠ self → getPipe ms1 j = getPipe R j)
      ∧ ms1.rank_pipe = mset R.rank_pipe p1.peer_addr self
      ∧ (∀ c, (mfind ms1.connections c).map (fun x => x.pipe)
            = (mfind R.connections c).map (fun x => x.pipe)) := by
  have hg : ∀ (M : Messenger) (q : Pipe), getPipe (setPipe M self q) self = some q :=
    fun M q => getPipe_setPipe_self M self q
  unfold accept_open
  rw [hp]
  simp only []
  rw [register_pipe_free _ self _ (hg _ _)
    (by rw [rank_pipe_setPipe, rank_pipe_set_features]; exact hfree)]
  refine ⟨_, _, rfl, ?_, ?_, ?_, ?_⟩
  · exact hg _ _
  · intro j hj
    show getPipe (setPipe _ self _) j = _
    rw [getPipe_setPipe_ne _ _ _ _ hj, getPipe_set_features]
    rfl
  · show mset (setPipe _ self _).rank_pipe _ _ = _
    rw [rank_pipe_setPipe, rank_pipe_set_features]
  · intro c
    show (mfind (set_features _ _ _).connections c).map _ = _
    rw [connection_pipe_set_features]

/-- C4: when `accept` replaces a durable (non-lossy) existing pipe E without a session
reset, E being the pipe registered for `peer_addr` (under its own address and no
other) with its sent messages numbered above zero: the replace-and-open path
succeeds; E ends Closed and is registered under no address; the new pipe is
registered under `peer_addr`, Open, with `in_seq = E.in_seq`; for every priority the
new pipe's list is E's list (E's sent messages, in order, first at the highest
priority) followed by what the new pipe had queued; E's `sent` and every list of E's
`out_q` end empty and the new pipe's `sent` is unchanged, so each message of E is
in the new pipe's `out_q` exactly once and nowhere else. -/
theorem accept_replace_transfers (K : Consts) (ms : Messenger) (self eid : Nat)
    (connect : ceph_msg_connect) (e p : Pipe)
    (he : getPipe ms eid = some e) (hp : getPipe ms self = some p) (hne : self ≠ eid)
    (hl : e.policy.lossy = false)
    (hreg : mfind ms.rank_pipe p.peer_addr = some eid)
    (haddr : e.peer_addr = p.peer_addr)
    (hinj : ∀ a, mfind ms.rank_pipe a = some eid → a = e.peer_addr)
    (hs : ∀ m ∈ e.sent, 0 < m.seq) :
    ∃ ms1 reply e1 p1,
      accept_replace_open K ms self eid connect = some (ms1, reply)
      ∧ getPipe ms1 eid = some e1 ∧ getPipe ms1 self = some p1
      ∧ e1.state = PipeState.STATE_CLOSED
      ∧ (∀ a, mfind ms1.rank_pipe a ≠ some eid)
      ∧ mfind ms1.rank_pipe p.peer_addr = some self
      ∧ p1.state = PipeState.STATE_OPEN
      ∧ p1.in_seq = e.in_seq
      ∧ (∀ k, qat p1.out_q k
          = (if k = CEPH_MSG_PRIO_HIGHEST then e.sent ++ qat e.out_q k else qat e.out_q k)
              ++ qat p.out_q k)
      ∧ e1.sent = [] ∧ (∀ k, qat e1.out_q k = [])
      ∧ p1.sent = p.sent := by
  have hreg2 : mfind ms.rank_pipe e.peer_addr = some eid := by rw [haddr]; exact hreg
  obtain ⟨r1, r2, r3, r4, r5, _⟩ :=
    accept_replace_durable K ms self eid connect e p he hp hne hl hreg2
  have hfree : mfind (accept_replace K ms self eid connect).1.rank_pipe
      ({ p with out_seq := (requeue_sent 0 (stop e)).out_seq, in_seq := e.in_seq,
                in_seq_acked := e.in_seq,
                out_q := (splice_out_q p.out_q (requeue_sent 0 (stop e)).out_q).1 } : Pipe).peer_addr
      = none := by
    rw [r4]
    show mfind (merase ms.rank_pipe e.peer_addr) p.peer_addr = none
    rw [← haddr, mfind_merase_self]
  obtain ⟨ms1, reply, o1, o2, o3, o4, _⟩ :=
    accept_open_spec K (accept_replace K ms self eid connect).1 self connect
      (accept_replace K ms self eid connect).2 _ r1 hfree
  have hsent : ∀ m ∈ (stop e).sent, 0 < m.seq := hs
  obtain ⟨q1, q2, q3, _, _, _, _, _, _, _⟩ := requeue_sent_spec (stop e) hsent
  refine ⟨ms1, reply,
    { requeue_sent 0 (stop e) with
      out_q := (splice_out_q p.out_q (requeue_sent 0 (stop e)).out_q).2 },
    _, o1, ?_, o2, ?_, ?_, ?_, rfl, rfl, ?_, ?_, ?_, rfl⟩
  · rw [o3 eid (Ne.symm hne), r2]
  · show (requeue_sent 0 (stop e)).state = PipeState.STATE_CLOSED
    rw [q3]
    rfl
  · intro a
    rw [o4, r4]
    show mfind (mset (merase ms.rank_pipe e.peer_addr) p.peer_addr self) a ≠ some eid
    by_cases ha : a = p.peer_addr
    · subst ha
      rw [mfind_mset_self]
      intro h
      exact hne (Option.some.inj h)
    · rw [mfind_mset_ne _ _ _ _ ha, mfind_merase_ne _ _ _ (by rw [haddr]; exact ha)]
      intro h
      exact ha (by rw [← haddr]; exact hinj a h)
  · rw [o4]
    exact mfind_mset_self _ _ _
  · intro k
    show qat (splice_out_q p.out_q (requeue_sent 0 (stop e)).out_q).1 k = _
    rw [(splice_out_q_spec p.out_q (requeue_sent 0 (stop e)).out_q k).1, q2]
    rfl
  · exact q1
  · intro k
    exact (splice_out_q_spec p.out_q (requeue_sent 0 (stop e)).out_q k).2

/-- C4 at a concrete messenger: the Open durable pipe `Pipe.busy` (named 1, registered
under address 20) is replaced by the accepting pipe named 2; afterwards address 20
maps to pipe 2. -/
theorem accept_replace_transfers_witness :
    ∃ ms1 reply,
      accept_replace_open Consts.sample
        (Messenger.sample Pipe.busy
          (Pipe.fresh PipeState.STATE_ACCEPTING (Policy.plain false false) 20 2))
        2 1 (ceph_msg_connect.seqs 9 2) = some (ms1, reply)
      ∧ mfind ms1.rank_pipe 20 = some 2 := by
  obtain ⟨ms1, reply, _, _, h1, _, _, _, _, h6, _⟩ :=
    accept_replace_transfers Consts.sample
      (Messenger.sample Pipe.busy
        (Pipe.fresh PipeState.STATE_ACCEPTING (Policy.plain false false) 20 2))
      2 1 (ceph_msg_connect.seqs 9 2) Pipe.busy
      (Pipe.fresh PipeState.STATE_ACCEPTING (Policy.plain false false) 20 2)
      (by decide) (by decide) (by decide) (by decide) (by decide) (by decide)
      (by
        intro a h
        by_cases ha : a = 20
        · exact ha
        · simp [Messenger.sample, Pipe.busy, Pipe.fresh, mfind, Ne.symm ha] at h)
      (by decide)
  exact ⟨ms1, reply, h1, h6⟩

/-! ## The connection across a replacement -/

/-- After `accept` replaces a durable existing pipe `e` (whose connection object is
held by the messenger), the pipe slot of `e`'s connection names the new pipe, while
the new pipe's own `connection_state` is the one it had before: `accept` never
assigns it. -/
theorem accept_replace_connection_slot (K : Consts) (ms : Messenger) (self eid : Nat)
    (connect : ceph_msg_connect) (e p : Pipe) (c : Connection)
    (he : getPipe ms eid = some e) (hp : getPipe ms self = some p) (hne : self ≠ eid)
    (hl : e.policy.lossy = false)
    (hreg : mfind ms.rank_pipe p.peer_addr = some eid)
    (haddr : e.peer_addr = p.peer_addr)
    (hc : mfind ms.connections e.connection_state = some c) :
    ∃ ms1 reply p1,
      accept_replace_open K ms self eid connect = some (ms1, reply)
      ∧ getPipe ms1 self = some p1
      ∧ (mfind ms1.connections e.connection_state).map (fun x => x.pipe) = some (some self)
      ∧ p1.connection_state = p.connection_state := by
  have hreg2 : mfind ms.rank_pipe e.peer_addr = some eid := by rw [haddr]; exact hreg
  obtain ⟨r1, _, _, r4, r5, _⟩ :=
    accept_replace_durable K ms self eid connect e p he hp hne hl hreg2
  have hfree : mfind (accept_replace K ms self eid connect).1.rank_pipe
      ({ p with out_seq := (requeue_sent 0 (stop e)).out_seq, in_seq := e.in_seq,
                in_seq_acked := e.in_seq,
                out_q := (splice_out_q p.out_q (requeue_sent 0 (stop e)).out_q).1 } : Pipe).peer_addr
      = none := by
    rw [r4]
    show mfind (merase ms.rank_pipe e.peer_addr) p.peer_addr = none
    rw [← haddr, mfind_merase_self]
  obtain ⟨ms1, reply, o1, o2, _, _, o5⟩ :=
    accept_open_spec K (accept_replace K ms self eid connect).1 self connect
      (accept_replace K ms self eid connect).2 _ r1 hfree
  refine ⟨ms1, reply, _, o1, o2, ?_, rfl⟩
  rw [o5, r5, connections_reset_pipe, hc]
  simp [mfind_mset_self]

/-- C5: the connection seen by the application across a replacement, at a concrete
messenger.  The durable pipe `Pipe.busy` (named 1, connection 1) is replaced by the
accepting pipe named 2, which was constructed with its own connection 2.
Afterwards the pipe slot of connection 1 refers to pipe 2, but pipe 2 still has
`connection_state = 2`, and a message then received on pipe 2 is attached to
connection 2, not to connection 1. -/
theorem accept_replace_attaches_other_connection :
    (accept_replace_open Consts.sample
        (Messenger.sample Pipe.busy
          (Pipe.fresh PipeState.STATE_ACCEPTING (Policy.plain false false) 20 2))
        2 1 (ceph_msg_connect.seqs 9 2)).map
      (fun r =>
        ((mfind r.1.connections 1).map (fun c => c.pipe),
         (getPipe r.1 2).map (fun p => p.connection_state),
         (getPipe r.1 2).map (fun p =>
            qat (reader_msg (ctxOf r.1 2 p) (Message.mk3 200 5 127)).pipe.in_q 127)))
      = some (some (some 2), some 2,
          some [QItem.msg { Message.mk3 200 5 127 with connection := some 2 }]) := by
  decide

/-! ## Fault on a durable pipe -/

/-- The branch of `fault` taken by a durable pipe that is neither Closed nor Closing
(and not a reader fault while Connecting), written out. -/
theorem fault_durable_eq (ms : Messenger) (id : Nat) (p : Pipe) (onconnect onread : Bool)
    (hp : getPipe ms id = some p) (hl : p.policy.lossy = false)
    (hc1 : p.state ≠ PipeState.STATE_CLOSED) (hc2 : p.state ≠ PipeState.STATE_CLOSING)
    (hr : ¬ (onread = true ∧ p.state = PipeState.STATE_CONNECTING)) :
    fault ms id onconnect onread
      = if is_queued (requeue_sent 0 p) = false then
          if onconnect = true then
            setPipe ms id { requeue_sent 0 p with state := PipeState.STATE_CLOSED }
          else setPipe ms id { requeue_sent 0 p with state := PipeState.STATE_STANDBY }
        else if p.state ≠ PipeState.STATE_CONNECTING then
          setPipe ms id { requeue_sent 0 p with
                          connect_seq := inc32 (requeue_sent 0 p).connect_seq,
                          state := PipeState.STATE_CONNECTING }
        else setPipe ms id (requeue_sent 0 p) := by
  have hst : (requeue_sent 0 p).state = p.state := by
    unfold requeue_sent
    split <;> rfl
  have h1 : ¬ ((onread && decide (p.state = PipeState.STATE_CONNECTING)) = true) := by
    intro h
    rw [Bool.and_eq_true, decide_eq_true_eq] at h
    exact hr h
  have h2 : ¬ (p.state = PipeState.STATE_CLOSED ∨ p.state = PipeState.STATE_CLOSING) := by
    intro h
    rcases h with h | h
    · exact hc1 h
    · exact hc2 h
  have h3 : ¬ (p.policy.lossy = true) := by rw [hl]; simp
  unfold fault
  rw [hp]
  simp only []
  rw [if_neg h1, if_neg h2, if_neg h3]
  cases hq : is_queued (requeue_sent 0 p) with
  | false =>
    simp only [Bool.not_false, if_true, hst, hc2, false_or]
  | true =>
    simp only [Bool.not_true, Bool.false_eq_true, Bool.true_eq_false, if_false, hst]

/-- Claim C6, amended: for a durable (non-lossy) pipe that is neither Closed nor
Closing, with its sent messages numbered above zero, `fault(onconnect, onread)` (not
a reader fault while Connecting) loses no message: afterwards `sent` is empty and
each `out_q` list is as before, with the previously sent messages, in order, at the
head of the highest-priority list.  If nothing is then queued the state becomes
Standby (Closed when `onconnect`) and `connect_seq` is unchanged; otherwise, if the
state was not Connecting, the state becomes Connecting and `connect_seq` becomes
`connect_seq + 1` modulo 2^32, which is `connect_seq + 1` below the last value
2^32 - 1 (and a pipe already Connecting stays so with `connect_seq` unchanged). -/
theorem fault_durable_keeps_messages (ms : Messenger) (id : Nat) (p : Pipe)
    (onconnect onread : Bool)
    (hp : getPipe ms id = some p) (hl : p.policy.lossy = false)
    (hc1 : p.state ≠ PipeState.STATE_CLOSED) (hc2 : p.state ≠ PipeState.STATE_CLOSING)
    (hr : ¬ (onread = true ∧ p.state = PipeState.STATE_CONNECTING))
    (hs : ∀ m ∈ p.sent, 0 < m.seq) :
    ∃ p1, getPipe (fault ms id onconnect onread) id = some p1
      ∧ p1.sent = []
      ∧ (∀ k, qat p1.out_q k
          = if k = CEPH_MSG_PRIO_HIGHEST then p.sent ++ qat p.out_q k else qat p.out_q k)
      ∧ (is_queued p1 = false →
          p1.state = (if onconnect = true then PipeState.STATE_CLOSED
                      else PipeState.STATE_STANDBY)
          ∧ p1.connect_seq = p.connect_seq)
      ∧ (is_queued p1 = true → p.state ≠ PipeState.STATE_CONNECTING →
          p1.connect_seq = (p.connect_seq + 1) % 2 ^ 32 ∧
          (p.connect_seq < 2 ^ 32 - 1 → p1.connect_seq = p.connect_seq + 1) ∧
          p1.state = PipeState.STATE_CONNECTING)
      ∧ (is_queued p1 = true → p.state = PipeState.STATE_CONNECTING →
          p1.connect_seq = p.connect_seq ∧ p1.state = PipeState.STATE_CONNECTING) := by
  obtain ⟨q1, q2, q3, _, q5, _, _, _, _, _⟩ := requeue_sent_spec p hs
  rw [fault_durable_eq ms id p onconnect onread hp hl hc1 hc2 hr]
  cases hq : is_queued (requeue_sent 0 p) with
  | false =>
    rw [if_pos rfl]
    cases onconnect with
    | true =>
      rw [if_pos rfl, getPipe_setPipe_self]
      refine ⟨_, rfl, q1, q2, ?_, ?_, ?_⟩
      · intro _
        exact ⟨rfl, q5⟩
      · intro h
        have : is_queued (requeue_sent 0 p) = true := h
        rw [hq] at this
        cases this
      · intro h
        have : is_queued (requeue_sent 0 p) = true := h
        rw [hq] at this
        cases this
    | false =>
      rw [if_neg (by simp), getPipe_setPipe_self]
      refine ⟨_, rfl, q1, q2, ?_, ?_, ?_⟩
      · intro _
        exact ⟨rfl, q5⟩
      · intro h
        have : is_queued (requeue_sent 0 p) = true := h
        rw [hq] at this
        cases this
      · intro h
        have : is_queued (requeue_sent 0 p) = true := h
        rw [hq] at this
        cases this
  | true =>
    rw [if_neg (by simp)]
    by_cases hcn : p.state = PipeState.STATE_CONNECTING
    · rw [if_neg (not_not.mpr hcn), getPipe_setPipe_self]
      refine ⟨_, rfl, q1, q2, ?_, ?_, ?_⟩
      · intro h
        rw [hq] at h
        cases h
      · intro _ hn
        exact absurd hcn hn
      · intro _ _
        exact ⟨q5, by rw [q3]; exact hcn⟩
    · rw [if_pos hcn, getPipe_setPipe_self]
      refine ⟨_, rfl, q1, q2, ?_, ?_, ?_⟩
      · intro h
        have : is_queued (requeue_sent 0 p) = false := h
        rw [hq] at this
        cases this
      · intro _ _
        have e : ((requeue_sent 0 p).connect_seq + 1) % 2 ^ 32 = (p.connect_seq + 1) % 2 ^ 32 := by
          rw [q5]
        refine ⟨e, ?_, rfl⟩
        intro hlt
        show ((requeue_sent 0 p).connect_seq + 1) % 2 ^ 32 = _
        rw [e]
        exact Nat.mod_eq_of_lt (by omega)
      · intro _ hn
        exact absurd hn hcn

/-- C6 at a concrete messenger: the durable Open pipe `Pipe.busy` (named 1) faults;
its two sent messages go back to the head of the highest-priority list, and since
something is queued it starts reconnecting with `connect_seq` 2. -/
theorem fault_durable_keeps_messages_witness :
    ∃ p1, getPipe (fault (Messenger.sample Pipe.busy
            (Pipe.fresh PipeState.STATE_ACCEPTING (Policy.plain false false) 30 2))
            1 false false) 1 = some p1
      ∧ p1.sent = []
      ∧ qat p1.out_q CEPH_MSG_PRIO_HIGHEST
          = [Message.mk3 100 6 127, Message.mk3 101 7 63, Message.mk3 103 0 255]
      ∧ p1.connect_seq = 2 ∧ p1.state = PipeState.STATE_CONNECTING := by
  obtain ⟨p1, h1, h2, h3, _, h5, _⟩ :=
    fault_durable_keeps_messages (Messenger.sample Pipe.busy
        (Pipe.fresh PipeState.STATE_ACCEPTING (Policy.plain false false) 30 2))
      1 Pipe.busy false false (by decide) (by decide) (by decide) (by decide) (by decide)
      (by decide)
  have hq : is_queued p1 = true := by
    have h255 := h3 CEPH_MSG_PRIO_HIGHEST
    rw [if_pos rfl] at h255
    have hne : qat p1.out_q CEPH_MSG_PRIO_HIGHEST ≠ [] := by
      rw [h255]
      simp [Pipe.busy]
    unfold is_queued
    cases hh : qhighest p1.out_q with
    | none => exact absurd (qhighest_none p1.out_q hh CEPH_MSG_PRIO_HIGHEST) hne
    | some k => rfl
  obtain ⟨_, h6, h7⟩ := h5 hq (by decide)
  refine ⟨p1, h1, h2, ?_, h6 (by decide), h7⟩
  rw [h3, if_pos rfl]
  rfl

/-- Claim C6 as stated fails at the last value of the 32-bit counter: the durable Open
pipe `Pipe.busy_last` has `connect_seq` = 2^32 - 1 and messages to send; when it
faults it goes to Connecting and `connect_seq++` wraps to 0, which is not
`connect_seq + 1`. -/
theorem fault_connect_seq_wraps :
    Pipe.busy_last.policy.lossy = false ∧
    Pipe.busy_last.state = PipeState.STATE_OPEN ∧
    Pipe.busy_last.connect_seq + 1 = 2 ^ 32 ∧
    (getPipe (fault (Messenger.sample Pipe.busy_last Pipe.accepting) 1 false false) 1).map
        (fun p => (p.state, p.connect_seq, is_queued p))
      = some (PipeState.STATE_CONNECTING, 0, true) ∧
    (getPipe (fault (Messenger.sample Pipe.busy_last Pipe.accepting) 1 false false) 1).map
        (fun p => p.connect_seq)
      ≠ some (Pipe.busy_last.connect_seq + 1) := by
  refine ⟨by decide, by decide, by decide, by decide, by decide⟩

/-! ## Fault on a lossy pipe -/

/-- One round of the dequeue loop of `discard_queue` filters the pipe out of the list
of that priority and leaves the other lists alone. -/
theorem qat_discard_item (id : Nat) (qp : List (Nat × List Nat)) (a k : Nat) :
    qat (discard_item id qp a) k
      = if k = a then (qat qp a).filter (fun x => x ≠ id) else qat qp k := by
  unfold discard_item
  by_cases hmem : id ∈ qat qp a
  · rw [if_pos hmem]
    by_cases hempty : ((qat qp a).filter (fun x => x ≠ id)).isEmpty = true
    · simp only [hempty, if_true]
      by_cases hk : k = a
      · subst hk
        rw [if_pos rfl, qat_merase_self]
        exact (List.isEmpty_iff.mp hempty).symm
      · rw [if_neg hk, qat_merase_ne _ _ _ hk]
    · simp only [hempty]
      by_cases hk : k = a
      · subst hk
        rw [if_pos rfl]
        exact qat_mset_self _ _ _
      · rw [if_neg hk]
        exact qat_mset_ne _ _ _ _ hk
  · rw [if_neg hmem]
    by_cases hk : k = a
    · subst hk
      rw [if_pos rfl]
      symm
      rw [List.filter_eq_self]
      intro x hx
      have : x ≠ id := fun h => hmem (h ▸ hx)
      simpa using this
    · rw [if_neg hk]

/-- The dequeue loop of `discard_queue` over the priorities `items`. -/
theorem qat_discard_foldl (id : Nat) (items : List Nat) :
    ∀ (qp : List (Nat × List Nat)) (k : Nat),
      qat (items.foldl (discard_item id) qp) k
        = if k ∈ items then (qat qp k).filter (fun x => x ≠ id) else qat qp k := by
  induction items with
  | nil => intro qp k; simp
  | cons a t ih =>
    intro qp k
    rw [List.foldl_cons, ih (discard_item id qp a) k, qat_discard_item]
    by_cases hka : k = a
    · subst hka
      by_cases hkt : k ∈ t
      · simp [hkt]
      · simp [hkt]
    · by_cases hkt : k ∈ t
      · simp [hkt, hka]
      · simp [hkt, hka]

/-- When the pipe has an item for every priority whose round-robin list it is on, the
dequeue loop of `discard_queue` takes it off every list. -/
theorem discard_foldl_removes (id : Nat) (items : List Nat) (qp : List (Nat × List Nat))
    (h : ∀ k, id ∈ qat qp k → k ∈ items) (k : Nat) :
    id ∉ qat (items.foldl (discard_item id) qp) k := by
  rw [qat_discard_foldl]
  by_cases hk : k ∈ items
  · rw [if_pos hk]
    intro hmem
    rw [List.mem_filter] at hmem
    simp at hmem
  · rw [if_neg hk]
    intro hmem
    exact hk (h k hmem)

/-- Queueing never changes the name of the pipe, and puts no pipe other than that one
on a round-robin list. -/
theorem queue_received_lists (c : PipeCtx) (m : QItem) (priority : Nat) :
    (queue_received c m priority).self = c.self
    ∧ ∀ k x, x ∈ qat (queue_received c m priority).queued_pipes k →
        x ∈ qat c.queued_pipes k ∨ x = c.self := by
  by_cases hh : c.pipe.halt_delivery = true
  · have hdef : (queue_received c m priority).self = c.self
        ∧ (queue_received c m priority).queued_pipes = c.queued_pipes := by
      cases m <;> simp [queue_received, hh]
    refine ⟨hdef.1, ?_⟩
    intro k x hx
    rw [hdef.2] at hx
    exact Or.inl hx
  · have hf : c.pipe.halt_delivery = false := by simpa using hh
    obtain ⟨_, _, _, _, _, _, q7, _, q9⟩ := queue_received_not_halted c m priority hf
    refine ⟨q7, ?_⟩
    intro k x hx
    by_cases he : qat c.pipe.in_q priority = []
    · have hqp : (queue_received c m priority).queued_pipes
          = mset (qtouch c.queued_pipes priority) priority
              (xpush (qat (qtouch c.queued_pipes priority) priority) c.self) := by
        have he2 : (qat (qtouch c.pipe.in_q priority) priority).isEmpty = true := by
          rw [qat_qtouch, he]
          rfl
        simp only [queue_received, hf, Bool.false_eq_true, if_false, he2, if_true]
      rw [hqp] at hx
      by_cases hk : k = priority
      · subst hk
        rw [qat_mset_self, qat_qtouch] at hx
        unfold xpush at hx
        rw [List.mem_append] at hx
        rcases hx with hx | hx
        · exact Or.inl (List.mem_filter.mp hx).1
        · exact Or.inr (List.mem_singleton.mp hx)
      · rw [qat_mset_ne _ _ _ _ hk, qat_qtouch] at hx
        exact Or.inl hx
    · rw [q9 he] at hx
      exact Or.inl hx

/-- Queueing on a pipe whose delivery is halted changes nothing on the pipe but the
creation of the (empty) inbound list, and nothing in the round-robin lists. -/
theorem queue_received_halted (c : PipeCtx) (m : QItem) (priority : Nat)
    (hh : c.pipe.halt_delivery = true) :
    (queue_received c m priority).pipe = { c.pipe with in_q := qtouch c.pipe.in_q priority }
    ∧ (queue_received c m priority).queued_pipes = c.queued_pipes := by
  cases m <;> simp [queue_received, hh]

/-- The fields of the dispatch queue and of the messenger that `putCtx` leaves alone,
and what it writes. -/
theorem putCtx_fields (ms : Messenger) (c : PipeCtx) :
    (putCtx ms c).dispatch_queue.reset_q = ms.dispatch_queue.reset_q
    ∧ (putCtx ms c).dispatch_queue.remote_reset_q = ms.dispatch_queue.remote_reset_q
    ∧ (putCtx ms c).dispatch_queue.connect_q = ms.dispatch_queue.connect_q
    ∧ (putCtx ms c).dispatch_queue.local_pipe = ms.dispatch_queue.local_pipe
    ∧ (putCtx ms c).destination_stopped = ms.destination_stopped
    ∧ (putCtx ms c).dispatch_queue.queued_pipes = c.queued_pipes
    ∧ getPipe (putCtx ms c) c.self = some c.pipe
    ∧ (∀ j, j ≠ c.self → getPipe (putCtx ms c) j = getPipe ms j) := by
  refine ⟨rfl, rfl, rfl, rfl, rfl, rfl, ?_, ?_⟩
  · simp [getPipe, putCtx, mfind_mset_self]
  · intro j hj
    simp [getPipe, putCtx, mfind_mset_ne _ _ _ _ hj]

/-- A local delivery leaves the three connection queues alone; a pipe whose delivery
is halted keeps its state, `sent`, outbound lists, inbound lists and `in_qlen`; and a
pipe that is on no round-robin list and is halted stays off every list. -/
theorem local_delivery_frame (ms : Messenger) (m : QItem) (priority id : Nat) (p : Pipe)
    (hp : getPipe ms id = some p) (hh : p.halt_delivery = true)
    (hoff : ∀ k, id ∉ qat ms.dispatch_queue.queued_pipes k) :
    (local_delivery ms m priority).dispatch_queue.reset_q = ms.dispatch_queue.reset_q
    ∧ (local_delivery ms m priority).dispatch_queue.remote_reset_q
        = ms.dispatch_queue.remote_reset_q
    ∧ (∃ p1, getPipe (local_delivery ms m priority) id = some p1
        ∧ p1.state = p.state ∧ p1.sent = p.sent ∧ p1.out_q = p.out_q
        ∧ (∀ k, qat p1.in_q k = qat p.in_q k) ∧ p1.in_qlen = p.in_qlen)
    ∧ (∀ k, id ∉ qat (local_delivery ms m priority).dispatch_queue.queued_pipes k) := by
  unfold local_delivery
  cases hlp : getPipe ms ms.dispatch_queue.local_pipe with
  | none =>
    exact ⟨rfl, rfl, ⟨p, hp, rfl, rfl, rfl, fun _ => rfl, rfl⟩, hoff⟩
  | some lp =>
    simp only []
    obtain ⟨f1, f2, _, _, _, f6, f7, f8⟩ :=
      putCtx_fields ms (queue_received (ctxOf ms ms.dispatch_queue.local_pipe lp) m priority)
    obtain ⟨hself, hlists⟩ :=
      queue_received_lists (ctxOf ms ms.dispatch_queue.local_pipe lp) m priority
    have hself2 : (queue_received (ctxOf ms ms.dispatch_queue.local_pipe lp) m priority).self
        = ms.dispatch_queue.local_pipe := hself
    refine ⟨f1, f2, ?_, ?_⟩
    · by_cases hid : id = ms.dispatch_queue.local_pipe
      · have hlpp : lp = p := by
          rw [← hid, hp] at hlp
          exact (Option.some.inj hlp).symm
        subst hlpp
        obtain ⟨h1, _⟩ :=
          queue_received_halted (ctxOf ms ms.dispatch_queue.local_pipe lp) m priority hh
        rw [hself2] at f7
        rw [hid, f7, h1]
        exact ⟨_, rfl, rfl, rfl, rfl, fun k => qat_qtouch _ _ _, rfl⟩
      · rw [f8 id (by rw [hself2]; exact hid)]
        exact ⟨p, hp, rfl, rfl, rfl, fun _ => rfl, rfl⟩
    · intro k hmem
      rw [f6] at hmem
      by_cases hid : id = ms.dispatch_queue.local_pipe
      · have hlpp : lp = p := by
          rw [← hid, hp] at hlp
          exact (Option.some.inj hlp).symm
        subst hlpp
        obtain ⟨_, h2⟩ :=
          queue_received_halted (ctxOf ms ms.dispatch_queue.local_pipe lp) m priority hh
        rw [h2] at hmem
        exact hoff k hmem
      · rcases hlists k id hmem with h | h
        · exact hoff k h
        · exact hid h

/-- The lossy branch of `fault`, written out. -/
theorem fault_lossy_eq (ms : Messenger) (id : Nat) (p : Pipe) (onconnect onread : Bool)
    (hp : getPipe ms id = some p) (hl : p.policy.lossy = true)
    (hc1 : p.state ≠ PipeState.STATE_CLOSED) (hc2 : p.state ≠ PipeState.STATE_CLOSING)
    (hr : ¬ (onread = true ∧ p.state = PipeState.STATE_CONNECTING)) :
    fault ms id onconnect onread
      = if ms.destination_stopped = false then
          queue_reset (putCtx ms (discard_queue (ctxOf ms id (stop p)))) p.connection_state
        else putCtx ms (discard_queue (ctxOf ms id (stop p))) := by
  have h1 : ¬ ((onread && decide (p.state = PipeState.STATE_CONNECTING)) = true) := by
    intro h
    rw [Bool.and_eq_true, decide_eq_true_eq] at h
    exact hr h
  have h2 : ¬ (p.state = PipeState.STATE_CLOSED ∨ p.state = PipeState.STATE_CLOSING) := by
    intro h
    rcases h with h | h
    · exact hc1 h
    · exact hc2 h
  unfold fault
  rw [hp]
  simp only []
  rw [if_neg h1, if_neg h2, if_pos hl]
  unfold fail
  rw [hp]
  simp only []
  have hd : (putCtx ms (discard_queue (ctxOf ms id (stop p)))).destination_stopped
      = ms.destination_stopped := rfl
  rw [hd]
  cases ms.destination_stopped <;> simp

/-- C7: for a lossy pipe that is neither Closed nor Closing, holding an item for each
round-robin list it is on, `fault(onconnect, onread)` (not a reader fault while
Connecting) leaves the pipe Closed (so neither Connecting nor Standby), with `sent`
empty, every list of `out_q` and of `in_q` empty, `in_qlen = 0`, and the pipe on no
round-robin list of the dispatch queue. -/
theorem fault_lossy_closes (ms : Messenger) (id : Nat) (p : Pipe) (onconnect onread : Bool)
    (hp : getPipe ms id = some p) (hl : p.policy.lossy = true)
    (hc1 : p.state ≠ PipeState.STATE_CLOSED) (hc2 : p.state ≠ PipeState.STATE_CLOSING)
    (hr : ¬ (onread = true ∧ p.state = PipeState.STATE_CONNECTING))
    (hitems : ∀ k, id ∈ qat ms.dispatch_queue.queued_pipes k → k ∈ p.queue_items) :
    ∃ p1, getPipe (fault ms id onconnect onread) id = some p1
      ∧ p1.state = PipeState.STATE_CLOSED
      ∧ p1.sent = []
      ∧ (∀ k, qat p1.out_q k = [])
      ∧ (∀ k, qat p1.in_q k = [])
      ∧ p1.in_qlen = 0
      ∧ (∀ k, id ∉ qat (fault ms id onconnect onread).dispatch_queue.queued_pipes k) := by
  rw [fault_lossy_eq ms id p onconnect onread hp hl hc1 hc2 hr]
  obtain ⟨_, _, _, _, _, f6, f7, _⟩ := putCtx_fields ms (discard_queue (ctxOf ms id (stop p)))
  have hself : (discard_queue (ctxOf ms id (stop p))).self = id := rfl
  rw [hself] at f7
  have hoff : ∀ k, id ∉ qat (putCtx ms (discard_queue
      (ctxOf ms id (stop p)))).dispatch_queue.queued_pipes k := by
    intro k
    rw [f6]
    exact discard_foldl_removes id p.queue_items ms.dispatch_queue.queued_pipes hitems k
  have hnil : ∀ (α : Type) (k : Nat), qat ([] : List (Nat × List α)) k = [] := by
    intro α k
    rfl
  by_cases hd : ms.destination_stopped = false
  · rw [if_pos hd]
    unfold queue_reset
    obtain ⟨_, _, ⟨p1, g1, g2, g3, g4, g5, g6⟩, g7⟩ :=
      local_delivery_frame
        { putCtx ms (discard_queue (ctxOf ms id (stop p))) with
          dispatch_queue :=
            { (putCtx ms (discard_queue (ctxOf ms id (stop p)))).dispatch_queue with
              reset_q := (putCtx ms (discard_queue
                (ctxOf ms id (stop p)))).dispatch_queue.reset_q ++ [p.connection_state] } }
        QItem.D_BAD_RESET CEPH_MSG_PRIO_HIGHEST id
        (discard_queue (ctxOf ms id (stop p))).pipe f7 rfl hoff
    refine ⟨p1, g1, ?_, ?_, ?_, ?_, ?_, g7⟩
    · rw [g2]; rfl
    · rw [g3]; rfl
    · intro k
      rw [g4]
      exact hnil _ k
    · intro k
      rw [g5 k]
      exact hnil _ k
    · rw [g6]; rfl
  · rw [if_neg hd]
    exact ⟨_, f7, rfl, rfl, fun k => hnil _ k, fun k => hnil _ k, rfl, hoff⟩

/-- C7 at a concrete messenger: the Open lossy pipe `Pipe.lossy_busy` (named 1, on
the round-robin list of priority 127) faults and ends Closed with nothing queued. -/
theorem fault_lossy_closes_witness :
    ∃ p1, getPipe (fault Messenger.lossy_sample 1 false false) 1 = some p1
      ∧ p1.state = PipeState.STATE_CLOSED ∧ p1.sent = [] ∧ p1.in_qlen = 0
      ∧ (∀ k, 1 ∉ qat (fault Messenger.lossy_sample 1 false false).dispatch_queue.queued_pipes
            k) := by
  obtain ⟨p1, h1, h2, h3, _, _, h6, h7⟩ :=
    fault_lossy_closes Messenger.lossy_sample 1 Pipe.lossy_busy false false
      (by decide) (by decide) (by decide) (by decide) (by decide)
      (by
        intro k h
        by_cases hk : k = 127
        · subst hk
          decide
        · simp [Messenger.lossy_sample, DispatchQueue.idle, qat, mfind, Ne.symm hk] at h)
  exact ⟨p1, h1, h2, h3, h6, h7⟩

/-! ## The event queued by a lossy fault -/

/-- The race decision replies with none of the tags of the three checks. -/
theorem accept_race_tag (ms_addr peer_addr : entity_addr_t) (connect : ceph_msg_connect)
    (existing : Option Pipe) (t : Tag)
    (h : (accept_race ms_addr peer_addr connect existing).tag = some t) :
    t = Tag.RETRY_GLOBAL ∨ t = Tag.RETRY_SESSION ∨ t = Tag.WAIT ∨ t = Tag.RESETSESSION := by
  cases existing with
  | none =>
    simp only [accept_race] at h
    split_ifs at h
    · simp only [AcceptStep.tag, Option.some.injEq] at h
      simp [← h]
    · simp [AcceptStep.tag] at h
  | some e =>
    simp only [accept_race] at h
    split_ifs at h <;> simp [AcceptStep.tag] at h <;> simp [← h]

/-- The outcome of one pass through the loop body of `accept`, as a cascade: the
protocol version check, the feature check, the authorizer check, then the race
decision against the pipe registered for the peer's address. -/
theorem accept_record_step (K : Consts) (ms : Messenger) (self : Nat)
    (connect : ceph_msg_connect) (verify : Bool × Bool) (p : Pipe)
    (hp : getPipe ms self = some p) :
    (accept_record K ms self connect verify).step
      = if connect.protocol_version ≠ get_proto_version K ms.my_type connect.host_type false then
          AcceptStep.reply Tag.BADPROTOVER 0 0
        else if feat_missing (get_policy ms connect.host_type).features_required
            connect.features ≠ 0 then
          AcceptStep.reply Tag.FEATURES 0 0
        else if (verify.1 && !verify.2) = true then AcceptStep.reply Tag.BADAUTHORIZER 0 0
        else
          match mfind ms.rank_pipe p.peer_addr with
          | none => accept_race ms.ms_addr p.peer_addr connect none
          | some eid =>
            match getPipe (setPipe ms self
                { p with peer_type := connect.host_type,
                         policy := get_policy ms connect.host_type }) eid with
            | none => AcceptStep.assert_fail
            | some e => accept_race ms.ms_addr p.peer_addr connect (some e) := by
  unfold accept_record
  rw [hp]
  simp only []
  by_cases h1 : connect.protocol_version ≠ get_proto_version K ms.my_type connect.host_type false
  · rw [if_pos h1, if_pos h1]
  · rw [if_neg h1, if_neg h1]
    by_cases h2 : feat_missing (get_policy ms connect.host_type).features_required
        connect.features ≠ 0
    · rw [if_pos h2, if_pos h2]
    · rw [if_neg h2, if_neg h2]
      by_cases h3 : (verify.1 && !verify.2) = true
      · rw [if_pos h3, if_pos h3]
      · rw [if_neg h3, if_neg h3]
        show (match mfind ms.rank_pipe p.peer_addr with
          | none => _
          | some eid => _ : AcceptResult).step = _
        cases hf : mfind ms.rank_pipe p.peer_addr with
        | none => rfl
        | some eid =>
          simp only []
          cases hg : getPipe (setPipe ms self
              { p with peer_type := connect.host_type,
                       policy := get_policy ms connect.host_type }) eid with
          | none => rfl
          | some e =>
            simp only []
            split
            · rename_i heq
              exact heq.symm
            · rfl

/-- When the loop body of `accept` stops at one of its three checks, it has only
recorded the peer's type and policy on the accepting pipe: the address table, every
other pipe, the dispatch queue and the connections are untouched and no existing
pipe has been looked up. -/
theorem accept_record_check_frame (K : Consts) (ms : Messenger) (self : Nat)
    (connect : ceph_msg_connect) (verify : Bool × Bool) (p : Pipe)
    (hp : getPipe ms self = some p)
    (hc : connect.protocol_version ≠ get_proto_version K ms.my_type connect.host_type false
      ∨ feat_missing (get_policy ms connect.host_type).features_required connect.features ≠ 0
      ∨ (verify.1 && !verify.2) = true) :
    (accept_record K ms self connect verify).ms
        = setPipe ms self { p with peer_type := connect.host_type,
                                   policy := get_policy ms connect.host_type }
    ∧ (accept_record K ms self connect verify).existing = none
    ∧ ((accept_record K ms self connect verify).authorizer_consulted = true ↔
        (connect.protocol_version = get_proto_version K ms.my_type connect.host_type false
          ∧ feat_missing (get_policy ms connect.host_type).features_required
              connect.features = 0)) := by
  unfold accept_record
  rw [hp]
  simp only []
  by_cases h1 : connect.protocol_version ≠ get_proto_version K ms.my_type connect.host_type false
  · rw [if_pos h1]
    refine ⟨rfl, rfl, ?_⟩
    constructor
    · intro h; cases h
    · intro h; exact absurd h.1 h1
  · rw [if_neg h1]
    by_cases h2 : feat_missing (get_policy ms connect.host_type).features_required
        connect.features ≠ 0
    · rw [if_pos h2]
      refine ⟨rfl, rfl, ?_⟩
      constructor
      · intro h; cases h
      · intro h; exact absurd h.2 h2
    · rw [if_neg h2]
      have h3 : (verify.1 && !verify.2) = true := by
        rcases hc with h | h | h
        · exact absurd h h1
        · exact absurd h h2
        · exact h
      rw [if_pos h3]
      refine ⟨rfl, rfl, ?_⟩
      constructor
      · intro _
        exact ⟨not_not.mp h1, not_not.mp h2⟩
      · intro _
        rfl

/-- C9: for every connect record read by an accepting pipe, whatever the features,
the authorizer and the registered pipes are: the reply is BADPROTOVER exactly when
`connect.protocol_version` differs from `get_proto_version(my_type,
connect.host_type, false)`; when the versions agree the reply is FEATURES exactly
when `features_required & ~connect.features` is non-zero.  In both cases the address
table, every other pipe, the dispatch queue and the connections are unchanged (no
pipe is registered, replaced or reset), the authorizer is not consulted, and the
accepting pipe is still Accepting, also once the reply has been written, when the
loop reads the next connect record. -/
theorem accept_badprotover_features (K : Consts) (ms : Messenger) (self : Nat)
    (connect : ceph_msg_connect) (verify : Bool × Bool) (p : Pipe)
    (hp : getPipe ms self = some p) (hst : p.state = PipeState.STATE_ACCEPTING) :
    ((accept_record K ms self connect verify).step.tag = some Tag.BADPROTOVER
        ↔ connect.protocol_version ≠ get_proto_version K ms.my_type connect.host_type false)
    ∧ (connect.protocol_version = get_proto_version K ms.my_type connect.host_type false →
        ((accept_record K ms self connect verify).step.tag = some Tag.FEATURES
          ↔ feat_missing (get_policy ms connect.host_type).features_required
              connect.features ≠ 0))
    ∧ ((accept_record K ms self connect verify).step.tag = some Tag.BADPROTOVER
        ∨ (accept_record K ms self connect verify).step.tag = some Tag.FEATURES →
        (accept_record K ms self connect verify).ms.rank_pipe = ms.rank_pipe
        ∧ (∀ j, j ≠ self →
            getPipe (accept_record K ms self connect verify).ms j = getPipe ms j)
        ∧ (accept_record K ms self connect verify).ms.dispatch_queue = ms.dispatch_queue
        ∧ (accept_record K ms self connect verify).ms.connections = ms.connections
        ∧ (accept_record K ms self connect verify).existing = none
        ∧ (accept_record K ms self connect verify).authorizer_consulted = false
        ∧ (∃ p1, getPipe (accept_record K ms self connect verify).ms self = some p1
            ∧ p1.state = PipeState.STATE_ACCEPTING
            ∧ getPipe (accept_reply (accept_record K ms self connect verify).ms self true) self
                = some p1)) := by
  have hstep := accept_record_step K ms self connect verify p hp
  have hrace : ∀ (t : Tag), (t = Tag.BADPROTOVER ∨ t = Tag.FEATURES) →
      connect.protocol_version = get_proto_version K ms.my_type connect.host_type false →
      feat_missing (get_policy ms connect.host_type).features_required connect.features = 0 →
      (accept_record K ms self connect verify).step.tag ≠ some t := by
    intro t ht h1 h2 habs
    rw [hstep, if_neg (not_not.mpr h1), if_neg (not_not.mpr h2)] at habs
    by_cases h3 : (verify.1 && !verify.2) = true
    · rw [if_pos h3] at habs
      simp only [AcceptStep.tag, Option.some.injEq] at habs
      rcases ht with ht | ht <;> rw [ht] at habs <;> cases habs
    · rw [if_neg h3] at habs
      have hcontra : ∀ s : AcceptStep, (∃ ex, s = accept_race ms.ms_addr p.peer_addr connect ex)
          ∨ s = AcceptStep.assert_fail → s.tag ≠ some t := by
        intro s hs hst2
        rcases hs with ⟨ex, rfl⟩ | rfl
        · have := accept_race_tag _ _ _ _ t hst2
          rcases ht with ht | ht <;> rw [ht] at this <;> simp at this
        · simp [AcceptStep.tag] at hst2
      refine hcontra _ ?_ habs
      cases mfind ms.rank_pipe p.peer_addr with
      | none => exact Or.inl ⟨none, rfl⟩
      | some eid =>
        simp only []
        cases getPipe (setPipe ms self
            { p with peer_type := connect.host_type,
                     policy := get_policy ms connect.host_type }) eid with
        | none => exact Or.inr rfl
        | some e => exact Or.inl ⟨some e, rfl⟩
  have hbad : (accept_record K ms self connect verify).step.tag = some Tag.BADPROTOVER
      ↔ connect.protocol_version ≠ get_proto_version K ms.my_type connect.host_type false := by
    constructor
    · intro h hv
      by_cases h2 : feat_missing (get_policy ms connect.host_type).features_required
          connect.features ≠ 0
      · rw [hstep, if_neg (not_not.mpr hv), if_pos h2] at h
        simp [AcceptStep.tag] at h
      · exact hrace Tag.BADPROTOVER (Or.inl rfl) hv (not_not.mp h2) h
    · intro hv
      rw [hstep, if_pos hv]
      rfl
  have hfeat : connect.protocol_version
        = get_proto_version K ms.my_type connect.host_type false →
      ((accept_record K ms self connect verify).step.tag = some Tag.FEATURES
        ↔ feat_missing (get_policy ms connect.host_type).features_required
            connect.features ≠ 0) := by
    intro hv
    constructor
    · intro h h2
      exact hrace Tag.FEATURES (Or.inr rfl) hv h2 h
    · intro h2
      rw [hstep, if_neg (not_not.mpr hv), if_pos h2]
      rfl
  refine ⟨hbad, hfeat, ?_⟩
  intro htag
  have hc : connect.protocol_version ≠ get_proto_version K ms.my_type connect.host_type false
      ∨ feat_missing (get_policy ms connect.host_type).features_required
          connect.features ≠ 0 := by
    rcases htag with h | h
    · exact Or.inl (hbad.mp h)
    · by_cases hv : connect.protocol_version
          = get_proto_version K ms.my_type connect.host_type false
      · exact Or.inr ((hfeat hv).mp h)
      · exact Or.inl hv
  obtain ⟨f1, f2, f3⟩ := accept_record_check_frame K ms self connect verify p hp
    (by
      rcases hc with h | h
      · exact Or.inl h
      · exact Or.inr (Or.inl h))
  have hcons : (accept_record K ms self connect verify).authorizer_consulted = false := by
    cases hb : (accept_record K ms self connect verify).authorizer_consulted with
    | false => rfl
    | true =>
      obtain ⟨g1, g2⟩ := f3.mp hb
      rcases hc with h | h
      · exact absurd g1 h
      · exact absurd g2 h
  rw [f1]
  refine ⟨rfl, ?_, rfl, rfl, f2, hcons, ?_⟩
  · intro j hj
    exact getPipe_setPipe_ne _ _ _ _ hj
  · refine ⟨_, getPipe_setPipe_self _ _ _, hst, ?_⟩
    unfold accept_reply
    rw [if_pos rfl]
    exact getPipe_setPipe_self _ _ _

/-- C9 at a concrete messenger: an accepting pipe of an OSD messenger reads a connect
record from a client with protocol version 0 instead of 22, and one with the right
version. -/
theorem accept_badprotover_features_witness :
    (accept_record Consts.sample
        (Messenger.sample Pipe.busy
          (Pipe.fresh PipeState.STATE_ACCEPTING (Policy.plain false false) 30 2))
        2 (ceph_msg_connect.seqs 9 0) (true, true)).step.tag = some Tag.BADPROTOVER
    ∧ (accept_record Consts.sample
        (Messenger.sample Pipe.busy
          (Pipe.fresh PipeState.STATE_ACCEPTING (Policy.plain false false) 30 2))
        2 { ceph_msg_connect.seqs 9 0 with protocol_version := 22 } (true, true)).step.tag
      ≠ some Tag.BADPROTOVER :=
  ⟨(accept_badprotover_features Consts.sample
      (Messenger.sample Pipe.busy
        (Pipe.fresh PipeState.STATE_ACCEPTING (Policy.plain false false) 30 2))
      2 (ceph_msg_connect.seqs 9 0) (true, true)
      (Pipe.fresh PipeState.STATE_ACCEPTING (Policy.plain false false) 30 2)
      (by decide) (by decide)).1.mpr (by decide),
   fun h => (accept_badprotover_features Consts.sample
      (Messenger.sample Pipe.busy
        (Pipe.fresh PipeState.STATE_ACCEPTING (Policy.plain false false) 30 2))
      2 { ceph_msg_connect.seqs 9 0 with protocol_version := 22 } (true, true)
      (Pipe.fresh PipeState.STATE_ACCEPTING (Policy.plain false false) 30 2)
      (by decide) (by decide)).1.mp h (by decide)⟩

/-! ## The authorizer check -/

/-- C10 as stated fails: the dispatcher's verification leaves `isvalid = false` but
`verify_authorizer` returns false (no dispatcher took the check).  The record has
passed the version and feature checks; `accept` does not reply BADAUTHORIZER but goes
on to the race decision, here a new session, and the pipe is opened and registered
on that record. -/
theorem accept_invalid_authorizer_unhandled :
    (accept_record Consts.sample
        (Messenger.sample Pipe.busy
          (Pipe.fresh PipeState.STATE_ACCEPTING (Policy.plain false false) 30 2))
        2 { ceph_msg_connect.seqs 9 0 with protocol_version := 22 } (false, false)).step
      = AcceptStep.open_new
    ∧ ((accept_open Consts.sample
          (accept_record Consts.sample
            (Messenger.sample Pipe.busy
              (Pipe.fresh PipeState.STATE_ACCEPTING (Policy.plain false false) 30 2))
            2 { ceph_msg_connect.seqs 9 0 with protocol_version := 22 } (false, false)).ms
          2 { ceph_msg_connect.seqs 9 0 with protocol_version := 22 } none).map
        (fun r => ((getPipe r.1 2).map (fun p => p.state), mfind r.1.rank_pipe 30)))
      = some (some PipeState.STATE_OPEN, some 2) := by
  decide

/-- C10 (amended): for a connect record that has passed the protocol-version and
feature checks, if `verify_authorizer` returns true and reports the authorizer
invalid (`isvalid = false`), `accept` replies BADAUTHORIZER; on that record no
existing pipe is looked up, the address table, every other pipe, the dispatch queue
and the connections are unchanged (nothing is registered or replaced), and the
accepting pipe keeps its state, so it does not reach Open. -/
theorem accept_badauthorizer (K : Consts) (ms : Messenger) (self : Nat)
    (connect : ceph_msg_connect) (p : Pipe)
    (hp : getPipe ms self = some p) (hst : p.state = PipeState.STATE_ACCEPTING)
    (hv : connect.protocol_version = get_proto_version K ms.my_type connect.host_type false)
    (hf : feat_missing (get_policy ms connect.host_type).features_required
      connect.features = 0) :
    (accept_record K ms self connect (true, false)).step
        = AcceptStep.reply Tag.BADAUTHORIZER 0 0
    ∧ (accept_record K ms self connect (true, false)).ms.rank_pipe = ms.rank_pipe
    ∧ (∀ j, j ≠ self →
        getPipe (accept_record K ms self connect (true, false)).ms j = getPipe ms j)
    ∧ (accept_record K ms self connect (true, false)).ms.dispatch_queue = ms.dispatch_queue
    ∧ (accept_record K ms self connect (true, false)).ms.connections = ms.connections
    ∧ (accept_record K ms self connect (true, false)).existing = none
    ∧ (∃ p1, getPipe (accept_record K ms self connect (true, false)).ms self = some p1
        ∧ p1.state = PipeState.STATE_ACCEPTING) := by
  have hstep := accept_record_step K ms self connect (true, false) p hp
  rw [if_neg (not_not.mpr hv), if_neg (not_not.mpr hf)] at hstep
  have htf : ((true, false).1 && !(true, false).2) = true := rfl
  rw [if_pos htf] at hstep
  obtain ⟨f1, f2, _⟩ := accept_record_check_frame K ms self connect (true, false) p hp
    (Or.inr (Or.inr rfl))
  rw [f1]
  refine ⟨hstep, rfl, ?_, rfl, rfl, f2, ?_⟩
  · intro j hj
    exact getPipe_setPipe_ne _ _ _ _ hj
  · exact ⟨_, getPipe_setPipe_self _ _ _, hst⟩

/-- C10 (amended) at a concrete messenger: the record with the right protocol version
and a handled, invalid authorizer is answered BADAUTHORIZER. -/
theorem accept_badauthorizer_witness :
    (accept_record Consts.sample
        (Messenger.sample Pipe.busy
          (Pipe.fresh PipeState.STATE_ACCEPTING (Policy.plain false false) 30 2))
        2 { ceph_msg_connect.seqs 9 0 with protocol_version := 22 } (true, false)).step
      = AcceptStep.reply Tag.BADAUTHORIZER 0 0 :=
  (accept_badauthorizer Consts.sample
    (Messenger.sample Pipe.busy
      (Pipe.fresh PipeState.STATE_ACCEPTING (Policy.plain false false) 30 2))
    2 { ceph_msg_connect.seqs 9 0 with protocol_version := 22 }
    (Pipe.fresh PipeState.STATE_ACCEPTING (Policy.plain false false) 30 2)
    (by decide) (by decide) (by decide) (by decide)).1

/-! ## The premises of the statements above are kept by the code -/

/-- The writer's send step keeps every message on `sent` numbered above zero, as long
as `out_seq` has not reached the top of its range. -/
theorem writer_send_sent_pos (p : Pipe) (h : ∀ m ∈ p.sent, 0 < m.seq)
    (hlt : p.out_seq + 1 < 2 ^ 64) : ∀ m ∈ (writer_send p).2.sent, 0 < m.seq := by
  have hinc : inc64 p.out_seq = p.out_seq + 1 := inc64_lt _ hlt
  unfold writer_send _get_next_outgoing
  cases hq : qhighest p.out_q with
  | none => exact h
  | some k =>
    simp only []
    cases hl : qat p.out_q k with
    | nil => exact h
    | cons m rest =>
      simp only []
      by_cases hc : (!p.policy.lossy || p.close_on_empty) = true
      · rw [if_pos hc]
        intro x hx
        simp only [List.mem_append, List.mem_singleton] at hx
        rcases hx with hx | hx
        · exact h x hx
        · rw [hx, hinc]
          exact Nat.succ_pos _
      · rw [if_neg hc]
        exact h

/-- Queueing a received item keeps the pipe's queue items in step with the round-robin
lists: the pipe is on the list of a priority only if it holds an item for it. -/
theorem queue_received_items (c : PipeCtx) (m : QItem) (priority : Nat)
    (h : ∀ k, c.self ∈ qat c.queued_pipes k → k ∈ c.pipe.queue_items) :
    ∀ k, (queue_received c m priority).self ∈ qat (queue_received c m priority).queued_pipes k
      → k ∈ (queue_received c m priority).pipe.queue_items := by
  by_cases hh : c.pipe.halt_delivery = true
  · obtain ⟨h1, h2⟩ := queue_received_halted c m priority hh
    obtain ⟨h3, _⟩ := queue_received_lists c m priority
    intro k hk
    rw [h1]
    rw [h2, h3] at hk
    exact h k hk
  · have hf : c.pipe.halt_delivery = false := by simpa using hh
    intro k hk
    by_cases he : (qat (qtouch c.pipe.in_q priority) priority).isEmpty = true
    · have hitems : (queue_received c m priority).pipe.queue_items
          = if priority ∈ c.pipe.queue_items then c.pipe.queue_items
            else c.pipe.queue_items ++ [priority] := by
        simp only [queue_received, hf, Bool.false_eq_true, if_false, he, if_true]
      have hqp : (queue_received c m priority).queued_pipes
          = mset (qtouch c.queued_pipes priority) priority
              (xpush (qat (qtouch c.queued_pipes priority) priority) c.self) := by
        simp only [queue_received, hf, Bool.false_eq_true, if_false, he, if_true]
      have hself : (queue_received c m priority).self = c.self :=
        (queue_received_lists c m priority).1
      rw [hitems]
      rw [hqp, hself] at hk
      by_cases hkp : k = priority
      · subst hkp
        by_cases hin : k ∈ c.pipe.queue_items
        · rw [if_pos hin]
          exact hin
        · rw [if_neg hin]
          simp
      · rw [qat_mset_ne _ _ _ _ hkp, qat_qtouch] at hk
        have := h k hk
        by_cases hin : priority ∈ c.pipe.queue_items
        · rw [if_pos hin]
          exact this
        · rw [if_neg hin]
          exact List.mem_append_left _ this
    · have hitems : (queue_received c m priority).pipe.queue_items = c.pipe.queue_items := by
        simp only [queue_received, hf, Bool.false_eq_true, if_false, he]
      have hqp : (queue_received c m priority).queued_pipes = c.queued_pipes := by
        simp only [queue_received, hf, Bool.false_eq_true, if_false, he]
      have hself : (queue_received c m priority).self = c.self :=
        (queue_received_lists c m priority).1
      rw [hitems]
      rw [hqp, hself] at hk
      exact h k hk

/-! ## Throttle reservation of `read_message` -/

/-- Releasing at `out_dethrottle` what `throttle_reserve` has reserved gives back the
throttlers as they were. -/
theorem out_dethrottle_reserve (size : Nat) (thr : Throttles) (ret : Int) :
    out_dethrottle size (throttle_reserve size thr) ret
      = { ret := ret, message := none, throttles := thr } := by
  unfold out_dethrottle throttle_reserve dispatch_throttle_release
  by_cases h : size = 0
  · simp only [if_pos h]
  · simp only [if_neg h]
    cases thr with
    | mk pol d =>
      cases pol with
      | none => simp
      | some c => simp

/-- Whenever `read_message` produces a message, the throttlers have been charged
`message_size` of its header and the message records that same number. -/
theorem read_message_message_size (complete : Nat) (io : ReadIO) (thr : Throttles)
    (h : ceph_msg_header) (m : Message) (hh : io.header = some h)
    (hm : (read_message complete io thr).message = some m) :
    m.dispatch_throttle_size = message_size h ∧
    (read_message complete io thr).throttles = throttle_reserve (message_size h) thr ∧
    (read_message complete io thr).ret = 0 := by
  unfold read_message at hm ⊢
  rw [hh] at hm ⊢
  simp only at hm ⊢
  by_cases h1 : io.header_crc ≠ h.crc
  · rw [if_pos h1] at hm; simp at hm
  rw [if_neg h1] at hm ⊢
  by_cases h2 : h.front_len % 2 ^ 32 ≠ 0 ∧ io.front_ok = false
  · rw [if_pos h2] at hm; simp [out_dethrottle] at hm
  rw [if_neg h2] at hm ⊢
  by_cases h3 : h.middle_len % 2 ^ 32 ≠ 0 ∧ io.middle_ok = false
  · rw [if_pos h3] at hm; simp [out_dethrottle] at hm
  rw [if_neg h3] at hm ⊢
  by_cases h4 : h.data_len % 2 ^ 32 ≠ 0 ∧ io.data_ok = false
  · rw [if_pos h4] at hm; simp [out_dethrottle] at hm
  rw [if_neg h4] at hm ⊢
  cases hf : io.footer with
  | none => rw [hf] at hm; simp [out_dethrottle] at hm
  | some f =>
    rw [hf] at hm
    simp only at hm ⊢
    by_cases h5 : f.flags &&& complete = 0
    · rw [if_pos h5] at hm; simp [out_dethrottle] at hm
    rw [if_neg h5] at hm ⊢
    cases hd : io.decoded with
    | none => rw [hd] at hm; simp [out_dethrottle] at hm
    | some m0 =>
      rw [hd] at hm
      simp only [Option.some.injEq] at hm
      subst hm
      exact ⟨rfl, rfl, rfl⟩

/-- Claim C20 fails on a header whose three 32-bit section lengths add up to 2^32:
`read_message` computes `message_size` in 32-bit arithmetic, so for a front and a
data section of 2^31 bytes each it reserves nothing from the policy throttler and
nothing from the dispatch throttler, and records 0 as the message's
`dispatch_throttle_size`, while the exact sum of the lengths is 2^32. -/
theorem read_message_reserves_wrapped_sum :
    ceph_msg_header.wrapping.front_len < 2 ^ 32 ∧
    ceph_msg_header.wrapping.middle_len < 2 ^ 32 ∧
    ceph_msg_header.wrapping.data_len < 2 ^ 32 ∧
    ceph_msg_header.wrapping.front_len + ceph_msg_header.wrapping.middle_len
      + ceph_msg_header.wrapping.data_len = 2 ^ 32 ∧
    message_size ceph_msg_header.wrapping = 0 ∧
    read_message 1 (read_framed ceph_msg_header.wrapping (some (Message.mk3 1 1 127)))
        { policy := some 5, dispatch := 7 }
      = { ret := 0, message := some (Message.mk3 1 1 127),
          throttles := { policy := some 5, dispatch := 7 } } := by
  refine ⟨by decide, by decide, by decide, by decide, by decide, by decide⟩

/-! ## A framed message that fails to decode -/

/-- What `read_message` returns for a completely framed message that the codec cannot
decode: `-EINVAL`, no message, and the throttlers as they were before the call. -/
theorem read_message_decode_failure (complete : Nat) (io : ReadIO) (thr : Throttles)
    (h : ceph_msg_header) (f : ceph_msg_footer)
    (hh : io.header = some h) (hcrc : io.header_crc = h.crc)
    (hfront : io.front_ok = true) (hmid : io.middle_ok = true) (hdata : io.data_ok = true)
    (hf : io.footer = some f) (hc : f.flags &&& complete ≠ 0) (hd : io.decoded = none) :
    read_message complete io thr = { ret := -EINVAL, message := none, throttles := thr } := by
  unfold read_message
  rw [hh]
  simp only
  rw [if_neg (by simp [hcrc]), if_neg (by simp [hfront]), if_neg (by simp [hmid]),
    if_neg (by simp [hdata]), hf]
  simp only
  rw [if_neg hc, hd]
  exact out_dethrottle_reserve _ _ _

/-- Claim C12 fails on a durable Open pipe with unacknowledged and queued messages
(connect_seq 1): a completely framed message that fails to decode makes the reader
call `fault`, which requeues the sent messages and moves the pipe to Connecting with
connect_seq 2. -/
theorem reader_decode_failure_reconnects :
    (getPipe (Messenger.sample Pipe.busy Pipe.accepting) 1).map
        (fun p => (p.state, p.connect_seq, p.sent.length)) =
      some (PipeState.STATE_OPEN, 1, 2) ∧
    (getPipe
        (reader_handle 1 (Messenger.sample Pipe.busy Pipe.accepting) 1
          (ReaderEvent.MSG (read_framed ceph_msg_header.small none)) none).1 1).map
        (fun p => (p.state, p.connect_seq, p.sent.length)) =
      some (PipeState.STATE_CONNECTING, 2, 0) := by
  refine ⟨by decide, by decide⟩

/-- Claim C12, amended: when a completely framed inbound message (header CRC correct,
all sections and the footer read, COMPLETE flag set) fails to decode, `read_message`
returns `-EINVAL` with no message and with both throttlers back at their count from
before the reservation, and the reader's step is exactly `fault(false, true)` on
the pipe: nothing is queued, and what happens to the pipe is what a read error
does. -/
theorem reader_decode_failure (complete : Nat) (ms : Messenger) (id : Nat) (io : ReadIO)
    (pol : Option Nat) (p : Pipe) (h : ceph_msg_header) (f : ceph_msg_footer)
    (hp : getPipe ms id = some p)
    (hh : io.header = some h) (hcrc : io.header_crc = h.crc)
    (hfront : io.front_ok = true) (hmid : io.middle_ok = true) (hdata : io.data_ok = true)
    (hf : io.footer = some f) (hc : f.flags &&& complete ≠ 0) (hd : io.decoded = none) :
    read_message complete io { policy := pol, dispatch := ms.dispatch_throttler }
      = { ret := -EINVAL, message := none,
          throttles := { policy := pol, dispatch := ms.dispatch_throttler } } ∧
    reader_handle complete ms id (ReaderEvent.MSG io) pol = (fault ms id false true, pol) ∧
    reader_handle complete ms id (ReaderEvent.MSG io) pol
      = reader_handle complete ms id ReaderEvent.read_error pol := by
  have hr := read_message_decode_failure complete io
    { policy := pol, dispatch := ms.dispatch_throttler } h f hh hcrc hfront hmid hdata hf hc hd
  have h1 : reader_handle complete ms id (ReaderEvent.MSG io) pol
      = (fault ms id false true, pol) := by
    unfold reader_handle
    rw [hp]
    simp only [hr]
    have hneg : (-EINVAL : Int) < 0 := by decide
    rw [if_pos hneg]
  refine ⟨hr, h1, ?_⟩
  rw [h1]
  unfold reader_handle
  rw [hp]

/-- The amended claim C12 at the sample messenger: pipe 1 is Open, the frame of an
8-byte message is complete and the codec returns nothing. -/
theorem reader_decode_failure_witness :
    read_message 1 (read_framed ceph_msg_header.small none) { policy := none, dispatch := 0 }
      = { ret := -EINVAL, message := none, throttles := { policy := none, dispatch := 0 } } ∧
    reader_handle 1 (Messenger.sample Pipe.busy Pipe.accepting) 1
        (ReaderEvent.MSG (read_framed ceph_msg_header.small none)) none
      = (fault (Messenger.sample Pipe.busy Pipe.accepting) 1 false true, none) ∧
    reader_handle 1 (Messenger.sample Pipe.busy Pipe.accepting) 1
        (ReaderEvent.MSG (read_framed ceph_msg_header.small none)) none
      = reader_handle 1 (Messenger.sample Pipe.busy Pipe.accepting) 1
          ReaderEvent.read_error none :=
  reader_decode_failure 1 (Messenger.sample Pipe.busy Pipe.accepting) 1
    (read_framed ceph_msg_header.small none) none Pipe.busy ceph_msg_header.small
    { flags := 1 } (by decide) rfl rfl rfl rfl rfl rfl (by decide) rfl

/-! ## BADAUTHORIZER in `connect` -/

/-- Two consecutive BADAUTHORIZER replies: the first is tolerated, on the second
`connect` returns -1 through `stop_locked`, and the messenger is as it was when the
loop was entered: `fault` has not run and the pipe is still Connecting. -/
theorem connect_loop_badauthorizer_twice (K : Consts) (ms : Messenger) (id : Nat)
    (l : ConnectLocals) (p : Pipe) (r1 r2 : ceph_msg_connect_reply)
    (s1 s2 : Option (Nat × Bool)) (rest : List ConnectRead)
    (hp : getPipe ms id = some p) (hs : p.state = PipeState.STATE_CONNECTING)
    (hl : l.got_bad_auth = false)
    (h1 : r1.tag = some Tag.BADAUTHORIZER) (h2 : r2.tag = some Tag.BADAUTHORIZER) :
    connect_loop K ms id l (ConnectRead.reply r1 s1 :: ConnectRead.reply r2 s2 :: rest)
      = ConnectResult.returned ms (-1) := by
  have hns : ¬ (p.state ≠ PipeState.STATE_CONNECTING) := by simp [hs]
  have e1 : connect_pass K ms id l (ConnectRead.reply r1 s1)
      = Sum.inl (ms, { l with got_bad_auth := true,
                              authorizer_requests := l.authorizer_requests ++ [false] ++ [true] }) := by
    simp only [connect_pass, hp, h1, hl, if_neg hns]
    simp
  have e2 : connect_pass K ms id
      { l with got_bad_auth := true,
               authorizer_requests := l.authorizer_requests ++ [false] ++ [true] }
      (ConnectRead.reply r2 s2) = Sum.inr (ConnectResult.returned ms (-1)) := by
    simp only [connect_pass, hp, h2, if_neg hns]
    simp
  rw [connect_loop, e1]
  simp only
  rw [connect_loop, e2]

/-- Claim C11 fails on a lossy client pipe in Connecting with one queued message.
A FEATURES reply is fatal (the pipe goes through `fault` and ends Closed), but after
two consecutive BADAUTHORIZER replies `connect` returns -1 with the pipe untouched
and still Connecting, and the next pass of the writer's loop calls `connect` again,
which tolerates one more BADAUTHORIZER and opens the session on the READY that
follows. -/
theorem connect_badauthorizer_twice_not_fatal :
    pipe_state (Messenger.sample Pipe.connecting Pipe.accepting) 1
      = some PipeState.STATE_CONNECTING ∧
    ((connect Consts.sample (Messenger.sample Pipe.connecting Pipe.accepting) 1 true
        [ConnectRead.reply (ceph_msg_connect_reply.tagged Tag.FEATURES 0 0) none]).messenger.bind
      (fun ms => pipe_state ms 1)) = some PipeState.STATE_CLOSED ∧
    connect Consts.sample (Messenger.sample Pipe.connecting Pipe.accepting) 1 true
        [ConnectRead.reply (ceph_msg_connect_reply.tagged Tag.BADAUTHORIZER 0 0) none,
         ConnectRead.reply (ceph_msg_connect_reply.tagged Tag.BADAUTHORIZER 0 0) none]
      = ConnectResult.returned
          { Messenger.sample Pipe.connecting Pipe.accepting with global_seq := 1 } (-1) ∧
    getPipe { Messenger.sample Pipe.connecting Pipe.accepting with global_seq := 1 } 1
      = some Pipe.connecting ∧
    ((writer_step Consts.sample
        { Messenger.sample Pipe.connecting Pipe.accepting with global_seq := 1 } 1
        { prelude_ok := true,
          reads := [ConnectRead.reply (ceph_msg_connect_reply.tagged Tag.BADAUTHORIZER 0 0) none,
                    ConnectRead.reply (ceph_msg_connect_reply.tagged Tag.READY 7 1) none],
          keepalive_ok := true, ack_ok := true, msg_ok := true }).bind
      (fun ms => pipe_state ms 1)) = some PipeState.STATE_OPEN := by
  refine ⟨by decide, by decide, by decide, by decide, by decide⟩

/-! ## The port scan of `Accepter::bind` -/

/-- The port loop over `a, a+1, .., a+n-1`, entered with `rc = -1`: either it stops
with `rc = 0` on the lowest port of the run that is not avoided and on which `bind`
succeeds, or no port of the run is such a port and `rc` is still -1. -/
theorem scan_ports_range (os : SocketOS) (a1 a2 : Int) (n : Nat) :
    ∀ (a : Nat) (s : ScanState), s.rc = -1 →
      ((scan_ports os a1 a2 (List.range' a n) s).rc = 0 ∧
        a ≤ (scan_ports os a1 a2 (List.range' a n) s).port ∧
        (scan_ports os a1 a2 (List.range' a n) s).port < a + n ∧
        ((scan_ports os a1 a2 (List.range' a n) s).port : Int) ≠ a1 ∧
        ((scan_ports os a1 a2 (List.range' a n) s).port : Int) ≠ a2 ∧
        os.bind (scan_ports os a1 a2 (List.range' a n) s).port = 0 ∧
        ∀ q, a ≤ q → q < (scan_ports os a1 a2 (List.range' a n) s).port →
          ¬ ((q : Int) ≠ a1 ∧ (q : Int) ≠ a2 ∧ os.bind q = 0)) ∨
      ((scan_ports os a1 a2 (List.range' a n) s).rc = -1 ∧
        (∀ q, a ≤ q → q < a + n → ¬ ((q : Int) ≠ a1 ∧ (q : Int) ≠ a2 ∧ os.bind q = 0)) ∧
        ((scan_ports os a1 a2 (List.range' a n) s).errno = s.errno ∨
          (scan_ports os a1 a2 (List.range' a n) s).errno ≠ 0) ∧
        ((∃ q, a ≤ q ∧ q < a + n ∧ (q : Int) ≠ a1 ∧ (q : Int) ≠ a2) →
          (scan_ports os a1 a2 (List.range' a n) s).errno ≠ 0)) := by
  induction n with
  | zero =>
    intro a s hs
    right
    have e : scan_ports os a1 a2 [] s = s := rfl
    rw [List.range'_zero, e]
    refine ⟨hs, ?_, Or.inl rfl, ?_⟩
    · intro q h1 h2; omega
    · rintro ⟨q, h1, h2, _⟩; omega
  | succ n ih =>
    intro a s hs
    rw [List.range'_succ]
    unfold scan_ports
    by_cases hav : (a : Int) = a1 ∨ (a : Int) = a2
    · rw [if_pos hav]
      rcases ih (a + 1) s hs with h | h
      · left
        obtain ⟨h1, h2, h3, h4, h5, h6, h7⟩ := h
        refine ⟨h1, by omega, by omega, h4, h5, h6, ?_⟩
        intro q hq1 hq2
        by_cases hqa : q = a
        · subst hqa
          intro hc
          rcases hav with e | e
          · exact hc.1 e
          · exact hc.2.1 e
        · exact h7 q (by omega) hq2
      · right
        obtain ⟨h1, h2, h3, h4⟩ := h
        refine ⟨h1, ?_, h3, ?_⟩
        · intro q hq1 hq2
          by_cases hqa : q = a
          · subst hqa
            intro hc
            rcases hav with e | e
            · exact hc.1 e
            · exact hc.2.1 e
          · exact h2 q (by omega) (by omega)
        · rintro ⟨q, hq1, hq2, hq3, hq4⟩
          apply h4
          have hqa : q ≠ a := by
            intro e
            subst e
            rcases hav with e | e
            · exact hq3 e
            · exact hq4 e
          exact ⟨q, by omega, by omega, hq3, hq4⟩
    · rw [if_neg hav]
      have hav1 : (a : Int) ≠ a1 := fun e => hav (Or.inl e)
      have hav2 : (a : Int) ≠ a2 := fun e => hav (Or.inr e)
      by_cases hb : os.bind a = 0
      · rw [if_pos hb]
        left
        refine ⟨rfl, Nat.le_refl a, by simp, hav1, hav2, hb, ?_⟩
        intro q hq1 hq2
        simp only at hq2
        omega
      · rw [if_neg hb]
        rcases ih (a + 1) { rc := -1, errno := os.bind a, port := a } rfl with h | h
        · left
          obtain ⟨h1, h2, h3, h4, h5, h6, h7⟩ := h
          refine ⟨h1, by omega, by omega, h4, h5, h6, ?_⟩
          intro q hq1 hq2
          by_cases hqa : q = a
          · subst hqa
            intro hc
            exact hb hc.2.2
          · exact h7 q (by omega) hq2
        · right
          obtain ⟨h1, h2, h3, h4⟩ := h
          have hne : (scan_ports os a1 a2 (List.range' (a + 1) n)
              { rc := -1, errno := os.bind a, port := a }).errno ≠ 0 := by
            rcases h3 with e | e
            · rw [e]; exact hb
            · exact e
          refine ⟨h1, ?_, Or.inr hne, fun _ => hne⟩
          intro q hq1 hq2
          by_cases hqa : q = a
          · subst hqa
            intro hc
            exact hb hc.2.2
          · exact h2 q (by omega) (by omega)

/-- Claim C18: `Accepter::bind` called with port 0 (socket creation succeeding, the
range holding at least three ports).  If some port of
[CEPH_PORT_START, CEPH_PORT_LAST] is neither avoided nor refused by the operating
system, the listen socket is bound to the lowest such port, which differs from both
avoided ports, and when `listen` succeeds bind returns 0 with that port in `ms_addr`
and `did_bind` set.  If there is no such port, bind returns a negative value and
leaves the state alone, `did_bind` included.  `rebind(avoid_port)` is `stop` (which
clears `did_bind`) and then `bind` with port 0 and the avoided ports (old port,
avoid_port), so when it returns 0 the new port differs from both. -/
theorem Accepter_bind_port_zero (C : PortRange) (os : SocketOS) (st : AccepterState)
    (a1 a2 : Int) (hsock : os.socket = 0)
    (hrange : C.CEPH_PORT_START + 2 ≤ C.CEPH_PORT_LAST) :
    ((∃ p, Eligible C os a1 a2 p) →
      ∃ p, Eligible C os a1 a2 p ∧ (∀ q, Eligible C os a1 a2 q → p ≤ q) ∧
        (p : Int) ≠ a1 ∧ (p : Int) ≠ a2 ∧
        (Accepter_bind C os st 0 a1 a2).2.listen_port = some p ∧
        (os.listen = 0 → Accepter_bind C os st 0 a1 a2
          = (0, { ms_port := p, did_bind := true, listen_port := some p }))) ∧
    ((¬ ∃ p, Eligible C os a1 a2 p) →
      (Accepter_bind C os st 0 a1 a2).1 < 0 ∧ (Accepter_bind C os st 0 a1 a2).2 = st) ∧
    (st.did_bind = true →
      Accepter_rebind C os st a1
        = some (Accepter_bind C os (Accepter_stop st) 0 (st.ms_port : Int) a1) ∧
      ∀ r, Accepter_rebind C os st a1 = some r → r.1 = 0 →
        r.2.did_bind = true ∧ r.2.ms_port ≠ st.ms_port ∧ (r.2.ms_port : Int) ≠ a1 ∧
        r.2.listen_port = some r.2.ms_port) := by
  have hlen : C.CEPH_PORT_START + (C.CEPH_PORT_LAST + 1 - C.CEPH_PORT_START)
      = C.CEPH_PORT_LAST + 1 := by omega
  have key : ∀ (st : AccepterState) (b1 b2 : Int),
      ((∃ p, Eligible C os b1 b2 p) →
        ∃ p, Eligible C os b1 b2 p ∧ (∀ q, Eligible C os b1 b2 q → p ≤ q) ∧
          (p : Int) ≠ b1 ∧ (p : Int) ≠ b2 ∧
          (Accepter_bind C os st 0 b1 b2).2.listen_port = some p ∧
          (os.listen = 0 → Accepter_bind C os st 0 b1 b2
            = (0, { ms_port := p, did_bind := true, listen_port := some p })) ∧
          (os.listen ≠ 0 → (Accepter_bind C os st 0 b1 b2).1 < 0)) ∧
      ((¬ ∃ p, Eligible C os b1 b2 p) →
        (Accepter_bind C os st 0 b1 b2).1 < 0 ∧ (Accepter_bind C os st 0 b1 b2).2 = st) := by
    intro st b1 b2
    have hs := scan_ports_range os b1 b2 (C.CEPH_PORT_LAST + 1 - C.CEPH_PORT_START)
      C.CEPH_PORT_START { rc := -1, errno := os.errno0, port := 0 } rfl
    have hsock' : ¬ (os.socket ≠ 0) := by simp [hsock]
    have h00 : ¬ ((0 : Nat) ≠ 0) := by simp
    unfold Accepter_bind
    rw [if_neg hsock', if_neg h00]
    simp only
    unfold port_list
    rcases hs with h | h
    · obtain ⟨h1, h2, h3, h4, h5, h6, h7⟩ := h
      have hrc : ¬ ((scan_ports os b1 b2
          (List.range' C.CEPH_PORT_START (C.CEPH_PORT_LAST + 1 - C.CEPH_PORT_START))
          { rc := -1, errno := os.errno0, port := 0 }).rc < 0) := by rw [h1]; decide
      rw [if_neg hrc]
      constructor
      · intro _
        refine ⟨_, ⟨h2, by omega, h4, h5, h6⟩, ?_, h4, h5, ?_, ?_, ?_⟩
        · intro q hq
          by_contra hlt
          exact h7 q hq.1 (by omega) ⟨hq.2.2.1, hq.2.2.2.1, hq.2.2.2.2⟩
        · by_cases hl : os.listen ≠ 0
          · rw [if_pos hl]
          · rw [if_neg hl]
        · intro hl
          have hl' : ¬ (os.listen ≠ 0) := by simp [hl]
          rw [if_neg hl']
        · intro hl
          rw [if_pos hl]
          simp only
          omega
      · intro hno
        exact absurd ⟨_, h2, by omega, h4, h5, h6⟩ hno
    · obtain ⟨h1, h2, _, h4⟩ := h
      have hrc : (scan_ports os b1 b2
          (List.range' C.CEPH_PORT_START (C.CEPH_PORT_LAST + 1 - C.CEPH_PORT_START))
          { rc := -1, errno := os.errno0, port := 0 }).rc < 0 := by rw [h1]; decide
      rw [if_pos hrc]
      constructor
      · rintro ⟨p, hp⟩
        have hp2 := hp.2.1
        exact absurd ⟨hp.2.2.1, hp.2.2.2.1, hp.2.2.2.2⟩ (h2 p hp.1 (by omega))
      · intro _
        refine ⟨?_, rfl⟩
        have hex : ∃ q, C.CEPH_PORT_START ≤ q ∧
            q < C.CEPH_PORT_START + (C.CEPH_PORT_LAST + 1 - C.CEPH_PORT_START) ∧
            (q : Int) ≠ b1 ∧ (q : Int) ≠ b2 := by
          by_cases c0 : (C.CEPH_PORT_START : Int) ≠ b1 ∧ (C.CEPH_PORT_START : Int) ≠ b2
          · exact ⟨C.CEPH_PORT_START, by omega, by omega, c0.1, c0.2⟩
          · by_cases c1 : ((C.CEPH_PORT_START + 1 : Nat) : Int) ≠ b1 ∧
                ((C.CEPH_PORT_START + 1 : Nat) : Int) ≠ b2
            · exact ⟨C.CEPH_PORT_START + 1, by omega, by omega, c1.1, c1.2⟩
            · refine ⟨C.CEPH_PORT_START + 2, by omega, by omega, ?_, ?_⟩
              · push_cast at c1 ⊢; omega
              · push_cast at c1 ⊢; omega
        have hne := h4 hex
        simp only
        omega
  refine ⟨?_, (key st a1 a2).2, ?_⟩
  · intro hex
    obtain ⟨p, h1, h2, h3, h4, h5, h6, _⟩ := (key st a1 a2).1 hex
    exact ⟨p, h1, h2, h3, h4, h5, h6⟩
  intro hd
  have hreb : Accepter_rebind C os st a1
      = some (Accepter_bind C os (Accepter_stop st) 0 (st.ms_port : Int) a1) := by
    unfold Accepter_rebind
    rw [if_pos hd]
  refine ⟨hreb, ?_⟩
  intro r hr hr0
  rw [hreb] at hr
  simp only [Option.some.injEq] at hr
  subst hr
  have k := key (Accepter_stop st) (st.ms_port : Int) a1
  by_cases hex : ∃ p, Eligible C os (st.ms_port : Int) a1 p
  · obtain ⟨p, hp, _, hp1, hp2, hlp, hfull, hfail⟩ := k.1 hex
    by_cases hl : os.listen = 0
    · rw [hfull hl]
      refine ⟨rfl, ?_, hp2, rfl⟩
      simp only
      intro e
      apply hp1
      rw [e]
    · have := hfail hl
      omega
  · have := (k.2 hex).1
    omega

/-- Claim C18 at the range 6800..6900 with the ports 6800 and 6802 in use, every other
call succeeding, for a messenger bound to port 6801 that avoids port 6803. -/
theorem Accepter_bind_port_zero_witness :
    ((∃ p, Eligible PortRange.sample (SocketOS.busy_on [6800, 6802]) 6801 6803 p) →
      ∃ p, Eligible PortRange.sample (SocketOS.busy_on [6800, 6802]) 6801 6803 p ∧
        (∀ q, Eligible PortRange.sample (SocketOS.busy_on [6800, 6802]) 6801 6803 q → p ≤ q) ∧
        (p : Int) ≠ 6801 ∧ (p : Int) ≠ 6803 ∧
        (Accepter_bind PortRange.sample (SocketOS.busy_on [6800, 6802])
          { ms_port := 6801, did_bind := true, listen_port := none } 0 6801 6803).2.listen_port
          = some p ∧
        ((SocketOS.busy_on [6800, 6802]).listen = 0 →
          Accepter_bind PortRange.sample (SocketOS.busy_on [6800, 6802])
            { ms_port := 6801, did_bind := true, listen_port := none } 0 6801 6803
          = (0, { ms_port := p, did_bind := true, listen_port := some p }))) ∧
    ((¬ ∃ p, Eligible PortRange.sample (SocketOS.busy_on [6800, 6802]) 6801 6803 p) →
      (Accepter_bind PortRange.sample (SocketOS.busy_on [6800, 6802])
        { ms_port := 6801, did_bind := true, listen_port := none } 0 6801 6803).1 < 0 ∧
      (Accepter_bind PortRange.sample (SocketOS.busy_on [6800, 6802])
        { ms_port := 6801, did_bind := true, listen_port := none } 0 6801 6803).2
        = { ms_port := 6801, did_bind := true, listen_port := none }) ∧
    ((true = true) →
      Accepter_rebind PortRange.sample (SocketOS.busy_on [6800, 6802])
          { ms_port := 6801, did_bind := true, listen_port := none } 6801
        = some (Accepter_bind PortRange.sample (SocketOS.busy_on [6800, 6802])
            { ms_port := 6801, did_bind := false, listen_port := none } 0 ((6801 : Nat) : Int)
            6801) ∧
      ∀ r, Accepter_rebind PortRange.sample (SocketOS.busy_on [6800, 6802])
          { ms_port := 6801, did_bind := true, listen_port := none } 6801 = some r → r.1 = 0 →
        r.2.did_bind = true ∧ r.2.ms_port ≠ 6801 ∧ (r.2.ms_port : Int) ≠ 6801 ∧
        r.2.listen_port = some r.2.ms_port) :=
  Accepter_bind_port_zero PortRange.sample (SocketOS.busy_on [6800, 6802])
    { ms_port := 6801, did_bind := true, listen_port := none } 6801 6803 rfl (by decide)

/-! ## Prefix and delimiter in `list_objects` -/

/-- What `str_find_from` finds is the first position where `delim` occurs. -/
theorem str_find_from_spec (delim : List Char) :
    ∀ (fuel : Nat) (s : List Char) (pos i : Nat), str_find_from delim fuel s pos = some i →
      pos ≤ i ∧ delim.isPrefixOf (s.drop (i - pos)) = true ∧
      ∀ j, j < i - pos → delim.isPrefixOf (s.drop j) = false := by
  intro fuel
  induction fuel with
  | zero =>
    intro s pos i h
    unfold str_find_from at h
    by_cases hp : delim.isPrefixOf s = true
    · rw [if_pos hp] at h
      simp only [Option.some.injEq] at h
      subst h
      simp [hp]
    · rw [if_neg hp] at h
      simp at h
  | succ fuel ih =>
    intro s pos i h
    unfold str_find_from at h
    by_cases hp : delim.isPrefixOf s = true
    · rw [if_pos hp] at h
      simp only [Option.some.injEq] at h
      subst h
      simp [hp]
    · rw [if_neg hp] at h
      cases s with
      | nil => simp at h
      | cons c t =>
        simp only at h
        obtain ⟨h1, h2, h3⟩ := ih t (pos + 1) i h
        have e : i - pos = (i - (pos + 1)) + 1 := by omega
        refine ⟨by omega, ?_, ?_⟩
        · rw [e, List.drop_succ_cons]
          exact h2
        · intro j hj
          cases j with
          | zero =>
            rw [List.drop_zero]
            cases hb : delim.isPrefixOf (c :: t) with
            | false => rfl
            | true => exact absurd hb hp
          | succ j =>
            rw [List.drop_succ_cons]
            exact h3 j (by omega)

/-- An entry that passes the namespace, filter and prefix tests and whose name holds
a non-empty `delim` at or after the end of the prefix, first at position `i`: the
entry is not added to `result`, and the key marked in `common_prefixes` is the name
cut after position `i`, that is after the first character of that occurrence. -/
theorem list_entry_delim (translate : List Char → Option (List Char))
    (filter : List Char → List Char → Bool) (pre delim : List Char) (acc : Listing)
    (ent : List Char × Nat) (obj : List Char) (i : Nat)
    (ht : translate ent.1 = some obj) (hf : filter obj ent.1 = true)
    (hp : obj.take pre.length = pre) (hd : delim ≠ [])
    (hi : str_find obj delim pre.length = some i) :
    list_entry translate filter pre delim acc ent
      = { acc with common_prefixes := mset acc.common_prefixes (obj.take (i + 1)) true } := by
  unfold list_entry
  rw [ht]
  simp only [hf, hi]
  have h1 : ¬ (pre.length ≠ 0 ∧ obj.take pre.length ≠ pre) := by simp [hp]
  have h2 : (!delim.isEmpty) = true ∧ (i : Int) ≥ 0 := by
    refine ⟨?_, by omega⟩
    cases delim with
    | nil => exact absurd rfl hd
    | cons c t => rfl
  simp only [Bool.not_true, Bool.false_eq_true, if_false, if_neg h1, if_pos h2]
  have h3 : ((i : Int) + 1).toNat = i + 1 := by omega
  rw [h3]

/-- An entry that `list_entry` adds to `result` has a name with the prefix and without
an occurrence of (a non-empty) `delim` at or after the end of the prefix. -/
theorem list_entry_result (translate : List Char → Option (List Char))
    (filter : List Char → List Char → Bool) (pre delim : List Char) (acc : Listing)
    (ent : List Char × Nat) (hd : delim ≠ [])
    (hr : (list_entry translate filter pre delim acc ent).result ≠ acc.result) :
    ∃ obj, translate ent.1 = some obj ∧ obj.take pre.length = pre ∧
      str_find obj delim pre.length = none ∧
      (list_entry translate filter pre delim acc ent).result = acc.result ++ [ent.2] := by
  unfold list_entry at hr ⊢
  cases ht : translate ent.1 with
  | none => rw [ht] at hr; exact absurd rfl hr
  | some obj =>
    rw [ht] at hr
    simp only at hr ⊢
    by_cases hf : (!filter obj ent.1) = true
    · rw [if_pos hf] at hr; exact absurd rfl hr
    rw [if_neg hf] at hr ⊢
    by_cases hp : pre.length ≠ 0 ∧ obj.take pre.length ≠ pre
    · rw [if_pos hp] at hr; exact absurd rfl hr
    rw [if_neg hp] at hr ⊢
    have hpre : obj.take pre.length = pre := by
      by_cases h0 : pre.length = 0
      · have : pre = [] := List.length_eq_zero.mp h0
        subst this
        simp
      · by_contra hne
        exact hp ⟨h0, hne⟩
    have hne : (!delim.isEmpty) = true := by
      cases delim with
      | nil => exact absurd rfl hd
      | cons c t => rfl
    cases hs : str_find obj delim pre.length with
    | some i =>
      rw [hs] at hr
      have h2 : (!delim.isEmpty) = true ∧ (i : Int) ≥ 0 := ⟨hne, by omega⟩
      simp only [if_pos h2] at hr
      exact absurd rfl hr
    | none =>
      have h2 : ¬ ((!delim.isEmpty) = true ∧ (-1 : Int) ≥ 0) := by
        intro h; have := h.2; omega
      refine ⟨obj, rfl, hpre, hs, ?_⟩
      simp only [if_neg h2]

/-- Claim C19 fails for a delimiter of more than one character.  With prefix `a` and
delimiter `--`, the entry `ab--c` is left out of `result` (which holds only `ax`),
but the key marked in `common_prefixes` is `ab-`, the name cut after the first
character of the delimiter; the part of the name through the end of the first
occurrence of the delimiter, `ab--`, is not in `common_prefixes`. -/
theorem list_objects_common_prefix_cut :
    list_objects (fun s => some s) (fun _ _ => true) 10 ['a'] ['-', '-']
        [(0, [(['a', 'b', '-', '-', 'c'], 1), (['a', 'x'], 2), (['z', 'z'], 3)], false)]
        { result := [], common_prefixes := [], count := 0 }
      = some (0, { result := [2], common_prefixes := [(['a', 'b', '-'], true)], count := 1 }) ∧
    str_find ['a', 'b', '-', '-', 'c'] ['-', '-'] 1 = some 2 ∧
    List.take (2 + 2) ['a', 'b', '-', '-', 'c'] = ['a', 'b', '-', '-'] ∧
    mfind [(['a', 'b', '-'], true)] ['a', 'b', '-', '-'] = none := by
  refine ⟨by decide, by decide, by decide, by decide⟩

/-! ## Marked-down pipes -/

/-- What `mark_down` does to a pipe: it is Closed afterwards, and it is not in the
address table under its own address. -/
theorem mark_down_pipe_spec (ms : Messenger) (pid : Nat) (p : Pipe)
    (hp : getPipe ms pid = some p) :
    pipe_state (mark_down_pipe ms pid) pid = some PipeState.STATE_CLOSED ∧
    mfind (mark_down_pipe ms pid).rank_pipe p.peer_addr ≠ some pid := by
  have hu : getPipe (unregister_pipe ms pid) pid = some p := by
    unfold unregister_pipe
    rw [hp]
    simp only
    split
    · exact hp
    · exact hp
  have hr : mfind (unregister_pipe ms pid).rank_pipe p.peer_addr ≠ some pid := by
    unfold unregister_pipe
    rw [hp]
    simp only
    by_cases h : mfind ms.rank_pipe p.peer_addr = some pid
    · rw [if_pos h]
      simp only
      rw [mfind_merase_self]
      simp
    · rw [if_neg h]
      exact h
  unfold mark_down_pipe
  rw [hu]
  simp only
  refine ⟨?_, ?_⟩
  · unfold pipe_state
    rw [getPipe_setPipe_self]
    rfl
  · rw [rank_pipe_setPipe]
    exact hr

/-- A Closed pipe is left alone by `fault`, whatever its arguments. -/
theorem fault_closed (ms : Messenger) (id : Nat) (p : Pipe) (onconnect onread : Bool)
    (hp : getPipe ms id = some p) (hs : p.state = PipeState.STATE_CLOSED) :
    fault ms id onconnect onread = ms := by
  unfold fault
  rw [hp]
  simp only [hs]
  simp

/-- A Closed pipe ends the writer's loop. -/
theorem writer_step_closed (K : Consts) (ms : Messenger) (id : Nat) (p : Pipe) (io : WriterIO)
    (hp : getPipe ms id = some p) (hs : p.state = PipeState.STATE_CLOSED) :
    writer_step K ms id io = some ms := by
  unfold writer_step
  rw [hp]
  simp only [hs, if_true]

/-- On a Closed pipe every tag but CLOSE leaves the pipe Closed: a read error or bad
tag runs into `fault`, KEEPALIVE and ACK do nothing, and a message is dropped. -/
theorem reader_handle_closed (complete : Nat) (ms : Messenger) (id : Nat) (p : Pipe)
    (ev : ReaderEvent) (pol : Option Nat)
    (hp : getPipe ms id = some p) (hs : p.state = PipeState.STATE_CLOSED)
    (hev : ev ≠ ReaderEvent.CLOSE) :
    pipe_state (reader_handle complete ms id ev pol).1 id = some PipeState.STATE_CLOSED := by
  have hst : pipe_state ms id = some PipeState.STATE_CLOSED := by
    unfold pipe_state; rw [hp]; simp [hs]
  unfold reader_handle
  rw [hp]
  cases ev with
  | read_error => simp only; rw [fault_closed ms id p false true hp hs]; exact hst
  | KEEPALIVE => exact hst
  | ACK seq =>
    cases seq with
    | none => simp only; rw [fault_closed ms id p false true hp hs]; exact hst
    | some s => simp only [hs]; simpa using hst
  | MSG io =>
    simp only
    have hp1 : ∀ d, getPipe { ms with dispatch_throttler := d } id = some p := fun _ => hp
    split
    · split
      · rw [fault_closed _ id p false true (hp1 _) hs]
        unfold pipe_state; rw [hp1]; simp [hs]
      · unfold pipe_state; rw [hp1]; simp [hs]
    · rename_i m _
      unfold reader_msg
      have hc : (ctxOf { ms with dispatch_throttler :=
          (read_message complete io { policy := pol, dispatch := ms.dispatch_throttler }
            ).throttles.dispatch } id p).pipe.state = PipeState.STATE_CLOSED ∨
          (ctxOf { ms with dispatch_throttler :=
          (read_message complete io { policy := pol, dispatch := ms.dispatch_throttler }
            ).throttles.dispatch } id p).pipe.state = PipeState.STATE_CONNECTING :=
        Or.inl hs
      rw [if_pos hc]
      unfold pipe_state getPipe putCtx ctxOf
      simp only
      rw [mfind_mset_self]
      simp [hs]
  | CLOSE => exact absurd rfl hev
  | bad_tag => simp only; rw [fault_closed ms id p false true hp hs]; exact hst

/-- Claim C16 fails twice on the sample messenger, whose pipe 1 is a durable Open pipe
registered for address 20.  After `mark_down(20)` the pipe is Closed and
unregistered, but a CLOSE tag handled by its reader moves it from Closed to Closing.
And when the accepting pipe 2 has replaced pipe 1 (taking over its queued
messages) and is then marked down, the failure path of `accept` (the reply cannot
be written) sets it to Connecting because messages are queued, and the next pass
of its writer connects and opens the session again: a durable pipe that was
marked down leaves Closed and reconnects. -/
theorem marked_down_pipe_leaves_closed :
    pipe_state (mark_down (Messenger.sample Pipe.busy Pipe.accepting20) 20) 1
      = some PipeState.STATE_CLOSED ∧
    mfind (mark_down (Messenger.sample Pipe.busy Pipe.accepting20) 20).rank_pipe 20 = none ∧
    pipe_state
      (reader_handle 1 (mark_down (Messenger.sample Pipe.busy Pipe.accepting20) 20) 1
        ReaderEvent.CLOSE none).1 1 = some PipeState.STATE_CLOSING ∧
    (accept_replace_open Consts.sample (Messenger.sample Pipe.busy Pipe.accepting20) 2 1
        (ceph_msg_connect.seqs 9 2)).map
      (fun x => (pipe_state x.1 2, mfind x.1.rank_pipe 20,
        (getPipe x.1 2).map (fun p => p.policy.lossy)))
      = some (some PipeState.STATE_OPEN, some 2, some false) ∧
    (accept_replace_open Consts.sample (Messenger.sample Pipe.busy Pipe.accepting20) 2 1
        (ceph_msg_connect.seqs 9 2)).map
      (fun x => (pipe_state (mark_down x.1 20) 2, mfind (mark_down x.1 20).rank_pipe 20))
      = some (some PipeState.STATE_CLOSED, none) ∧
    (accept_replace_open Consts.sample (Messenger.sample Pipe.busy Pipe.accepting20) 2 1
        (ceph_msg_connect.seqs 9 2)).map
      (fun x => pipe_state
        (accept_finish (mark_down x.1 20) 2 x.2 { reply_ok := false, seq_io := none }) 2)
      = some (some PipeState.STATE_CONNECTING) ∧
    (accept_replace_open Consts.sample (Messenger.sample Pipe.busy Pipe.accepting20) 2 1
        (ceph_msg_connect.seqs 9 2)).bind
      (fun x => (writer_step Consts.sample
        (accept_finish (mark_down x.1 20) 2 x.2 { reply_ok := false, seq_io := none }) 2
        (writer_ready 7 4)).map (fun ms => pipe_state ms 2))
      = some (some PipeState.STATE_OPEN) := by
  refine ⟨by decide, by decide, by decide, by decide, by decide, by decide, by decide⟩

/-! ## Operations as sequences of elementary transitions -/

theorem PipeUpd.upd_refl (p : Pipe) : PipeUpd p p :=
  ⟨rfl, rfl, rfl, fun _ => rfl, fun h => h, fun _ _ h => h, fun h => h⟩

theorem PipeUpd.upd_trans {p q r : Pipe} (h1 : PipeUpd p q) (h2 : PipeUpd q r) : PipeUpd p r :=
  ⟨h2.in_q.trans h1.in_q, h2.in_qlen.trans h1.in_qlen, h2.queue_items.trans h1.queue_items,
   fun h => (h2.peer_addr (h1.state h)).trans (h1.peer_addr h),
   fun h => h2.state (h1.state h),
   fun h hd hl => h2.lossy (h1.state h) (h1.disposable hd) (h1.lossy h hd hl),
   fun h => h2.disposable (h1.disposable h)⟩

/-- A field update that keeps the inbound queue, the peer address, the policy and the
disposable flag, and does not enter Accepting. -/
theorem PipeUpd.of_fields (p q : Pipe) (h1 : q.in_q = p.in_q) (h2 : q.in_qlen = p.in_qlen)
    (h3 : q.queue_items = p.queue_items) (h4 : q.peer_addr = p.peer_addr)
    (h5 : p.state ≠ PipeState.STATE_ACCEPTING → q.state ≠ PipeState.STATE_ACCEPTING)
    (h6 : q.policy.lossy = p.policy.lossy ∨ q.policy.lossy = true)
    (h7 : q.disposable = p.disposable ∨ q.disposable = true) : PipeUpd p q :=
  ⟨h1, h2, h3, fun _ => h4, h5,
   fun _ _ hl => Or.elim h6 (fun e => e.trans hl) (fun e => e),
   fun hd => Or.elim h7 (fun e => e.trans hd) (fun e => e)⟩

/-- Any field update of a pipe in Accepting that keeps the inbound queue and the
disposable flag. -/
theorem PipeUpd.of_accepting (p q : Pipe) (hs : p.state = PipeState.STATE_ACCEPTING)
    (h1 : q.in_q = p.in_q) (h2 : q.in_qlen = p.in_qlen) (h3 : q.queue_items = p.queue_items)
    (h7 : q.disposable = p.disposable) : PipeUpd p q :=
  ⟨h1, h2, h3, fun h => absurd hs h, fun h => absurd hs h, fun h => absurd hs h,
   fun hd => by rw [h7]; exact hd⟩

theorem PipeUpd_stop (p : Pipe) : PipeUpd p (stop p) :=
  PipeUpd.of_fields _ _ rfl rfl rfl rfl (fun _ => by simp [stop]) (Or.inl rfl) (Or.inl rfl)

theorem PipeUpd_state (p : Pipe) (st : PipeState) (hst : st ≠ PipeState.STATE_ACCEPTING) :
    PipeUpd p { p with state := st } :=
  PipeUpd.of_fields _ _ rfl rfl rfl rfl (fun _ => hst) (Or.inl rfl) (Or.inl rfl)

theorem PipeUpd_requeue_sent (a : Nat) (p : Pipe) : PipeUpd p (requeue_sent a p) := by
  unfold requeue_sent
  split
  · exact PipeUpd.upd_refl p
  · exact PipeUpd.of_fields _ _ rfl rfl rfl rfl (fun h => h) (Or.inl rfl) (Or.inl rfl)

theorem PipeUpd_handle_ack (p : Pipe) (a : Nat) : PipeUpd p (handle_ack p a) :=
  PipeUpd.of_fields _ _ rfl rfl rfl rfl (fun h => h) (Or.inl rfl) (Or.inl rfl)

theorem PipeUpd_send (p : Pipe) (m : Message) : PipeUpd p (_send p m) :=
  PipeUpd.of_fields _ _ rfl rfl rfl rfl (fun h => h) (Or.inl rfl) (Or.inl rfl)

theorem PipeUpd_send_keepalive (p : Pipe) : PipeUpd p (_send_keepalive p) :=
  PipeUpd.of_fields _ _ rfl rfl rfl rfl (fun h => h) (Or.inl rfl) (Or.inl rfl)

theorem PipeUpd_get_next_outgoing (p : Pipe) : PipeUpd p (_get_next_outgoing p).2 := by
  unfold _get_next_outgoing
  split
  · exact PipeUpd.upd_refl p
  · split
    · exact PipeUpd.upd_refl p
    · exact PipeUpd.of_fields _ _ rfl rfl rfl rfl (fun h => h) (Or.inl rfl) (Or.inl rfl)

theorem PipeUpd_writer_send (p : Pipe) : PipeUpd p (writer_send p).2 := by
  have h := PipeUpd_get_next_outgoing p
  unfold writer_send
  split
  · rename_i p1 heq
    rw [heq] at h
    exact h
  · rename_i m p1 heq
    rw [heq] at h
    simp only at h
    dsimp only
    split
    · exact h.upd_trans
        (PipeUpd.of_fields _ _ rfl rfl rfl rfl (fun h => h) (Or.inl rfl) (Or.inl rfl))
    · exact h.upd_trans
        (PipeUpd.of_fields _ _ rfl rfl rfl rfl (fun h => h) (Or.inl rfl) (Or.inl rfl))

theorem prims_trans {ds1 ds2 : List Nat} {a b c : Messenger}
    (h1 : Prims ds1 a b) (h2 : Prims ds2 b c) : Prims (ds2 ++ ds1) a c := by
  induction h2 with
  | refl => exact h1
  | tail ds m0 m1 m2 _ hp ih => exact Prims.tail _ _ _ _ (ih h1) hp
  | del ds id m0 m1 m2 _ hp ih => exact Prims.del _ _ _ _ _ (ih h1) hp

theorem prims_trans0 {a b c : Messenger} (h1 : Prims [] a b) (h2 : Prims [] b c) :
    Prims [] a c := prims_trans h1 h2

theorem prims_one {a b : Messenger} (h : Prim a b) : Prims [] a b :=
  Prims.tail _ _ _ _ (Prims.refl a) h

theorem prims_same {a b : Messenger} (h : Core b = Core a) : Prims [] a b :=
  prims_one (Prim.same _ _ h)

theorem prims_upd (ms : Messenger) (id : Nat) (p q : Pipe) (hp : getPipe ms id = some p)
    (hu : PipeUpd p q) : Prims [] ms (setPipe ms id q) :=
  prims_one (Prim.upd _ _ id p q hp hu rfl)

theorem prims_recv (ms : Messenger) (id : Nat) (p q : Pipe) (m : QItem) (k : Nat)
    (hp : getPipe ms id = some p) (hu : PipeUpd p q) :
    Prims [] ms (putCtx ms (queue_received (ctxOf ms id q) m k)) :=
  prims_one (Prim.recv _ _ id p q m k hp hu rfl)

theorem prims_discard (ms : Messenger) (id : Nat) (p q : Pipe)
    (hp : getPipe ms id = some p) (hu : PipeUpd p q) :
    Prims [] ms (putCtx ms (discard_queue (ctxOf ms id q))) :=
  prims_one (Prim.discard _ _ id p q hp hu rfl)

theorem prims_local_delivery (ms : Messenger) (m : QItem) (k : Nat) :
    Prims [] ms (local_delivery ms m k) := by
  unfold local_delivery
  split
  · exact Prims.refl ms
  · rename_i lp hlp
    exact prims_recv ms _ lp lp m k hlp (PipeUpd.upd_refl lp)

theorem prims_queue_reset (ms : Messenger) (con : Nat) : Prims [] ms (queue_reset ms con) := by
  unfold queue_reset
  refine prims_trans0 ?_ (prims_local_delivery _ _ _)
  exact prims_same rfl

theorem prims_queue_remote_reset (ms : Messenger) (con : Nat) :
    Prims [] ms (queue_remote_reset ms con) := by
  unfold queue_remote_reset
  refine prims_trans0 ?_ (prims_local_delivery _ _ _)
  exact prims_same rfl

theorem prims_queue_connect (ms : Messenger) (con : Nat) :
    Prims [] ms (queue_connect ms con) := by
  unfold queue_connect
  refine prims_trans0 ?_ (prims_local_delivery _ _ _)
  exact prims_same rfl

theorem prims_fail (ms : Messenger) (id : Nat) : Prims [] ms (fail ms id) := by
  unfold fail
  split
  · exact Prims.refl ms
  · rename_i p hp
    have h1 := prims_discard ms id p (stop p) hp (PipeUpd_stop p)
    simp only
    split
    · exact prims_trans0 h1 (prims_queue_reset _ _)
    · exact h1

theorem prims_was_session_reset (ms : Messenger) (id : Nat) :
    Prims [] ms (was_session_reset ms id) := by
  unfold was_session_reset
  split
  · exact Prims.refl ms
  · rename_i p hp
    have h1 := prims_discard ms id p p hp (PipeUpd.upd_refl p)
    simp only
    have h2 : Prims [] ms (if (!(putCtx ms (discard_queue (ctxOf ms id p))).destination_stopped)
        = true then queue_remote_reset (putCtx ms (discard_queue (ctxOf ms id p)))
          p.connection_state
        else putCtx ms (discard_queue (ctxOf ms id p))) := by
      split
      · exact prims_trans0 h1 (prims_queue_remote_reset _ _)
      · exact h1
    split
    · exact h2
    · rename_i p2 hp2
      exact prims_trans0 h2 (prims_upd _ id p2 _ hp2
        (PipeUpd.of_fields _ _ rfl rfl rfl rfl (fun h => h) (Or.inl rfl) (Or.inl rfl)))

theorem prims_fault (ms : Messenger) (id : Nat) (onconnect onread : Bool) :
    Prims [] ms (fault ms id onconnect onread) := by
  unfold fault
  split
  · exact Prims.refl ms
  · rename_i p hp
    split
    · exact Prims.refl ms
    · split
      · exact Prims.refl ms
      · split
        · exact prims_fail ms id
        · simp only
          split
          · split
            · exact prims_upd ms id p _ hp
                ((PipeUpd_requeue_sent 0 p).upd_trans (PipeUpd_state _ _ (by decide)))
            · exact prims_upd ms id p _ hp
                ((PipeUpd_requeue_sent 0 p).upd_trans (PipeUpd_state _ _ (by decide)))
          · split
            · exact prims_upd ms id p _ hp
                ((PipeUpd_requeue_sent 0 p).upd_trans
                  (PipeUpd.of_fields _ _ rfl rfl rfl rfl (fun _ => by simp) (Or.inl rfl)
                    (Or.inl rfl)))
            · exact prims_upd ms id p _ hp (PipeUpd_requeue_sent 0 p)

theorem getPipe_of_core {a b : Messenger} (h : Core b = Core a) (id : Nat) :
    getPipe b id = getPipe a id := by
  have h1 : b.pipes = a.pipes := congrArg (fun x => x.1) h
  unfold getPipe
  rw [h1]

theorem core_reset_pipe (ms : Messenger) (con q : Nat) : Core (reset_pipe ms con q) = Core ms := by
  unfold reset_pipe
  cases mfind ms.connections con <;> rfl

theorem core_set_features (ms : Messenger) (con f : Nat) :
    Core (set_features ms con f) = Core ms := by
  unfold set_features
  cases mfind ms.connections con <;> rfl

theorem core_clear_pipe (ms : Messenger) (con : Nat) : Core (clear_pipe ms con) = Core ms := by
  unfold clear_pipe
  cases mfind ms.connections con <;> rfl

theorem mset_mset_self {κ ν : Type} [DecidableEq κ] (l : List (κ × ν)) (k : κ) (v w : ν) :
    mset (mset l k v) k w = mset l k w := by
  induction l with
  | nil => simp [mset]
  | cons e t ih =>
    obtain ⟨j, x⟩ := e
    by_cases h : j = k
    · simp [mset, h]
    · simp [mset, h, ih]

/-- Two field updates in a row, of the same pipe or of two pipes. -/
theorem prims_upd2 (ms : Messenger) (id1 id2 : Nat) (p1 q1 p2 q2 : Pipe)
    (h1 : getPipe ms id1 = some p1) (u1 : PipeUpd p1 q1)
    (h2 : getPipe ms id2 = some p2) (u2 : PipeUpd p2 q2) :
    Prims [] ms (setPipe (setPipe ms id1 q1) id2 q2) := by
  by_cases e : id2 = id1
  · subst e
    refine prims_one (Prim.upd _ _ id2 p2 q2 h2 u2 ?_)
    unfold Core setPipe
    simp only [mset_mset_self]
  · refine prims_trans0 (prims_upd ms id1 p1 q1 h1 u1) (prims_upd _ id2 p2 q2 ?_ u2)
    rw [getPipe_setPipe_ne _ _ _ _ e]
    exact h2

theorem getPipe_unregister_pipe (ms : Messenger) (id j : Nat) :
    getPipe (unregister_pipe ms id) j = getPipe ms j := by
  unfold unregister_pipe
  split
  · rfl
  · split
    · rfl
    · rfl

theorem prims_unregister_pipe (ms : Messenger) (id : Nat) :
    Prims [] ms (unregister_pipe ms id) := by
  unfold unregister_pipe
  split
  · exact Prims.refl ms
  · split
    · exact prims_one (Prim.unregister _ _ _ rfl)
    · exact Prims.refl ms

theorem prims_register_pipe (ms ms1 : Messenger) (id : Nat) (p : Pipe)
    (hp : getPipe ms id = some p) (hs : p.state ≠ PipeState.STATE_ACCEPTING)
    (h : register_pipe ms id = some ms1) : Prims [] ms ms1 := by
  unfold register_pipe at h
  rw [hp] at h
  simp only at h
  by_cases hc : mcount ms.rank_pipe p.peer_addr = true
  · rw [if_pos hc] at h
    simp at h
  · rw [if_neg hc] at h
    simp only [Option.some.injEq] at h
    subst h
    refine prims_one (Prim.register _ _ id p hp hs ?_ rfl)
    unfold mcount at hc
    cases hf : mfind ms.rank_pipe p.peer_addr with
    | none => rfl
    | some v => simp [hf] at hc

theorem prims_accept_fail (ms : Messenger) (self : Nat) : Prims [] ms (accept_fail ms self) := by
  unfold accept_fail
  split
  · exact Prims.refl ms
  · rename_i p hp
    refine prims_trans0 (prims_upd ms self p _ hp ?_) (prims_fault _ _ _ _)
    apply PipeUpd_state
    split <;> decide

theorem prims_accept_reply (ms : Messenger) (self : Nat) (write_ok : Bool) :
    Prims [] ms (accept_reply ms self write_ok) := by
  unfold accept_reply
  split
  · exact Prims.refl ms
  · exact prims_accept_fail ms self

theorem prims_accept_record (K : Consts) (ms : Messenger) (self : Nat)
    (connect : ceph_msg_connect) (verify : Bool × Bool) (p : Pipe)
    (hp : getPipe ms self = some p) (hs : p.state = PipeState.STATE_ACCEPTING) :
    Prims [] ms (accept_record K ms self connect verify).ms := by
  have h1 : Prims [] ms (setPipe ms self
      { p with peer_type := connect.host_type, policy := get_policy ms connect.host_type }) :=
    prims_upd ms self p _ hp (PipeUpd.of_accepting _ _ hs rfl rfl rfl rfl)
  unfold accept_record
  rw [hp]
  simp only
  split
  · exact h1
  · split
    · exact h1
    · split
      · exact h1
      · split
        · exact h1
        · split
          · exact h1
          · split
            · exact prims_trans0 h1 (prims_was_session_reset _ _)
            · exact h1

theorem prims_accept_replace (K : Consts) (ms : Messenger) (self eid : Nat)
    (connect : ceph_msg_connect) : Prims [] ms (accept_replace K ms self eid connect).1 := by
  unfold accept_replace
  simp only
  split
  · exact Prims.refl ms
  · rename_i e0 he0
    have h1 : Prims [] ms (unregister_pipe (setPipe ms eid (stop e0)) eid) :=
      prims_trans0 (prims_upd ms eid e0 _ he0 (PipeUpd_stop e0)) (prims_unregister_pipe _ _)
    have hg : getPipe (unregister_pipe (setPipe ms eid (stop e0)) eid) eid = some (stop e0) := by
      rw [getPipe_unregister_pipe, getPipe_setPipe_self]
    split
    · have h2 : Prims [] ms
          (reset_pipe (unregister_pipe (setPipe ms eid (stop e0)) eid) e0.connection_state self) :=
        prims_trans0 h1 (prims_same (core_reset_pipe _ _ _))
      have hg2 : getPipe
          (reset_pipe (unregister_pipe (setPipe ms eid (stop e0)) eid) e0.connection_state self)
          eid = some (stop e0) := by
        rw [getPipe_reset_pipe]; exact hg
      split
      · exact prims_trans0 h2 (prims_upd _ eid _ _ hg2 (PipeUpd_requeue_sent 0 _))
      · rename_i p hp
        refine prims_trans0 h2 (prims_upd2 _ eid self (stop e0) _ p _ hg2 ?_ hp ?_)
        · exact (PipeUpd_requeue_sent 0 _).upd_trans
            (PipeUpd.of_fields _ _ rfl rfl rfl rfl (fun h => h) (Or.inl rfl) (Or.inl rfl))
        · exact PipeUpd.of_fields _ _ rfl rfl rfl rfl (fun h => h) (Or.inl rfl) (Or.inl rfl)
    · exact h1

theorem prims_accept_open (K : Consts) (ms ms1 : Messenger) (self : Nat)
    (connect : ceph_msg_connect) (reply_tag : Option Tag) (reply : ceph_msg_connect_reply)
    (h : accept_open K ms self connect reply_tag = some (ms1, reply)) : Prims [] ms ms1 := by
  unfold accept_open at h
  cases hp : getPipe ms self with
  | none => rw [hp] at h; simp at h
  | some p =>
    rw [hp] at h
    simp only [Option.map_eq_some'] at h
    obtain ⟨m, hreg, hm⟩ := h
    have hm1 : m = ms1 := congrArg Prod.fst hm
    subst hm1
    have h1 : Prims [] ms (set_features { ms with global_seq := ms.global_seq + 1 }
        p.connection_state
        ((p.policy.features_supported % 2 ^ 32) &&& (connect.features % 2 ^ 32))) :=
      prims_trans0 (b := { ms with global_seq := ms.global_seq + 1 }) (prims_same rfl)
        (prims_same (core_set_features _ _ _))
    have hg : getPipe (set_features { ms with global_seq := ms.global_seq + 1 }
        p.connection_state
        ((p.policy.features_supported % 2 ^ 32) &&& (connect.features % 2 ^ 32))) self
        = some p := by
      rw [getPipe_set_features]; exact hp
    have hu : PipeUpd p { p with connect_seq := inc32 connect.connect_seq,
                                 peer_global_seq := connect.global_seq,
                                 state := PipeState.STATE_OPEN } :=
      PipeUpd.of_fields _ _ rfl rfl rfl rfl (fun _ => by simp) (Or.inl rfl) (Or.inl rfl)
    have h2 := prims_upd _ self p _ hg hu
    have h3 := prims_register_pipe _ _ self _ (getPipe_setPipe_self _ _ _) (by simp) hreg
    exact prims_trans0 h1 (prims_trans0 h2 h3)

theorem prims_accept_replace_open (K : Consts) (ms ms1 : Messenger) (self eid : Nat)
    (connect : ceph_msg_connect) (reply : ceph_msg_connect_reply)
    (h : accept_replace_open K ms self eid connect = some (ms1, reply)) : Prims [] ms ms1 := by
  unfold accept_replace_open at h
  exact prims_trans0 (prims_accept_replace K ms self eid connect)
    (prims_accept_open K _ ms1 self connect _ reply h)

theorem prims_accept_pass (K : Consts) (ms ms1 : Messenger) (self : Nat)
    (connect : ceph_msg_connect) (verify : Bool × Bool) (reply_ok : Bool)
    (h : accept_pass K ms self connect verify reply_ok = some ms1) : Prims [] ms ms1 := by
  unfold accept_pass at h
  cases hp : getPipe ms self with
  | none => rw [hp] at h; simp at h
  | some p =>
    rw [hp] at h
    simp only at h
    by_cases hs : p.state ≠ PipeState.STATE_ACCEPTING
    · rw [if_pos hs] at h; simp at h
    · rw [if_neg hs] at h
      have hs1 : p.state = PipeState.STATE_ACCEPTING := by
        by_contra hne; exact hs hne
      have hr := prims_accept_record K ms self connect verify p hp hs1
      split at h
      · simp only [Option.some.injEq] at h
        subst h
        exact prims_trans0 hr (prims_accept_reply _ _ _)
      · simp only [Option.map_eq_some'] at h
        obtain ⟨x, hx, hx1⟩ := h
        subst hx1
        exact prims_trans0 hr (prims_accept_replace_open K _ x.1 self _ connect x.2 hx)
      · simp at h
      · simp only [Option.map_eq_some'] at h
        obtain ⟨x, hx, hx1⟩ := h
        subst hx1
        exact prims_trans0 hr (prims_accept_open K _ x.1 self connect none x.2 hx)
      · simp at h

theorem prims_accept_finish (ms : Messenger) (self : Nat) (reply : ceph_msg_connect_reply)
    (io : AcceptIO) : Prims [] ms (accept_finish ms self reply io) := by
  unfold accept_finish
  split
  · exact prims_accept_fail ms self
  · split
    · split
      · exact prims_accept_fail ms self
      · split
        · exact Prims.refl ms
        · rename_i p hp
          exact prims_upd ms self p _ hp (PipeUpd_requeue_sent _ p)
    · exact Prims.refl ms

theorem prims_accept_begin (ms ms1 : Messenger) (self : Nat) (io_ok : Bool)
    (addr : entity_addr_t) (h : accept_begin ms self io_ok addr = some ms1) :
    Prims [] ms ms1 := by
  unfold accept_begin at h
  cases hp : getPipe ms self with
  | none => rw [hp] at h; simp at h
  | some p =>
    rw [hp] at h
    simp only at h
    by_cases hs : p.state ≠ PipeState.STATE_ACCEPTING
    · rw [if_pos hs] at h; simp at h
    · rw [if_neg hs] at h
      have hs1 : p.state = PipeState.STATE_ACCEPTING := by
        by_contra hne; exact hs hne
      split at h
      · simp only [Option.some.injEq] at h
        subst h
        exact prims_upd ms self p _ hp (PipeUpd.of_accepting _ _ hs1 rfl rfl rfl rfl)
      · simp only [Option.some.injEq] at h
        subst h
        exact prims_upd ms self p _ hp (PipeUpd.of_accepting _ _ hs1 rfl rfl rfl rfl)

theorem prims_accept_read_fail (ms ms1 : Messenger) (self : Nat)
    (h : accept_read_fail ms self = some ms1) : Prims [] ms ms1 := by
  unfold accept_read_fail at h
  cases hp : getPipe ms self with
  | none => rw [hp] at h; simp at h
  | some p =>
    rw [hp] at h
    simp only at h
    split at h
    · simp at h
    · simp only [Option.some.injEq] at h
      subst h
      exact prims_accept_fail ms self

theorem prims_reader_msg (ms : Messenger) (id : Nat) (p : Pipe) (m : Message)
    (hp : getPipe ms id = some p) :
    Prims [] ms (putCtx ms (reader_msg (ctxOf ms id p) m)) := by
  unfold reader_msg
  split
  · exact prims_one (Prim.upd _ _ id p p hp (PipeUpd.upd_refl p) rfl)
  · split
    · exact prims_one (Prim.upd _ _ id p p hp (PipeUpd.upd_refl p) rfl)
    · exact prims_one (Prim.recv _ _ id p { p with in_seq := m.seq } _ _ hp
        (PipeUpd.of_fields _ _ rfl rfl rfl rfl (fun h => h) (Or.inl rfl) (Or.inl rfl)) rfl)

theorem prims_reader_handle (complete : Nat) (ms : Messenger) (id : Nat) (ev : ReaderEvent)
    (pol : Option Nat) : Prims [] ms (reader_handle complete ms id ev pol).1 := by
  unfold reader_handle
  split
  · exact Prims.refl ms
  · rename_i p hp
    split
    · exact prims_fault _ _ _ _
    · exact Prims.refl ms
    · exact prims_fault _ _ _ _
    · split
      · exact prims_upd ms id p _ hp (PipeUpd_handle_ack p _)
      · exact Prims.refl ms
    · simp only
      split
      · split
        · refine prims_trans0 ?_ (prims_fault _ _ _ _)
          exact prims_same rfl
        · exact prims_same rfl
      · rename_i m _
        refine prims_trans0 ?_ (prims_reader_msg
          { ms with dispatch_throttler :=
              (read_message complete _ { policy := pol, dispatch := ms.dispatch_throttler }
                ).throttles.dispatch } id p m hp)
        exact prims_same rfl
    · split
      · exact prims_upd ms id p _ hp (PipeUpd_state _ _ (by decide))
      · exact prims_upd ms id p _ hp (PipeUpd_state _ _ (by decide))
    · exact prims_fault _ _ _ _

theorem prims_connect_fail (ms ms1 : Messenger) (id : Nat)
    (h : (connect_fail ms id).messenger = some ms1) : Prims [] ms ms1 := by
  unfold connect_fail at h
  split at h
  · simp only [ConnectResult.messenger, Option.some.injEq] at h
    subst h; exact Prims.refl ms
  · split at h
    · simp only [ConnectResult.messenger, Option.some.injEq] at h
      subst h; exact prims_fault _ _ _ _
    · simp only [ConnectResult.messenger, Option.some.injEq] at h
      subst h; exact Prims.refl ms

theorem PipeUpd_connect_opened (K : Consts) (p : Pipe) (l : ConnectLocals)
    (r : ceph_msg_connect_reply) : PipeUpd p (connect_opened K p l r) := by
  refine ⟨rfl, rfl, rfl, fun _ => rfl, fun _ => by simp [connect_opened], ?_, fun hd => hd⟩
  intro _ hd hl
  simp only [connect_opened, hd, Bool.not_true, Bool.false_eq_true, if_false]
  exact hl

theorem prims_connect_success (K : Consts) (ms ms1 : Messenger) (id : Nat) (p : Pipe)
    (l : ConnectLocals) (r : ceph_msg_connect_reply) (hp : getPipe ms id = some p)
    (h : (connect_success K ms id p l r).messenger = some ms1) : Prims [] ms ms1 := by
  have h1 := prims_upd ms id p _ hp (PipeUpd_connect_opened K p l r)
  have h2 := prims_trans0 h1 (prims_same (core_set_features _
    p.connection_state ((r.features % 2 ^ 32) &&& ((connect_record K ms p l).features % 2 ^ 32))))
  unfold connect_success at h
  split at h
  · simp [ConnectResult.messenger] at h
  · split at h
    · simp only [ConnectResult.messenger, Option.some.injEq] at h
      subst h
      exact prims_trans0 h2 (prims_queue_connect _ _)
    · simp only [ConnectResult.messenger, Option.some.injEq] at h
      subst h
      exact h2

theorem prims_connect_pass (K : Consts) (ms : Messenger) (id : Nat) (l : ConnectLocals)
    (rd : ConnectRead) :
    (∀ ms1 l1, connect_pass K ms id l rd = Sum.inl (ms1, l1) → Prims [] ms ms1) ∧
    (∀ res ms1, connect_pass K ms id l rd = Sum.inr res → res.messenger = some ms1 →
      Prims [] ms ms1) := by
  unfold connect_pass
  simp only
  cases rd with
  | io_error =>
    simp only
    refine ⟨fun _ _ h => by simp at h, fun res ms1 h hm => ?_⟩
    simp only [Sum.inr.injEq] at h
    subst h
    exact prims_connect_fail _ _ _ hm
  | reply r seq_io =>
    simp only
    cases hp : getPipe ms id with
    | none =>
      simp only
      refine ⟨fun _ _ h => by simp at h, fun res ms1 h hm => ?_⟩
      simp only [Sum.inr.injEq] at h
      subst h
      simp only [ConnectResult.messenger, Option.some.injEq] at hm
      subst hm; exact Prims.refl ms
    | some p =>
      simp only
      by_cases hs : p.state ≠ PipeState.STATE_CONNECTING
      · rw [if_pos hs]
        refine ⟨fun _ _ h => by simp at h, fun res ms1 h hm => ?_⟩
        simp only [Sum.inr.injEq] at h
        subst h
        simp only [ConnectResult.messenger, Option.some.injEq] at hm
        subst hm; exact Prims.refl ms
      · rw [if_neg hs]
        have hs1 : p.state = PipeState.STATE_CONNECTING := by
          by_contra hne; exact hs hne
        have hna : p.state ≠ PipeState.STATE_ACCEPTING := by rw [hs1]; decide
        have hfail : (∀ (ms1 : Messenger) (l1 : ConnectLocals),
            (Sum.inr (connect_fail ms id) : (Messenger × ConnectLocals) ⊕ ConnectResult)
              = Sum.inl (ms1, l1) → Prims [] ms ms1) ∧
            (∀ res ms1, (Sum.inr (connect_fail ms id) :
              (Messenger × ConnectLocals) ⊕ ConnectResult) = Sum.inr res →
              res.messenger = some ms1 → Prims [] ms ms1) := by
          refine ⟨fun _ _ h => by simp at h, fun res ms1 h hm => ?_⟩
          simp only [Sum.inr.injEq] at h
          subst h
          exact prims_connect_fail _ _ _ hm
        split
        · exact hfail
        · exact hfail
        · split
          · refine ⟨fun _ _ h => by simp at h, fun res ms1 h hm => ?_⟩
            simp only [Sum.inr.injEq] at h
            subst h
            simp only [ConnectResult.messenger, Option.some.injEq] at hm
            subst hm; exact Prims.refl ms
          · refine ⟨fun ms1 l1 h => ?_, fun _ _ h => by simp at h⟩
            simp only [Sum.inl.injEq, Prod.mk.injEq] at h
            rw [← h.1]; exact Prims.refl ms
        · split
          · refine ⟨fun _ _ h => by simp at h, fun res ms1 h hm => ?_⟩
            simp only [Sum.inr.injEq] at h
            subst h
            simp only [ConnectResult.messenger, Option.some.injEq] at hm
            subst hm; exact prims_was_session_reset _ _
          · rename_i p1 hp1
            refine ⟨fun ms1 l1 h => ?_, fun _ _ h => by simp at h⟩
            simp only [Sum.inl.injEq, Prod.mk.injEq] at h
            rw [← h.1]
            exact prims_trans0 (prims_was_session_reset _ _) (prims_upd _ id p1 _ hp1
              (PipeUpd.of_fields _ _ rfl rfl rfl rfl (fun h => h) (Or.inl rfl) (Or.inl rfl)))
        · refine ⟨fun ms1 l1 h => ?_, fun _ _ h => by simp at h⟩
          simp only [Sum.inl.injEq, Prod.mk.injEq] at h
          rw [← h.1]
          exact prims_same rfl
        · split
          · refine ⟨fun _ _ h => by simp at h, fun res ms1 h hm => ?_⟩
            simp only [Sum.inr.injEq] at h
            subst h
            simp [ConnectResult.messenger] at hm
          · refine ⟨fun ms1 l1 h => ?_, fun _ _ h => by simp at h⟩
            simp only [Sum.inl.injEq, Prod.mk.injEq] at h
            rw [← h.1]
            exact prims_upd ms id p _ hp
              (PipeUpd.of_fields _ _ rfl rfl rfl rfl (fun h => h) (Or.inl rfl) (Or.inl rfl))
        · refine ⟨fun _ _ h => by simp at h, fun res ms1 h hm => ?_⟩
          simp only [Sum.inr.injEq] at h
          subst h
          simp only [ConnectResult.messenger, Option.some.injEq] at hm
          subst hm
          exact prims_upd ms id p _ hp (PipeUpd_state _ _ (by decide))
        · split
          · exact hfail
          · refine ⟨fun _ _ h => by simp at h, fun res ms1 h hm => ?_⟩
            simp only [Sum.inr.injEq] at h
            subst h
            exact prims_connect_success K ms ms1 id p _ r hp hm
        · split
          · exact hfail
          · split
            · exact hfail
            · rename_i a wok
              have hu := prims_upd ms id p _ hp (PipeUpd_handle_ack p a)
              have hna2 : (handle_ack p a).state ≠ PipeState.STATE_ACCEPTING := hna
              split
              · refine ⟨fun _ _ h => by simp at h, fun res ms1 h hm => ?_⟩
                simp only [Sum.inr.injEq] at h
                subst h
                exact prims_trans0 hu (prims_connect_success K _ ms1 id _ _ r
                  (getPipe_setPipe_self _ _ _) hm)
              · refine ⟨fun _ _ h => by simp at h, fun res ms1 h hm => ?_⟩
                simp only [Sum.inr.injEq] at h
                subst h
                exact prims_trans0 hu (prims_connect_fail _ _ _ hm)
        · exact hfail

theorem prims_connect_loop (K : Consts) (id : Nat) (reads : List ConnectRead) :
    ∀ (ms : Messenger) (l : ConnectLocals) (ms1 : Messenger),
      (connect_loop K ms id l reads).messenger = some ms1 → Prims [] ms ms1 := by
  induction reads with
  | nil =>
    intro ms l ms1 h
    simp only [connect_loop, ConnectResult.messenger, Option.some.injEq] at h
    subst h; exact Prims.refl ms
  | cons rd rest ih =>
    intro ms l ms1 h
    unfold connect_loop at h
    have hp := prims_connect_pass K ms id l rd
    cases hc : connect_pass K ms id l rd with
    | inl x =>
      obtain ⟨ms2, l2⟩ := x
      rw [hc] at h
      simp only at h
      exact prims_trans0 (hp.1 ms2 l2 hc) (ih ms2 l2 ms1 h)
    | inr res =>
      rw [hc] at h
      simp only at h
      exact hp.2 res ms1 hc h

theorem prims_connect (K : Consts) (ms ms1 : Messenger) (id : Nat) (prelude_ok : Bool)
    (reads : List ConnectRead)
    (h : (connect K ms id prelude_ok reads).messenger = some ms1) : Prims [] ms ms1 := by
  unfold connect at h
  split at h
  · simp only [ConnectResult.messenger, Option.some.injEq] at h
    subst h; exact Prims.refl ms
  · simp only at h
    have hg : Prims [] ms (get_global_seq ms 0).1 := prims_same rfl
    split at h
    · exact prims_trans0 hg (prims_connect_fail _ _ _ h)
    · exact prims_trans0 hg (prims_connect_loop K id reads _ _ ms1 h)

theorem PipeUpd_writer_wake (p : Pipe) : PipeUpd p (writer_wake p) := by
  unfold writer_wake
  split
  · exact PipeUpd.of_fields _ _ rfl rfl rfl rfl (fun _ => by simp) (Or.inl rfl) (Or.inl rfl)
  · exact PipeUpd.upd_refl p

theorem PipeUpd_writer_server (p : Pipe) : PipeUpd p (writer_server p) := by
  unfold writer_server
  split
  · exact PipeUpd_state _ _ (by decide)
  · exact PipeUpd.upd_refl p

theorem PipeUpd_writer_acked (p : Pipe) : PipeUpd p (writer_acked p) := by
  unfold writer_acked
  split
  · exact PipeUpd.of_fields _ _ rfl rfl rfl rfl (fun h => h) (Or.inl rfl) (Or.inl rfl)
  · exact PipeUpd.upd_refl p

theorem PipeUpd_keepalive_off (p : Pipe) : PipeUpd p { p with keepalive := false } :=
  PipeUpd.of_fields _ _ rfl rfl rfl rfl (fun h => h) (Or.inl rfl) (Or.inl rfl)

theorem prims_writer_send_block (ms : Messenger) (id : Nat) (p0 p : Pipe) (io : WriterIO)
    (hp : getPipe ms id = some p0) (hu : PipeUpd p0 p) :
    Prims [] ms (writer_send_block ms id p io) := by
  unfold writer_send_block
  split
  · exact prims_trans0 (prims_upd ms id p0 _ hp hu) (prims_fault _ _ _ _)
  · split
    · exact prims_trans0 (prims_upd ms id p0 _ hp (hu.upd_trans (PipeUpd_keepalive_off p)))
        (prims_fault _ _ _ _)
    · have hw := PipeUpd_writer_send (writer_acked { p with keepalive := false })
      have hall : PipeUpd p0 (writer_send (writer_acked { p with keepalive := false })).2 :=
        (hu.upd_trans (PipeUpd_keepalive_off p)).upd_trans ((PipeUpd_writer_acked _).upd_trans hw)
      split
      · rename_i p5 heq
        rw [heq] at hall
        exact prims_upd ms id p0 _ hp hall
      · rename_i m p5 heq
        rw [heq] at hall
        split
        · exact prims_upd ms id p0 _ hp hall
        · exact prims_trans0 (prims_upd ms id p0 _ hp hall) (prims_fault _ _ _ _)

theorem prims_writer_step (K : Consts) (ms ms1 : Messenger) (id : Nat) (io : WriterIO)
    (h : writer_step K ms id io = some ms1) : Prims [] ms ms1 := by
  unfold writer_step at h
  split at h
  · simp only [Option.some.injEq] at h
    subst h; exact Prims.refl ms
  · rename_i p0 hp
    have hw := PipeUpd_writer_wake p0
    have hs := hw.upd_trans (PipeUpd_writer_server (writer_wake p0))
    split at h
    · simp only [Option.some.injEq] at h
      subst h; exact Prims.refl ms
    · split at h
      · exact prims_trans0 (prims_upd ms id p0 _ hp hw) (prims_connect K _ ms1 id _ _ h)
      · split at h
        · simp only [Option.some.injEq] at h
          subst h
          exact prims_upd ms id p0 _ hp (hs.upd_trans (PipeUpd_state _ _ (by decide)))
        · split at h
          · simp only [Option.some.injEq] at h
            subst h
            exact prims_writer_send_block ms id p0 _ io hp hs
          · split at h
            · simp only [Option.some.injEq] at h
              subst h
              refine prims_trans0 (prims_upd ms id p0 _ hp (hs.upd_trans ?_)) (prims_fault _ _ _ _)
              exact PipeUpd.of_fields _ _ rfl rfl rfl rfl (fun h => h) (Or.inr rfl) (Or.inl rfl)
            · simp only [Option.some.injEq] at h
              subst h
              exact prims_upd ms id p0 _ hp hs

theorem prims_dispatch (ms ms1 : Messenger)
    (h : (dispatch_step ms).map (fun x => x.2) = some ms1) : Prims [] ms ms1 := by
  simp only [Option.map_eq_some'] at h
  obtain ⟨x, hx, hx1⟩ := h
  subst hx1
  exact prims_one (Prim.dequeue _ _ x.2 x.1 hx rfl)

theorem prims_deliver (ms ms1 : Messenger) (m : QItem)
    (h : (deliver ms m).map (fun x => x.2) = some ms1) : Prims [] ms ms1 := by
  simp only [Option.map_eq_some'] at h
  obtain ⟨x, hx, hx1⟩ := h
  subst hx1
  unfold deliver at hx
  cases m with
  | msg mm =>
    simp only [Option.some.injEq] at hx
    rw [← hx]
    exact prims_same rfl
  | D_CONNECT =>
    simp only at hx
    split at hx
    · simp at hx
    · simp only [Option.some.injEq] at hx
      rw [← hx]
      exact prims_same rfl
  | D_BAD_REMOTE_RESET =>
    simp only at hx
    split at hx
    · simp at hx
    · simp only [Option.some.injEq] at hx
      rw [← hx]
      exact prims_same rfl
  | D_BAD_RESET =>
    simp only at hx
    split at hx
    · simp at hx
    · simp only [Option.some.injEq] at hx
      rw [← hx]
      exact prims_same rfl

theorem fresh_key_gt {ν : Type} (l : List (Nat × ν)) : ∀ k ∈ mkeys l, k < fresh_key l := by
  induction l with
  | nil => intro k hk; simp [mkeys] at hk
  | cons e t ih =>
    intro k hk
    simp only [mkeys, List.map_cons, List.mem_cons] at hk
    have hf : fresh_key (e :: t) = max (e.1 + 1) (fresh_key t) := rfl
    rw [hf]
    rcases hk with hk | hk
    · subst hk; omega
    · have := ih k (by simpa [mkeys] using hk)
      omega

theorem mfind_fresh_key {ν : Type} (l : List (Nat × ν)) : mfind l (fresh_key l) = none := by
  cases h : mfind l (fresh_key l) with
  | none => rfl
  | some v =>
    have := fresh_key_gt l _ (mfind_some_mem_mkeys l _ v h)
    omega

theorem prims_new_pipe (ms : Messenger) (st : PipeState) (pol : Policy) (addr : entity_addr_t)
    (type : Nat) : Prims [] ms (new_pipe ms st pol addr type).1 :=
  prims_one (Prim.create _ _ (fresh_key ms.pipes)
    { Pipe.fresh st pol addr (fresh_key ms.connections) with peer_type := type }
    (mfind_fresh_key ms.pipes) rfl rfl rfl rfl rfl)

theorem prims_accepter_new (ms : Messenger) : Prims [] ms (accepter_new ms) := by
  unfold accepter_new
  split
  · exact prims_new_pipe _ _ _ _ _
  · exact Prims.refl ms

theorem getPipe_new_pipe (ms : Messenger) (st : PipeState) (pol : Policy) (addr : entity_addr_t)
    (type : Nat) :
    getPipe (new_pipe ms st pol addr type).1 (new_pipe ms st pol addr type).2
      = some { Pipe.fresh st pol addr (fresh_key ms.connections) with peer_type := type } := by
  unfold new_pipe getPipe
  simp only
  rw [mfind_mset_self]

theorem prims_connect_rank (ms ms1 : Messenger) (addr : entity_addr_t) (type pid : Nat)
    (h : connect_rank ms addr type = Except.ok (ms1, pid)) : Prims [] ms ms1 := by
  unfold connect_rank at h
  split at h
  · simp at h
  · split at h
    · simp at h
    · rename_i m hreg
      simp only [Except.ok.injEq, Prod.mk.injEq] at h
      rw [← h.1]
      exact prims_trans0 (prims_new_pipe ms _ _ addr type)
        (prims_register_pipe _ _ _ _ (getPipe_new_pipe ms _ _ addr type)
          (by simp [Pipe.fresh]) hreg)

theorem prims_submit_new (ms ms1 : Messenger) (m : Message) (dest_addr : entity_addr_t)
    (dest_type : Nat) (lazy : Bool)
    (h : submit_new ms m dest_addr dest_type lazy = Except.ok ms1) : Prims [] ms ms1 := by
  unfold submit_new at h
  split at h
  · simp only [Except.ok.injEq] at h
    subst h; exact Prims.refl ms
  · split at h
    · simp only [Except.ok.injEq] at h
      subst h; exact Prims.refl ms
    · split at h
      · simp at h
      · rename_i ms2 pid hc
        split at h
        · simp at h
        · rename_i p hp
          simp only [Except.ok.injEq] at h
          subst h
          exact prims_trans0 (prims_connect_rank ms ms2 dest_addr dest_type pid hc)
            (prims_upd _ pid p _ hp (PipeUpd_send p m))

theorem prims_submit_message (ms ms1 : Messenger) (m : Message) (dest_addr : entity_addr_t)
    (dest_type : Nat) (lazy : Bool)
    (h : submit_message ms m dest_addr dest_type lazy = Except.ok ms1) : Prims [] ms ms1 := by
  unfold submit_message at h
  split at h
  · simp only [Except.ok.injEq] at h
    subst h; exact Prims.refl ms
  · split at h
    · split at h
      · simp only [Except.ok.injEq] at h
        subst h; exact prims_local_delivery _ _ _
      · simp at h
    · split at h
      · exact prims_submit_new ms ms1 m dest_addr dest_type lazy h
      · rename_i pid _
        split at h
        · simp at h
        · rename_i p hp
          split at h
          · exact prims_trans0 (prims_unregister_pipe ms pid)
              (prims_submit_new _ ms1 m dest_addr dest_type lazy h)
          · simp only [Except.ok.injEq] at h
            subst h
            exact prims_upd ms pid p _ hp (PipeUpd_send p m)

theorem prims_submit_message_pipe (ms : Messenger) (m : Message) (pipe : Nat) :
    Prims [] ms (submit_message_pipe ms m pipe) := by
  unfold submit_message_pipe
  split
  · exact prims_local_delivery _ _ _
  · split
    · exact Prims.refl ms
    · rename_i p hp
      split
      · exact prims_unregister_pipe ms pipe
      · exact prims_upd ms pipe p _ hp (PipeUpd_send p m)

theorem prims_get_connection_new (ms ms1 : Messenger) (dest_addr : entity_addr_t)
    (dest_type : Nat) (c : Option Nat)
    (h : get_connection_new ms dest_addr dest_type = Except.ok (ms1, c)) : Prims [] ms ms1 := by
  unfold get_connection_new at h
  split at h
  · simp only [Except.ok.injEq, Prod.mk.injEq] at h
    rw [← h.1]; exact Prims.refl ms
  · split at h
    · simp at h
    · rename_i ms2 pid hc
      simp only [Except.ok.injEq, Prod.mk.injEq] at h
      rw [← h.1]
      exact prims_connect_rank ms ms2 dest_addr dest_type pid hc

theorem prims_get_connection (ms ms1 : Messenger) (dest_addr : entity_addr_t)
    (dest_type : Nat)
    (h : (get_connection ms dest_addr dest_type).toOption.map (fun x => x.1) = some ms1) :
    Prims [] ms ms1 := by
  simp only [Option.map_eq_some'] at h
  obtain ⟨x, hx, hx1⟩ := h
  subst hx1
  have hx2 : get_connection ms dest_addr dest_type = Except.ok (x.1, x.2) := by
    cases hg : get_connection ms dest_addr dest_type with
    | error e => rw [hg] at hx; simp [Except.toOption] at hx
    | ok v => rw [hg] at hx; simp only [Except.toOption, Option.some.injEq] at hx; rw [hx]
  unfold get_connection at hx2
  split at hx2
  · simp only [Except.ok.injEq, Prod.mk.injEq] at hx2
    rw [← hx2.1]; exact Prims.refl ms
  · split at hx2
    · exact prims_get_connection_new ms _ dest_addr dest_type _ hx2
    · rename_i pid _
      split at hx2
      · simp at hx2
      · split at hx2
        · exact prims_trans0 (prims_unregister_pipe ms pid)
            (prims_get_connection_new _ _ dest_addr dest_type _ hx2)
        · simp only [Except.ok.injEq, Prod.mk.injEq] at hx2
          rw [← hx2.1]; exact Prims.refl ms

theorem toOption_ok {ε α : Type} (e : Except ε α) (a : α) (h : e.toOption = some a) :
    e = Except.ok a := by
  cases e with
  | error x => simp [Except.toOption] at h
  | ok v => simp only [Except.toOption, Option.some.injEq] at h; rw [h]

theorem prims_prepare_dest (ms ms1 : Messenger) (addr : entity_addr_t) (type : Nat)
    (h : prepare_dest ms addr type = Except.ok ms1) : Prims [] ms ms1 := by
  unfold prepare_dest at h
  split at h
  · split at h
    · simp at h
    · rename_i ms2 pid hc
      simp only [Except.ok.injEq] at h
      subst h
      exact prims_connect_rank ms ms2 addr type pid hc
  · simp only [Except.ok.injEq] at h
    subst h; exact Prims.refl ms

theorem prims_send_keepalive (ms ms1 : Messenger) (dest_addr : entity_addr_t)
    (h : send_keepalive ms dest_addr = Except.ok ms1) : Prims [] ms ms1 := by
  unfold send_keepalive at h
  split at h
  · split at h
    · simp only [Except.ok.injEq] at h
      subst h; exact Prims.refl ms
    · rename_i pid _
      split at h
      · simp at h
      · rename_i p hp
        split at h
        · simp only [Except.ok.injEq] at h
          subst h; exact prims_unregister_pipe ms pid
        · simp only [Except.ok.injEq] at h
          subst h; exact prims_upd ms pid p _ hp (PipeUpd_send_keepalive p)
  · simp only [Except.ok.injEq] at h
    subst h; exact Prims.refl ms

theorem prims_send_keepalive_con (ms : Messenger) (con : Nat) :
    Prims [] ms (send_keepalive_con ms con) := by
  unfold send_keepalive_con
  split
  · exact Prims.refl ms
  · split
    · exact Prims.refl ms
    · rename_i p hp
      exact prims_upd ms _ p _ hp (PipeUpd_send_keepalive p)

theorem prims_mark_down_pipe (ms : Messenger) (pid : Nat) :
    Prims [] ms (mark_down_pipe ms pid) := by
  unfold mark_down_pipe
  split
  · exact prims_unregister_pipe ms pid
  · rename_i p hp
    exact prims_trans0 (prims_unregister_pipe ms pid) (prims_upd _ pid p _ hp (PipeUpd_stop p))

theorem prims_mark_down_all_loop (n : Nat) :
    ∀ ms : Messenger, Prims [] ms (mark_down_all_loop n ms) := by
  induction n with
  | zero => intro ms; exact Prims.refl ms
  | succ n ih =>
    intro ms
    unfold mark_down_all_loop
    split
    · exact Prims.refl ms
    · rename_i a pid rest _
      refine prims_trans0 (prims_trans0 (b := { ms with rank_pipe := merase ms.rank_pipe a })
        (prims_one (Prim.unregister _ _ a rfl)) (prims_mark_down_pipe _ pid)) (ih _)

theorem prims_mark_down_all (ms : Messenger) : Prims [] ms (mark_down_all ms) :=
  prims_mark_down_all_loop _ ms

theorem prims_mark_down (ms : Messenger) (addr : entity_addr_t) :
    Prims [] ms (mark_down ms addr) := by
  unfold mark_down
  split
  · exact Prims.refl ms
  · exact prims_mark_down_pipe ms _

theorem prims_mark_down_con (ms : Messenger) (con : Nat) :
    Prims [] ms (mark_down_con ms con) := by
  unfold mark_down_con
  split
  · exact Prims.refl ms
  · exact prims_mark_down_pipe ms _

theorem prims_mark_down_on_empty (ms : Messenger) (con : Nat) :
    Prims [] ms (mark_down_on_empty ms con) := by
  unfold mark_down_on_empty
  split
  · exact Prims.refl ms
  · rename_i pid _
    split
    · exact prims_unregister_pipe ms pid
    · rename_i p hp
      split
      · exact prims_trans0 (prims_unregister_pipe ms pid)
          (prims_upd _ pid p _ hp (PipeUpd_stop p))
      · exact prims_trans0 (prims_unregister_pipe ms pid)
          (prims_upd _ pid p _ hp
            (PipeUpd.of_fields _ _ rfl rfl rfl rfl (fun h => h) (Or.inl rfl) (Or.inl rfl)))

theorem prims_mark_disposable (ms : Messenger) (con : Nat) :
    Prims [] ms (mark_disposable ms con) := by
  unfold mark_disposable
  split
  · exact Prims.refl ms
  · split
    · exact Prims.refl ms
    · rename_i p hp
      exact prims_upd ms _ p _ hp
        (PipeUpd.of_fields p
          { p with policy := { p.policy with lossy := true }, disposable := true }
          rfl rfl rfl rfl (fun h => h) (Or.inr rfl) (Or.inr rfl))

theorem unregister_pipe_not_registered (ms : Messenger) (pid : Nat) (p : Pipe)
    (hp : getPipe ms pid = some p) :
    mfind (unregister_pipe ms pid).rank_pipe p.peer_addr ≠ some pid := by
  unfold unregister_pipe
  rw [hp]
  simp only
  by_cases h : mfind ms.rank_pipe p.peer_addr = some pid
  · rw [if_pos h]
    simp only
    rw [mfind_merase_self]
    simp
  · rw [if_neg h]
    exact h

theorem prims_reaper (ms ms1 : Messenger) (pid : Nat)
    (h : reaper ms pid = Except.ok ms1) : Prims [pid] ms ms1 := by
  unfold reaper at h
  split at h
  · simp at h
  · rename_i p hp
    simp only [Except.ok.injEq] at h
    subst h
    have h1 := prims_discard ms pid p p hp (PipeUpd.upd_refl p)
    have hg1 : getPipe (putCtx ms (discard_queue (ctxOf ms pid p))) pid
        = some (discard_queue (ctxOf ms pid p)).pipe :=
      (putCtx_fields ms (discard_queue (ctxOf ms pid p))).2.2.2.2.2.2.1
    have h2 := prims_trans0 h1 (prims_unregister_pipe _ pid)
    have hg2 : getPipe (unregister_pipe (putCtx ms (discard_queue (ctxOf ms pid p))) pid) pid
        = some (discard_queue (ctxOf ms pid p)).pipe := by
      rw [getPipe_unregister_pipe]; exact hg1
    have hnr := unregister_pipe_not_registered _ pid _ hg1
    have h3 : Prims [pid] ms
        { unregister_pipe (putCtx ms (discard_queue (ctxOf ms pid p))) pid with
          pipes := merase (unregister_pipe (putCtx ms (discard_queue (ctxOf ms pid p))) pid).pipes
            pid } :=
      Prims.del _ pid _ _ _ h2 ⟨_, hg2, rfl, rfl, hnr, rfl⟩
    exact Prims.tail _ _ _ _ h3 (Prim.same _ _ (core_clear_pipe _ _))

/-- Every operation is a sequence of elementary transitions, which deletes a pipe only
in the reaper. -/
theorem step_prims (K : Consts) (complete : Nat) (ms ms1 : Messenger) (op : Op)
    (h : step K complete ms op = some ms1) : Prims op.deletes ms ms1 := by
  cases op with
  | accepter_new =>
    simp only [step, Option.some.injEq] at h
    subst h; exact prims_accepter_new ms
  | accept_begin self io_ok addr => exact prims_accept_begin ms ms1 self io_ok addr h
  | accept_read_fail self => exact prims_accept_read_fail ms ms1 self h
  | accept_pass self connect verify reply_ok =>
    exact prims_accept_pass K ms ms1 self connect verify reply_ok h
  | accept_finish self reply io =>
    simp only [step, Option.some.injEq] at h
    subst h; exact prims_accept_finish ms self reply io
  | reader id ev pol =>
    simp only [step, Option.some.injEq] at h
    subst h; exact prims_reader_handle complete ms id ev pol
  | writer id io => exact prims_writer_step K ms ms1 id io h
  | dispatch => exact prims_dispatch ms ms1 h
  | deliver m => exact prims_deliver ms ms1 m h
  | submit_message m dest_addr dest_type lazy =>
    exact prims_submit_message ms ms1 m dest_addr dest_type lazy (toOption_ok _ _ h)
  | submit_message_pipe m pipe =>
    simp only [step, Option.some.injEq] at h
    subst h; exact prims_submit_message_pipe ms m pipe
  | get_connection dest_addr dest_type => exact prims_get_connection ms ms1 dest_addr dest_type h
  | prepare_dest addr type => exact prims_prepare_dest ms ms1 addr type (toOption_ok _ _ h)
  | send_keepalive dest_addr => exact prims_send_keepalive ms ms1 dest_addr (toOption_ok _ _ h)
  | send_keepalive_con con =>
    simp only [step, Option.some.injEq] at h
    subst h; exact prims_send_keepalive_con ms con
  | mark_down_all =>
    simp only [step, Option.some.injEq] at h
    subst h; exact prims_mark_down_all ms
  | mark_down addr =>
    simp only [step, Option.some.injEq] at h
    subst h; exact prims_mark_down ms addr
  | mark_down_con con =>
    simp only [step, Option.some.injEq] at h
    subst h; exact prims_mark_down_con ms con
  | mark_down_on_empty con =>
    simp only [step, Option.some.injEq] at h
    subst h; exact prims_mark_down_on_empty ms con
  | mark_disposable con =>
    simp only [step, Option.some.injEq] at h
    subst h; exact prims_mark_disposable ms con
  | reaper pid => exact prims_reaper ms ms1 pid (toOption_ok _ _ h)

/-! ## What the elementary transitions keep -/

theorem core_fields {a b : Messenger} (h : Core b = Core a) :
    b.pipes = a.pipes ∧ b.rank_pipe = a.rank_pipe ∧
    b.dispatch_queue.queued_pipes = a.dispatch_queue.queued_pipes := by
  unfold Core at h
  simp only [Prod.mk.injEq] at h
  exact h

theorem PipeKeep.keep_refl (p : Pipe) : PipeKeep p p :=
  ⟨fun _ => rfl, fun h => h, fun _ _ h => h, fun h => h⟩

theorem PipeKeep.keep_trans {p q r : Pipe} (h1 : PipeKeep p q) (h2 : PipeKeep q r) : PipeKeep p r :=
  ⟨fun h => (h2.1 (h1.2.1 h)).trans (h1.1 h),
   fun h => h2.2.1 (h1.2.1 h),
   fun h hd hl => h2.2.2.1 (h1.2.1 h) (h1.2.2.2 hd) (h1.2.2.1 h hd hl),
   fun h => h2.2.2.2 (h1.2.2.2 h)⟩

theorem PipeUpd.keep {p q : Pipe} (h : PipeUpd p q) : PipeKeep p q :=
  ⟨h.peer_addr, h.state, h.lossy, h.disposable⟩

/-- A pipe with the same state, policy, peer address and disposable flag. -/
theorem PipeKeep.of_eq (p q : Pipe) (h1 : q.peer_addr = p.peer_addr) (h2 : q.state = p.state)
    (h3 : q.policy = p.policy) (h4 : q.disposable = p.disposable) : PipeKeep p q :=
  ⟨fun _ => h1, fun h => by rw [h2]; exact h, fun _ _ hl => by rw [h3]; exact hl,
   fun hd => by rw [h4]; exact hd⟩

theorem queue_received_keep (c : PipeCtx) (m : QItem) (k : Nat) :
    (queue_received c m k).self = c.self ∧ PipeKeep c.pipe (queue_received c m k).pipe := by
  unfold queue_received
  simp only
  split
  · cases m <;> exact ⟨rfl, PipeKeep.of_eq _ _ rfl rfl rfl rfl⟩
  · split
    · exact ⟨rfl, PipeKeep.of_eq _ _ rfl rfl rfl rfl⟩
    · exact ⟨rfl, PipeKeep.of_eq _ _ rfl rfl rfl rfl⟩

theorem getPipe_putCtx (ms : Messenger) (c : PipeCtx) (j : Nat) :
    getPipe (putCtx ms c) j = if j = c.self then some c.pipe else getPipe ms j := by
  by_cases h : j = c.self
  · subst h
    rw [if_pos rfl]
    exact (putCtx_fields ms c).2.2.2.2.2.2.1
  · rw [if_neg h]
    exact (putCtx_fields ms c).2.2.2.2.2.2.2 j h

theorem getPipe_setPipe (ms : Messenger) (id j : Nat) (p : Pipe) :
    getPipe (setPipe ms id p) j = if j = id then some p else getPipe ms j := by
  by_cases h : j = id
  · subst h
    rw [if_pos rfl, getPipe_setPipe_self]
  · rw [if_neg h, getPipe_setPipe_ne _ _ _ _ h]

/-- The shape of a dispatch step: the highest priority `k` of the dispatch queue, the
pipe `pid` at the front of its list, the item `m` at the front of that pipe's
inbound list at `k`, and the messenger afterwards. -/
theorem dispatch_step_spec (ms ms2 : Messenger) (m : QItem)
    (h : dispatch_step ms = some (m, ms2)) :
    ∃ k pid rest p mq,
      ms.dispatch_queue.stop = false ∧
      maxPrio (mkeys ms.dispatch_queue.queued_pipes) = some k ∧
      qat ms.dispatch_queue.queued_pipes k = pid :: rest ∧
      getPipe ms pid = some p ∧
      qat p.in_q k = m :: mq ∧
      (mq ≠ [] → k ∈ p.queue_items) ∧
      ms2 = { ms with
        pipes := mset ms.pipes pid
          { p with in_q := mset p.in_q k mq, in_qlen := p.in_qlen - 1 }
        dispatch_queue :=
          { ms.dispatch_queue with
            queued_pipes :=
              if mq.isEmpty then
                (if rest.isEmpty then merase ms.dispatch_queue.queued_pipes k
                 else mset ms.dispatch_queue.queued_pipes k rest)
              else mset ms.dispatch_queue.queued_pipes k (xpush (pid :: rest) pid)
            qlen := ms.dispatch_queue.qlen - 1 } } := by
  unfold dispatch_step at h
  by_cases hstop : ms.dispatch_queue.stop = true
  · rw [if_pos hstop] at h; simp at h
  rw [if_neg hstop] at h
  have hstop' : ms.dispatch_queue.stop = false := by simpa using hstop
  cases hk : maxPrio (mkeys ms.dispatch_queue.queued_pipes) with
  | none => rw [hk] at h; simp at h
  | some k =>
    rw [hk] at h
    simp only at h
    cases hl : qat ms.dispatch_queue.queued_pipes k with
    | nil => rw [hl] at h; simp at h
    | cons pid rest =>
      rw [hl] at h
      simp only at h
      cases hp : getPipe ms pid with
      | none => rw [hp] at h; simp at h
      | some p =>
        rw [hp] at h
        simp only at h
        cases hq : qat p.in_q k with
        | nil => rw [hq] at h; simp at h
        | cons m0 mq =>
          rw [hq] at h
          simp only at h
          by_cases he : mq.isEmpty = true
          · rw [if_pos he] at h
            simp only [Option.some.injEq, Prod.mk.injEq] at h
            obtain ⟨h1, h2⟩ := h
            subst h1
            refine ⟨k, pid, rest, p, mq, hstop', rfl, hl, hp, hq, ?_, ?_⟩
            · intro hne
              exact absurd (List.isEmpty_iff.mp he) hne
            · rw [← h2, if_pos he]
          · rw [if_neg he] at h
            by_cases hi : k ∈ p.queue_items
            · rw [if_pos hi] at h
              simp only [Option.some.injEq, Prod.mk.injEq] at h
              obtain ⟨h1, h2⟩ := h
              subst h1
              refine ⟨k, pid, rest, p, mq, hstop', rfl, hl, hp, hq, fun _ => hi, ?_⟩
              rw [← h2, if_neg he]
            · rw [if_neg hi] at h
              simp at h

/-- An elementary transition keeps every pipe, with what `PipeKeep` tells of it. -/
theorem prim_keep (ms ms1 : Messenger) (h : Prim ms ms1) (id : Nat) (p : Pipe)
    (hp : getPipe ms id = some p) : ∃ q, getPipe ms1 id = some q ∧ PipeKeep p q := by
  cases h with
  | same hc =>
    rw [getPipe_of_core hc]
    exact ⟨p, hp, PipeKeep.keep_refl p⟩
  | upd id0 p0 q0 hp0 hu hc =>
    rw [getPipe_of_core hc, getPipe_setPipe]
    by_cases e : id = id0
    · subst e
      rw [if_pos rfl]
      rw [hp] at hp0
      simp only [Option.some.injEq] at hp0
      subst hp0
      exact ⟨q0, rfl, hu.keep⟩
    · rw [if_neg e]
      exact ⟨p, hp, PipeKeep.keep_refl p⟩
  | recv id0 p0 q0 m k hp0 hu hc =>
    rw [getPipe_of_core hc, getPipe_putCtx]
    have hk := queue_received_keep (ctxOf ms id0 q0) m k
    by_cases e : id = id0
    · subst e
      rw [hp] at hp0
      simp only [Option.some.injEq] at hp0
      subst hp0
      have e1 : id = (queue_received (ctxOf ms id q0) m k).self := hk.1.symm
      rw [if_pos e1]
      exact ⟨_, rfl, hu.keep.keep_trans hk.2⟩
    · have e1 : ¬ id = (queue_received (ctxOf ms id0 q0) m k).self := by
        rw [hk.1]; exact e
      rw [if_neg e1]
      exact ⟨p, hp, PipeKeep.keep_refl p⟩
  | discard id0 p0 q0 hp0 hu hc =>
    rw [getPipe_of_core hc, getPipe_putCtx]
    by_cases e : id = id0
    · subst e
      rw [hp] at hp0
      simp only [Option.some.injEq] at hp0
      subst hp0
      have e1 : id = (discard_queue (ctxOf ms id q0)).self := rfl
      rw [if_pos e1]
      exact ⟨_, rfl, hu.keep.keep_trans (PipeKeep.of_eq _ _ rfl rfl rfl rfl)⟩
    · have e1 : ¬ id = (discard_queue (ctxOf ms id0 q0)).self := e
      rw [if_neg e1]
      exact ⟨p, hp, PipeKeep.keep_refl p⟩
  | dequeue ms2 m hd hc =>
    obtain ⟨k, pid, rest, p0, mq, _, _, _, hp0, _, _, hms2⟩ := dispatch_step_spec ms ms2 m hd
    rw [getPipe_of_core hc, hms2]
    show ∃ q, mfind (mset ms.pipes pid _) id = some q ∧ PipeKeep p q
    by_cases e : id = pid
    · subst e
      rw [hp] at hp0
      simp only [Option.some.injEq] at hp0
      subst hp0
      rw [mfind_mset_self]
      exact ⟨_, rfl, PipeKeep.of_eq _ _ rfl rfl rfl rfl⟩
    · rw [mfind_mset_ne _ _ _ _ e]
      exact ⟨p, hp, PipeKeep.keep_refl p⟩
  | register id0 p0 hp0 hs hfree hc =>
    rw [getPipe_of_core hc]
    exact ⟨p, hp, PipeKeep.keep_refl p⟩
  | unregister a hc =>
    rw [getPipe_of_core hc]
    exact ⟨p, hp, PipeKeep.keep_refl p⟩
  | create id0 p0 hnone _ _ _ _ hc =>
    rw [getPipe_of_core hc]
    show ∃ q, mfind (mset ms.pipes id0 p0) id = some q ∧ PipeKeep p q
    by_cases e : id = id0
    · subst e
      rw [hp] at hnone
      simp at hnone
    · rw [mfind_mset_ne _ _ _ _ e]
      exact ⟨p, hp, PipeKeep.keep_refl p⟩

/-- Deleting a pipe keeps every other pipe as it is. -/
theorem delete_keep (ms ms1 : Messenger) (id0 : Nat) (h : PrimDelete id0 ms ms1) (id : Nat)
    (hne : id ≠ id0) : getPipe ms1 id = getPipe ms id := by
  obtain ⟨p0, _, _, _, _, hc⟩ := h
  rw [getPipe_of_core hc]
  show mfind (merase ms.pipes id0) id = mfind ms.pipes id
  exact mfind_merase_ne _ _ _ hne

theorem AddrFrame.frame_refl (ms : Messenger) : AddrFrame ms ms :=
  ⟨rfl, fun _ q h => ⟨q, h, rfl⟩⟩

theorem AddrFrame.frame_trans {a b c : Messenger} (h1 : AddrFrame a b) (h2 : AddrFrame b c) :
    AddrFrame a c := by
  refine ⟨h2.1.trans h1.1, ?_⟩
  intro j q hq
  obtain ⟨q1, hq1, e1⟩ := h1.2 j q hq
  obtain ⟨q2, hq2, e2⟩ := h2.2 j q1 hq1
  exact ⟨q2, hq2, e2.trans e1⟩

theorem addrframe_setPipe (ms : Messenger) (id : Nat) (p q : Pipe)
    (hp : getPipe ms id = some p) (h : q.peer_addr = p.peer_addr) :
    AddrFrame ms (setPipe ms id q) := by
  refine ⟨rfl, ?_⟩
  intro j r hr
  rw [getPipe_setPipe]
  by_cases e : j = id
  · subst e
    rw [if_pos rfl]
    rw [hp] at hr
    simp only [Option.some.injEq] at hr
    subst hr
    exact ⟨q, rfl, h⟩
  · rw [if_neg e]
    exact ⟨r, hr, rfl⟩

theorem addrframe_putCtx (ms : Messenger) (c : PipeCtx) (p : Pipe)
    (hp : getPipe ms c.self = some p) (h : c.pipe.peer_addr = p.peer_addr) :
    AddrFrame ms (putCtx ms c) := by
  refine ⟨rfl, ?_⟩
  intro j r hr
  rw [getPipe_putCtx]
  by_cases e : j = c.self
  · subst e
    rw [if_pos rfl]
    rw [hp] at hr
    simp only [Option.some.injEq] at hr
    subst hr
    exact ⟨c.pipe, rfl, h⟩
  · rw [if_neg e]
    exact ⟨r, hr, rfl⟩

theorem addrframe_of_core {a b : Messenger} (h : Core b = Core a) : AddrFrame a b := by
  refine ⟨(core_fields h).2.1, ?_⟩
  intro j q hq
  exact ⟨q, by rw [getPipe_of_core h]; exact hq, rfl⟩

theorem queue_received_addr (c : PipeCtx) (m : QItem) (k : Nat) :
    (queue_received c m k).pipe.peer_addr = c.pipe.peer_addr := by
  unfold queue_received
  simp only
  split
  · cases m <;> rfl
  · split
    · rfl
    · rfl

theorem addrframe_local_delivery (ms : Messenger) (m : QItem) (k : Nat) :
    AddrFrame ms (local_delivery ms m k) := by
  unfold local_delivery
  split
  · exact AddrFrame.frame_refl ms
  · rename_i lp hlp
    apply addrframe_putCtx ms _ lp
    · rw [(queue_received_keep _ m k).1]
      exact hlp
    · rw [queue_received_addr]
      rfl

theorem addrframe_was_session_reset (ms : Messenger) (id : Nat) :
    AddrFrame ms (was_session_reset ms id) := by
  unfold was_session_reset
  split
  · exact AddrFrame.frame_refl ms
  · rename_i p hp
    have h1 : AddrFrame ms (putCtx ms (discard_queue (ctxOf ms id p))) :=
      addrframe_putCtx ms _ p hp rfl
    simp only
    have h2 : AddrFrame ms (if (!(putCtx ms (discard_queue (ctxOf ms id p))).destination_stopped)
        = true then queue_remote_reset (putCtx ms (discard_queue (ctxOf ms id p)))
          p.connection_state
        else putCtx ms (discard_queue (ctxOf ms id p))) := by
      split
      · refine h1.frame_trans ?_
        unfold queue_remote_reset
        refine AddrFrame.frame_trans ?_ (addrframe_local_delivery _ _ _)
        exact addrframe_of_core rfl
      · exact h1
    split
    · exact h2
    · rename_i p2 hp2
      exact h2.frame_trans (addrframe_setPipe _ id p2 _ hp2 rfl)

/-- Under the table invariant a frame step keeps the invariant. -/
theorem prim_table (ms ms1 : Messenger) (h : Prim ms ms1) (ht : TableInv ms) : TableInv ms1 := by
  have keep : ms1.rank_pipe = ms.rank_pipe → TableInv ms1 := by
    intro hr a id hreg
    rw [hr] at hreg
    obtain ⟨p, hp, hpa, hps⟩ := ht a id hreg
    obtain ⟨q, hq, hk⟩ := prim_keep ms ms1 h id p hp
    exact ⟨q, hq, (hk.1 hps).trans hpa, hk.2.1 hps⟩
  cases h with
  | same hc => exact keep (core_fields hc).2.1
  | upd id0 p0 q0 hp0 hu hc => exact keep (core_fields hc).2.1
  | recv id0 p0 q0 m k hp0 hu hc => exact keep (core_fields hc).2.1
  | discard id0 p0 q0 hp0 hu hc => exact keep (core_fields hc).2.1
  | dequeue ms2 m hd hc =>
    apply keep
    obtain ⟨k, pid, rest, p0, mq, _, _, _, _, _, _, hms2⟩ := dispatch_step_spec ms ms2 m hd
    rw [(core_fields hc).2.1, hms2]
  | create id0 p0 hnone _ _ _ _ hc => exact keep (core_fields hc).2.1
  | register id0 p0 hp0 hs hfree hc =>
    intro a id hreg
    rw [(core_fields hc).2.1] at hreg
    rw [getPipe_of_core hc]
    change mfind (mset ms.rank_pipe p0.peer_addr id0) a = some id at hreg
    by_cases e : a = p0.peer_addr
    · subst e
      rw [mfind_mset_self] at hreg
      simp only [Option.some.injEq] at hreg
      subst hreg
      exact ⟨p0, hp0, rfl, hs⟩
    · rw [mfind_mset_ne _ _ _ _ e] at hreg
      exact ht a id hreg
  | unregister a0 hc =>
    intro a id hreg
    rw [(core_fields hc).2.1] at hreg
    rw [getPipe_of_core hc]
    change mfind (merase ms.rank_pipe a0) a = some id at hreg
    by_cases e : a = a0
    · subst e
      rw [mfind_merase_self] at hreg
      simp at hreg
    · rw [mfind_merase_ne _ _ _ e] at hreg
      exact ht a id hreg

theorem delete_table (ms ms1 : Messenger) (id0 : Nat) (h : PrimDelete id0 ms ms1)
    (ht : TableInv ms) : TableInv ms1 := by
  intro a id hreg
  have hd := h
  obtain ⟨p0, hp0, _, _, hnr, hc⟩ := h
  rw [(core_fields hc).2.1] at hreg
  change mfind ms.rank_pipe a = some id at hreg
  obtain ⟨p, hp, hpa, hps⟩ := ht a id hreg
  have hne : id ≠ id0 := by
    intro e
    subst e
    rw [hp] at hp0
    simp only [Option.some.injEq] at hp0
    subst hp0
    rw [hpa] at hnr
    exact hnr hreg
  exact ⟨p, by rw [delete_keep ms ms1 id0 hd id hne]; exact hp, hpa, hps⟩

theorem prims_table {ds : List Nat} {ms ms1 : Messenger} (h : Prims ds ms ms1)
    (ht : TableInv ms) : TableInv ms1 := by
  induction h with
  | refl => exact ht
  | tail ds m0 m1 m2 _ hprim ih => exact prim_table m1 m2 hprim (ih ht)
  | del ds id0 m0 m1 m2 _ hdel ih => exact delete_table m1 m2 id0 hdel (ih ht)

theorem reach_table (K : Consts) (complete : Nat) (ms : Messenger)
    (h : Reach K complete ms) : TableInv ms := by
  induction h with
  | init ms0 hinit =>
    intro a id hreg
    rw [hinit.1] at hreg
    simp [mfind] at hreg
  | step m0 m1 op _ hstep ih => exact prims_table (step_prims K complete m0 m1 op hstep) ih

theorem accept_race_some_ne_open (ms_addr peer_addr : entity_addr_t)
    (connect : ceph_msg_connect) (e : Pipe) :
    accept_race ms_addr peer_addr connect (some e) ≠ AcceptStep.open_new := by
  simp only [accept_race]
  split_ifs <;> simp

/-- What a pass of `accept` has found when it jumps to `replace` or `open`: the table
is as before, the accepting pipe has its peer address, a jump to `replace` names the
pipe the table holds for that address, and a jump to `open` means the table holds
none. -/
theorem accept_record_table (K : Consts) (ms : Messenger) (self : Nat)
    (connect : ceph_msg_connect) (verify : Bool × Bool) (p : Pipe)
    (hp : getPipe ms self = some p) :
    AddrFrame ms (accept_record K ms self connect verify).ms ∧
    (∀ b, (accept_record K ms self connect verify).step = AcceptStep.replace b →
      (accept_record K ms self connect verify).existing = mfind ms.rank_pipe p.peer_addr) ∧
    ((accept_record K ms self connect verify).step = AcceptStep.open_new →
      mfind ms.rank_pipe p.peer_addr = none) := by
  have h1 : AddrFrame ms (setPipe ms self
      { p with peer_type := connect.host_type, policy := get_policy ms connect.host_type }) :=
    addrframe_setPipe ms self p _ hp rfl
  unfold accept_record
  rw [hp]
  simp only
  split
  · exact ⟨h1, fun b h => by simp at h, fun h => by simp at h⟩
  · split
    · exact ⟨h1, fun b h => by simp at h, fun h => by simp at h⟩
    · split
      · exact ⟨h1, fun b h => by simp at h, fun h => by simp at h⟩
      · split
        · rename_i hnone
          exact ⟨h1, fun b _ => hnone.symm, fun _ => hnone⟩
        · rename_i eid hsome
          split
          · exact ⟨h1, fun b h => by simp at h, fun h => by simp at h⟩
          · rename_i e he
            split
            · rename_i hrace
              exact ⟨h1.frame_trans (addrframe_was_session_reset _ _), fun b _ => hsome.symm,
                fun h => by simp at h⟩
            · rename_i step hne
              refine ⟨h1, fun b _ => hsome.symm, fun h => ?_⟩
              simp only at h
              exact absurd h (accept_race_some_ne_open _ _ _ _)

/-- The label `replace` under the table invariant: the existing pipe leaves the table,
so the accepting pipe's address is free afterwards. -/
theorem accept_replace_table (K : Consts) (ms : Messenger) (self eid : Nat)
    (connect : ceph_msg_connect) (q : Pipe) (ht : TableInv ms)
    (hq : getPipe ms self = some q) (hne : self ≠ eid)
    (hreg : mfind ms.rank_pipe q.peer_addr = some eid) :
    ∃ q2, getPipe (accept_replace K ms self eid connect).1 self = some q2 ∧
      q2.peer_addr = q.peer_addr ∧
      mfind (accept_replace K ms self eid connect).1.rank_pipe q.peer_addr = none := by
  obtain ⟨e0, he0, hea, _⟩ := ht _ _ hreg
  have hreg0 : mfind ms.rank_pipe e0.peer_addr = some eid := by rw [hea]; exact hreg
  by_cases hl : e0.policy.lossy = false
  · obtain ⟨h1, _, _, h4, _, _⟩ := accept_replace_durable K ms self eid connect e0 q he0 hq hne
      hl hreg0
    refine ⟨_, h1, rfl, ?_⟩
    rw [h4, hea]
    exact mfind_merase_self _ _
  · have hl1 : e0.policy.lossy = true := by simpa using hl
    have hu := unregister_pipe_registered (setPipe ms eid (stop e0)) eid (stop e0)
      (getPipe_setPipe_self ms eid (stop e0)) hreg0
    have hres : (accept_replace K ms self eid connect).1
        = unregister_pipe (setPipe ms eid (stop e0)) eid := by
      unfold accept_replace
      simp only
      rw [he0]
      simp only [hl1, Bool.not_true, Bool.false_eq_true, if_false]
    rw [hres, hu]
    refine ⟨q, ?_, rfl, ?_⟩
    · show getPipe (setPipe ms eid (stop e0)) self = some q
      rw [getPipe_setPipe_ne _ _ _ _ hne]
      exact hq
    · show mfind (merase ms.rank_pipe (stop e0).peer_addr) q.peer_addr = none
      have : (stop e0).peer_addr = q.peer_addr := hea
      rw [this]
      exact mfind_merase_self _ _

theorem connect_rank_free (ms : Messenger) (addr : entity_addr_t) (type : Nat)
    (hfree : mfind ms.rank_pipe addr = none) :
    connect_rank ms addr type ≠ Except.error Abort.register_pipe := by
  unfold connect_rank
  split
  · simp
  · have hreg := register_pipe_free _ _ _ (getPipe_new_pipe ms PipeState.STATE_CONNECTING
      (get_policy ms type) addr type) (by simpa [new_pipe, Pipe.fresh] using hfree)
    rw [hreg]
    simp

theorem submit_new_free (ms : Messenger) (m : Message) (dest_addr : entity_addr_t)
    (dest_type : Nat) (lazy : Bool) (hfree : mfind ms.rank_pipe dest_addr = none) :
    submit_new ms m dest_addr dest_type lazy ≠ Except.error Abort.register_pipe := by
  unfold submit_new
  split
  · simp
  · split
    · simp
    · split
      · rename_i e hc
        intro h
        simp only [Except.error.injEq] at h
        subst h
        exact connect_rank_free ms dest_addr dest_type hfree hc
      · split
        · simp
        · simp

theorem get_connection_new_free (ms : Messenger) (dest_addr : entity_addr_t)
    (dest_type : Nat) (hfree : mfind ms.rank_pipe dest_addr = none) :
    get_connection_new ms dest_addr dest_type ≠ Except.error Abort.register_pipe := by
  unfold get_connection_new
  split
  · simp
  · split
    · rename_i e hc
      intro h
      simp only [Except.error.injEq] at h
      subst h
      exact connect_rank_free ms dest_addr dest_type hfree hc
    · simp

/-- Unregistering a Closed pipe found in the table under `a` frees `a`. -/
theorem unregister_found_free (ms : Messenger) (a : entity_addr_t) (pid : Nat) (p : Pipe)
    (ht : TableInv ms) (hreg : mfind ms.rank_pipe a = some pid) (hp : getPipe ms pid = some p) :
    mfind (unregister_pipe ms pid).rank_pipe a = none := by
  obtain ⟨p1, hp1, hpa, _⟩ := ht a pid hreg
  rw [hp] at hp1
  simp only [Option.some.injEq] at hp1
  subst hp1
  rw [unregister_pipe_registered ms pid p hp (by rw [hpa]; exact hreg), ← hpa]
  exact mfind_merase_self _ _

theorem reach_run (K : Consts) (complete : Nat) (ops : List Op) :
    ∀ (ms ms1 : Messenger), Reach K complete ms → run K complete ops ms = some ms1 →
      Reach K complete ms1 := by
  induction ops with
  | nil =>
    intro ms ms1 hr h
    simp only [run, Option.some.injEq] at h
    subst h; exact hr
  | cons op rest ih =>
    intro ms ms1 hr h
    unfold run at h
    cases hs : step K complete ms op with
    | none => rw [hs] at h; simp at h
    | some ms2 =>
      rw [hs] at h
      exact ih ms2 ms1 (Reach.step ms ms2 op hr hs) h

theorem initial_boot : Initial Messenger.boot := by
  refine ⟨rfl, rfl, ?_⟩
  intro id p h
  unfold getPipe Messenger.boot at h
  simp only [mfind] at h
  split at h
  · simp only [Option.some.injEq] at h
    subst h
    exact ⟨rfl, rfl, rfl⟩
  · simp at h

/-- Claim C15: in every reachable state of the messenger, whatever the address table
holds for an address is a pipe of the messenger whose own `peer_addr` is that
address (so no pipe is in the table under two addresses).  Consequently the assert
of `register_pipe` holds where it is called: a pass of `accept` that jumps to
`replace` or to `open` gets through `register_pipe`, and `submit_message`,
`get_connection` and `prepare_dest` never abort on it in `connect_rank`; and
`unregister_pipe` erases exactly the entries that hold the calling pipe. -/
theorem address_table_invariant (K : Consts) (complete : Nat) (ms : Messenger)
    (h : Reach K complete ms) :
    (∀ a id, mfind ms.rank_pipe a = some id →
      ∃ p, getPipe ms id = some p ∧ p.peer_addr = a) ∧
    (∀ a b id, mfind ms.rank_pipe a = some id → mfind ms.rank_pipe b = some id → a = b) ∧
    (∀ self p connect verify, getPipe ms self = some p →
      p.state = PipeState.STATE_ACCEPTING →
      (∀ b eid, (accept_record K ms self connect verify).step = AcceptStep.replace b →
        (accept_record K ms self connect verify).existing = some eid →
        (accept_replace_open K (accept_record K ms self connect verify).ms self eid
          connect).isSome = true) ∧
      ((accept_record K ms self connect verify).step = AcceptStep.open_new →
        (accept_open K (accept_record K ms self connect verify).ms self connect none).isSome
          = true)) ∧
    (∀ m dest_addr dest_type lazy,
      submit_message ms m dest_addr dest_type lazy ≠ Except.error Abort.register_pipe) ∧
    (∀ dest_addr dest_type,
      get_connection ms dest_addr dest_type ≠ Except.error Abort.register_pipe) ∧
    (∀ addr type, prepare_dest ms addr type ≠ Except.error Abort.register_pipe) ∧
    (∀ id a, mfind (unregister_pipe ms id).rank_pipe a
      = if mfind ms.rank_pipe a = some id then none else mfind ms.rank_pipe a) := by
  have ht : TableInv ms := reach_table K complete ms h
  refine ⟨?_, ?_, ?_, ?_, ?_, ?_, ?_⟩
  · intro a id hreg
    obtain ⟨p, hp, hpa, _⟩ := ht a id hreg
    exact ⟨p, hp, hpa⟩
  · intro a b id ha hb
    obtain ⟨p, hp, hpa, _⟩ := ht a id ha
    obtain ⟨p1, hp1, hpb, _⟩ := ht b id hb
    rw [hp] at hp1
    simp only [Option.some.injEq] at hp1
    subst hp1
    rw [← hpa, ← hpb]
  · intro self p connect verify hp hs
    obtain ⟨hf, hrep, hopen⟩ := accept_record_table K ms self connect verify p hp
    have htr : TableInv (accept_record K ms self connect verify).ms :=
      prims_table (prims_accept_record K ms self connect verify p hp hs) ht
    obtain ⟨q, hq, hqa⟩ := hf.2 self p hp
    constructor
    · intro b eid hstep hex
      have hreg : mfind ms.rank_pipe p.peer_addr = some eid := by
        rw [← hrep b hstep]; exact hex
      have hne : self ≠ eid := by
        intro e
        subst e
        obtain ⟨p1, hp1, _, hps⟩ := ht _ _ hreg
        rw [hp] at hp1
        simp only [Option.some.injEq] at hp1
        subst hp1
        exact hps hs
      have hreg2 : mfind (accept_record K ms self connect verify).ms.rank_pipe q.peer_addr
          = some eid := by
        rw [hf.1, hqa]; exact hreg
      obtain ⟨q2, hq2, hq2a, hfree⟩ := accept_replace_table K _ self eid connect q htr hq hne hreg2
      obtain ⟨ms1, reply, hopen1, _⟩ := accept_open_spec K _ self connect
        (accept_replace K (accept_record K ms self connect verify).ms self eid connect).2 q2 hq2
        (by rw [hq2a]; exact hfree)
      unfold accept_replace_open
      rw [hopen1]
      rfl
    · intro hstep
      have hfree : mfind (accept_record K ms self connect verify).ms.rank_pipe q.peer_addr
          = none := by
        rw [hf.1, hqa]; exact hopen hstep
      obtain ⟨ms1, reply, hopen1, _⟩ := accept_open_spec K _ self connect none q hq hfree
      rw [hopen1]
      rfl
  · intro m dest_addr dest_type lazy
    unfold submit_message
    split
    · simp
    · split
      · split
        · simp
        · simp
      · split
        · rename_i hnone
          exact submit_new_free ms m dest_addr dest_type lazy hnone
        · rename_i pid hsome
          split
          · simp
          · rename_i p hp
            split
            · exact submit_new_free _ m dest_addr dest_type lazy
                (unregister_found_free ms dest_addr pid p ht hsome hp)
            · simp
  · intro dest_addr dest_type
    unfold get_connection
    split
    · simp
    · split
      · rename_i hnone
        exact get_connection_new_free ms dest_addr dest_type hnone
      · rename_i pid hsome
        split
        · simp
        · rename_i p hp
          split
          · exact get_connection_new_free _ dest_addr dest_type
              (unregister_found_free ms dest_addr pid p ht hsome hp)
          · simp
  · intro addr type
    unfold prepare_dest
    split
    · rename_i hc
      have hfree : mfind ms.rank_pipe addr = none := by
        unfold mcount at hc
        cases hf : mfind ms.rank_pipe addr with
        | none => rfl
        | some v => simp [hf] at hc
      split
      · rename_i e hcr
        intro he
        simp only [Except.error.injEq] at he
        subst he
        exact connect_rank_free ms addr type hfree hcr
      · simp
    · simp
  · intro id a
    unfold unregister_pipe
    cases hp : getPipe ms id with
    | none =>
      simp only
      have hno : mfind ms.rank_pipe a ≠ some id := by
        intro hreg
        obtain ⟨p, hp1, _⟩ := ht a id hreg
        rw [hp] at hp1
        simp at hp1
      rw [if_neg hno]
    | some p =>
      simp only
      by_cases hreg : mfind ms.rank_pipe p.peer_addr = some id
      · rw [if_pos hreg]
        simp only
        by_cases e : a = p.peer_addr
        · subst e
          rw [mfind_merase_self, if_pos hreg]
        · rw [mfind_merase_ne _ _ _ e]
          have hno : mfind ms.rank_pipe a ≠ some id := by
            intro hra
            obtain ⟨p1, hp1, hpa, _⟩ := ht a id hra
            rw [hp] at hp1
            simp only [Option.some.injEq] at hp1
            subst hp1
            exact e hpa.symm
          rw [if_neg hno]
      · rw [if_neg hreg]
        have hno : mfind ms.rank_pipe a ≠ some id := by
          intro hra
          obtain ⟨p1, hp1, hpa, _⟩ := ht a id hra
          rw [hp] at hp1
          simp only [Option.some.injEq] at hp1
          subst hp1
          rw [hpa] at hreg
          exact hreg hra
        rw [if_neg hno]

theorem reach_racing : Reach Consts.sample 1 Messenger.racing :=
  reach_run Consts.sample 1 [Op.prepare_dest 20 4, Op.accepter_new, Op.accept_begin 2 true 20]
    Messenger.boot Messenger.racing (Reach.init _ initial_boot) (by decide)

/-- Claim C15 at a reachable state with a connecting pipe registered for address 20
and an accepting pipe whose peer is at address 20 too. -/
theorem address_table_invariant_witness :
    (∀ a id, mfind Messenger.racing.rank_pipe a = some id →
      ∃ p, getPipe Messenger.racing id = some p ∧ p.peer_addr = a) ∧
    (∀ a b id, mfind Messenger.racing.rank_pipe a = some id →
      mfind Messenger.racing.rank_pipe b = some id → a = b) ∧
    (∀ self p connect verify, getPipe Messenger.racing self = some p →
      p.state = PipeState.STATE_ACCEPTING →
      (∀ b eid,
        (accept_record Consts.sample Messenger.racing self connect verify).step
          = AcceptStep.replace b →
        (accept_record Consts.sample Messenger.racing self connect verify).existing = some eid →
        (accept_replace_open Consts.sample
          (accept_record Consts.sample Messenger.racing self connect verify).ms self eid
          connect).isSome = true) ∧
      ((accept_record Consts.sample Messenger.racing self connect verify).step
          = AcceptStep.open_new →
        (accept_open Consts.sample
          (accept_record Consts.sample Messenger.racing self connect verify).ms self connect
          none).isSome = true)) ∧
    (∀ m dest_addr dest_type lazy,
      submit_message Messenger.racing m dest_addr dest_type lazy
        ≠ Except.error Abort.register_pipe) ∧
    (∀ dest_addr dest_type,
      get_connection Messenger.racing dest_addr dest_type ≠ Except.error Abort.register_pipe) ∧
    (∀ addr type, prepare_dest Messenger.racing addr type ≠ Except.error Abort.register_pipe) ∧
    (∀ id a, mfind (unregister_pipe Messenger.racing id).rank_pipe a
      = if mfind Messenger.racing.rank_pipe a = some id then none
        else mfind Messenger.racing.rank_pipe a) :=
  address_table_invariant Consts.sample 1 Messenger.racing reach_racing

/-! ## The dispatch-queue invariant -/

section KeyLemmas
variable {κ ν : Type} [DecidableEq κ]

theorem mem_mkeys_mset (q : List (κ × ν)) (k j : κ) (v : ν) :
    j ∈ mkeys (mset q k v) ↔ j = k ∨ j ∈ mkeys q := by
  induction q with
  | nil => simp [mset, mkeys]
  | cons e t ih =>
    obtain ⟨i, w⟩ := e
    by_cases h : i = k
    · subst h
      simp [mset, mkeys]
    · simp only [mset, if_neg h, mkeys, List.map_cons, List.mem_cons]
      simp only [mkeys] at ih
      rw [ih]
      tauto

theorem mem_mkeys_merase (q : List (κ × ν)) (k j : κ) :
    j ∈ mkeys (merase q k) ↔ j ≠ k ∧ j ∈ mkeys q := by
  induction q with
  | nil => simp [merase, mkeys]
  | cons e t ih =>
    obtain ⟨i, w⟩ := e
    by_cases h : i = k
    · subst h
      simp only [merase, if_true, mkeys, List.map_cons, List.mem_cons]
      simp only [mkeys] at ih
      rw [ih]
      constructor
      · rintro ⟨h1, h2⟩; exact ⟨h1, Or.inr h2⟩
      · rintro ⟨h1, h2 | h2⟩
        · exact absurd h2 h1
        · exact ⟨h1, h2⟩
    · simp only [merase, if_neg h, mkeys, List.map_cons, List.mem_cons]
      simp only [mkeys] at ih
      rw [ih]
      constructor
      · rintro (h1 | ⟨h1, h2⟩)
        · subst h1; exact ⟨fun e => h e, Or.inl rfl⟩
        · exact ⟨h1, Or.inr h2⟩
      · rintro ⟨h1, h2 | h2⟩
        · exact Or.inl h2
        · exact Or.inr ⟨h1, h2⟩

end KeyLemmas

section TotalLemmas
variable {α : Type}

theorem mem_mkeys_qtouch (q : List (Nat × List α)) (k j : Nat) :
    j ∈ mkeys (qtouch q k) ↔ j = k ∨ j ∈ mkeys q := by
  unfold qtouch
  by_cases hc : mcount q k = true
  · rw [if_pos hc]
    constructor
    · exact Or.inr
    · rintro (h | h)
      · subst h
        unfold mcount at hc
        cases hf : mfind q j with
        | none => simp [hf] at hc
        | some v => exact mfind_some_mem_mkeys q j v hf
      · exact h
  · rw [if_neg hc]
    exact mem_mkeys_mset q k j []

theorem qtotal_mset (q : List (Nat × List α)) (k : Nat) (l : List α) :
    qtotal (mset q k l) + (qat q k).length = qtotal q + l.length := by
  induction q with
  | nil => simp [mset, qtotal, qat, mfind]
  | cons e t ih =>
    obtain ⟨i, w⟩ := e
    by_cases h : i = k
    · subst h
      simp only [mset, if_true, qtotal, List.map_cons, List.sum_cons, qat, mfind, Option.getD_some]
      omega
    · have hq : qat ((i, w) :: t) k = qat t k := by simp [qat, mfind, h]
      have h1 : qtotal (mset ((i, w) :: t) k l) = w.length + qtotal (mset t k l) := by
        simp [mset, h, qtotal]
      have h2 : qtotal ((i, w) :: t) = w.length + qtotal t := by simp [qtotal]
      rw [hq, h1, h2]
      omega

theorem qtotal_qtouch (q : List (Nat × List α)) (k : Nat) : qtotal (qtouch q k) = qtotal q := by
  unfold qtouch
  by_cases hc : mcount q k = true
  · rw [if_pos hc]
  · rw [if_neg hc]
    have h := qtotal_mset q k []
    have hq : qat q k = [] := by
      unfold mcount at hc
      cases hf : mfind q k with
      | none => simp [qat, hf]
      | some v => simp [hf] at hc
    rw [hq] at h
    simpa using h

end TotalLemmas

theorem count_xpush (l : List Nat) (id j : Nat) :
    (xpush l id).count j = if j = id then 1 else l.count j := by
  unfold xpush
  rw [List.count_append]
  by_cases h : j = id
  · subst h
    rw [if_pos rfl]
    have h0 : (l.filter (fun x => decide (x ≠ j))).count j = 0 := by
      rw [List.count_eq_zero]
      intro hm
      have := (List.mem_filter.mp hm).2
      simp at this
    rw [h0]
    simp
  · rw [if_neg h]
    have h1 : (l.filter (fun x => decide (x ≠ id))).count j = l.count j := by
      apply List.count_filter
      simpa using h
    rw [h1]
    have h2 : [id].count j = 0 := by
      rw [List.count_eq_zero]
      simpa using h
    rw [h2]
    rfl

theorem mem_of_count_pos (l : List Nat) (j : Nat) : j ∈ l ↔ 0 < l.count j :=
  (List.count_pos_iff).symm

/-- The invariant after a transition that touches one pipe `id` and one priority `k`
of the dispatch queue. -/
theorem dq_step (ms ms1 : Messenger) (id k : Nat) (p q : Pipe) (hinv : DQInv ms)
    (hp : getPipe ms id = some p)
    (hpipes : ∀ j, getPipe ms1 j = if j = id then some q else getPipe ms j)
    (hinq : ∀ j, j ≠ k → qat q.in_q j = qat p.in_q j)
    (hqp : ∀ j, j ≠ k → qat ms1.dispatch_queue.queued_pipes j
      = qat ms.dispatch_queue.queued_pipes j)
    (hkeys : ∀ j, j ≠ k → j ∈ mkeys ms1.dispatch_queue.queued_pipes →
      j ∈ mkeys ms.dispatch_queue.queued_pipes)
    (hcount : ∀ j, (qat ms1.dispatch_queue.queued_pipes k).count j
      = if j = id then (if qat q.in_q k = [] then 0 else 1)
        else (qat ms.dispatch_queue.queued_pipes k).count j)
    (hne : k ∈ mkeys ms1.dispatch_queue.queued_pipes →
      qat ms1.dispatch_queue.queued_pipes k ≠ [])
    (hlen : q.in_qlen = qtotal q.in_q)
    (hitems : ∀ j, j ∈ p.queue_items → j ∈ q.queue_items)
    (hitem : qat q.in_q k ≠ [] → k ∈ q.queue_items) : DQInv ms1 := by
  have hcnt : ∀ j i, i ≠ id → (qat ms1.dispatch_queue.queued_pipes j).count i
      = (qat ms.dispatch_queue.queued_pipes j).count i := by
    intro j i hi
    by_cases hj : j = k
    · subst hj
      rw [hcount, if_neg hi]
    · rw [hqp j hj]
  refine ⟨?_, ?_, ?_, ?_, ?_⟩
  · intro i r j hr
    rw [hpipes] at hr
    by_cases hi : i = id
    · subst hi
      rw [if_pos rfl] at hr
      simp only [Option.some.injEq] at hr
      subst hr
      by_cases hj : j = k
      · subst hj
        rw [hcount, if_pos rfl]
      · rw [hqp j hj, hinq j hj]
        exact hinv.on_list i p j hp
    · rw [if_neg hi] at hr
      rw [hcnt j i hi]
      exact hinv.on_list i r j hr
  · intro j hj
    by_cases hjk : j = k
    · subst hjk
      exact hne hj
    · rw [hqp j hjk]
      exact hinv.nonempty j (hkeys j hjk hj)
  · intro i r hr
    rw [hpipes] at hr
    by_cases hi : i = id
    · subst hi
      rw [if_pos rfl] at hr
      simp only [Option.some.injEq] at hr
      subst hr
      exact hlen
    · rw [if_neg hi] at hr
      exact hinv.in_qlen i r hr
  · intro i r j hr hmem
    rw [hpipes] at hr
    rw [mem_of_count_pos] at hmem
    by_cases hi : i = id
    · subst hi
      rw [if_pos rfl] at hr
      simp only [Option.some.injEq] at hr
      subst hr
      by_cases hj : j = k
      · subst hj
        rw [hcount, if_pos rfl] at hmem
        apply hitem
        intro he
        rw [if_pos he] at hmem
        omega
      · rw [hqp j hj] at hmem
        exact hitems j (hinv.items i p j hp ((mem_of_count_pos _ _).mpr hmem))
    · rw [if_neg hi] at hr
      rw [hcnt j i hi] at hmem
      exact hinv.items i r j hr ((mem_of_count_pos _ _).mpr hmem)
  · intro i j hmem
    rw [hpipes]
    by_cases hi : i = id
    · subst hi
      rw [if_pos rfl]
      exact ⟨q, rfl⟩
    · rw [if_neg hi]
      rw [mem_of_count_pos, hcnt j i hi] at hmem
      exact hinv.live i j ((mem_of_count_pos _ _).mpr hmem)

/-- The invariant after a change of one pipe that leaves the contents of its inbound
lists and the dispatch queue as they are. -/
theorem dq_pipe (ms ms1 : Messenger) (id : Nat) (p q : Pipe) (hinv : DQInv ms)
    (hp : getPipe ms id = some p)
    (hpipes : ∀ j, getPipe ms1 j = if j = id then some q else getPipe ms j)
    (hqp : ms1.dispatch_queue.queued_pipes = ms.dispatch_queue.queued_pipes)
    (hinq : ∀ j, qat q.in_q j = qat p.in_q j)
    (hlen : q.in_qlen = qtotal q.in_q)
    (hitems : ∀ j, j ∈ p.queue_items → j ∈ q.queue_items) : DQInv ms1 := by
  refine dq_step ms ms1 id 0 p q hinv hp hpipes (fun j _ => hinq j) (fun j _ => by rw [hqp])
    (fun j _ h => by rw [hqp] at h; exact h) ?_ ?_ hlen hitems ?_
  · intro j
    rw [hqp]
    by_cases hj : j = id
    · subst hj
      rw [if_pos rfl, hinq 0]
      exact hinv.on_list j p 0 hp
    · rw [if_neg hj]
  · intro h
    rw [hqp] at h ⊢
    exact hinv.nonempty 0 h
  · intro hne
    rw [hinq 0] at hne
    have hc := hinv.on_list id p 0 hp
    rw [if_neg hne] at hc
    exact hitems 0 (hinv.items id p 0 hp ((mem_of_count_pos _ _).mpr (by omega)))

theorem dq_congr (ms ms1 : Messenger) (hg : ∀ j, getPipe ms1 j = getPipe ms j)
    (hq : ms1.dispatch_queue.queued_pipes = ms.dispatch_queue.queued_pipes)
    (hinv : DQInv ms) : DQInv ms1 := by
  refine ⟨?_, ?_, ?_, ?_, ?_⟩
  · intro i r j hr
    rw [hg] at hr
    rw [hq]
    exact hinv.on_list i r j hr
  · intro j hj
    rw [hq] at hj ⊢
    exact hinv.nonempty j hj
  · intro i r hr
    rw [hg] at hr
    exact hinv.in_qlen i r hr
  · intro i r j hr hmem
    rw [hg] at hr
    rw [hq] at hmem
    exact hinv.items i r j hr hmem
  · intro i j hmem
    rw [hq] at hmem
    rw [hg]
    exact hinv.live i j hmem

theorem dq_of_core {ms ms1 : Messenger} (hc : Core ms1 = Core ms) (hinv : DQInv ms) :
    DQInv ms1 :=
  dq_congr ms ms1 (fun j => getPipe_of_core hc j) (core_fields hc).2.2 hinv

theorem dq_upd (ms : Messenger) (id : Nat) (p q : Pipe) (hinv : DQInv ms)
    (hp : getPipe ms id = some p) (hu : PipeUpd p q) : DQInv (setPipe ms id q) := by
  refine dq_pipe ms _ id p q hinv hp (fun j => getPipe_setPipe ms id j q) rfl
    (fun j => by rw [hu.in_q]) ?_ (fun j h => by rw [hu.queue_items]; exact h)
  rw [hu.in_qlen, hu.in_q]
  exact hinv.in_qlen id p hp

theorem queue_received_empty (c : PipeCtx) (m : QItem) (k : Nat)
    (hh : c.pipe.halt_delivery = false) (he : qat c.pipe.in_q k = []) :
    (queue_received c m k).pipe.in_q = mset (qtouch c.pipe.in_q k) k [m] ∧
    (queue_received c m k).pipe.in_qlen = c.pipe.in_qlen + 1 ∧
    (∀ j, j ∈ c.pipe.queue_items → j ∈ (queue_received c m k).pipe.queue_items) ∧
    k ∈ (queue_received c m k).pipe.queue_items ∧
    (queue_received c m k).queued_pipes
      = mset (qtouch c.queued_pipes k) k (xpush (qat c.queued_pipes k) c.self) := by
  have hq : qat (qtouch c.pipe.in_q k) k = [] := by rw [qat_qtouch]; exact he
  have hq2 : qat (qtouch c.queued_pipes k) k = qat c.queued_pipes k := qat_qtouch _ _ _
  refine ⟨?_, ?_, ?_, ?_, ?_⟩
  all_goals unfold queue_received
  all_goals simp only [hh, Bool.false_eq_true, if_false, hq, List.isEmpty_nil, if_true,
    List.nil_append, hq2]
  · intro j hj
    split
    · exact hj
    · exact List.mem_append_left _ hj
  · split
    · rename_i h; exact h
    · simp

theorem queue_received_nonempty (c : PipeCtx) (m : QItem) (k : Nat)
    (hh : c.pipe.halt_delivery = false) (hne : qat c.pipe.in_q k ≠ []) :
    (queue_received c m k).pipe.in_q
      = mset (qtouch c.pipe.in_q k) k (qat c.pipe.in_q k ++ [m]) ∧
    (queue_received c m k).pipe.in_qlen = c.pipe.in_qlen + 1 ∧
    (queue_received c m k).pipe.queue_items = c.pipe.queue_items ∧
    (queue_received c m k).queued_pipes = c.queued_pipes := by
  have hq : qat (qtouch c.pipe.in_q k) k = qat c.pipe.in_q k := qat_qtouch _ _ _
  have hemp : ¬ ((qat c.pipe.in_q k).isEmpty = true) := by
    intro h; exact hne (List.isEmpty_iff.mp h)
  refine ⟨?_, ?_, ?_, ?_⟩
  all_goals unfold queue_received
  all_goals simp only [hh, Bool.false_eq_true, if_false, hq, if_neg hemp]

theorem dq_recv (ms : Messenger) (id : Nat) (p q : Pipe) (m : QItem) (k : Nat)
    (hinv : DQInv ms) (hp : getPipe ms id = some p) (hu : PipeUpd p q) :
    DQInv (putCtx ms (queue_received (ctxOf ms id q) m k)) := by
  have hself : (queue_received (ctxOf ms id q) m k).self = id :=
    (queue_received_keep (ctxOf ms id q) m k).1
  have hpipes : ∀ j, getPipe (putCtx ms (queue_received (ctxOf ms id q) m k)) j
      = if j = id then some (queue_received (ctxOf ms id q) m k).pipe else getPipe ms j := by
    intro j
    rw [getPipe_putCtx, hself]
  have hplen : p.in_qlen = qtotal p.in_q := hinv.in_qlen id p hp
  by_cases hh : q.halt_delivery = true
  · obtain ⟨h1, h2⟩ := queue_received_halted (ctxOf ms id q) m k hh
    refine dq_pipe ms _ id p _ hinv hp hpipes h2 ?_ ?_ ?_
    · intro j
      rw [h1]
      show qat (qtouch q.in_q k) j = qat p.in_q j
      rw [qat_qtouch, hu.in_q]
    · rw [h1]
      show q.in_qlen = qtotal (qtouch q.in_q k)
      rw [qtotal_qtouch, hu.in_qlen, hu.in_q]
      exact hplen
    · intro j hj
      rw [h1]
      show j ∈ q.queue_items
      rw [hu.queue_items]
      exact hj
  · have hf : (ctxOf ms id q).pipe.halt_delivery = false := by simpa using hh
    by_cases he : qat q.in_q k = []
    · obtain ⟨e1, e2, e3, e4, e5⟩ := queue_received_empty (ctxOf ms id q) m k hf he
      have hqp : (putCtx ms (queue_received (ctxOf ms id q) m k)).dispatch_queue.queued_pipes
          = mset (qtouch ms.dispatch_queue.queued_pipes k) k
              (xpush (qat ms.dispatch_queue.queued_pipes k) id) := e5
      have hin : (queue_received (ctxOf ms id q) m k).pipe.in_q = mset (qtouch q.in_q k) k [m] :=
        e1
      refine dq_step ms _ id k p _ hinv hp hpipes ?_ ?_ ?_ ?_ ?_ ?_ ?_ ?_
      · intro j hj
        rw [hin, qat_mset_ne _ _ _ _ hj, qat_qtouch, hu.in_q]
      · intro j hj
        rw [hqp, qat_mset_ne _ _ _ _ hj, qat_qtouch]
      · intro j hj hmem
        rw [hqp, mem_mkeys_mset, mem_mkeys_qtouch] at hmem
        rcases hmem with h | h | h
        · exact absurd h hj
        · exact absurd h hj
        · exact h
      · intro j
        rw [hqp, qat_mset_self, count_xpush, hin, qat_mset_self]
        simp
      · intro _
        rw [hqp, qat_mset_self]
        unfold xpush
        simp
      · rw [e2, hin]
        have ht := qtotal_mset (qtouch q.in_q k) k [m]
        rw [qat_qtouch, he, qtotal_qtouch] at ht
        simp only [List.length_nil, List.length_singleton] at ht
        show q.in_qlen + 1 = _
        rw [hu.in_qlen, hplen, ← hu.in_q]
        omega
      · intro j hj
        apply e3
        show j ∈ q.queue_items
        rw [hu.queue_items]; exact hj
      · intro _
        exact e4
    · obtain ⟨e1, e2, e3, e4⟩ := queue_received_nonempty (ctxOf ms id q) m k hf he
      have hqp : (putCtx ms (queue_received (ctxOf ms id q) m k)).dispatch_queue.queued_pipes
          = ms.dispatch_queue.queued_pipes := e4
      have hin : (queue_received (ctxOf ms id q) m k).pipe.in_q
          = mset (qtouch q.in_q k) k (qat q.in_q k ++ [m]) := e1
      have hpne : qat p.in_q k ≠ [] := by rw [← hu.in_q]; exact he
      have hc1 : (qat ms.dispatch_queue.queued_pipes k).count id = 1 := by
        have := hinv.on_list id p k hp
        rw [if_neg hpne] at this
        exact this
      refine dq_step ms _ id k p _ hinv hp hpipes ?_ ?_ ?_ ?_ ?_ ?_ ?_ ?_
      · intro j hj
        rw [hin, qat_mset_ne _ _ _ _ hj, qat_qtouch, hu.in_q]
      · intro j _
        rw [hqp]
      · intro j _ hmem
        rw [hqp] at hmem
        exact hmem
      · intro j
        rw [hqp, hin, qat_mset_self]
        by_cases hj : j = id
        · subst hj
          rw [if_pos rfl, hc1]
          simp
        · rw [if_neg hj]
      · intro hmem
        rw [hqp] at hmem ⊢
        exact hinv.nonempty k hmem
      · rw [e2, hin]
        have ht := qtotal_mset (qtouch q.in_q k) k (qat q.in_q k ++ [m])
        rw [qat_qtouch, qtotal_qtouch] at ht
        simp only [List.length_append, List.length_singleton] at ht
        show q.in_qlen + 1 = _
        rw [hu.in_qlen, hplen, ← hu.in_q]
        omega
      · intro j hj
        rw [e3]
        show j ∈ q.queue_items
        rw [hu.queue_items]; exact hj
      · intro _
        rw [e3]
        show k ∈ q.queue_items
        rw [hu.queue_items]
        exact hinv.items id p k hp ((mem_of_count_pos _ _).mpr (by omega))

theorem discard_item_nonempty (id : Nat) (qp : List (Nat × List Nat)) (a : Nat)
    (h : ∀ j, j ∈ mkeys qp → qat qp j ≠ []) :
    ∀ j, j ∈ mkeys (discard_item id qp a) → qat (discard_item id qp a) j ≠ [] := by
  intro j hj
  unfold discard_item at hj ⊢
  by_cases hmem : id ∈ qat qp a
  · rw [if_pos hmem] at hj ⊢
    simp only at hj ⊢
    by_cases he : ((qat qp a).filter (fun x => decide (x ≠ id))).isEmpty = true
    · rw [if_pos he] at hj ⊢
      rw [mem_mkeys_merase] at hj
      rw [qat_merase_ne _ _ _ hj.1]
      exact h j hj.2
    · rw [if_neg he] at hj ⊢
      rw [mem_mkeys_mset] at hj
      by_cases e : j = a
      · subst e
        rw [qat_mset_self]
        intro hnil
        rw [hnil] at he
        simp at he
      · rw [qat_mset_ne _ _ _ _ e]
        rcases hj with hj | hj
        · exact absurd hj e
        · exact h j hj
  · rw [if_neg hmem] at hj ⊢
    exact h j hj

theorem discard_foldl_nonempty (id : Nat) (items : List Nat) :
    ∀ (qp : List (Nat × List Nat)), (∀ j, j ∈ mkeys qp → qat qp j ≠ []) →
      ∀ j, j ∈ mkeys (items.foldl (discard_item id) qp) →
        qat (items.foldl (discard_item id) qp) j ≠ [] := by
  induction items with
  | nil => intro qp h; exact h
  | cons a t ih =>
    intro qp h
    rw [List.foldl_cons]
    exact ih _ (discard_item_nonempty id qp a h)

theorem count_discard_foldl (id : Nat) (items : List Nat) (qp : List (Nat × List Nat))
    (j i : Nat) (hi : i ≠ id) :
    (qat (items.foldl (discard_item id) qp) j).count i = (qat qp j).count i := by
  rw [qat_discard_foldl]
  split
  · apply List.count_filter
    simpa using hi
  · rfl

theorem dq_discard (ms : Messenger) (id : Nat) (p q : Pipe) (hinv : DQInv ms)
    (hp : getPipe ms id = some p) (hu : PipeUpd p q) :
    DQInv (putCtx ms (discard_queue (ctxOf ms id q))) := by
  have hpipes : ∀ j, getPipe (putCtx ms (discard_queue (ctxOf ms id q))) j
      = if j = id then some (discard_queue (ctxOf ms id q)).pipe else getPipe ms j := by
    intro j
    rw [getPipe_putCtx]
    rfl
  have hqp : (putCtx ms (discard_queue (ctxOf ms id q))).dispatch_queue.queued_pipes
      = q.queue_items.foldl (discard_item id) ms.dispatch_queue.queued_pipes := rfl
  have hoff : ∀ j, id ∉ qat (q.queue_items.foldl (discard_item id)
      ms.dispatch_queue.queued_pipes) j := by
    intro j
    apply discard_foldl_removes
    intro k hk
    rw [hu.queue_items]
    exact hinv.items id p k hp hk
  have hsub : ∀ j i, i ∈ qat (q.queue_items.foldl (discard_item id)
      ms.dispatch_queue.queued_pipes) j → i ∈ qat ms.dispatch_queue.queued_pipes j := by
    intro j i hmem
    rw [qat_discard_foldl] at hmem
    split at hmem
    · exact (List.mem_filter.mp hmem).1
    · exact hmem
  refine ⟨?_, ?_, ?_, ?_, ?_⟩
  · intro i r j hr
    rw [hpipes] at hr
    rw [hqp]
    by_cases hi : i = id
    · subst hi
      rw [if_pos rfl] at hr
      simp only [Option.some.injEq] at hr
      subst hr
      have h0 : (qat (q.queue_items.foldl (discard_item i)
          ms.dispatch_queue.queued_pipes) j).count i = 0 :=
        List.count_eq_zero.mpr (hoff j)
      rw [h0]
      have hnil : qat (discard_queue (ctxOf ms i q)).pipe.in_q j = [] := rfl
      rw [if_pos hnil]
    · rw [if_neg hi] at hr
      rw [count_discard_foldl id _ _ j i hi]
      exact hinv.on_list i r j hr
  · intro j hj
    rw [hqp] at hj ⊢
    exact discard_foldl_nonempty id _ _ hinv.nonempty j hj
  · intro i r hr
    rw [hpipes] at hr
    by_cases hi : i = id
    · subst hi
      rw [if_pos rfl] at hr
      simp only [Option.some.injEq] at hr
      subst hr
      rfl
    · rw [if_neg hi] at hr
      exact hinv.in_qlen i r hr
  · intro i r j hr hmem
    rw [hpipes] at hr
    rw [hqp] at hmem
    by_cases hi : i = id
    · subst hi
      exact absurd hmem (hoff j)
    · rw [if_neg hi] at hr
      exact hinv.items i r j hr (hsub j i hmem)
  · intro i j hmem
    rw [hqp] at hmem
    rw [hpipes]
    by_cases hi : i = id
    · rw [if_pos hi]
      exact ⟨_, rfl⟩
    · rw [if_neg hi]
      exact hinv.live i j (hsub j i hmem)

theorem count_cons_ne (l : List Nat) (a b : Nat) (h : a ≠ b) :
    (b :: l).count a = l.count a := by
  rw [List.count_cons]
  have : (b == a) = false := by
    simp only [beq_eq_false_iff_ne, ne_eq]
    exact fun e => h e.symm
  simp [this]

theorem dq_dequeue (ms ms2 : Messenger) (m : QItem) (hinv : DQInv ms)
    (hd : dispatch_step ms = some (m, ms2)) : DQInv ms2 := by
  obtain ⟨k, pid, rest, p, mq, _, _, hl, hp, hq, hitem, hms2⟩ := dispatch_step_spec ms ms2 m hd
  have hpne : qat p.in_q k ≠ [] := by rw [hq]; simp
  have hc1 : (pid :: rest).count pid = 1 := by
    have := hinv.on_list pid p k hp
    rw [if_neg hpne, hl] at this
    exact this
  have hrest : rest.count pid = 0 := by
    rw [List.count_cons_self] at hc1
    omega
  have hpipes : ∀ j, getPipe ms2 j
      = if j = pid then some { p with in_q := mset p.in_q k mq, in_qlen := p.in_qlen - 1 }
        else getPipe ms j := by
    intro j
    rw [hms2]
    show mfind (mset ms.pipes pid _) j = _
    by_cases e : j = pid
    · subst e
      rw [if_pos rfl, mfind_mset_self]
    · rw [if_neg e, mfind_mset_ne _ _ _ _ e]
      rfl
  have hqp : ms2.dispatch_queue.queued_pipes
      = if mq.isEmpty then
          (if rest.isEmpty then merase ms.dispatch_queue.queued_pipes k
           else mset ms.dispatch_queue.queued_pipes k rest)
        else mset ms.dispatch_queue.queued_pipes k (xpush (pid :: rest) pid) := by
    rw [hms2]
  refine dq_step ms ms2 pid k p _ hinv hp hpipes ?_ ?_ ?_ ?_ ?_ ?_ (fun j h => h) ?_
  · intro j hj
    show qat (mset p.in_q k mq) j = qat p.in_q j
    exact qat_mset_ne _ _ _ _ hj
  · intro j hj
    rw [hqp]
    split
    · split
      · exact qat_merase_ne _ _ _ hj
      · exact qat_mset_ne _ _ _ _ hj
    · exact qat_mset_ne _ _ _ _ hj
  · intro j hj hmem
    rw [hqp] at hmem
    split at hmem
    · split at hmem
      · exact ((mem_mkeys_merase _ _ _).mp hmem).2
      · rcases (mem_mkeys_mset _ _ _ _).mp hmem with h | h
        · exact absurd h hj
        · exact h
    · rcases (mem_mkeys_mset _ _ _ _).mp hmem with h | h
      · exact absurd h hj
      · exact h
  · intro j
    rw [hqp, hl]
    show _ = if j = pid then (if qat (mset p.in_q k mq) k = [] then 0 else 1) else _
    rw [qat_mset_self]
    by_cases hmq : mq.isEmpty = true
    · have hmq' : mq = [] := List.isEmpty_iff.mp hmq
      rw [if_pos hmq, if_pos hmq']
      by_cases hr : rest.isEmpty = true
      · have hr' : rest = [] := List.isEmpty_iff.mp hr
        rw [if_pos hr, qat_merase_self]
        subst hr'
        by_cases hj : j = pid
        · rw [if_pos hj]; rfl
        · rw [if_neg hj, count_cons_ne _ _ _ hj]
      · rw [if_neg hr, qat_mset_self]
        by_cases hj : j = pid
        · subst hj
          rw [if_pos rfl]; exact hrest
        · rw [if_neg hj, count_cons_ne _ _ _ hj]
    · have hmq' : mq ≠ [] := fun e => hmq (List.isEmpty_iff.mpr e)
      rw [if_neg hmq, if_neg hmq', qat_mset_self, count_xpush]
  · intro hmem
    rw [hqp] at hmem ⊢
    split
    · split
      · rw [if_pos (by assumption), if_pos (by assumption)] at hmem
        exact absurd rfl ((mem_mkeys_merase _ _ _).mp hmem).1
      · rename_i hr
        rw [qat_mset_self]
        intro e
        exact hr (List.isEmpty_iff.mpr e)
    · rw [qat_mset_self]
      unfold xpush
      simp
  · show p.in_qlen - 1 = qtotal (mset p.in_q k mq)
    have ht := qtotal_mset p.in_q k mq
    rw [hq] at ht
    simp only [List.length_cons] at ht
    have := hinv.in_qlen pid p hp
    omega
  · intro hne
    apply hitem
    intro e
    apply hne
    show qat (mset p.in_q k mq) k = []
    rw [qat_mset_self]; exact e

theorem dq_create (ms : Messenger) (id : Nat) (p : Pipe) (hinv : DQInv ms)
    (hnone : getPipe ms id = none) (h1 : p.in_q = []) (h2 : p.in_qlen = 0)
    (_h3 : p.queue_items = []) : DQInv { ms with pipes := mset ms.pipes id p } := by
  have hpipes : ∀ j, getPipe { ms with pipes := mset ms.pipes id p } j
      = if j = id then some p else getPipe ms j := by
    intro j
    show mfind (mset ms.pipes id p) j = _
    by_cases e : j = id
    · subst e
      rw [if_pos rfl, mfind_mset_self]
    · rw [if_neg e, mfind_mset_ne _ _ _ _ e]
      rfl
  have hoff : ∀ j, id ∉ qat ms.dispatch_queue.queued_pipes j := by
    intro j hmem
    obtain ⟨r, hr⟩ := hinv.live id j hmem
    rw [hnone] at hr
    simp at hr
  refine ⟨?_, hinv.nonempty, ?_, ?_, ?_⟩
  · intro i r j hr
    rw [hpipes] at hr
    by_cases hi : i = id
    · subst hi
      rw [if_pos rfl] at hr
      simp only [Option.some.injEq] at hr
      subst hr
      show (qat ms.dispatch_queue.queued_pipes j).count i = _
      rw [List.count_eq_zero.mpr (hoff j), h1]
      rfl
    · rw [if_neg hi] at hr
      exact hinv.on_list i r j hr
  · intro i r hr
    rw [hpipes] at hr
    by_cases hi : i = id
    · subst hi
      rw [if_pos rfl] at hr
      simp only [Option.some.injEq] at hr
      subst hr
      rw [h2, h1]
      rfl
    · rw [if_neg hi] at hr
      exact hinv.in_qlen i r hr
  · intro i r j hr hmem
    rw [hpipes] at hr
    by_cases hi : i = id
    · subst hi
      exact absurd hmem (hoff j)
    · rw [if_neg hi] at hr
      exact hinv.items i r j hr hmem
  · intro i j hmem
    rw [hpipes]
    by_cases hi : i = id
    · rw [if_pos hi]; exact ⟨p, rfl⟩
    · rw [if_neg hi]
      exact hinv.live i j hmem

theorem dq_delete (ms ms1 : Messenger) (id : Nat) (hinv : DQInv ms)
    (h : PrimDelete id ms ms1) : DQInv ms1 := by
  have hdel := h
  obtain ⟨p, hp, h1, _, _, hc⟩ := h
  have hqp : ms1.dispatch_queue.queued_pipes = ms.dispatch_queue.queued_pipes :=
    (core_fields hc).2.2
  have hnone : getPipe ms1 id = none := by
    rw [getPipe_of_core hc]
    show mfind (merase ms.pipes id) id = none
    exact mfind_merase_self _ _
  have hoff : ∀ j, id ∉ qat ms.dispatch_queue.queued_pipes j := by
    intro j hmem
    have := hinv.on_list id p j hp
    rw [h1] at this
    have hnil : qat ([] : List (Nat × List QItem)) j = [] := rfl
    rw [if_pos hnil] at this
    exact (List.count_eq_zero.mp this) hmem
  have hget : ∀ i r, getPipe ms1 i = some r → getPipe ms i = some r := by
    intro i r hr
    by_cases hi : i = id
    · subst hi
      rw [hnone] at hr
      simp at hr
    · rw [delete_keep ms ms1 id hdel i hi] at hr
      exact hr
  refine ⟨?_, ?_, ?_, ?_, ?_⟩
  · intro i r j hr
    rw [hqp]
    exact hinv.on_list i r j (hget i r hr)
  · intro j hj
    rw [hqp] at hj ⊢
    exact hinv.nonempty j hj
  · intro i r hr
    exact hinv.in_qlen i r (hget i r hr)
  · intro i r j hr hmem
    rw [hqp] at hmem
    exact hinv.items i r j (hget i r hr) hmem
  · intro i j hmem
    rw [hqp] at hmem
    have hi : i ≠ id := by
      intro e
      subst e
      exact hoff j hmem
    rw [delete_keep ms ms1 id hdel i hi]
    exact hinv.live i j hmem

theorem prim_dq (ms ms1 : Messenger) (h : Prim ms ms1) (hinv : DQInv ms) : DQInv ms1 := by
  cases h with
  | same hc => exact dq_of_core hc hinv
  | upd id0 p0 q0 hp0 hu hc => exact dq_of_core hc (dq_upd ms id0 p0 q0 hinv hp0 hu)
  | recv id0 p0 q0 m k hp0 hu hc => exact dq_of_core hc (dq_recv ms id0 p0 q0 m k hinv hp0 hu)
  | discard id0 p0 q0 hp0 hu hc => exact dq_of_core hc (dq_discard ms id0 p0 q0 hinv hp0 hu)
  | dequeue ms2 m hd hc => exact dq_of_core hc (dq_dequeue ms ms2 m hinv hd)
  | register id0 p0 hp0 hs hfree hc =>
    exact dq_of_core hc (dq_congr ms _ (fun _ => rfl) rfl hinv)
  | unregister a0 hc => exact dq_of_core hc (dq_congr ms _ (fun _ => rfl) rfl hinv)
  | create id0 p0 hnone h1 h2 h3 _ hc =>
    exact dq_of_core hc (dq_create ms id0 p0 hinv hnone h1 h2 h3)

theorem prims_dq {ds : List Nat} {ms ms1 : Messenger} (h : Prims ds ms ms1)
    (hinv : DQInv ms) : DQInv ms1 := by
  induction h with
  | refl => exact hinv
  | tail ds m0 m1 m2 _ hprim ih => exact prim_dq m1 m2 hprim (ih hinv)
  | del ds id0 m0 m1 m2 _ hdel ih => exact dq_delete m1 m2 id0 (ih hinv) hdel

theorem initial_dq (ms : Messenger) (h : Initial ms) : DQInv ms := by
  obtain ⟨_, hq, hpipes⟩ := h
  refine ⟨?_, ?_, ?_, ?_, ?_⟩
  · intro i r j hr
    rw [hq, (hpipes i r hr).1]
    rfl
  · intro j hj
    rw [hq] at hj
    simp [mkeys] at hj
  · intro i r hr
    rw [(hpipes i r hr).2.1, (hpipes i r hr).1]
    rfl
  · intro i r j _ hmem
    rw [hq] at hmem
    simp [qat, mfind] at hmem
  · intro i j hmem
    rw [hq] at hmem
    simp [qat, mfind] at hmem

theorem reach_dq (K : Consts) (complete : Nat) (ms : Messenger)
    (h : Reach K complete ms) : DQInv ms := by
  induction h with
  | init ms0 hinit => exact initial_dq ms0 hinit
  | step m0 m1 op _ hstep ih => exact prims_dq (step_prims K complete m0 m1 op hstep) ih

theorem reach_queued : Reach Consts.sample 1 Messenger.queued :=
  reach_run Consts.sample 1
    [Op.prepare_dest 20 4, Op.writer 1 (writer_ready 7 1),
     Op.reader 1 (ReaderEvent.MSG (read_framed ceph_msg_header.small
       (some (Message.mk3 5 1 127)))) none,
     Op.reader 1 (ReaderEvent.MSG (read_framed ceph_msg_header.small
       (some (Message.mk3 6 2 127)))) none,
     Op.reader 1 (ReaderEvent.MSG (read_framed ceph_msg_header.small
       (some (Message.mk3 7 3 63)))) none]
    Messenger.boot Messenger.queued (Reach.init _ initial_boot) (by decide)

/-- Claim C14: in every reachable state, every pipe is on the round-robin list of a
priority exactly once when its inbound list at that priority holds something and
not at all otherwise, no priority of the dispatch queue has an empty list, and
`in_qlen` is the number of items in the inbound lists.  The invariant (`DQInv`) is
kept by `queue_received` on any pipe (halted or not), by a dispatch step and by
`discard_queue`. -/
theorem dispatch_queue_invariant (K : Consts) (complete : Nat) (ms : Messenger)
    (h : Reach K complete ms) :
    (∀ id p k, getPipe ms id = some p →
      (qat ms.dispatch_queue.queued_pipes k).count id
        = if qat p.in_q k = [] then 0 else 1) ∧
    (∀ id p k, getPipe ms id = some p →
      (id ∈ qat ms.dispatch_queue.queued_pipes k ↔ qat p.in_q k ≠ [])) ∧
    (∀ k, k ∈ mkeys ms.dispatch_queue.queued_pipes →
      qat ms.dispatch_queue.queued_pipes k ≠ []) ∧
    (∀ id p, getPipe ms id = some p → p.in_qlen = qtotal p.in_q) ∧
    DQInv ms ∧
    (∀ (ms0 : Messenger) (id : Nat) (p : Pipe) (m : QItem) (k : Nat), DQInv ms0 →
      getPipe ms0 id = some p → DQInv (putCtx ms0 (queue_received (ctxOf ms0 id p) m k))) ∧
    (∀ (ms0 ms2 : Messenger) (m : QItem), DQInv ms0 → dispatch_step ms0 = some (m, ms2) →
      DQInv ms2) ∧
    (∀ (ms0 : Messenger) (id : Nat) (p : Pipe), DQInv ms0 → getPipe ms0 id = some p →
      DQInv (putCtx ms0 (discard_queue (ctxOf ms0 id p)))) := by
  have hinv := reach_dq K complete ms h
  refine ⟨hinv.on_list, ?_, hinv.nonempty, hinv.in_qlen, hinv, ?_, ?_, ?_⟩
  · intro id p k hp
    have hc := hinv.on_list id p k hp
    rw [mem_of_count_pos]
    constructor
    · intro hpos hnil
      rw [if_pos hnil] at hc
      omega
    · intro hne
      rw [if_neg hne] at hc
      omega
  · intro ms0 id p m k h0 hp
    exact dq_recv ms0 id p p m k h0 hp (PipeUpd.upd_refl p)
  · intro ms0 ms2 m h0 hd
    exact dq_dequeue ms0 ms2 m h0 hd
  · intro ms0 id p h0 hp
    exact dq_discard ms0 id p p h0 hp (PipeUpd.upd_refl p)

/-- Claim C14 at a reachable state in which pipe 1 holds two messages of priority 127
and one of priority 63, and the local pipe holds a connect signal. -/
theorem dispatch_queue_invariant_witness :
    (∀ id p k, getPipe Messenger.queued id = some p →
      (qat Messenger.queued.dispatch_queue.queued_pipes k).count id
        = if qat p.in_q k = [] then 0 else 1) ∧
    (∀ id p k, getPipe Messenger.queued id = some p →
      (id ∈ qat Messenger.queued.dispatch_queue.queued_pipes k ↔ qat p.in_q k ≠ [])) ∧
    (∀ k, k ∈ mkeys Messenger.queued.dispatch_queue.queued_pipes →
      qat Messenger.queued.dispatch_queue.queued_pipes k ≠ []) ∧
    (∀ id p, getPipe Messenger.queued id = some p → p.in_qlen = qtotal p.in_q) ∧
    DQInv Messenger.queued ∧
    (∀ (ms0 : Messenger) (id : Nat) (p : Pipe) (m : QItem) (k : Nat), DQInv ms0 →
      getPipe ms0 id = some p → DQInv (putCtx ms0 (queue_received (ctxOf ms0 id p) m k))) ∧
    (∀ (ms0 ms2 : Messenger) (m : QItem), DQInv ms0 → dispatch_step ms0 = some (m, ms2) →
      DQInv ms2) ∧
    (∀ (ms0 : Messenger) (id : Nat) (p : Pipe), DQInv ms0 → getPipe ms0 id = some p →
      DQInv (putCtx ms0 (discard_queue (ctxOf ms0 id p)))) :=
  dispatch_queue_invariant Consts.sample 1 Messenger.queued reach_queued

theorem filter_ne_of_count_zero (l : List Nat) (a : Nat) (h : l.count a = 0) :
    l.filter (fun x => decide (x ≠ a)) = l := by
  rw [List.filter_eq_self]
  intro x hx
  have hne : x ≠ a := by
    intro e
    subst e
    exact (List.count_eq_zero.mp h) hx
  simpa using hne

/-- Claim C13: in a reachable state with something in the dispatch queue (and the
dispatcher not stopped), the dispatch step runs and takes the front item `m` of the
inbound list, at the highest priority `k` of the dispatch queue, of the pipe `pid`
at the front of that priority's round-robin list.  No pipe holds an item of a
priority above `k`.  Afterwards the pipe's inbound list at `k` is the rest `mq`,
and the round-robin list is the rest of the list when `mq` is empty and the rest
with `pid` appended otherwise; other pipes and the other inbound lists are
untouched.  And `queue_received` on a pipe that is not halted appends to the tail
of the inbound list of the priority, so a list is consumed in the order it was
filled. -/
theorem dispatch_step_highest_fifo (K : Consts) (complete : Nat) (ms : Messenger)
    (h : Reach K complete ms) (hstop : ms.dispatch_queue.stop = false)
    (hq : mkeys ms.dispatch_queue.queued_pipes ≠ []) :
    (∃ k pid rest p m mq ms2,
      maxPrio (mkeys ms.dispatch_queue.queued_pipes) = some k ∧
      (∀ j, j ∈ mkeys ms.dispatch_queue.queued_pipes → j ≤ k) ∧
      qat ms.dispatch_queue.queued_pipes k = pid :: rest ∧
      getPipe ms pid = some p ∧
      qat p.in_q k = m :: mq ∧
      dispatch_step ms = some (m, ms2) ∧
      (∀ id1 p1 k1, getPipe ms id1 = some p1 → k < k1 → qat p1.in_q k1 = []) ∧
      qat ms2.dispatch_queue.queued_pipes k = (if mq = [] then rest else rest ++ [pid]) ∧
      (∀ j, j ≠ k → qat ms2.dispatch_queue.queued_pipes j
        = qat ms.dispatch_queue.queued_pipes j) ∧
      (∃ p2, getPipe ms2 pid = some p2 ∧ qat p2.in_q k = mq ∧
        ∀ j, j ≠ k → qat p2.in_q j = qat p.in_q j) ∧
      (∀ id1, id1 ≠ pid → getPipe ms2 id1 = getPipe ms id1)) ∧
    (∀ id q m1 k1, getPipe ms id = some q → q.halt_delivery = false →
      ∃ q2, getPipe (putCtx ms (queue_received (ctxOf ms id q) m1 k1)) id = some q2 ∧
        qat q2.in_q k1 = qat q.in_q k1 ++ [m1] ∧
        ∀ j, j ≠ k1 → qat q2.in_q j = qat q.in_q j) := by
  have hinv := reach_dq K complete ms h
  constructor
  · cases hk : maxPrio (mkeys ms.dispatch_queue.queued_pipes) with
    | none => exact absurd (maxPrio_none _ hk) hq
    | some k =>
      have hkmem := maxPrio_mem _ k hk
      have hkge := maxPrio_ge _ k hk
      have hne := hinv.nonempty k hkmem
      cases hl : qat ms.dispatch_queue.queued_pipes k with
      | nil => exact absurd hl hne
      | cons pid rest =>
        have hpmem : pid ∈ qat ms.dispatch_queue.queued_pipes k := by
          rw [hl]; exact List.mem_cons_self _ _
        obtain ⟨p, hp⟩ := hinv.live pid k hpmem
        have hcount := hinv.on_list pid p k hp
        have hpne : qat p.in_q k ≠ [] := by
          intro e
          rw [if_pos e] at hcount
          exact (List.count_eq_zero.mp hcount) hpmem
        rw [if_neg hpne, hl, List.count_cons_self] at hcount
        have hrest : rest.count pid = 0 := by omega
        cases hm : qat p.in_q k with
        | nil => exact absurd hm hpne
        | cons m mq =>
          have hitem : k ∈ p.queue_items := hinv.items pid p k hp hpmem
          have hstep : ∃ ms2, dispatch_step ms = some (m, ms2) := by
            unfold dispatch_step
            simp only [hstop, Bool.false_eq_true, if_false, hk, hl, hp, hm, hitem, if_true]
            split
            · exact ⟨_, rfl⟩
            · exact ⟨_, rfl⟩
          obtain ⟨ms2, hms2⟩ := hstep
          obtain ⟨k', pid', rest', p', mq', _, hk', hl', hp', hm', _, hshape⟩ :=
            dispatch_step_spec ms ms2 m hms2
          have ek : k' = k := by
            rw [hk] at hk'
            simp only [Option.some.injEq] at hk'
            exact hk'.symm
          subst ek
          rw [hl] at hl'
          simp only [List.cons.injEq] at hl'
          obtain ⟨e1, e2⟩ := hl'
          subst e1
          subst e2
          rw [hp] at hp'
          simp only [Option.some.injEq] at hp'
          subst hp'
          rw [hm] at hm'
          simp only [List.cons.injEq, true_and] at hm'
          subst hm'
          refine ⟨k', pid, rest, p, m, mq, ms2, rfl, hkge, hl, hp, hm, hms2, ?_, ?_, ?_, ?_, ?_⟩
          · intro id1 p1 k1 hp1 hlt
            by_contra hne1
            have hc1 := hinv.on_list id1 p1 k1 hp1
            rw [if_neg hne1] at hc1
            have hmem1 : id1 ∈ qat ms.dispatch_queue.queued_pipes k1 :=
              (mem_of_count_pos _ _).mpr (by omega)
            have hk1 : k1 ∈ mkeys ms.dispatch_queue.queued_pipes :=
              qat_ne_nil_mem_mkeys _ _ (List.ne_nil_of_mem hmem1)
            have := hkge k1 hk1
            omega
          · rw [hshape]
            show qat (if mq.isEmpty = true then _ else _) k' = _
            by_cases hmq : mq = []
            · subst hmq
              simp only [List.isEmpty_nil, if_true]
              by_cases hr : rest.isEmpty = true
              · rw [if_pos hr, qat_merase_self]
                exact (List.isEmpty_iff.mp hr).symm
              · rw [if_neg hr, qat_mset_self]
            · have hmq2 : ¬ (mq.isEmpty = true) := fun e => hmq (List.isEmpty_iff.mp e)
              rw [if_neg hmq2, if_neg hmq, qat_mset_self]
              unfold xpush
              have hf : (pid :: rest).filter (fun x => decide (x ≠ pid)) = rest := by
                rw [List.filter_cons_of_neg (by simp)]
                exact filter_ne_of_count_zero rest pid hrest
              rw [hf]
          · intro j hj
            rw [hshape]
            show qat (if mq.isEmpty = true then _ else _) j = _
            split
            · split
              · exact qat_merase_ne _ _ _ hj
              · exact qat_mset_ne _ _ _ _ hj
            · exact qat_mset_ne _ _ _ _ hj
          · refine ⟨{ p with in_q := mset p.in_q k' mq, in_qlen := p.in_qlen - 1 }, ?_, ?_, ?_⟩
            · rw [hshape]
              show mfind (mset ms.pipes pid _) pid = _
              rw [mfind_mset_self]
            · exact qat_mset_self _ _ _
            · intro j hj
              exact qat_mset_ne _ _ _ _ hj
          · intro id1 hid1
            rw [hshape]
            show mfind (mset ms.pipes pid _) id1 = mfind ms.pipes id1
            exact mfind_mset_ne _ _ _ _ hid1
  · intro id q m1 k1 hp hh
    obtain ⟨h1, _⟩ := queue_received_not_halted (ctxOf ms id q) m1 k1 hh
    have hself := (queue_received_keep (ctxOf ms id q) m1 k1).1
    refine ⟨(queue_received (ctxOf ms id q) m1 k1).pipe, ?_, ?_, ?_⟩
    · rw [getPipe_putCtx, hself]
      exact if_pos rfl
    · have := h1 k1
      rw [if_pos rfl] at this
      exact this
    · intro j hj
      have := h1 j
      rw [if_neg hj] at this
      exact this

/-- Claim C13 at a reachable state in which pipe 1 holds two messages of priority 127
and one of priority 63, and the local pipe holds a connect signal at priority
255. -/
theorem dispatch_step_highest_fifo_witness :
    (∃ k pid rest p m mq ms2,
      maxPrio (mkeys Messenger.queued.dispatch_queue.queued_pipes) = some k ∧
      (∀ j, j ∈ mkeys Messenger.queued.dispatch_queue.queued_pipes → j ≤ k) ∧
      qat Messenger.queued.dispatch_queue.queued_pipes k = pid :: rest ∧
      getPipe Messenger.queued pid = some p ∧
      qat p.in_q k = m :: mq ∧
      dispatch_step Messenger.queued = some (m, ms2) ∧
      (∀ id1 p1 k1, getPipe Messenger.queued id1 = some p1 → k < k1 → qat p1.in_q k1 = []) ∧
      qat ms2.dispatch_queue.queued_pipes k = (if mq = [] then rest else rest ++ [pid]) ∧
      (∀ j, j ≠ k → qat ms2.dispatch_queue.queued_pipes j
        = qat Messenger.queued.dispatch_queue.queued_pipes j) ∧
      (∃ p2, getPipe ms2 pid = some p2 ∧ qat p2.in_q k = mq ∧
        ∀ j, j ≠ k → qat p2.in_q j = qat p.in_q j) ∧
      (∀ id1, id1 ≠ pid → getPipe ms2 id1 = getPipe Messenger.queued id1)) ∧
    (∀ id q m1 k1, getPipe Messenger.queued id = some q → q.halt_delivery = false →
      ∃ q2, getPipe (putCtx Messenger.queued
          (queue_received (ctxOf Messenger.queued id q) m1 k1)) id = some q2 ∧
        qat q2.in_q k1 = qat q.in_q k1 ++ [m1] ∧
        ∀ j, j ≠ k1 → qat q2.in_q j = qat q.in_q j) :=
  dispatch_step_highest_fifo Consts.sample 1 Messenger.queued reach_queued (by decide)
    (by decide)

/-! ## The protocol version table is symmetric -/

/-- Claim C25: for all entity types `a` and `b`, the protocol version that a
connecting entity of type `a` sends to a peer of type `b` is the version that an
accepting entity of type `b` expects from a peer of type `a`; so when the connector
is right about the type of the acceptor, `accept` never answers the connect record
that `connect` builds with BADPROTOVER. -/
theorem get_proto_version_symmetric (K : Consts) :
    (∀ a b : Nat, get_proto_version K a b true = get_proto_version K b a false) ∧
    (∀ (acceptor connector : Messenger) (self : Nat) (p : Pipe) (l : ConnectLocals)
        (verify : Bool × Bool),
      p.peer_type = acceptor.my_type →
      (accept_record K acceptor self (connect_record K connector p l) verify).step.tag
        ≠ some Tag.BADPROTOVER) := by
  have sym : ∀ a b : Nat, get_proto_version K a b true = get_proto_version K b a false := by
    intro a b
    unfold get_proto_version
    by_cases h : b = a
    · subst h
      simp
    · have h2 : ¬ a = b := fun e => h e.symm
      simp [h, h2]
  refine ⟨sym, ?_⟩
  intro acceptor connector self p l verify hp
  cases hs : getPipe acceptor self with
  | none => simp [accept_record, hs, AcceptStep.tag]
  | some q =>
    have hv : (connect_record K connector p l).protocol_version
        = get_proto_version K acceptor.my_type (connect_record K connector p l).host_type
            false := by
      simp only [connect_record]
      rw [hp]
      exact sym _ _
    rw [accept_record_step K acceptor self _ verify q hs, if_neg (by simpa using hv)]
    intro ht
    split_ifs at ht
    · simp [AcceptStep.tag] at ht
    · simp [AcceptStep.tag] at ht
    · cases hf : mfind acceptor.rank_pipe q.peer_addr with
      | none =>
        rw [hf] at ht
        have := accept_race_tag _ _ _ _ _ ht
        simp at this
      | some eid =>
        rw [hf] at ht
        simp only at ht
        split at ht
        · simp [AcceptStep.tag] at ht
        · have := accept_race_tag _ _ _ _ _ ht
          simp at this

/-! ## The throttle balance of `read_message` -/

/-- The function `read_message` with the release at `out_dethrottle` cancelled against
the reservation: every path that produces no message leaves the throttlers as they
were. -/
theorem read_message_balanced (complete : Nat) (io : ReadIO) (thr : Throttles) :
    read_message complete io thr =
      match io.header with
      | none => { ret := -1, message := none, throttles := thr }
      | some h =>
        if io.header_crc ≠ h.crc then { ret := -1, message := none, throttles := thr }
        else if h.front_len % 2 ^ 32 ≠ 0 ∧ io.front_ok = false then
          { ret := -1, message := none, throttles := thr }
        else if h.middle_len % 2 ^ 32 ≠ 0 ∧ io.middle_ok = false then
          { ret := -1, message := none, throttles := thr }
        else if h.data_len % 2 ^ 32 ≠ 0 ∧ io.data_ok = false then
          { ret := -1, message := none, throttles := thr }
        else
          match io.footer with
          | none => { ret := -1, message := none, throttles := thr }
          | some f =>
            if f.flags &&& complete = 0 then { ret := 0, message := none, throttles := thr }
            else
              match io.decoded with
              | none => { ret := -EINVAL, message := none, throttles := thr }
              | some m =>
                { ret := 0, message := some { m with dispatch_throttle_size := message_size h },
                  throttles := throttle_reserve (message_size h) thr } := by
  unfold read_message
  cases io.header with
  | none => rfl
  | some h =>
    simp only [out_dethrottle_reserve]

/-- Claim C21: for every execution of `read_message`: a header that cannot be read or
whose CRC does not match returns -1 with the throttlers untouched; a failure after
`message_size` bytes have been reserved (a section or the footer cut short, a footer
without the COMPLETE flag, a message that does not decode) goes through
`out_dethrottle`, which releases exactly `message_size` from both throttlers, so that
both are back at their previous count; a message that is produced keeps the
reservation and records `message_size` as its `dispatch_throttle_size`; and an
aborted message returns 0 while every other failure returns a negative value. -/
theorem read_message_throttle_balance (complete : Nat) (io : ReadIO) (thr : Throttles) :
    (∀ h, io.header = some h → io.header_crc ≠ h.crc →
      read_message complete io thr = { ret := -1, message := none, throttles := thr }) ∧
    (∀ h, io.header = some h → io.header_crc = h.crc →
      (read_message complete io thr).message = none →
      read_message complete io thr
        = out_dethrottle (message_size h) (throttle_reserve (message_size h) thr)
            (read_message complete io thr).ret) ∧
    ((read_message complete io thr).message = none →
      (read_message complete io thr).throttles = thr) ∧
    (∀ m, (read_message complete io thr).message = some m →
      ∃ h, io.header = some h ∧ (read_message complete io thr).ret = 0 ∧
        (read_message complete io thr).throttles = throttle_reserve (message_size h) thr ∧
        m.dispatch_throttle_size = message_size h) ∧
    ((read_message complete io thr).message = none →
      ((read_message complete io thr).ret = 0 ∨ (read_message complete io thr).ret < 0) ∧
      ((read_message complete io thr).ret = 0 ↔
        ∃ h f, io.header = some h ∧ io.header_crc = h.crc ∧
          ¬ (h.front_len % 2 ^ 32 ≠ 0 ∧ io.front_ok = false) ∧
          ¬ (h.middle_len % 2 ^ 32 ≠ 0 ∧ io.middle_ok = false) ∧
          ¬ (h.data_len % 2 ^ 32 ≠ 0 ∧ io.data_ok = false) ∧
          io.footer = some f ∧ f.flags &&& complete = 0)) := by
  have hE : (-EINVAL : Int) < 0 := by decide
  have hE0 : (-EINVAL : Int) ≠ 0 := by decide
  rw [read_message_balanced]
  cases hh : io.header with
  | none => simp
  | some h =>
    simp only [Option.some.injEq, forall_eq']
    by_cases h1 : io.header_crc ≠ h.crc
    · simp [h1]
    rw [if_neg h1]
    have h1e : io.header_crc = h.crc := not_not.mp h1
    by_cases h2 : h.front_len % 2 ^ 32 ≠ 0 ∧ io.front_ok = false
    · rw [if_pos h2]
      simp [h1e, h2, out_dethrottle_reserve]
      intro a
      exact absurd a (by simpa using h2.1)
    rw [if_neg h2]
    by_cases h3 : h.middle_len % 2 ^ 32 ≠ 0 ∧ io.middle_ok = false
    · rw [if_pos h3]
      simp [h1e, h3, out_dethrottle_reserve]
      intro _ a
      exact absurd a (by simpa using h3.1)
    rw [if_neg h3]
    by_cases h4 : h.data_len % 2 ^ 32 ≠ 0 ∧ io.data_ok = false
    · rw [if_pos h4]
      simp [h1e, h4, out_dethrottle_reserve]
      intro _ _ a
      exact absurd a (by simpa using h4.1)
    rw [if_neg h4]
    cases hf : io.footer with
    | none => simp [h1e, out_dethrottle_reserve]
    | some f =>
      simp only
      by_cases h5 : f.flags &&& complete = 0
      · rw [if_pos h5]
        simp [h1e, h5, out_dethrottle_reserve]
        refine ⟨?_, ?_, ?_⟩
        · simpa using h2
        · simpa using h3
        · simpa using h4
      rw [if_neg h5]
      cases hd : io.decoded with
      | none => simp [h1e, h5, hE, hE0, out_dethrottle_reserve]
      | some m => simp [h1e]

/-! ## The sequence exchange after a replace -/

/-- A pipe with an empty `sent` list is left as it is by `requeue_sent`, whatever the
acknowledged count. -/
theorem requeue_sent_empty (a : Nat) (p : Pipe) (h : p.sent = []) : requeue_sent a p = p := by
  unfold requeue_sent
  rw [h]
  rfl

/-- The tail of `accept` for a SEQ reply whose exchange succeeds changes nothing when
the pipe's `sent` list is empty: `requeue_sent(newly_acked_seq)` returns at once. -/
theorem accept_finish_seq_empty_sent (ms : Messenger) (self : Nat)
    (reply : ceph_msg_connect_reply) (a : Nat) (p : Pipe) (hp : getPipe ms self = some p)
    (hs : p.sent = []) (ht : reply.tag = some Tag.SEQ) :
    getPipe (accept_finish ms self reply { reply_ok := true, seq_io := some a }) self
      = some p := by
  unfold accept_finish
  simp only [Bool.not_true, Bool.false_eq_true, if_false, ht, if_true, hp]
  rw [requeue_sent_empty a p hs]
  exact getPipe_setPipe_self ms self p

/-- Claim C22 fails on the sample messenger: the durable Open pipe 1 (registered for
address 20) has sent the messages with seq 6 and 7 and not seen them acknowledged.
The accepting pipe 2 replaces it for a connect record that advertises
reconnect-with-seq: `existing->requeue_sent()` moves both messages to the front of
the highest-priority list, which is spliced into pipe 2, whose `sent` list stays
empty, and the reply is SEQ.  The peer then reports 7 as its acknowledged count, and
`requeue_sent(7)` returns at once because `sent` is empty: the messages with seq 6
and 7 are still queued on pipe 2, and its writer transmits the first of them again
with seq 6. -/
theorem accept_seq_exchange_prunes_nothing :
    (accept_record Consts.sample (Messenger.sample Pipe.busy Pipe.accepting20) 2
        ceph_msg_connect.reconnect (false, false)).step = AcceptStep.replace false ∧
    (accept_record Consts.sample (Messenger.sample Pipe.busy Pipe.accepting20) 2
        ceph_msg_connect.reconnect (false, false)).existing = some 1 ∧
    (accept_replace_open Consts.sample
        (accept_record Consts.sample (Messenger.sample Pipe.busy Pipe.accepting20) 2
          ceph_msg_connect.reconnect (false, false)).ms 2 1 ceph_msg_connect.reconnect).map
      (fun x => (x.2.tag, out_seqs x.1 2))
      = some (some Tag.SEQ, some ([], [(127, [0]), (255, [6, 7, 0])])) ∧
    (accept_replace_open Consts.sample
        (accept_record Consts.sample (Messenger.sample Pipe.busy Pipe.accepting20) 2
          ceph_msg_connect.reconnect (false, false)).ms 2 1 ceph_msg_connect.reconnect).map
      (fun x => out_seqs (accept_finish x.1 2 x.2 { reply_ok := true, seq_io := some 7 }) 2)
      = some (some ([], [(127, [0]), (255, [6, 7, 0])])) ∧
    (accept_replace_open Consts.sample
        (accept_record Consts.sample (Messenger.sample Pipe.busy Pipe.accepting20) 2
          ceph_msg_connect.reconnect (false, false)).ms 2 1 ceph_msg_connect.reconnect).bind
      (fun x => (getPipe (accept_finish x.1 2 x.2 { reply_ok := true, seq_io := some 7 }) 2).map
        (fun p => (writer_send p).1.map (fun m => (m.ident, m.seq))))
      = some (some (100, 6)) := by
  refine ⟨by decide, by decide, by decide, by decide, by decide⟩

/-! ## `in_seq_acked` across a session reset -/

/-- The function `queue_received` leaves `in_seq_acked` of the pipe alone. -/
theorem queue_received_in_seq_acked (c : PipeCtx) (m : QItem) (k : Nat) :
    (queue_received c m k).self = c.self ∧
    (queue_received c m k).pipe.in_seq_acked = c.pipe.in_seq_acked := by
  unfold queue_received
  simp only
  split
  · cases m <;> exact ⟨rfl, rfl⟩
  · split
    · exact ⟨rfl, rfl⟩
    · exact ⟨rfl, rfl⟩

/-- A local delivery leaves `in_seq_acked` of every pipe alone. -/
theorem local_delivery_in_seq_acked (ms : Messenger) (m : QItem) (k id : Nat) (q : Pipe)
    (hq : getPipe ms id = some q) :
    ∃ q1, getPipe (local_delivery ms m k) id = some q1 ∧ q1.in_seq_acked = q.in_seq_acked := by
  unfold local_delivery
  cases hl : getPipe ms ms.dispatch_queue.local_pipe with
  | none => exact ⟨q, hq, rfl⟩
  | some lp =>
    simp only
    rw [getPipe_putCtx]
    have h := queue_received_in_seq_acked (ctxOf ms ms.dispatch_queue.local_pipe lp) m k
    by_cases hid : id = (queue_received (ctxOf ms ms.dispatch_queue.local_pipe lp) m k).self
    · rw [if_pos hid]
      refine ⟨_, rfl, ?_⟩
      rw [h.2]
      have e : id = ms.dispatch_queue.local_pipe := by rw [hid, h.1]; rfl
      rw [e, hl] at hq
      have e2 : lp = q := Option.some.inj hq
      rw [← e2]
      rfl
    · rw [if_neg hid]
      exact ⟨q, hq, rfl⟩

/-- The function `was_session_reset` sets `in_seq` and `connect_seq` to zero and
leaves `in_seq_acked` as it was. -/
theorem was_session_reset_in_seq (ms : Messenger) (id : Nat) (p : Pipe)
    (hp : getPipe ms id = some p) :
    ∃ q, getPipe (was_session_reset ms id) id = some q ∧ q.in_seq = 0 ∧
      q.in_seq_acked = p.in_seq_acked ∧ q.connect_seq = 0 := by
  unfold was_session_reset
  rw [hp]
  simp only
  have h1 : getPipe (putCtx ms (discard_queue (ctxOf ms id p))) id
      = some (discard_queue (ctxOf ms id p)).pipe := by
    rw [getPipe_putCtx]
    exact if_pos rfl
  have h2 : ∃ q2, getPipe
      (if !(putCtx ms (discard_queue (ctxOf ms id p))).destination_stopped then
        queue_remote_reset (putCtx ms (discard_queue (ctxOf ms id p))) p.connection_state
       else putCtx ms (discard_queue (ctxOf ms id p))) id = some q2 ∧
      q2.in_seq_acked = p.in_seq_acked := by
    split
    · unfold queue_remote_reset
      obtain ⟨q1, hq1, he⟩ := local_delivery_in_seq_acked
        { putCtx ms (discard_queue (ctxOf ms id p)) with
          dispatch_queue :=
            { (putCtx ms (discard_queue (ctxOf ms id p))).dispatch_queue with
              remote_reset_q :=
                (putCtx ms (discard_queue (ctxOf ms id p))).dispatch_queue.remote_reset_q
                  ++ [p.connection_state] } }
        QItem.D_BAD_REMOTE_RESET CEPH_MSG_PRIO_HIGHEST id
        (discard_queue (ctxOf ms id p)).pipe h1
      exact ⟨q1, hq1, he⟩
    · exact ⟨_, h1, rfl⟩
  obtain ⟨q2, hq2, ha⟩ := h2
  rw [hq2]
  simp only
  refine ⟨_, getPipe_setPipe_self _ _ _, rfl, ha, rfl⟩

/-- Claim C26 fails after a session reset.  In the run `session_reset_ops` the durable
client pipe 1 has received and acknowledged the messages with seq 1 and 2
(`in_seq = in_seq_acked = 2`), faults and reconnects; the peer answers RESETSESSION,
and `was_session_reset` sets `in_seq` to 0 but not `in_seq_acked`: the pipe opens
with `in_seq_acked = 2 > in_seq = 0`.  The first message of the new session (seq 1)
is accepted and makes `in_seq = 1`, which is not above `in_seq_acked`, so the
writer's pass sends no ACK and leaves the pipe as it is. -/
theorem session_reset_breaks_in_seq_acked :
    (run Consts.sample 1 (session_reset_ops.take 5) Messenger.boot).map (fun ms => in_seqs ms 1)
      = some (some (PipeState.STATE_OPEN, 2, 2)) ∧
    (run Consts.sample 1 (session_reset_ops.take 7) Messenger.boot).map (fun ms => in_seqs ms 1)
      = some (some (PipeState.STATE_CONNECTING, 2, 2)) ∧
    run Consts.sample 1 session_reset_ops Messenger.boot = some Messenger.session_reset ∧
    in_seqs Messenger.session_reset 1 = some (PipeState.STATE_OPEN, 0, 2) ∧
    in_seqs (reader_handle 1 Messenger.session_reset 1 first_message none).1 1
      = some (PipeState.STATE_OPEN, 1, 2) ∧
    (getPipe (reader_handle 1 Messenger.session_reset 1 first_message none).1 1).map
      (fun p => (qat p.in_q 127).length) = some 1 ∧
    writer_step Consts.sample (reader_handle 1 Messenger.session_reset 1 first_message none).1 1
        (writer_ready 7 1)
      = some (reader_handle 1 Messenger.session_reset 1 first_message none).1 := by
  refine ⟨by decide, by decide, by decide, by decide, by decide, by decide, by decide⟩

/-! ## The asserts of `connect` against an honest `accept` -/

/-- A reply of the race decision is never READY or SEQ, and a RETRY_SESSION reply
carries a `connect_seq` above the one of the connect record. -/
theorem accept_race_reply (ms_addr peer_addr : entity_addr_t) (connect : ceph_msg_connect)
    (existing : Option Pipe) (t : Tag) (g cs : Nat)
    (h : accept_race ms_addr peer_addr connect existing = AcceptStep.reply t g cs) :
    t ≠ Tag.READY ∧ t ≠ Tag.SEQ ∧ (t = Tag.RETRY_SESSION → cs > connect.connect_seq) := by
  cases existing with
  | none =>
    simp only [accept_race] at h
    split_ifs at h
    simp only [AcceptStep.reply.injEq] at h
    obtain ⟨h1, _, _⟩ := h
    subst h1
    simp
  | some e =>
    simp only [accept_race] at h
    split_ifs at h with h1 h2 h3 h4 <;> simp only [AcceptStep.reply.injEq] at h <;>
      obtain ⟨e1, _, e3⟩ := h <;> subst e1 <;> simp
    omega

/-- A reply of one pass of the loop of `accept` is never READY or SEQ, and a
RETRY_SESSION reply carries a `connect_seq` above the one of the connect record. -/
theorem accept_record_reply (K : Consts) (ms : Messenger) (self : Nat)
    (connect : ceph_msg_connect) (verify : Bool × Bool) (t : Tag) (g cs : Nat)
    (h : (accept_record K ms self connect verify).step = AcceptStep.reply t g cs) :
    t ≠ Tag.READY ∧ t ≠ Tag.SEQ ∧ (t = Tag.RETRY_SESSION → cs > connect.connect_seq) := by
  cases hs : getPipe ms self with
  | none => simp [accept_record, hs] at h
  | some q =>
    rw [accept_record_step K ms self connect verify q hs] at h
    split_ifs at h
    · simp only [AcceptStep.reply.injEq] at h; obtain ⟨e1, _, _⟩ := h; subst e1; simp
    · simp only [AcceptStep.reply.injEq] at h; obtain ⟨e1, _, _⟩ := h; subst e1; simp
    · simp only [AcceptStep.reply.injEq] at h; obtain ⟨e1, _, _⟩ := h; subst e1; simp
    · cases hf : mfind ms.rank_pipe q.peer_addr with
      | none =>
        rw [hf] at h
        exact accept_race_reply _ _ _ _ _ _ _ h
      | some eid =>
        rw [hf] at h
        simp only at h
        split at h
        · simp at h
        · exact accept_race_reply _ _ _ _ _ _ _ h

/-- The reply that the label `open` of `accept` fills in carries the `connect_seq` of
the connect record plus one (modulo 2^32, the field being a `__u32`), under the tag
READY or SEQ. -/
theorem accept_open_reply (K : Consts) (ms : Messenger) (self : Nat)
    (connect : ceph_msg_connect) (seq : Bool) (ms1 : Messenger) (r : ceph_msg_connect_reply)
    (h : accept_open K ms self connect (if seq then some Tag.SEQ else none) = some (ms1, r)) :
    (r.tag = some Tag.READY ∨ r.tag = some Tag.SEQ) ∧
      r.connect_seq = inc32 connect.connect_seq := by
  unfold accept_open at h
  cases hp : getPipe ms self with
  | none => rw [hp] at h; simp at h
  | some p =>
    rw [hp] at h
    simp only [Option.map_eq_some', Prod.mk.injEq] at h
    obtain ⟨_, _, _, hr⟩ := h
    subst hr
    cases seq <;> simp

/-- The labels `fail` / `fail_locked` of `connect` return. -/
theorem connect_fail_returned (ms : Messenger) (id : Nat) :
    connect_fail ms id ≠ ConnectResult.assert_fail := by
  unfold connect_fail
  cases getPipe ms id with
  | none => simp
  | some p => simp only; split <;> simp

/-- The "hooray" block of `connect` passes its assert when the reply carries the
`connect_seq` that was sent plus one (modulo 2^32). -/
theorem connect_success_returned (K : Consts) (ms : Messenger) (id : Nat) (p : Pipe)
    (l : ConnectLocals) (r : ceph_msg_connect_reply) (h : r.connect_seq = inc32 l.cseq) :
    connect_success K ms id p l r ≠ ConnectResult.assert_fail := by
  unfold connect_success
  have e : (connect_opened K p l r).connect_seq = r.connect_seq := by
    rw [h]; rfl
  rw [if_neg (by simpa using e)]
  split <;> simp

/-- A pass of the loop of `connect` fails no assert when a RETRY_SESSION reply is
above the pipe's `connect_seq` and a READY or SEQ reply carries `cseq + 1` (modulo
2^32). -/
theorem connect_pass_assert_free (K : Consts) (ms : Messenger) (id : Nat) (l : ConnectLocals)
    (r : ceph_msg_connect_reply) (seq_io : Option (Nat × Bool)) (p : Pipe)
    (hp : getPipe ms id = some p)
    (h1 : r.tag = some Tag.RETRY_SESSION → r.connect_seq > p.connect_seq)
    (h2 : r.tag = some Tag.READY ∨ r.tag = some Tag.SEQ → r.connect_seq = inc32 l.cseq) :
    connect_pass K ms id l (ConnectRead.reply r seq_io) ≠ Sum.inr ConnectResult.assert_fail := by
  unfold connect_pass
  simp only [hp]
  by_cases hs : p.state ≠ PipeState.STATE_CONNECTING
  · rw [if_pos hs]; simp
  rw [if_neg hs]
  cases ht : r.tag with
  | none => simp [connect_fail_returned]
  | some t =>
    rw [ht] at h1 h2
    cases t with
    | FEATURES => simp [connect_fail_returned]
    | BADPROTOVER => simp [connect_fail_returned]
    | BADAUTHORIZER => simp only; split <;> simp
    | RESETSESSION =>
      simp only
      cases getPipe (was_session_reset ms id) id <;> simp
    | RETRY_GLOBAL => simp
    | RETRY_SESSION =>
      simp only
      rw [if_neg (by simpa using h1 rfl)]
      simp
    | WAIT => simp
    | READY =>
      simp only
      split
      · simp [connect_fail_returned]
      · simp only [ne_eq, Sum.inr.injEq]
        exact connect_success_returned K ms id p _ r (h2 (Or.inl rfl))
    | SEQ =>
      simp only
      split
      · simp [connect_fail_returned]
      · cases seq_io with
        | none => simp [connect_fail_returned]
        | some x =>
          obtain ⟨a, w⟩ := x
          simp only
          split
          · simp only [ne_eq, Sum.inr.injEq]
            exact connect_success_returned K _ id _ _ r (h2 (Or.inr rfl))
          · simp [connect_fail_returned]

/-- The loop of `connect` keeps its local `cseq` equal to the pipe's `connect_seq`:
a pass that goes on to the next one leaves them equal. -/
theorem connect_pass_cseq (K : Consts) (ms : Messenger) (id : Nat) (l : ConnectLocals)
    (rd : ConnectRead) (p : Pipe) (hp : getPipe ms id = some p) (hc : l.cseq = p.connect_seq)
    (ms1 : Messenger) (l1 : ConnectLocals)
    (h : connect_pass K ms id l rd = Sum.inl (ms1, l1)) :
    ∃ p1, getPipe ms1 id = some p1 ∧ l1.cseq = p1.connect_seq := by
  unfold connect_pass at h
  cases rd with
  | io_error => simp at h
  | reply r seq_io =>
    simp only [hp] at h
    by_cases hs : p.state ≠ PipeState.STATE_CONNECTING
    · rw [if_pos hs] at h; simp at h
    rw [if_neg hs] at h
    cases ht : r.tag with
    | none => rw [ht] at h; simp at h
    | some t =>
      rw [ht] at h
      cases t with
      | FEATURES => simp at h
      | BADPROTOVER => simp at h
      | BADAUTHORIZER =>
        simp only at h
        split at h
        · simp at h
        · simp only [Sum.inl.injEq, Prod.mk.injEq] at h
          obtain ⟨e1, e2⟩ := h
          subst e1 e2
          exact ⟨p, hp, hc⟩
      | RESETSESSION =>
        simp only at h
        obtain ⟨q, hq, _, _, hq0⟩ := was_session_reset_in_seq ms id p hp
        rw [hq] at h
        simp only [Sum.inl.injEq, Prod.mk.injEq] at h
        obtain ⟨e1, e2⟩ := h
        subst e1 e2
        exact ⟨_, getPipe_setPipe_self _ _ _, hq0.symm⟩
      | RETRY_GLOBAL =>
        simp only [Sum.inl.injEq, Prod.mk.injEq] at h
        obtain ⟨e1, e2⟩ := h
        subst e1 e2
        exact ⟨p, hp, hc⟩
      | RETRY_SESSION =>
        simp only at h
        split at h
        · simp at h
        · simp only [Sum.inl.injEq, Prod.mk.injEq] at h
          obtain ⟨e1, e2⟩ := h
          subst e1 e2
          exact ⟨_, getPipe_setPipe_self _ _ _, rfl⟩
      | WAIT => simp at h
      | READY => simp only at h; split at h <;> simp at h
      | SEQ =>
        simp only at h
        split at h
        · simp at h
        · cases seq_io with
          | none => simp at h
          | some x => simp only at h; split at h <;> simp at h

/-- Claim C27: when the reply that `connect` reads is the one `accept` computes for
the connect record just sent (`cseq` being the pipe's `connect_seq`, as the loop of
`connect` keeps it): a RETRY_SESSION reply carries a `connect_seq` above the pipe's;
a READY or SEQ reply carries the `connect_seq` that was sent plus one (both sides add
1 in the same 32-bit type, so modulo 2^32), which is what `connect` sets its own
`connect_seq` to; and so the pass of `connect` that handles
the reply fails none of its asserts. -/
theorem connect_asserts_hold (K : Consts) (acceptor connector : Messenger) (self id : Nat)
    (verify : Bool × Bool) (p : Pipe) (l : ConnectLocals) (seq_io : Option (Nat × Bool))
    (hp : getPipe connector id = some p) (hc : l.cseq = p.connect_seq) :
    (∀ r, accept_wire_reply K
        (accept_record K acceptor self (connect_record K connector p l) verify) self
        (connect_record K connector p l) = some r →
      r.tag ≠ some Tag.READY ∧ r.tag ≠ some Tag.SEQ ∧
      (r.tag = some Tag.RETRY_SESSION → r.connect_seq > p.connect_seq) ∧
      connect_pass K connector id l (ConnectRead.reply r seq_io)
        ≠ Sum.inr ConnectResult.assert_fail) ∧
    (∀ (ms : Messenger) (seq : Bool) ms1 r,
      accept_open K ms self (connect_record K connector p l)
        (if seq then some Tag.SEQ else none) = some (ms1, r) →
      (r.tag = some Tag.READY ∨ r.tag = some Tag.SEQ) ∧ r.connect_seq = inc32 l.cseq ∧
      (∀ q, (connect_opened K q l r).connect_seq = r.connect_seq) ∧
      connect_pass K connector id l (ConnectRead.reply r seq_io)
        ≠ Sum.inr ConnectResult.assert_fail) := by
  have hcs : (connect_record K connector p l).connect_seq = p.connect_seq := hc
  constructor
  · intro r hr
    unfold accept_wire_reply at hr
    cases hstep : (accept_record K acceptor self (connect_record K connector p l) verify).step with
    | reply t g cs =>
      rw [hstep] at hr
      simp only [Option.map_eq_some'] at hr
      obtain ⟨q, _, hq⟩ := hr
      obtain ⟨a1, a2, a3⟩ := accept_record_reply K acceptor self _ verify t g cs hstep
      rw [hcs] at a3
      have ht : r.tag = some t := by rw [← hq]; rfl
      have hrc : r.connect_seq = cs := by rw [← hq]; rfl
      have b1 : r.tag ≠ some Tag.READY := by rw [ht]; simpa using a1
      have b2 : r.tag ≠ some Tag.SEQ := by rw [ht]; simpa using a2
      have b3 : r.tag = some Tag.RETRY_SESSION → r.connect_seq > p.connect_seq := by
        intro h
        rw [ht] at h
        rw [hrc]
        exact a3 (Option.some.inj h)
      refine ⟨b1, b2, b3, ?_⟩
      exact connect_pass_assert_free K connector id l r seq_io p hp b3
        (fun h => h.elim (fun h => absurd h b1) (fun h => absurd h b2))
    | replace b => rw [hstep] at hr; simp at hr
    | open_new => rw [hstep] at hr; simp at hr
    | assert_fail => rw [hstep] at hr; simp at hr
  · intro ms seq ms1 r hr
    obtain ⟨a1, a2⟩ := accept_open_reply K ms self _ seq ms1 r hr
    have a3 : r.connect_seq = inc32 l.cseq := a2
    refine ⟨a1, a3, fun q => a3.symm, ?_⟩
    refine connect_pass_assert_free K connector id l r seq_io p hp ?_ (fun _ => a3)
    intro h
    rcases a1 with a1 | a1 <;> rw [a1] at h <;> simp at h

/-- C27 at concrete messengers: the connector's pipe 1 is `Pipe.connecting_durable`
in its first pass, the acceptor is the sample messenger with the accepting pipe 2. -/
theorem connect_asserts_hold_witness :
    getPipe (Messenger.sample Pipe.connecting_durable Pipe.accepting) 1
      = some Pipe.connecting_durable ∧
    ConnectLocals.start.cseq = Pipe.connecting_durable.connect_seq ∧
    ∀ (ms : Messenger) (seq : Bool) ms1 r,
      accept_open Consts.sample ms 2
        (connect_record Consts.sample (Messenger.sample Pipe.connecting_durable Pipe.accepting)
          Pipe.connecting_durable ConnectLocals.start)
        (if seq then some Tag.SEQ else none) = some (ms1, r) →
      (r.tag = some Tag.READY ∨ r.tag = some Tag.SEQ) ∧
      r.connect_seq = inc32 ConnectLocals.start.cseq ∧
      (∀ q, (connect_opened Consts.sample q ConnectLocals.start r).connect_seq
        = r.connect_seq) ∧
      connect_pass Consts.sample (Messenger.sample Pipe.connecting_durable Pipe.accepting) 1
          ConnectLocals.start (ConnectRead.reply r none)
        ≠ Sum.inr ConnectResult.assert_fail :=
  ⟨by decide, by decide,
   (connect_asserts_hold Consts.sample (Messenger.sample Pipe.busy Pipe.accepting20)
      (Messenger.sample Pipe.connecting_durable Pipe.accepting) 2 1 (false, false)
      Pipe.connecting_durable ConnectLocals.start none (by decide) (by decide)).2⟩

/-! ## The negotiated features on the two sides -/

/-- Taking the low 32 bits commutes with the bitwise AND. -/
theorem and_low32 (a b : Nat) : (a % 2 ^ 32) &&& (b % 2 ^ 32) = (a &&& b) % 2 ^ 32 := by
  rw [← Nat.and_pow_two_sub_one_eq_mod a 32, ← Nat.and_pow_two_sub_one_eq_mod b 32,
    ← Nat.and_pow_two_sub_one_eq_mod (a &&& b) 32]
  rw [Nat.and_assoc, Nat.and_comm (2 ^ 32 - 1) (b &&& (2 ^ 32 - 1)), Nat.and_assoc b,
    Nat.and_self, Nat.and_assoc]

/-- The features that `set_features` records on an existing connection. -/
theorem features_set_features (ms : Messenger) (con f : Nat)
    (h : mcount ms.connections con = true) :
    (mfind (set_features ms con f).connections con).map (fun c => c.features) = some f := by
  unfold set_features
  unfold mcount at h
  cases hc : mfind ms.connections con with
  | none => rw [hc] at h; simp at h
  | some c => simp [mfind_mset_self]

/-- A local delivery leaves the connections alone. -/
theorem connections_local_delivery (ms : Messenger) (m : QItem) (k : Nat) :
    (local_delivery ms m k).connections = ms.connections := by
  unfold local_delivery
  cases getPipe ms ms.dispatch_queue.local_pipe <;> rfl

/-- Registering a pipe leaves the connections alone. -/
theorem connections_register_pipe (ms ms1 : Messenger) (id : Nat)
    (h : register_pipe ms id = some ms1) : ms1.connections = ms.connections := by
  unfold register_pipe at h
  cases hp : getPipe ms id with
  | none => rw [hp] at h; simp at h
  | some p =>
    rw [hp] at h
    simp only at h
    split at h
    · simp at h
    · simp only [Option.some.injEq] at h
      rw [← h]

/-- The features that the label `open` of `accept` records on the pipe's
connection. -/
theorem accept_open_features (K : Consts) (ms : Messenger) (self : Nat)
    (connect : ceph_msg_connect) (tag : Option Tag) (a : Pipe) (ms1 : Messenger)
    (r : ceph_msg_connect_reply) (ha : getPipe ms self = some a)
    (hc : mcount ms.connections a.connection_state = true)
    (h : accept_open K ms self connect tag = some (ms1, r)) :
    r.features = a.policy.features_supported ∧
    (mfind ms1.connections a.connection_state).map (fun c => c.features)
      = some ((a.policy.features_supported &&& connect.features) % 2 ^ 32) := by
  unfold accept_open at h
  rw [ha] at h
  simp only [Option.map_eq_some', Prod.mk.injEq] at h
  obtain ⟨m, hm, hm1, hr⟩ := h
  subst hm1
  have e := connections_register_pipe _ _ _ hm
  rw [e, connections_setPipe, ← and_low32]
  refine ⟨by rw [← hr], ?_⟩
  exact features_set_features _ _ _ hc

/-- The features that the "hooray" block of `connect` records on the pipe's
connection. -/
theorem connect_success_features (K : Consts) (ms : Messenger) (id : Nat) (p : Pipe)
    (l : ConnectLocals) (r : ceph_msg_connect_reply) (ms1 : Messenger) (ret : Int)
    (hc : mcount ms.connections p.connection_state = true)
    (h : connect_success K ms id p l r = ConnectResult.returned ms1 ret) :
    (mfind ms1.connections p.connection_state).map (fun c => c.features)
      = some ((r.features &&& p.policy.features_supported) % 2 ^ 32) := by
  unfold connect_success at h
  split at h
  · simp at h
  · have hf := features_set_features (setPipe ms id (connect_opened K p l r))
      p.connection_state
      ((r.features % 2 ^ 32) &&& ((connect_record K ms p l).features % 2 ^ 32)) hc
    split at h
    · simp only [ConnectResult.returned.injEq] at h
      rw [← h.1]
      unfold queue_connect
      rw [connections_local_delivery, ← and_low32]
      exact hf
    · simp only [ConnectResult.returned.injEq] at h
      rw [← h.1, ← and_low32]
      exact hf

/-- The labels `fail` / `fail_locked` of `connect` return -1. -/
theorem connect_fail_ret (ms : Messenger) (id : Nat) (ms1 : Messenger) (ret : Int)
    (h : connect_fail ms id = ConnectResult.returned ms1 ret) : ret = -1 := by
  unfold connect_fail at h
  cases hp : getPipe ms id with
  | none =>
    rw [hp] at h
    simp only [ConnectResult.returned.injEq] at h
    exact h.2.symm
  | some p =>
    rw [hp] at h
    simp only at h
    split at h <;> simp only [ConnectResult.returned.injEq] at h <;> exact h.2.symm

/-- Claim C28: for every pair of policies, when `accept` goes through `open` for the
connect record that `connect` sent and `connect` returns 0 on the reply, the
features recorded on the acceptor's connection and those recorded on the connector's
connection are the same number: the low 32 bits of the acceptor's
`features_supported` AND the connector's `features_supported`. -/
theorem negotiated_features_agree (K : Consts) (acceptor connector : Messenger) (self id : Nat)
    (seq : Bool) (a p : Pipe) (l : ConnectLocals) (seq_io : Option (Nat × Bool))
    (acceptor1 connector1 : Messenger) (r : ceph_msg_connect_reply)
    (ha : getPipe acceptor self = some a) (hp : getPipe connector id = some p)
    (hca : mcount acceptor.connections a.connection_state = true)
    (hcp : mcount connector.connections p.connection_state = true)
    (hopen : accept_open K acceptor self (connect_record K connector p l)
      (if seq then some Tag.SEQ else none) = some (acceptor1, r))
    (hconn : connect_pass K connector id l (ConnectRead.reply r seq_io)
      = Sum.inr (ConnectResult.returned connector1 0)) :
    (mfind acceptor1.connections a.connection_state).map (fun c => c.features)
      = some ((a.policy.features_supported &&& p.policy.features_supported) % 2 ^ 32) ∧
    (mfind connector1.connections p.connection_state).map (fun c => c.features)
      = some ((a.policy.features_supported &&& p.policy.features_supported) % 2 ^ 32) := by
  obtain ⟨hrf, hA⟩ := accept_open_features K acceptor self _ _ a acceptor1 r ha hca hopen
  obtain ⟨htag, _⟩ := accept_open_reply K acceptor self _ seq acceptor1 r hopen
  refine ⟨hA, ?_⟩
  rw [← hrf]
  have hne : ∀ m, ConnectResult.returned m (-1) ≠ ConnectResult.returned connector1 0 := by
    intro m h
    simp only [ConnectResult.returned.injEq] at h
    exact absurd h.2 (by decide)
  have hfail : ∀ m, connect_fail m id ≠ ConnectResult.returned connector1 0 := by
    intro m h
    exact absurd (connect_fail_ret m id connector1 0 h) (by decide)
  unfold connect_pass at hconn
  simp only [hp] at hconn
  by_cases hs : p.state ≠ PipeState.STATE_CONNECTING
  · rw [if_pos hs] at hconn
    simp only [Sum.inr.injEq] at hconn
    exact absurd hconn (hne _)
  rw [if_neg hs] at hconn
  rcases htag with ht | ht
  · rw [ht] at hconn
    simp only at hconn
    split at hconn
    · simp only [Sum.inr.injEq] at hconn
      exact absurd hconn (hfail _)
    · simp only [Sum.inr.injEq] at hconn
      exact connect_success_features K connector id p _ r connector1 0 hcp hconn
  · rw [ht] at hconn
    simp only at hconn
    split at hconn
    · simp only [Sum.inr.injEq] at hconn
      exact absurd hconn (hfail _)
    · cases seq_io with
      | none =>
        simp only [Sum.inr.injEq] at hconn
        exact absurd hconn (hfail _)
      | some x =>
        obtain ⟨n, w⟩ := x
        simp only at hconn
        split at hconn
        · simp only [Sum.inr.injEq] at hconn
          exact connect_success_features K (setPipe connector id (handle_ack p n)) id
            (handle_ack p n) _ r connector1 0 hcp hconn
        · simp only [Sum.inr.injEq] at hconn
          exact absurd hconn (hfail _)

/-- C28 at a concrete handshake: the acceptor supports the feature bits 14, the
connector the bits 7, and both connections record 6. -/
theorem negotiated_features_agree_witness :
    accept_open Consts.sample Messenger.acceptor 2
        (connect_record Consts.sample Messenger.connector Pipe.connecting_feat
          ConnectLocals.start)
        (if false then some Tag.SEQ else none)
      = some (handshake_accept.1, handshake_accept.2) ∧
    connect_pass Consts.sample Messenger.connector 1 ConnectLocals.start
        (ConnectRead.reply handshake_accept.2 none)
      = Sum.inr (ConnectResult.returned handshake_connect 0) ∧
    (14 &&& 7) % 2 ^ 32 = 6 ∧
    (mfind handshake_accept.1.connections Pipe.accepting_feat.connection_state).map
        (fun c => c.features)
      = some ((Pipe.accepting_feat.policy.features_supported
          &&& Pipe.connecting_feat.policy.features_supported) % 2 ^ 32) ∧
    (mfind handshake_connect.connections Pipe.connecting_feat.connection_state).map
        (fun c => c.features)
      = some ((Pipe.accepting_feat.policy.features_supported
          &&& Pipe.connecting_feat.policy.features_supported) % 2 ^ 32) :=
  ⟨by decide, by decide, by decide,
   negotiated_features_agree Consts.sample Messenger.acceptor Messenger.connector 2 1 false
     Pipe.accepting_feat Pipe.connecting_feat ConnectLocals.start none handshake_accept.1
     handshake_connect handshake_accept.2 (by decide) (by decide) (by decide) (by decide)
     (by decide) (by decide)⟩

/-! ## The backoff of consecutive faults -/

/-- The messenger that `fault_backoff` returns is the one of `fault`. -/
theorem fault_backoff_fst (conf : md_config_t) (ms : Messenger) (id : Nat)
    (onconnect onread : Bool) (backoff : Nat) :
    (fault_backoff conf ms id onconnect onread backoff).1 = fault ms id onconnect onread := by
  unfold fault_backoff fault
  cases getPipe ms id with
  | none => rfl
  | some p =>
    simp only
    split
    · rfl
    · split
      · rfl
      · split
        · rfl
        · split
          · split <;> rfl
          · split
            · rfl
            · split <;> rfl

/-- After `requeue_sent` the `sent` list is empty, and state and policy are as
before. -/
theorem requeue_sent_fields (a : Nat) (p : Pipe) :
    (requeue_sent a p).sent = [] ∧ (requeue_sent a p).state = p.state ∧
    (requeue_sent a p).policy = p.policy := by
  unfold requeue_sent
  split
  · rename_i h
    exact ⟨List.isEmpty_iff.mp h, rfl, rfl⟩
  · exact ⟨rfl, rfl, rfl⟩

/-- What `fault` does to a durable pipe in Connecting that has something to send:
the pipe is written back with its sent messages requeued; with a zero backoff the
call does not wait and stores `ms_initial_backoff`, otherwise it waits the stored
backoff and then stores its double, capped at `ms_max_backoff`. -/
theorem fault_backoff_connecting (conf : md_config_t) (ms : Messenger) (id : Nat)
    (onconnect : Bool) (backoff : Nat) (p : Pipe) (hp : getPipe ms id = some p)
    (hs : p.state = PipeState.STATE_CONNECTING) (hl : p.policy.lossy = false)
    (hq : is_queued (requeue_sent 0 p) = true) :
    fault_backoff conf ms id onconnect false backoff =
      (setPipe ms id (requeue_sent 0 p),
       (if backoff = 0 then conf.ms_initial_backoff
        else if backoff + backoff > conf.ms_max_backoff then conf.ms_max_backoff
        else backoff + backoff),
       (if backoff = 0 then 0 else backoff)) := by
  have hst : (requeue_sent 0 p).state = PipeState.STATE_CONNECTING := by
    rw [(requeue_sent_fields 0 p).2.1]; exact hs
  unfold fault_backoff
  rw [hp]
  simp only [Bool.false_and, Bool.false_eq_true, if_false, hs, hl, hq, hst, Bool.not_true,
    reduceCtorEq, or_self, ne_eq, not_true_eq_false]
  by_cases hb : backoff = 0
  · simp [hb]
  · simp [hb]

/-- A run of `k` consecutive faults of a durable pipe in Connecting that has something
to send, starting from a stored backoff `b` above zero and within the maximum: the
`j`-th of them (from 0) waits `min (b * 2^j) max`, and the backoff stored in the end
is `min (b * 2^k) max`; the pipe stays in Connecting. -/
theorem faults_armed (conf : md_config_t) (onconnect : Bool) (id : Nat) (k : Nat) :
    ∀ (ms : Messenger) (p : Pipe) (b : Nat), getPipe ms id = some p →
      p.state = PipeState.STATE_CONNECTING → p.policy.lossy = false →
      is_queued (requeue_sent 0 p) = true → 0 < b → b ≤ conf.ms_max_backoff →
      (faults conf onconnect id k ms b).2.1 = min (b * 2 ^ k) conf.ms_max_backoff ∧
      (faults conf onconnect id k ms b).2.2
        = (List.range k).map (fun j => min (b * 2 ^ j) conf.ms_max_backoff) ∧
      ((getPipe (faults conf onconnect id k ms b).1 id).map (fun q => q.state)
        = some PipeState.STATE_CONNECTING) := by
  induction k with
  | zero =>
    intro ms p b hp hs _ _ _ hb
    simp [faults, hp, hs, Nat.min_eq_left hb]
  | succ n ih =>
    intro ms p b hp hs hl hq hb0 hb
    have hf := fault_backoff_connecting conf ms id onconnect b p hp hs hl hq
    have hne : b ≠ 0 := by omega
    simp only [if_neg hne] at hf
    obtain ⟨f1, f2, f3⟩ := requeue_sent_fields 0 p
    have hq2 : is_queued (requeue_sent 0 (requeue_sent 0 p)) = true := by
      rw [requeue_sent_empty 0 _ f1]; exact hq
    have hb2 : 0 < (if b + b > conf.ms_max_backoff then conf.ms_max_backoff else b + b) := by
      split <;> omega
    have hb3 : (if b + b > conf.ms_max_backoff then conf.ms_max_backoff else b + b)
        ≤ conf.ms_max_backoff := by
      split <;> omega
    obtain ⟨i1, i2, i3⟩ := ih (setPipe ms id (requeue_sent 0 p)) (requeue_sent 0 p) _
      (getPipe_setPipe_self _ _ _) (by rw [f2]; exact hs) (by rw [f3]; exact hl) hq2 hb2 hb3
    have key : ∀ j, min ((if b + b > conf.ms_max_backoff then conf.ms_max_backoff
        else b + b) * 2 ^ j) conf.ms_max_backoff = min (b * 2 ^ (j + 1)) conf.ms_max_backoff := by
      intro j
      have hj : 1 ≤ 2 ^ j := Nat.one_le_two_pow
      have e : b * 2 ^ (j + 1) = (b + b) * 2 ^ j := by rw [pow_succ]; ring
      rw [e]
      split
      · rename_i h
        have h1 : conf.ms_max_backoff ≤ conf.ms_max_backoff * 2 ^ j := Nat.le_mul_of_pos_right _ hj
        have h2 : conf.ms_max_backoff ≤ (b + b) * 2 ^ j :=
          le_trans (le_of_lt h) (Nat.le_mul_of_pos_right _ hj)
        rw [Nat.min_eq_right h1, Nat.min_eq_right h2]
      · rfl
    simp only [faults, hf]
    refine ⟨?_, ?_, ?_⟩
    · rw [i1, key]
    · rw [i2, List.range_succ_eq_map]
      simp only [List.map_cons, List.map_map, pow_zero, mul_one, Nat.min_eq_left hb,
        List.cons.injEq, true_and]
      apply List.map_congr_left
      intro j _
      exact key j
    · exact i3

/-- The backoff that `fault` stores stays within `ms_max_backoff`. -/
theorem fault_backoff_le_max (conf : md_config_t) (ms : Messenger) (id : Nat)
    (onconnect onread : Bool) (b : Nat) (hb : b ≤ conf.ms_max_backoff)
    (hi : conf.ms_initial_backoff ≤ conf.ms_max_backoff) :
    (fault_backoff conf ms id onconnect onread b).2.1 ≤ conf.ms_max_backoff := by
  unfold fault_backoff
  cases getPipe ms id with
  | none => exact hb
  | some p =>
    simp only
    split
    · exact hb
    · split
      · exact hb
      · split
        · exact hb
        · split
          · split <;> exact hb
          · split
            · exact Nat.zero_le _
            · split
              · exact hi
              · simp only
                split
                · exact le_refl _
                · omega

/-- A fault that moves a durable pipe with something to send into Connecting from
another state stores a zero backoff and does not wait. -/
theorem fault_backoff_enters_connecting (conf : md_config_t) (ms : Messenger) (id : Nat)
    (onconnect onread : Bool) (b : Nat) (p : Pipe) (hp : getPipe ms id = some p)
    (hl : p.policy.lossy = false) (hq : is_queued (requeue_sent 0 p) = true)
    (h1 : p.state ≠ PipeState.STATE_CONNECTING) (h2 : p.state ≠ PipeState.STATE_CLOSED)
    (h3 : p.state ≠ PipeState.STATE_CLOSING) :
    fault_backoff conf ms id onconnect onread b =
      (setPipe ms id { requeue_sent 0 p with
                       connect_seq := inc32 (requeue_sent 0 p).connect_seq,
                       state := PipeState.STATE_CONNECTING }, 0, 0) := by
  have hst : (requeue_sent 0 p).state = p.state := (requeue_sent_fields 0 p).2.1
  unfold fault_backoff
  rw [hp]
  simp only [h1, h2, h3, hl, hq, hst, decide_False, Bool.and_false, Bool.false_eq_true,
    if_false, or_self, Bool.not_true, ne_eq, not_false_eq_true, if_true]

/-- Claim C23, amended: for a run of consecutive faults of a durable pipe that is in
Connecting with something to send, starting from a zero backoff and with
`0 < ms_initial_backoff ≤ ms_max_backoff`: the first fault does not wait and stores
`ms_initial_backoff`; every later fault waits the stored backoff and then stores
its double capped at `ms_max_backoff`, so that the faults after the first wait
`min (initial * 2^j) max` for j = 0, 1, ...; the stored backoff after `k + 1` faults
is `min (initial * 2^k) max`, which is within `ms_max_backoff`, as is the backoff
that any call of `fault` stores; the pipe stays in Connecting; and a fault that
moves the pipe into Connecting from another state stores a zero backoff without
waiting. -/
theorem fault_backoff_schedule (conf : md_config_t) (ms : Messenger) (id : Nat)
    (onconnect : Bool) (p : Pipe) (k : Nat) (hp : getPipe ms id = some p)
    (hl : p.policy.lossy = false) (hq : is_queued (requeue_sent 0 p) = true)
    (h0 : 0 < conf.ms_initial_backoff)
    (h1 : conf.ms_initial_backoff ≤ conf.ms_max_backoff) :
    (p.state = PipeState.STATE_CONNECTING →
      (faults conf onconnect id (k + 1) ms 0).2.2
        = 0 :: (List.range k).map
            (fun j => min (conf.ms_initial_backoff * 2 ^ j) conf.ms_max_backoff) ∧
      (faults conf onconnect id (k + 1) ms 0).2.1
        = min (conf.ms_initial_backoff * 2 ^ k) conf.ms_max_backoff ∧
      (faults conf onconnect id (k + 1) ms 0).2.1 ≤ conf.ms_max_backoff ∧
      (getPipe (faults conf onconnect id (k + 1) ms 0).1 id).map (fun q => q.state)
        = some PipeState.STATE_CONNECTING) ∧
    (∀ (onread : Bool) (b : Nat), b ≤ conf.ms_max_backoff →
      (fault_backoff conf ms id onconnect onread b).2.1 ≤ conf.ms_max_backoff) ∧
    (p.state ≠ PipeState.STATE_CONNECTING → p.state ≠ PipeState.STATE_CLOSED →
      p.state ≠ PipeState.STATE_CLOSING → ∀ (onread : Bool) (b : Nat),
      (fault_backoff conf ms id onconnect onread b).2 = (0, 0) ∧
      (getPipe (fault_backoff conf ms id onconnect onread b).1 id).map (fun q => q.state)
        = some PipeState.STATE_CONNECTING) := by
  refine ⟨?_, ?_, ?_⟩
  · intro hs
    have hf := fault_backoff_connecting conf ms id onconnect 0 p hp hs hl hq
    simp only [if_true] at hf
    obtain ⟨f1, f2, f3⟩ := requeue_sent_fields 0 p
    have hq2 : is_queued (requeue_sent 0 (requeue_sent 0 p)) = true := by
      rw [requeue_sent_empty 0 _ f1]; exact hq
    obtain ⟨i1, i2, i3⟩ := faults_armed conf onconnect id k (setPipe ms id (requeue_sent 0 p))
      (requeue_sent 0 p) conf.ms_initial_backoff (getPipe_setPipe_self _ _ _)
      (by rw [f2]; exact hs) (by rw [f3]; exact hl) hq2 h0 h1
    simp only [faults, hf]
    refine ⟨by rw [i2], i1, ?_, i3⟩
    rw [i1]
    exact Nat.min_le_right _ _
  · intro onread b hb
    exact fault_backoff_le_max conf ms id onconnect onread b hb h1
  · intro hs1 hs2 hs3 onread b
    rw [fault_backoff_enters_connecting conf ms id onconnect onread b p hp hl hq hs1 hs2 hs3]
    refine ⟨rfl, ?_⟩
    simp only
    rw [getPipe_setPipe_self]
    rfl

/-- C23 for four consecutive faults of the sample pipe (durable, Connecting, one
message queued) with `ms_initial_backoff` = 1 and `ms_max_backoff` = 8. -/
theorem fault_backoff_schedule_witness :
    (faults md_config_t.sample true 1 (3 + 1)
        (Messenger.sample Pipe.connecting_durable Pipe.accepting) 0).2.2
      = 0 :: (List.range 3).map
          (fun j => min (md_config_t.sample.ms_initial_backoff * 2 ^ j)
            md_config_t.sample.ms_max_backoff) ∧
    (faults md_config_t.sample true 1 (3 + 1)
        (Messenger.sample Pipe.connecting_durable Pipe.accepting) 0).2.1
      = min (md_config_t.sample.ms_initial_backoff * 2 ^ 3) md_config_t.sample.ms_max_backoff ∧
    (faults md_config_t.sample true 1 (3 + 1)
        (Messenger.sample Pipe.connecting_durable Pipe.accepting) 0).2.1
      ≤ md_config_t.sample.ms_max_backoff ∧
    (getPipe (faults md_config_t.sample true 1 (3 + 1)
        (Messenger.sample Pipe.connecting_durable Pipe.accepting) 0).1 1).map
        (fun q => q.state)
      = some PipeState.STATE_CONNECTING :=
  (fault_backoff_schedule md_config_t.sample
    (Messenger.sample Pipe.connecting_durable Pipe.accepting) 1 true Pipe.connecting_durable 3
    (by decide) (by decide) (by decide) (by decide) (by decide)).1 (by decide)

/-- Claim C23 as stated fails: with `ms_initial_backoff` = 1 and `ms_max_backoff` = 8,
three consecutive faults of the sample pipe (durable, in Connecting, one message
queued, zero backoff) wait 0, 1 and 2, not `min (1 * 2^(k-1)) 8` = 1, 2 and 4: the
first fault in Connecting only stores the initial backoff. -/
theorem fault_first_in_connecting_does_not_wait :
    Pipe.connecting_durable.state = PipeState.STATE_CONNECTING ∧
    Pipe.connecting_durable.policy.lossy = false ∧
    is_queued Pipe.connecting_durable = true ∧
    (fault_backoff md_config_t.sample (Messenger.sample Pipe.connecting_durable Pipe.accepting)
        1 true false 0).2 = (1, 0) ∧
    (faults md_config_t.sample true 1 3
        (Messenger.sample Pipe.connecting_durable Pipe.accepting) 0).2.2 = [0, 1, 2] ∧
    (List.range 3).map
        (fun k => min (md_config_t.sample.ms_initial_backoff * 2 ^ k)
          md_config_t.sample.ms_max_backoff) = [1, 2, 4] ∧
    (faults md_config_t.sample true 1 3
        (Messenger.sample Pipe.connecting_durable Pipe.accepting) 0).2.2
      ≠ (List.range 3).map
          (fun k => min (md_config_t.sample.ms_initial_backoff * 2 ^ k)
            md_config_t.sample.ms_max_backoff) := by
  refine ⟨by decide, by decide, by decide, by decide, by decide, by decide, by decide⟩

/-! ## The chunks of `alloc_aligned_buffer` -/

/-- Complementing twice in 32 bits gives the number back. -/
theorem lnot32_lnot32 (x : Nat) : lnot32 (lnot32 x) = x := by
  unfold lnot32
  rw [← Nat.xor_assoc, Nat.xor_self, Nat.zero_xor]

/-- Clearing the low `s` bits of a number subtracts its remainder modulo `2 ^ s`. -/
theorem xor_mod_two_pow (x s : Nat) : x ^^^ (x % 2 ^ s) = x - x % 2 ^ s := by
  have h : x ^^^ (x % 2 ^ s) = 2 ^ s * (x / 2 ^ s) := by
    apply Nat.eq_of_testBit_eq
    intro i
    rw [Nat.testBit_xor, Nat.testBit_mod_two_pow, Nat.testBit_mul_pow_two,
      ← Nat.shiftRight_eq_div_pow, Nat.testBit_shiftRight]
    by_cases hi : i < s
    · have h2 : ¬ s ≤ i := by omega
      simp [hi, h2]
    · have h2 : s ≤ i := by omega
      have e : s + (i - s) = i := by omega
      simp [hi, h2, e]
  rw [h]
  have := Nat.div_add_mod x (2 ^ s)
  omega

/-- The bits of an `unsigned` that `CEPH_PAGE_MASK` keeps: the number rounded down to
a multiple of the page size. -/
theorem and_page_mask (x s : Nat) (hx : x < 2 ^ 32) :
    x &&& CEPH_PAGE_MASK s = x - x % 2 ^ s := by
  unfold CEPH_PAGE_MASK lnot32 CEPH_PAGE_SIZE
  rw [Nat.and_xor_distrib_left, Nat.and_pow_two_sub_one_eq_mod, Nat.and_pow_two_sub_one_eq_mod,
    Nat.mod_eq_of_lt hx]
  exact xor_mod_two_pow x s

/-- The bits of a number that `~CEPH_PAGE_MASK` keeps: its remainder modulo the page
size. -/
theorem and_not_page_mask (x s : Nat) : x &&& lnot32 (CEPH_PAGE_MASK s) = x % 2 ^ s := by
  unfold CEPH_PAGE_MASK CEPH_PAGE_SIZE
  rw [lnot32_lnot32, Nat.and_pow_two_sub_one_eq_mod]

/-- The three conditional `push_back` calls of `alloc_aligned_buffer` append the
chunks of positive length among head, middle and tail. -/
theorem push_back_three (data : List Chunk) (u : Bool) (h m t : Nat)
    (hu : u = false → h = 0) :
    (if t ≠ 0 then
        push_back
          (if m > 0 then
              push_back (if u then push_back data { len := h, page_aligned := false } else data)
                { len := m, page_aligned := true }
            else (if u then push_back data { len := h, page_aligned := false } else data))
          { len := t, page_aligned := false }
      else
        (if m > 0 then
            push_back (if u then push_back data { len := h, page_aligned := false } else data)
              { len := m, page_aligned := true }
          else (if u then push_back data { len := h, page_aligned := false } else data)))
      = data ++ ((if h = 0 then [] else [{ len := h, page_aligned := false }]) ++
          (if m = 0 then [] else [{ len := m, page_aligned := true }]) ++
          (if t = 0 then [] else [{ len := t, page_aligned := false }])) := by
  cases u with
  | false =>
    have h0 := hu rfl
    subst h0
    rcases m with _ | m <;> rcases t with _ | t <;> simp [push_back]
  | true =>
    rcases h with _ | h <;> rcases m with _ | m <;> rcases t with _ | t <;> simp [push_back]

/-- The function `alloc_aligned_buffer` appends exactly the chunks of
`aligned_chunks`. -/
theorem alloc_aligned_buffer_eq (s : Nat) (data : List Chunk) (len off : Nat)
    (hl : len < 2 ^ 32) (ho : off < 2 ^ 32) :
    alloc_aligned_buffer s data len off = data ++ aligned_chunks (2 ^ s) len off := by
  unfold alloc_aligned_buffer aligned_chunks chunk_middle chunk_tail chunk_head
  simp only [Nat.mod_eq_of_lt hl, Nat.mod_eq_of_lt ho, and_not_page_mask, CEPH_PAGE_SIZE]
  have hlt : ∀ h, len - h < 2 ^ 32 := fun h => by omega
  rw [and_page_mask _ s (hlt _)]
  have e : ∀ x : Nat, x - (x - x % 2 ^ s) = x % 2 ^ s := by
    intro x
    have := Nat.mod_le x (2 ^ s)
    omega
  rw [e]
  have hd : (if decide (off % 2 ^ s ≠ 0) = true then min (2 ^ s - off % 2 ^ s) len else 0)
      = (if off % 2 ^ s ≠ 0 then min (2 ^ s - off % 2 ^ s) len else 0) := by
    by_cases hu : off % 2 ^ s = 0 <;> simp [hu]
  rw [hd]
  refine push_back_three data (decide (off % 2 ^ s ≠ 0)) _ _ _ ?_
  intro hu
  have hu2 : off % 2 ^ s = 0 := by simpa using hu
  simp [hu2]

/-- Claim C29: for every `len` and `off` (32-bit unsigned) and pages of `2 ^ shift`
bytes, `alloc_aligned_buffer(len, off)` appends exactly the non-empty ones of three
chunks whose lengths sum to `len` (so at most three, and none when `len` = 0): a
head of `min (page_size - off mod page_size) len` bytes only when `off` is not
page-aligned, a page-aligned chunk whose length is a positive multiple of the page
size, and a tail shorter than a page; and when the page-aligned chunk is present,
`off` plus the length of the head before it is a multiple of the page size. -/
theorem alloc_aligned_buffer_chunks (shift len off : Nat) (data : List Chunk)
    (hl : len < 2 ^ 32) (ho : off < 2 ^ 32) :
    alloc_aligned_buffer shift data len off = data ++ aligned_chunks (2 ^ shift) len off ∧
    (aligned_chunks (2 ^ shift) len off).length ≤ 3 ∧
    ((aligned_chunks (2 ^ shift) len off).map (fun c => c.len)).sum = len ∧
    (∀ c ∈ aligned_chunks (2 ^ shift) len off, 0 < c.len) ∧
    (len = 0 → alloc_aligned_buffer shift data len off = data) ∧
    chunk_head (2 ^ shift) len off + chunk_middle (2 ^ shift) len off
      + chunk_tail (2 ^ shift) len off = len ∧
    (chunk_head (2 ^ shift) len off ≠ 0 ↔ off % 2 ^ shift ≠ 0 ∧ len ≠ 0) ∧
    (off % 2 ^ shift ≠ 0 →
      chunk_head (2 ^ shift) len off = min (2 ^ shift - off % 2 ^ shift) len) ∧
    2 ^ shift ∣ chunk_middle (2 ^ shift) len off ∧
    (chunk_middle (2 ^ shift) len off ≠ 0 → 2 ^ shift ≤ chunk_middle (2 ^ shift) len off) ∧
    chunk_tail (2 ^ shift) len off < 2 ^ shift ∧
    (chunk_middle (2 ^ shift) len off ≠ 0 →
      2 ^ shift ∣ off + chunk_head (2 ^ shift) len off) := by
  have hps : 0 < 2 ^ shift := Nat.two_pow_pos shift
  generalize hP : 2 ^ shift = ps at hps ⊢
  have heq : alloc_aligned_buffer shift data len off = data ++ aligned_chunks ps len off := by
    rw [← hP]
    exact alloc_aligned_buffer_eq shift data len off hl ho
  have hh : chunk_head ps len off ≤ len := by
    unfold chunk_head
    split
    · exact Nat.min_le_right _ _
    · exact Nat.zero_le _
  have hmod : (len - chunk_head ps len off) % ps ≤ len - chunk_head ps len off :=
    Nat.mod_le _ _
  have hsum : chunk_head ps len off + chunk_middle ps len off + chunk_tail ps len off = len := by
    unfold chunk_middle chunk_tail
    omega
  have hlt : off % ps < ps := Nat.mod_lt _ hps
  have hiff : chunk_head ps len off ≠ 0 ↔ off % ps ≠ 0 ∧ len ≠ 0 := by
    unfold chunk_head
    by_cases hu : off % ps = 0
    · simp [hu]
    · simp only [ne_eq, hu, not_false_eq_true, if_true, true_and]
      by_cases h0 : len = 0
      · simp [h0]
      · have : 0 < min (ps - off % ps) len := by
          apply Nat.lt_min.mpr
          omega
        constructor
        · intro _; exact h0
        · intro _; omega
  have hdvd : ps ∣ chunk_middle ps len off := by
    unfold chunk_middle
    exact Nat.dvd_sub_mod _
  have hle : chunk_middle ps len off ≠ 0 → ps ≤ chunk_middle ps len off :=
    fun h => Nat.le_of_dvd (Nat.pos_of_ne_zero h) hdvd
  have htail : chunk_tail ps len off < ps := Nat.mod_lt _ hps
  have hal : chunk_middle ps len off ≠ 0 → ps ∣ off + chunk_head ps len off := by
    intro hm
    by_cases hu : off % ps = 0
    · have h0 : chunk_head ps len off = 0 := by
        unfold chunk_head
        simp [hu]
      rw [h0, Nat.add_zero]
      exact Nat.dvd_of_mod_eq_zero hu
    · have hhd : chunk_head ps len off = min (ps - off % ps) len := by
        unfold chunk_head
        simp [hu]
      have hne : chunk_head ps len off ≠ len := by
        intro e
        apply hm
        unfold chunk_middle
        rw [e]
        simp
      have hv : chunk_head ps len off = ps - off % ps := by
        rw [hhd] at hne ⊢
        rcases Nat.le_total (ps - off % ps) len with h | h
        · exact Nat.min_eq_left h
        · exact absurd (Nat.min_eq_right h) hne
      have e : off + chunk_head ps len off = (off - off % ps) + ps := by
        have := Nat.mod_le off ps
        omega
      rw [e]
      exact Nat.dvd_add (Nat.dvd_sub_mod _) (dvd_refl _)
  have hlen : (aligned_chunks ps len off).length ≤ 3 := by
    unfold aligned_chunks
    split <;> split <;> split <;> simp
  have hs2 : ((aligned_chunks ps len off).map (fun c => c.len)).sum
      = chunk_head ps len off + chunk_middle ps len off + chunk_tail ps len off := by
    unfold aligned_chunks
    split <;> split <;> split <;> simp <;> omega
  have hpos : ∀ c ∈ aligned_chunks ps len off, 0 < c.len := by
    intro c hc
    unfold aligned_chunks at hc
    simp only [List.mem_append] at hc
    rcases hc with (hc | hc) | hc
    · split at hc
      · simp at hc
      · rename_i hne
        simp only [List.mem_singleton] at hc
        rw [hc]
        exact Nat.pos_of_ne_zero hne
    · split at hc
      · simp at hc
      · rename_i hne
        simp only [List.mem_singleton] at hc
        rw [hc]
        exact Nat.pos_of_ne_zero hne
    · split at hc
      · simp at hc
      · rename_i hne
        simp only [List.mem_singleton] at hc
        rw [hc]
        exact Nat.pos_of_ne_zero hne
  refine ⟨heq, hlen, by rw [hs2, hsum], hpos, ?_, hsum, hiff, ?_, hdvd, hle, htail, hal⟩
  · intro h0
    rw [heq]
    have e1 : chunk_head ps len off = 0 := by omega
    have e2 : chunk_middle ps len off = 0 := by omega
    have e3 : chunk_tail ps len off = 0 := by omega
    unfold aligned_chunks
    simp [e1, e2, e3]
  · intro hu
    unfold chunk_head
    simp [hu]

/-- C29 for 10000 bytes at data offset 1000 with pages of 4096 bytes: a head of 3096
bytes, one whole page, and a tail of 2808 bytes. -/
theorem alloc_aligned_buffer_chunks_witness :
    alloc_aligned_buffer 12 [] 10000 1000
      = [{ len := 3096, page_aligned := false }, { len := 4096, page_aligned := true },
         { len := 2808, page_aligned := false }] ∧
    (1000 + 3096) % 4096 = 0 ∧
    alloc_aligned_buffer 12 [] 10000 1000 = [] ++ aligned_chunks (2 ^ 12) 10000 1000 :=
  ⟨by decide, by decide,
   (alloc_aligned_buffer_chunks 12 10000 1000 [] (by decide) (by decide)).1⟩

/-! ## The Range header -/

/-- The number that a string of decimal digits denotes. -/
theorem digits_value_all (ds : List Char) (h : ∀ c ∈ ds, c.isDigit = true) :
    ∀ acc, digits_value ds acc = ds.foldl (fun a c => 10 * a + (c.toNat - 48)) acc := by
  induction ds with
  | nil => intro acc; rfl
  | cons c t ih =>
    intro acc
    have hc : c.isDigit = true := h c (List.mem_cons_self _ _)
    simp only [digits_value, hc, if_true, List.foldl_cons]
    exact ih (fun d hd => h d (List.mem_cons_of_mem _ hd)) _

/-- A decimal digit is neither white space nor a sign. -/
theorem digit_not_space_sign (c : Char) (h : c.isDigit = true) :
    isspace c = false ∧ c ≠ '-' ∧ c ≠ '+' := by
  have h1 : 48 ≤ c.toNat ∧ c.toNat ≤ 57 := by
    simp only [Char.isDigit, Bool.and_eq_true, decide_eq_true_eq] at h
    exact ⟨h.1, h.2⟩
  refine ⟨?_, ?_, ?_⟩
  · unfold isspace
    have : c ≠ ' ' := by
      intro e
      rw [e] at h1
      exact absurd h1.1 (by decide)
    simp [this]
    omega
  · intro e
    rw [e] at h1
    exact absurd h1.1 (by decide)
  · intro e
    rw [e] at h1
    exact absurd h1.1 (by decide)

/-- On a string of decimal digits `atoll` returns the number it denotes. -/
theorem atoll_digits (ds : List Char) (h : ∀ c ∈ ds, c.isDigit = true) :
    atoll ds = (decimal ds : Int) := by
  cases ds with
  | nil => rfl
  | cons c t =>
    obtain ⟨h1, h2, h3⟩ := digit_not_space_sign c (h c (List.mem_cons_self _ _))
    unfold atoll
    rw [List.dropWhile_cons_of_neg (by simp [h1])]
    split
    · rename_i heq
      simp only [List.cons.injEq] at heq
      exact absurd heq.1 h2
    · rename_i heq
      simp only [List.cons.injEq] at heq
      exact absurd heq.1 h3
    · rw [digits_value_all _ h]
      rfl

/-- The search for `-` in a string that starts with characters other than `-`
followed by a `-` finds that one. -/
theorem str_find_from_dash (da rest : List Char) (h : ∀ c ∈ da, c ≠ '-') :
    ∀ fuel pos, da.length ≤ fuel →
      str_find_from ['-'] fuel (da ++ '-' :: rest) pos = some (pos + da.length) := by
  induction da with
  | nil =>
    intro fuel pos _
    cases fuel <;> simp [str_find_from, List.isPrefixOf]
  | cons c t ih =>
    intro fuel pos hf
    have hc : c ≠ '-' := h c (List.mem_cons_self _ _)
    have hc2 : ('-' == c) = false := by
      rw [beq_eq_false_iff_ne]
      exact fun e => hc e.symm
    cases fuel with
    | zero => simp at hf
    | succ f =>
      simp only [List.cons_append, str_find_from, List.isPrefixOf, hc2, Bool.false_and,
        Bool.false_eq_true, if_false]
      rw [ih (fun d hd => h d (List.mem_cons_of_mem _ hd)) f (pos + 1)
        (by simpa using hf)]
      simp only [List.length_cons, Option.some.injEq]
      omega

/-- The search for `-` in a string without one finds nothing. -/
theorem str_find_from_no_dash (s : List Char) (h : ∀ c ∈ s, c ≠ '-') :
    ∀ fuel pos, str_find_from ['-'] fuel s pos = none := by
  induction s with
  | nil =>
    intro fuel pos
    cases fuel <;> simp [str_find_from, List.isPrefixOf]
  | cons c t ih =>
    intro fuel pos
    have hc : c ≠ '-' := h c (List.mem_cons_self _ _)
    have hc2 : ('-' == c) = false := by
      rw [beq_eq_false_iff_ne]
      exact fun e => hc e.symm
    cases fuel with
    | zero => simp [str_find_from, List.isPrefixOf, hc2]
    | succ f =>
      simp only [str_find_from, List.isPrefixOf, hc2, Bool.false_and, Bool.false_eq_true,
        if_false]
      exact ih (fun d hd => h d (List.mem_cons_of_mem _ hd)) f (pos + 1)

/-- A value that starts with `bytes=` is parsed from what follows it. -/
theorem parse_range_bytes (rest : List Char) (ofs e : Int) :
    parse_range (['b', 'y', 't', 'e', 's', '='] ++ rest) ofs e = parse_range_tail rest ofs e := by
  have h : str_find (['b', 'y', 't', 'e', 's', '='] ++ rest) ['b', 'y', 't', 'e', 's', '='] 0
      = some 0 := by
    unfold str_find
    simp only [Nat.zero_le, if_true, Nat.sub_zero, List.drop_zero]
    cases hl : (['b', 'y', 't', 'e', 's', '='] ++ rest).length with
    | zero => simp at hl
    | succ n => simp [str_find_from, List.isPrefixOf]
  unfold parse_range
  rw [h]
  rfl

/-- The forms `bytes=<a>-<b>`, `bytes=<a>-` and `bytes=-<n>` with decimal digits, for
a call with `end` = -1: the closed form returns 0 with `ofs` = a and `end` = b when
a ≤ b and -ERANGE when b < a; the open form returns 0 with `ofs` = a and `end` left
at -1; the suffix form returns 0 with `ofs` = -n and `end` = -1. -/
theorem parse_range_forms (da db : List Char) (ofs : Int)
    (ha : ∀ c ∈ da, c.isDigit = true) (hb : ∀ c ∈ db, c.isDigit = true) :
    parse_range (['b', 'y', 't', 'e', 's', '='] ++ (da ++ '-' :: db)) ofs (-1) =
      if db = [] then
        if da = [] then { ret := 0, ofs := 1, end_ := -1, partial_content := true }
        else { ret := 0, ofs := decimal da, end_ := -1, partial_content := true }
      else if da = [] then
        { ret := 0, ofs := -(decimal db : Int), end_ := -1, partial_content := true }
      else if decimal db < decimal da then
        { ret := -ERANGE, ofs := decimal da, end_ := decimal db, partial_content := true }
      else { ret := 0, ofs := decimal da, end_ := decimal db, partial_content := true } := by
  have hda : ∀ c ∈ da, c ≠ '-' := fun c hc => (digit_not_space_sign c (ha c hc)).2.1
  have hfind : str_find (da ++ '-' :: db) ['-'] 0 = some da.length := by
    unfold str_find
    simp only [Nat.zero_le, if_true, Nat.sub_zero, List.drop_zero]
    rw [str_find_from_dash da db hda _ 0 (by simp)]
    simp
  have htake : (da ++ '-' :: db).take da.length = da := by simp
  have hdrop : (da ++ '-' :: db).drop (da.length + 1) = db := by
    rw [← List.drop_drop]
    simp
  rw [parse_range_bytes]
  unfold parse_range_tail
  rw [hfind]
  simp only [htake, hdrop, atoll_digits da ha, atoll_digits db hb]
  have hnn : ¬ ((decimal db : Int) < 0) := by omega
  by_cases h1 : db = []
  · by_cases h2 : da = []
    · subst h1 h2
      simp
    · have h2l : da.length ≠ 0 := fun e => h2 (List.length_eq_zero.mp e)
      subst h1
      simp [h2, h2l]
  · have h1l : db.length ≠ 0 := fun e => h1 (List.length_eq_zero.mp e)
    by_cases h2 : da = []
    · subst h2
      simp [h1, h1l]
    · have h2l : da.length ≠ 0 := fun e => h2 (List.length_eq_zero.mp e)
      simp only [h1, h2, h1l, h2l, ne_eq, not_false_eq_true, if_true, if_false, hnn, and_false]
      by_cases h3 : decimal db < decimal da
      · have h3i : (decimal db : Int) ≥ 0 ∧ (decimal db : Int) < (decimal da : Int) := by omega
        simp [h3, h3i]
      · have h3i : ¬ ((decimal db : Int) ≥ 0 ∧ (decimal db : Int) < (decimal da : Int)) := by
          omega
        simp only [h3, h3i, if_false]

/-- A value after `bytes=` without a `-` returns -ERANGE and leaves `ofs`, `end` and
`partial_content` = false. -/
theorem parse_range_no_dash (s : List Char) (ofs e : Int) (h : ∀ c ∈ s, c ≠ '-') :
    parse_range (['b', 'y', 't', 'e', 's', '='] ++ s) ofs e
      = { ret := -ERANGE, ofs := ofs, end_ := e, partial_content := false } := by
  rw [parse_range_bytes]
  unfold parse_range_tail str_find
  simp only [Nat.zero_le, if_true, Nat.sub_zero, List.drop_zero]
  rw [str_find_from_no_dash s h]

/-- Claim C30 fails for unit tokens that are not `bytes`: for the header value
`by=0-5` the search for `bytes=` fails, the unit token `by` is compared with `bytes`
over its own two characters only, `strncasecmp` returns 0, and the range is parsed:
`parse_range` returns 0 with `ofs` = 0, `end` = 5 and `partial_content` = true instead
of leaving them alone.  The same happens for an empty unit token (`=0-5`), and a
value that merely contains `bytes=` (`kilobytes=0-5`) is taken at that place. -/
theorem parse_range_accepts_other_units :
    parse_range ['b', 'y', '=', '0', '-', '5'] 0 (-1)
      = { ret := 0, ofs := 0, end_ := 5, partial_content := true } ∧
    strncasecmp ['b', 'y', '=', '0', '-', '5'] ['b', 'y', 't', 'e', 's'] 2 = 0 ∧
    parse_range ['=', '0', '-', '5'] 0 (-1)
      = { ret := 0, ofs := 0, end_ := 5, partial_content := true } ∧
    parse_range ['k', 'i', 'l', 'o', 'b', 'y', 't', 'e', 's', '=', '0', '-', '5'] 0 (-1)
      = { ret := 0, ofs := 0, end_ := 5, partial_content := true } ∧
    parse_range ['b', 'i', 't', 's', '=', '0', '-', '5'] 0 (-1)
      = { ret := 0, ofs := 0, end_ := -1, partial_content := false } ∧
    parse_range ['b', 'y', 't', 'e', 's', '=', '2', '-', '5'] 0 (-1)
      = { ret := 0, ofs := 2, end_ := 5, partial_content := true } ∧
    parse_range ['B', 'y', 't', 'e', 's', '=', '2', '-', '5'] 0 (-1)
      = { ret := 0, ofs := 2, end_ := 5, partial_content := true } := by
  refine ⟨by decide, by decide, by decide, by decide, by decide, by decide, by decide⟩

/-! ## The iovecs of `write_message` -/

/-- A length below 2^31 is its own value as an `int`. -/
theorem to_int_small (n : Nat) (h : n < 2 ^ 31) : to_int n = (n : Int) := by
  unfold to_int
  have h1 : n % 2 ^ 32 = n := Nat.mod_eq_of_lt (by omega)
  rw [h1, if_pos h]

/-- The length of a buffer list with a first buffer. -/
theorem buffers_length_cons (b : List Nat) (bl : List (List Nat)) :
    buffers_length (b :: bl) = b.length + buffers_length bl := by
  simp [buffers_length]

/-- With every `do_sendmsg` succeeding, buffers that are not empty and fewer than
2^31 bytes in all, and room in `msgvec` for one iovec per buffer, the loop of
`write_message` takes the buffers one by one as `chunk_step` does and ends
normally. -/
theorem write_loop_eq (IOV_MAX cap : Nat) (ok : Nat → Bool) (hok : ∀ i, ok i = true) :
    ∀ (bufs : List (List Nat)) (fuel : Nat) (st : SendState),
      (∀ b ∈ bufs, b ≠ []) → buffers_length bufs < 2 ^ 31 → bufs.length < fuel →
      st.iov.length + bufs.length < cap →
      write_loop IOV_MAX cap ok fuel bufs 0 (buffers_length bufs : Int) st
        = LoopResult.done (bufs.foldl (chunk_step IOV_MAX) st) := by
  intro bufs
  induction bufs with
  | nil =>
    intro fuel st _ _ hf _
    cases fuel with
    | zero => simp at hf
    | succ f => simp [write_loop, buffers_length]
  | cons buf rest ih =>
    intro fuel st hne hlen hf hcap
    cases fuel with
    | zero => simp at hf
    | succ f =>
      have hb : buf ≠ [] := hne buf (List.mem_cons_self _ _)
      have hbl : 0 < buf.length := List.length_pos.mpr hb
      rw [buffers_length_cons] at hlen ⊢
      have hti : to_int buf.length = (buf.length : Int) := to_int_small _ (by omega)
      have hmin : min ((buf.length + buffers_length rest : Nat) : Int) (to_int buf.length - 0)
          = (buf.length : Int) := by
        rw [hti]
        omega
      have hpos : ((buf.length + buffers_length rest : Nat) : Int) > 0 := by omega
      have hst1 : (flush_iov IOV_MAX st).iov.length ≤ st.iov.length := by
        unfold flush_iov
        split <;> simp
      have hentry : (buf.drop (0 : Int).toNat).take (buf.length : Int).toNat = buf := by
        simp
      have hbp : ((buf.length : Int) > 0) := by omega
      have hok2 : ¬ ((st.iov.length : Int) ≥ (IOV_MAX : Int) - 2 ∧ ok st.calls.length = false) := by
        rw [hok]; simp
      have hcap2 : ¬ ((flush_iov IOV_MAX st).iov.length ≥ cap) := by
        simp only [List.length_cons] at hcap
        omega
      have hsub : ((buf.length + buffers_length rest : Nat) : Int) - (buf.length : Int)
          = (buffers_length rest : Int) := by
        push_cast
        ring
      have hge : (buffers_length rest : Int) ≥ 0 := by omega
      rw [write_loop]
      simp only [hpos, not_true_eq_false, if_false, hmin, hbp, hok2, hcap2, hsub, hge, hentry]
      have hne2 : ∀ b ∈ rest, b ≠ [] := fun b hb => hne b (List.mem_cons_of_mem _ hb)
      cases rest with
      | nil => simp [buffers_length, chunk_step]
      | cons b2 r2 =>
        have hb2 : b2 ≠ [] := hne2 b2 (List.mem_cons_self _ _)
        have hb2l : 0 < b2.length := List.length_pos.mpr hb2
        have hr : buffers_length (b2 :: r2) = b2.length + buffers_length r2 :=
          buffers_length_cons _ _
        have hnz : ¬ ((buffers_length (b2 :: r2) : Int) = 0) := by omega
        have hti2 : to_int b2.length = (b2.length : Int) := to_int_small _ (by omega)
        have hadv : advance (buf :: b2 :: r2) (0 + (buf.length : Int)) = some (b2 :: r2, 0) := by
          have h0 : ¬ ((0 : Int) = to_int b2.length) := by rw [hti2]; omega
          simp only [advance, hti, Int.zero_add, if_true, h0, if_false]
        rw [if_neg hnz, hadv]
        simp only
        simp only [List.length_cons] at hf hcap
        have hlen2 : (add_iov (flush_iov IOV_MAX st) buf (buf.length : Int)).iov.length
            + (b2 :: r2).length < cap := by
          simp only [add_iov, List.length_append, List.length_cons, List.length_nil]
          omega
        rw [ih f _ hne2 (by omega) (by simp only [List.length_cons]; omega) hlen2]
        rfl

/-- One buffer adds its iovec at the end of what goes to the socket. -/
theorem chunk_step_wire (IOV_MAX : Nat) (st : SendState) (buf : List Nat) :
    (chunk_step IOV_MAX st buf).wire = st.wire ++ [buf] := by
  unfold chunk_step add_iov flush_iov SendState.wire
  split <;> simp

/-- The buffers go to the socket in order, one iovec each, after what was there. -/
theorem foldl_chunk_step_wire (IOV_MAX : Nat) (bufs : List (List Nat)) :
    ∀ st : SendState, (bufs.foldl (chunk_step IOV_MAX) st).wire = st.wire ++ bufs := by
  induction bufs with
  | nil => intro st; simp
  | cons b t ih =>
    intro st
    rw [List.foldl_cons, ih, chunk_step_wire]
    simp

/-- One buffer keeps the calls and the iovecs filled in within the bound. -/
theorem chunk_step_inv (IOV_MAX : Nat) (st : SendState) (buf : List Nat)
    (h : SendInv IOV_MAX st) : SendInv IOV_MAX (chunk_step IOV_MAX st buf) := by
  obtain ⟨h1, h2, h3⟩ := h
  unfold chunk_step add_iov flush_iov
  by_cases hf : (st.iov.length : Int) ≥ (IOV_MAX : Int) - 2
  · rw [if_pos hf]
    refine ⟨?_, ?_, ?_⟩
    · simp only [List.nil_append, List.length_singleton]
      omega
    · simp
    · intro c hc
      simp only [List.mem_append, List.mem_singleton] at hc
      rcases hc with hc | hc
      · exact h3 c hc
      · subst hc
        refine ⟨h1, ?_, h2⟩
        show IOV_MAX - 2 ≤ st.iov.length
        omega
  · rw [if_neg hf]
    refine ⟨?_, ?_, h3⟩
    · simp only [List.length_append, List.length_singleton]
      omega
    · simp only [List.flatten_append, List.length_append, h2]
      simp

/-- The loop keeps the calls and the iovecs filled in within the bound. -/
theorem foldl_chunk_step_inv (IOV_MAX : Nat) (bufs : List (List Nat)) :
    ∀ st : SendState, SendInv IOV_MAX st → SendInv IOV_MAX (bufs.foldl (chunk_step IOV_MAX) st) := by
  induction bufs with
  | nil => intro st h; exact h
  | cons b t ih =>
    intro st h
    rw [List.foldl_cons]
    exact ih _ (chunk_step_inv IOV_MAX st b h)

/-- The loop fills in at most one iovec per buffer. -/
theorem foldl_chunk_step_length (IOV_MAX : Nat) (bufs : List (List Nat)) :
    ∀ st : SendState,
      (bufs.foldl (chunk_step IOV_MAX) st).iov.length ≤ st.iov.length + bufs.length := by
  induction bufs with
  | nil => intro st; simp
  | cons b t ih =>
    intro st
    rw [List.foldl_cons]
    have h1 := ih (chunk_step IOV_MAX st b)
    have h2 : (chunk_step IOV_MAX st b).iov.length ≤ st.iov.length + 1 := by
      unfold chunk_step add_iov flush_iov
      split <;> simp
    simp only [List.length_cons]
    omega

/-- Buffers that are not empty are no more than their bytes. -/
theorem length_le_buffers_length (bl : List (List Nat)) (h : ∀ b ∈ bl, b ≠ []) :
    bl.length ≤ buffers_length bl := by
  induction bl with
  | nil => simp
  | cons b t ih =>
    rw [buffers_length_cons]
    have hb : 0 < b.length := List.length_pos.mpr (h b (List.mem_cons_self _ _))
    have := ih (fun c hc => h c (List.mem_cons_of_mem _ hc))
    simp only [List.length_cons]
    omega

/-- What `write_message` sends below the `int` bound: for every message whose payload,
middle and data are divided into non-empty buffers of fewer than 2^31 bytes in all, with
`IOV_MAX` at least 3 and every `do_sendmsg` succeeding, `write_message` returns 0 and the iovecs it hands to its
calls of `do_sendmsg`, in call order, are exactly the tag, the header, each buffer of
payload, middle and data in order, and the footer, so that the bytes are
tag, header, payload, middle, data, footer, once each; each call gets its own byte
count as `len` and at most `IOV_MAX` iovecs, every call before the last carries at
least `IOV_MAX - 2`; no entry of `msgvec` beyond its `3 + buffers` is written; and a
message without data contributes no data iovec. -/
theorem write_message_wire (IOV_MAX : Nat) (ok : Nat → Bool) (m : WireMessage)
    (h3 : 3 ≤ IOV_MAX) (hok : ∀ i, ok i = true) (hne : ∀ b ∈ m.blist, b ≠ [])
    (hlen : buffers_length m.blist < 2 ^ 31) :
    ∃ calls, write_message IOV_MAX ok m = WriteResult.returned 0 calls ∧
      (calls.map (fun c => c.iov)).flatten
        = [[m.tag], (if m.nosrcaddr then m.header else m.oldheader)] ++ m.payload ++ m.middle
            ++ m.data ++ [m.footer] ∧
      ((calls.map (fun c => c.iov)).flatten).flatten
        = [m.tag] ++ (if m.nosrcaddr then m.header else m.oldheader) ++ m.payload.flatten
            ++ m.middle.flatten ++ m.data.flatten ++ m.footer ∧
      (∀ c ∈ calls, c.iov.length ≤ IOV_MAX ∧ c.len = ((c.iov.flatten.length : Nat) : Int)) ∧
      (∀ c ∈ calls.dropLast, IOV_MAX - 2 ≤ c.iov.length) ∧
      (m.data = [] →
        (calls.map (fun c => c.iov)).flatten
          = [[m.tag], (if m.nosrcaddr then m.header else m.oldheader)] ++ m.payload
              ++ m.middle ++ [m.footer]) := by
  generalize henv : (if m.nosrcaddr then m.header else m.oldheader) = env
  have hti : to_int (buffers_length m.blist) = (buffers_length m.blist : Int) :=
    to_int_small _ hlen
  have hfuel : m.blist.length < ((buffers_length m.blist : Int)).toNat + 1 := by
    have := length_le_buffers_length m.blist hne
    simp only [Int.toNat_ofNat]
    omega
  have hinv0 : SendInv IOV_MAX
      { iov := [[m.tag], env], msglen := 1 + (env.length : Int), calls := [] } := by
    refine ⟨?_, ?_, ?_⟩
    · simp only [List.length_cons, List.length_nil]
      omega
    · simp only [List.flatten_cons, List.flatten_nil, List.length_append, List.length_cons,
        List.length_nil]
      push_cast
      ring
    · intro c hc
      simp at hc
  have hloop := write_loop_eq IOV_MAX (3 + m.blist.length) ok hok m.blist
    ((buffers_length m.blist : Int).toNat + 1)
    { iov := [[m.tag], env], msglen := 1 + (env.length : Int), calls := [] } hne hlen hfuel
    (by simp only [List.length_cons, List.length_nil]; omega)
  have hwire := foldl_chunk_step_wire IOV_MAX m.blist
    { iov := [[m.tag], env], msglen := 1 + (env.length : Int), calls := [] }
  obtain ⟨i1, i2, i3⟩ := foldl_chunk_step_inv IOV_MAX m.blist _ hinv0
  have hcnt := foldl_chunk_step_length IOV_MAX m.blist
    { iov := [[m.tag], env], msglen := 1 + (env.length : Int), calls := [] }
  generalize hst : m.blist.foldl (chunk_step IOV_MAX)
    { iov := [[m.tag], env], msglen := 1 + (env.length : Int), calls := [] } = st
    at hloop hwire i1 i2 i3 hcnt
  have hcap : ¬ (st.iov.length ≥ 3 + m.blist.length) := by
    simp only [List.length_cons, List.length_nil] at hcnt
    omega
  have hres : write_message IOV_MAX ok m = WriteResult.returned 0
      (st.calls ++ [{ iov := st.iov ++ [m.footer],
                      len := st.msglen + (m.footer.length : Int) }]) := by
    unfold write_message
    simp only [henv, hti, hloop, hcap, if_false, hok, if_true]
  have hall : ((st.calls ++ [SendCall.mk (st.iov ++ [m.footer])
        (st.msglen + (m.footer.length : Int))]).map (fun c => c.iov)).flatten
      = [[m.tag], env] ++ m.payload ++ m.middle ++ m.data ++ [m.footer] := by
    have e : (st.calls.map (fun c => c.iov)).flatten ++ st.iov
        = [[m.tag], env] ++ m.blist := by
      have := hwire
      unfold SendState.wire at this
      simpa using this
    simp only [List.map_append, List.map_cons, List.map_nil, List.flatten_append,
      List.flatten_cons, List.flatten_nil, List.append_nil]
    rw [← List.append_assoc, e]
    simp [WireMessage.blist]
  refine ⟨_, hres, hall, ?_, ?_, ?_, ?_⟩
  · rw [hall]
    simp
  · intro c hc
    simp only [List.mem_append, List.mem_singleton] at hc
    rcases hc with hc | hc
    · obtain ⟨a1, _, a3⟩ := i3 c hc
      exact ⟨by omega, a3⟩
    · subst hc
      refine ⟨?_, ?_⟩
      · show (st.iov ++ [m.footer]).length ≤ IOV_MAX
        simp only [List.length_append, List.length_singleton]
        omega
      · show st.msglen + (m.footer.length : Int)
          = (((st.iov ++ [m.footer]).flatten.length : Nat) : Int)
        rw [i2]
        simp
  · intro c hc
    rw [List.dropLast_concat] at hc
    exact (i3 c hc).2.1
  · intro hd
    rw [hall, hd]
    simp

/-- The function `write_message` on the sample message (payload in two buffers, data in three) with
`IOV_MAX` = 4, where the seven iovecs need four calls. -/
theorem write_message_wire_witness :
    write_message 4 (fun _ => true) WireMessage.sample
      = WriteResult.returned 0
          [{ iov := [[7], [1, 2, 3]], len := 4 }, { iov := [[10, 11], [12]], len := 3 },
           { iov := [[20], [21, 22]], len := 3 }, { iov := [[23], [9, 9]], len := 3 }] ∧
    ∃ calls, write_message 4 (fun _ => true) WireMessage.sample = WriteResult.returned 0 calls ∧
      (calls.map (fun c => c.iov)).flatten
        = [[WireMessage.sample.tag],
            (if WireMessage.sample.nosrcaddr then WireMessage.sample.header
             else WireMessage.sample.oldheader)] ++ WireMessage.sample.payload
            ++ WireMessage.sample.middle ++ WireMessage.sample.data
            ++ [WireMessage.sample.footer] ∧
      ((calls.map (fun c => c.iov)).flatten).flatten
        = [WireMessage.sample.tag] ++
            (if WireMessage.sample.nosrcaddr then WireMessage.sample.header
             else WireMessage.sample.oldheader) ++ WireMessage.sample.payload.flatten
            ++ WireMessage.sample.middle.flatten ++ WireMessage.sample.data.flatten
            ++ WireMessage.sample.footer ∧
      (∀ c ∈ calls, c.iov.length ≤ 4 ∧ c.len = ((c.iov.flatten.length : Nat) : Int)) ∧
      (∀ c ∈ calls.dropLast, 4 - 2 ≤ c.iov.length) ∧
      (WireMessage.sample.data = [] →
        (calls.map (fun c => c.iov)).flatten
          = [[WireMessage.sample.tag],
              (if WireMessage.sample.nosrcaddr then WireMessage.sample.header
               else WireMessage.sample.oldheader)] ++ WireMessage.sample.payload
              ++ WireMessage.sample.middle ++ [WireMessage.sample.footer]) :=
  ⟨by decide,
   write_message_wire 4 (fun _ => true) WireMessage.sample (by decide) (fun _ => rfl)
     (by decide) (by decide)⟩

/-- The length of a buffer of zero bytes. -/
theorem zeros_length (n : Nat) : (zeros n).length = n := by
  unfold zeros
  exact List.length_replicate n 0

/-- A message whose length is negative as an `int` fails `assert(left == 0)`: the
loop over the buffers is not entered. -/
theorem write_message_negative (IOV_MAX : Nat) (ok : Nat → Bool) (m : WireMessage)
    (h : to_int (buffers_length m.blist) < 0) :
    write_message IOV_MAX ok m = WriteResult.assert_fail := by
  unfold write_message
  simp only
  generalize m.blist = bl at h ⊢
  have hneg : ¬ (to_int (buffers_length bl) > 0) := by omega
  have hnz : ¬ (to_int (buffers_length bl) = 0) := by omega
  have hf : (to_int (buffers_length bl)).toNat + 1 = 0 + 1 := by omega
  simp only [hf]
  cases bl with
  | nil => rw [write_loop, if_pos hneg, if_neg hnz]
  | cons b t => rw [write_loop, if_pos hneg, if_neg hnz]

/-- Claim C24 fails in the code for a message of 2^31 bytes (one non-empty payload
buffer, `IOV_MAX` = 1024, every `do_sendmsg` succeeding): `int left = blist.length()`
is then negative, the loop over the buffers is not entered, and the function fails its
own `assert(left == 0)` before anything is handed to `do_sendmsg`, so that no byte of
tag, header, payload or footer is sent. -/
theorem write_message_two_gib_aborts :
    (∀ b ∈ WireMessage.huge.blist, b ≠ []) ∧
    buffers_length WireMessage.huge.blist = 2 ^ 31 ∧
    to_int (buffers_length WireMessage.huge.blist) = -(2 ^ 31) ∧
    write_message 1024 (fun _ => true) WireMessage.huge = WriteResult.assert_fail := by
  have hbl : WireMessage.huge.blist = [zeros (2 ^ 31)] := rfl
  have hb : buffers_length WireMessage.huge.blist = 2 ^ 31 := by
    rw [hbl]
    unfold buffers_length
    rw [List.map_cons, List.map_nil, List.sum_cons, List.sum_nil, zeros_length, Nat.add_zero]
  have ht : to_int (2 ^ 31) = -(2 ^ 31) := by
    unfold to_int
    norm_num
  refine ⟨?_, hb, by rw [hb]; exact ht, ?_⟩
  · intro b hb2
    rw [hbl, List.mem_singleton] at hb2
    rw [hb2]
    intro h
    have h2 := congrArg List.length h
    rw [zeros_length] at h2
    exact absurd h2 (by norm_num)
  · apply write_message_negative
    rw [hb, ht]
    norm_num

end SimpleMessenger
